import Mathlib

/-! # Hierarchical-heap local collector (MLton runtime, `runtime/gc`)

A shallow embedding of `hierarchical-heap-collection.c`, `hierarchical-heap.c`
and the chunk interface declared in `chunk.h`.

Conventions of the embedding

* Pointers and object pointers are natural numbers; `0` is `NULL`.
  `pointerToObjptr` / `objptrToPointer` are the identity (native pointer model).
* Memory is a map from addresses to words (`GC_state.mem`).  A word stored at
  address `a` occupies the single cell `a`; `GC_memcpy` copies cells.
* The chunk headers (`struct HM_ChunkInfo`, placed at the start of each chunk)
  are kept in a table indexed by the chunk address (`GC_state.chunkInfo`), the
  hierarchical heap structs in a table indexed by their object pointer
  (`GC_state.hhs`).
* `assert` is compiled out (release build); `die`/`DIE` end the run and are
  reported as `Except.error` together with the state reached.
* Object sizes are sizes of objects that exist in memory, so the `size_t`
  additions of `computeObjectCopyParameters` are taken without wrap-around;
  the pointer difference of `copyObject` and the `Word32` arithmetic of the
  level loop are taken modulo the word size.
-/

namespace HM

/-! ## Object model: the external collaborators of the collector -/

/-- The object type tags of the object model (`GC_objectTypeTag`). -/
inductive GC_objectTypeTag where
  | ARRAY_TAG
  | NORMAL_TAG
  | STACK_TAG
  | WEAK_TAG
  deriving DecidableEq, Repr

/-- Modelled from the spec: the interfaces the core consumes from the object
model, the stack utilities and the scheduler (section 6), whose definitions are
not part of the sources at hand.  They are parameters of the embedding. -/
structure Ext where
  /-- `splitHeader`: tag, bytesNonObjptrs, numObjptrs of a header word. -/
  splitHeader : Nat → GC_objectTypeTag × Nat × Nat
  GC_HIERARCHICAL_HEAP_HEADER : Nat
  GC_STACK_HEADER : Nat
  GC_THREAD_HEADER : Nat
  GC_HEADER_SIZE : Nat
  GC_NORMAL_METADATA_SIZE : Nat
  GC_ARRAY_METADATA_SIZE : Nat
  GC_STACK_METADATA_SIZE : Nat
  OBJPTR_SIZE : Nat
  /-- `sizeof (struct GC_stack)`. -/
  sizeofGCStack : Nat
  /-- Offset of `reserved` in `struct GC_stack`. -/
  stackReservedOffset : Nat
  /-- Offset of `used` in `struct GC_stack`. -/
  stackUsedOffset : Nat
  /-- Distance from an array pointer down to its length word. -/
  arrayLengthOffset : Nat
  /-- Offset of the `stack` objptr inside a thread object. -/
  threadStackOffset : Nat
  /-- Offset of `exnStack` inside a thread object. -/
  threadExnStackOffset : Nat
  sizeofArrayNoMetaData : Nat → Nat → Nat → Nat
  /-- `sizeofStackShrinkReserved` as a function of reserved, used, current. -/
  sizeofStackShrinkReserved : Nat → Nat → Bool → Nat
  isObjptr : Nat → Bool
  isObjptrInGlobalHeap : Nat → Bool
  /-- The addresses of the objptr slots that `foreachObjptrInObject` visits in
  the object at the given pointer, in visiting order. -/
  objptrSlots : (Nat → Nat) → Nat → List Nat
  /-- `foreachObjptrInObject` returns the address just past the object. -/
  objectEnd : (Nat → Nat) → Nat → Nat
  /-- The object pointer of the object whose metadata starts at an address
  (`advanceToObjectData`). -/
  advanceToObjectData : (Nat → Nat) → Nat → Nat
  /-- Distance from a chunk's address to its first allocable byte
  (`HM_getChunkStart`). -/
  chunkStartOffset : Nat
  /-- The configured floor of the collection scope. -/
  configuredFloor : Nat

/-! ## Data model -/

/-- `CHUNK_INVALID_LEVEL` of `chunk.h`: `~((size_t)0)`. -/
def CHUNK_INVALID_LEVEL : Nat := 2 ^ 64 - 1

/-- Modelled from the spec: the sentinel `COPY_OBJECT_HH`, "a distinguished
process-wide address used as a containingHH value during a collection". -/
def COPY_OBJECT_HH_VALUE : Nat := 2 ^ 64 - 2

/-- Modelled from the spec: `BOGUS_OBJPTR`, the objptr that stands for "none". -/
def BOGUS_OBJPTR : Nat := 1

/-- The chunk header `struct HM_ChunkInfo` of `chunk.h`.  The two arms of the
union `split` are separate fields; `isInToSpace` and `toChunkList` are the
level-head fields that `forwardHHObjptr` uses; `limit` is the end of the chunk
as the chunk pool knows it (`HM_getChunkLimit`). -/
structure HM_ChunkInfo where
  frontier : Nat
  nextChunk : Nat
  level : Nat
  nextHead : Nat
  lastChunk : Nat
  containingHH : Nat
  isInToSpace : Bool
  toChunkList : Nat
  levelHead : Nat
  limit : Nat
  deriving DecidableEq, Repr

/-- The lock word of a hierarchical heap. -/
inductive HM_HH_Lock where
  | HM_HH_LOCK_UNLOCKED
  | HM_HH_LOCK_LOCKED
  deriving DecidableEq, Repr

/-- Modelled from the spec: `struct HM_HierarchicalHeap` (section 3; the header
`hierarchical-heap.h` is not part of the sources at hand). -/
structure HM_HierarchicalHeap where
  lock : HM_HH_Lock
  level : Nat
  stealLevel : Nat
  levelList : Nat
  newLevelList : Nat
  savedFrontier : Nat
  limit : Nat
  lastAllocatedChunk : Nat
  parentHH : Nat
  nextChildHH : Nat
  childHHList : Nat
  thread : Nat
  retVal : Nat
  locallyCollectibleSize : Nat
  locallyCollectibleHeapSize : Nat
  deriving DecidableEq, Repr

/-- A successful `lockHH` or `unlockHH` on a hierarchical heap. -/
inductive HHLockEvent where
  | acquired (hh : Nat)
  | released (hh : Nat)
  deriving DecidableEq, Repr

/-- The control `hhCollectionLevel`. -/
inductive HHCollectionLevel where
  | NONE
  | SUPERLOCAL
  | ALL
  deriving DecidableEq, Repr

/-- The part of `GC_state` (with the chunk pool and the memory) that the
hierarchical heap code reads and writes. -/
structure GC_state where
  /-- Object memory. -/
  mem : Nat → Nat
  /-- The chunks handed out by the chunk pool, oldest first. -/
  chunks : List Nat
  /-- The chunk headers. -/
  chunkInfo : Nat → HM_ChunkInfo
  /-- The free chunks of the pool: address and end. -/
  pool : List (Nat × Nat)
  /-- The hierarchical heap structs, by object pointer. -/
  hhs : Nat → HM_HierarchicalHeap
  currentHierarchicalHeap : Nat
  currentThread : Nat
  wsQueue : Nat
  /-- The work-stealing queue lock is held. -/
  wsQueueLockHeld : Bool
  /-- The work-stealing queue lock is held by this processor. -/
  wsQueueLockedByMe : Bool
  /-- How often `Parallel_lockTake` was called on the queue lock. -/
  wsQueueLockTakes : Nat
  /-- How often `Parallel_lockRelease` was called on the queue lock. -/
  wsQueueLockReleases : Nat
  hhCollectionLevel : HHCollectionLevel
  /-- `sizeofGCStateCurrentStackUsed`. -/
  currentStackUsed : Nat
  exnStack : Nat
  numHHLocalGCs : Nat
  bytesHHLocaled : Nat
  /-- The hierarchical heap locks taken and released so far, oldest first. -/
  hhLockLog : List HHLockEvent := []

/-- Why a run ended in `die`, or could not go on. -/
inductive Abort where
  /-- `DIE("entanglement detected ...")`. -/
  | entanglement
  /-- The copier met a `WEAK_TAG` object. -/
  | weakObject
  /-- The copier met an object with `GC_HIERARCHICAL_HEAP_HEADER`. -/
  | hierarchicalHeapObject
  /-- "Ran out of space for Hierarchical Heap!". -/
  | outOfSpace
  /-- No defined behaviour: a pointer outside every chunk, a chain that does
  not end within the fuel, a spin on a lock that is never released. -/
  | stuck
  deriving DecidableEq, Repr

/-- `struct ForwardHHObjptrArgs`. -/
structure ForwardHHObjptrArgs where
  hh : Nat
  minLevel : Nat
  maxLevel : Nat
  tgtChunkList : Nat
  bytesCopied : Nat
  objectsCopied : Nat
  stacksCopied : Nat
  deriving DecidableEq, Repr

/-- `struct HM_ObjptrInfo`. -/
structure HM_ObjptrInfo where
  hh : Nat
  chunkList : Nat
  level : Nat
  deriving DecidableEq, Repr

/-- The places an `objptr*` handed to `forwardHHObjptr` can point at. -/
inductive Slot where
  /-- A cell of object memory. -/
  | cell (a : Nat)
  /-- `&(s->currentThread)`. -/
  | currentThread
  /-- `&(hh->thread)`. -/
  | hhThread (hh : Nat)
  /-- The local `root` that carries `hh->retVal`. -/
  | hhRetVal (hh : Nat)
  deriving DecidableEq, Repr

/-- Read `*opp`. -/
def GC_state.readSlot (s : GC_state) : Slot → Nat
  | .cell a => s.mem a
  | .currentThread => s.currentThread
  | .hhThread h => (s.hhs h).thread
  | .hhRetVal h => (s.hhs h).retVal

/-- Write one cell of memory. -/
def GC_state.writeMem (s : GC_state) (a v : Nat) : GC_state :=
  { s with mem := fun x => if x = a then v else s.mem x }

/-- Replace one chunk header. -/
def GC_state.setChunkInfo (s : GC_state) (c : Nat) (i : HM_ChunkInfo) : GC_state :=
  { s with chunkInfo := fun x => if x = c then i else s.chunkInfo x }

/-- Replace one hierarchical heap struct. -/
def GC_state.setHH (s : GC_state) (h : Nat) (v : HM_HierarchicalHeap) : GC_state :=
  { s with hhs := fun x => if x = h then v else s.hhs x }

/-- Write `*opp`. -/
def GC_state.writeSlot (s : GC_state) : Slot → Nat → GC_state
  | .cell a, v => s.writeMem a v
  | .currentThread, v => { s with currentThread := v }
  | .hhThread h, v => s.setHH h { s.hhs h with thread := v }
  | .hhRetVal h, v => s.setHH h { s.hhs h with retVal := v }

/-! ## Object model accessors -/

/-- `getHeader (p)`: the header word sits `GC_HEADER_SIZE` below the object. -/
def getHeader (x : Ext) (s : GC_state) (p : Nat) : Nat :=
  s.mem (p - x.GC_HEADER_SIZE)

/-- Modelled from the spec: `hasFwdPtr`, "the object model distinguishes a
header from a forwarded pointer by a low-bit tag": a header has the low bit
set, a forwarding pointer does not. -/
def hasFwdPtr (x : Ext) (s : GC_state) (p : Nat) : Bool :=
  getHeader x s p % 2 == 0

/-- `getFwdPtr (p)`: the forwarding pointer overlays the header word. -/
def getFwdPtr (x : Ext) (s : GC_state) (p : Nat) : Nat :=
  s.mem (p - x.GC_HEADER_SIZE)

/-- `GC_memcpy (src, dst, size)`.  The memory holds one word per address, the
word an access at that address reads; the copy moves the words of the addresses
`dst` to `dst + size`, which is the byte copy of the source for the sizes of the
object model, multiples of the word size. -/
def GC_memcpy (s : GC_state) (src dst size : Nat) : GC_state :=
  { s with mem := fun a => if dst ≤ a ∧ a < dst + size then s.mem (src + (a - dst)) else s.mem a }

/-! ## Chunks and level lists (interface of `chunk.h`) -/

/-- `alignDown`. -/
def alignDown (a n : Nat) : Nat := a - a % n

/-- Modelled from the spec: `ChunkPool_find`, the chunk that holds an address
(`0` when no chunk does). -/
def ChunkPool_find (s : GC_state) (p : Nat) : Nat :=
  (s.chunks.find? (fun c => decide (c ≤ p ∧ p < (s.chunkInfo c).limit))).getD 0

/-- `HM_getChunkFrontier`. -/
def HM_getChunkFrontier (s : GC_state) (chunk : Nat) : Nat := (s.chunkInfo chunk).frontier

/-- `HM_getChunkLimit`. -/
def HM_getChunkLimit (s : GC_state) (chunk : Nat) : Nat := (s.chunkInfo chunk).limit

/-- `HM_getChunkStart`. -/
def HM_getChunkStart (x : Ext) (chunk : Nat) : Nat := chunk + x.chunkStartOffset

/-- `HM_getChunkListLastChunk`: "the last chunk, or NULL if the list is empty". -/
def HM_getChunkListLastChunk (s : GC_state) (chunkList : Nat) : Nat :=
  if chunkList = 0 then 0 else (s.chunkInfo chunkList).lastChunk

/-- `HM_getChunkListLevel`. -/
def HM_getChunkListLevel (s : GC_state) (chunkList : Nat) : Nat := (s.chunkInfo chunkList).level

/-- `HM_getChunkListToChunkList`. -/
def HM_getChunkListToChunkList (s : GC_state) (chunkList : Nat) : Nat :=
  (s.chunkInfo chunkList).toChunkList

/-- `HM_setChunkListToChunkList`. -/
def HM_setChunkListToChunkList (s : GC_state) (chunkList toChunkList : Nat) : GC_state :=
  s.setChunkInfo chunkList { s.chunkInfo chunkList with toChunkList := toChunkList }

/-- `HM_updateChunkValues`: "Updates the chunk's values to reflect mutator". -/
def HM_updateChunkValues (s : GC_state) (chunk frontier : Nat) : GC_state :=
  s.setChunkInfo chunk { s.chunkInfo chunk with frontier := frontier }

/-- `HM_getHighestLevel`: "CHUNK_INVALID_LEVEL if levelList is empty, the
highest level otherwise". -/
def HM_getHighestLevel (s : GC_state) (levelList : Nat) : Nat :=
  if levelList = 0 then CHUNK_INVALID_LEVEL else (s.chunkInfo levelList).level

/-- Follow `split.normal.levelHead` from a chunk up to the head chunk of its
level ("Linked list of chunks ending in the head chunk of the level this chunk
belongs to").  A link that leaves the chunks in use, or a chain longer than the
fuel, has no defined result. -/
def getLevelHead (s : GC_state) : Nat → Nat → Option Nat
  | 0, _ => none
  | fuel + 1, chunk =>
    if chunk ∉ s.chunks then none
    else if (s.chunkInfo chunk).level ≠ CHUNK_INVALID_LEVEL then some chunk
    else getLevelHead s fuel (s.chunkInfo chunk).levelHead

/-- Modelled from the spec: `HM_getObjptrInfo`, the level head, the level and
the containing heap of the chunk that holds the object; `none` when the object
lies in no chunk or the `levelHead` chain does not end. -/
def HM_getObjptrInfo (s : GC_state) (op : Nat) : Option HM_ObjptrInfo :=
  let chunk := ChunkPool_find s op
  if chunk = 0 then none
  else
    match getLevelHead s (s.chunks.length + 1) chunk with
    | none => none
    | some head =>
      some { hh := (s.chunkInfo head).containingHH, chunkList := head,
             level := (s.chunkInfo head).level }

/-- Modelled from the spec: `HM_isObjptrInToSpace`, "its containing level-head
has containingHH == COPY_OBJECT_HH". -/
def HM_isObjptrInToSpace (s : GC_state) (op : Nat) : Bool :=
  match HM_getObjptrInfo s op with
  | none => false
  | some info => info.hh == COPY_OBJECT_HH_VALUE

/-- Modelled from the spec: `HM_followForwardPointerUntilNullOrBelowLevel`,
"follow any forwarding pointers already installed on op as long as they lead to
a pointer whose level is >= minLevel". -/
def HM_followForwardPointerUntilNullOrBelowLevel (x : Ext) (s : GC_state) (minLevel : Nat) :
    Nat → Nat → Option Nat
  | 0, _ => none
  | fuel + 1, p =>
    if hasFwdPtr x s p then
      match HM_getObjptrInfo s (getFwdPtr x s p) with
      | none => none
      | some info =>
        if minLevel ≤ info.level then
          HM_followForwardPointerUntilNullOrBelowLevel x s minLevel fuel (getFwdPtr x s p)
        else some p
    else some p

/-- Modelled from the spec: `ChunkPool_allocate`, the first free chunk of the
pool whose allocable region holds the requested bytes; the chunk leaves the
pool. -/
def ChunkPool_allocate (x : Ext) (s : GC_state) (allocableSize : Nat) :
    Option (Nat × Nat × GC_state) :=
  match s.pool.find? (fun c => decide (c.1 + x.chunkStartOffset + allocableSize ≤ c.2)) with
  | none => none
  | some c => some (c.1, c.2, { s with pool := s.pool.erase c, chunks := s.chunks ++ [c.1] })

/-- Modelled from the spec: `HM_allocateChunk`, "install its header as a normal
chunk pointing (via levelHead) at the given head; append to the head's list;
update lastChunk; return the chunk pointer, or none when exhausted". -/
def HM_allocateChunk (x : Ext) (s : GC_state) (levelHeadChunk allocableSize : Nat) :
    GC_state × Nat :=
  match ChunkPool_allocate x s allocableSize with
  | none => (s, 0)
  | some (chunk, chunkEnd, s1) =>
    let last := (s1.chunkInfo levelHeadChunk).lastChunk
    let s2 := s1.setChunkInfo last { s1.chunkInfo last with nextChunk := chunk }
    let s3 := s2.setChunkInfo levelHeadChunk { s2.chunkInfo levelHeadChunk with lastChunk := chunk }
    let s4 := s3.setChunkInfo chunk
      { frontier := HM_getChunkStart x chunk, nextChunk := 0, level := CHUNK_INVALID_LEVEL,
        nextHead := 0, lastChunk := 0, containingHH := 0, isInToSpace := false,
        toChunkList := 0, levelHead := levelHeadChunk, limit := chunkEnd }
    (s4, chunk)

/-- Walk the level heads from `cur` while their level is above `level`; the
result is the last head passed (`0` if none) and the head reached. -/
def findLevelPosition (s : GC_state) (level : Nat) : Nat → Nat → Nat → Option (Nat × Nat)
  | 0, _, _ => none
  | fuel + 1, prev, cur =>
    if cur ≠ 0 ∧ level < (s.chunkInfo cur).level then
      findLevelPosition s level fuel cur (s.chunkInfo cur).nextHead
    else some (prev, cur)

/-- Modelled from the spec: `HM_allocateLevelHeadChunk`, "install the chunk as
a level-head, splice into levelListSlot at the correct ordered position
(strictly descending by level) and set containingHH".  The result is the
state, the new value of `*levelList` and the chunk (`0` when exhausted). -/
def HM_allocateLevelHeadChunk (x : Ext) (s : GC_state) (levelList allocableSize level hh : Nat) :
    Option (GC_state × Nat × Nat) :=
  match ChunkPool_allocate x s allocableSize with
  | none => some (s, levelList, 0)
  | some (chunk, chunkEnd, s1) =>
    match findLevelPosition s1 level (s1.chunks.length + 1) 0 levelList with
    | none => none
    | some (prev, next) =>
      let s2 := if prev = 0 then s1
                else s1.setChunkInfo prev { s1.chunkInfo prev with nextHead := chunk }
      let s3 := s2.setChunkInfo chunk
        { frontier := HM_getChunkStart x chunk, nextChunk := 0, level := level,
          nextHead := next, lastChunk := chunk, containingHH := hh, isInToSpace := false,
          toChunkList := 0, levelHead := 0, limit := chunkEnd }
      some (s3, if prev = 0 then chunk else levelList, chunk)

/-! ## The object copier (`hierarchical-heap-collection.c`) -/

/-- `getStackCurrentObjptr`: the `stack` field of the current thread. -/
def getStackCurrentObjptr (x : Ext) (s : GC_state) : Nat :=
  s.mem (s.currentThread + x.threadStackOffset)

/-- The result of `computeObjectCopyParameters`: the returned tag and the three
out parameters. -/
structure CopyParameters where
  tag : GC_objectTypeTag
  objectSize : Nat
  copySize : Nat
  metaDataSize : Nat
  deriving DecidableEq, Repr

/-- `computeObjectCopyParameters`.  The sizes are added as natural numbers, the
value of the `size_t` sums of the source as long as no sum reaches `2^64`;
`computeObjectCopyParameters64` is the same function with every sum wrapping at
`2^64`, and the two agree below that bound
(`computeObjectCopyParameters64_eq`). -/
def computeObjectCopyParameters (x : Ext) (s : GC_state) (p : Nat) :
    Except (Abort × GC_state) (CopyParameters × GC_state) :=
  let header := getHeader x s p
  let (tag, bytesNonObjptrs, numObjptrs) := x.splitHeader header
  if x.GC_HIERARCHICAL_HEAP_HEADER = header then
    .error (.hierarchicalHeapObject, s)
  else if tag = .NORMAL_TAG ∨ tag = .WEAK_TAG then
    if tag = .WEAK_TAG then .error (.weakObject, s)
    else
      let metaDataSize := x.GC_NORMAL_METADATA_SIZE
      let objectSize := bytesNonObjptrs + numObjptrs * x.OBJPTR_SIZE
      let copySize := objectSize
      .ok ({ tag := tag, objectSize := objectSize + metaDataSize,
             copySize := copySize + metaDataSize, metaDataSize := metaDataSize }, s)
  else if tag = .ARRAY_TAG then
    let metaDataSize := x.GC_ARRAY_METADATA_SIZE
    let objectSize :=
      x.sizeofArrayNoMetaData (s.mem (p - x.arrayLengthOffset)) bytesNonObjptrs numObjptrs
    let copySize := objectSize
    .ok ({ tag := tag, objectSize := objectSize + metaDataSize,
           copySize := copySize + metaDataSize, metaDataSize := metaDataSize }, s)
  else
    let metaDataSize := x.GC_STACK_METADATA_SIZE
    let current := decide (getStackCurrentObjptr x s = p)
    let reserved := s.mem (p + x.stackReservedOffset)
    let used := s.mem (p + x.stackUsedOffset)
    let reservedNew := x.sizeofStackShrinkReserved reserved used current
    let s1 := if reservedNew < reserved then s.writeMem (p + x.stackReservedOffset) reservedNew
              else s
    let objectSize := x.sizeofGCStack + s1.mem (p + x.stackReservedOffset)
    let copySize := x.sizeofGCStack + s1.mem (p + x.stackUsedOffset)
    .ok ({ tag := tag, objectSize := objectSize + metaDataSize,
           copySize := copySize + metaDataSize, metaDataSize := metaDataSize }, s1)

/-- The `size_t` value of a pointer difference. -/
def sizeDiff (a b : Nat) : Nat := (a + 2 ^ 64 - b) % 2 ^ 64

/-- `copyObject`: the result is the address of the copy and the new state. -/
def copyObject (x : Ext) (s : GC_state) (p objectSize copySize toChunkList : Nat) :
    Except (Abort × GC_state) (Nat × GC_state) :=
  let chunk := HM_getChunkListLastChunk s toChunkList
  let frontier := HM_getChunkFrontier s chunk
  let limit := HM_getChunkLimit s chunk
  let r : Except (Abort × GC_state) (GC_state × Nat × Nat) :=
    if sizeDiff limit frontier < objectSize then
      let (s1, chunk1) := HM_allocateChunk x s toChunkList objectSize
      if chunk1 = 0 then .error (.outOfSpace, s1)
      else .ok (s1, chunk1, HM_getChunkFrontier s1 chunk1)
    else .ok (s, chunk, frontier)
  match r with
  | .error e => .error e
  | .ok (s1, chunk1, frontier1) =>
    let s2 := GC_memcpy s1 p frontier1 copySize
    let newFrontier := frontier1 + objectSize
    if alignDown newFrontier (512 * 1024) ≠ chunk1 then
      let (s3, chunk2) := HM_allocateChunk x s2 toChunkList 42
      if chunk2 = 0 then .error (.outOfSpace, s3)
      else .ok (frontier1, HM_updateChunkValues s3 chunk2 (HM_getChunkFrontier s3 chunk2))
    else .ok (frontier1, HM_updateChunkValues s2 chunk1 newFrontier)

/-! ## The forwarding algorithm -/

/-- The result type of the forwarder: the state and the arguments on return,
or the reason of the `die` with the state and the arguments at that point. -/
abbrev ForwardResult :=
  Except (Abort × GC_state × ForwardHHObjptrArgs) (GC_state × ForwardHHObjptrArgs)

/-- Lines 572-613 of `forwardHHObjptr`: the chunk list to copy into.  During a
promotion it is `args->tgtChunkList`; otherwise it is the to-space list cached
in the level head of the object, created on first use. -/
def forwardTargetList (x : Ext) (s : GC_state) (args : ForwardHHObjptrArgs)
    (opInfo : HM_ObjptrInfo) (objectBytes : Nat) : Except (Abort × GC_state) (GC_state × Nat) :=
  if args.tgtChunkList ≠ 0 then .ok (s, args.tgtChunkList)
  else
    let toChunkList := HM_getChunkListToChunkList s opInfo.chunkList
    if toChunkList = 0 then
      match HM_allocateLevelHeadChunk x s (s.hhs args.hh).newLevelList objectBytes opInfo.level
          COPY_OBJECT_HH_VALUE with
      | none => .error (.stuck, s)
      | some (s1, newLevelList, toChunkList1) =>
        let s2 := s1.setHH args.hh { s1.hhs args.hh with newLevelList := newLevelList }
        if toChunkList1 = 0 then .error (.outOfSpace, s2)
        else
          let s3 := s2.setChunkInfo toChunkList1
            { s2.chunkInfo toChunkList1 with isInToSpace := true }
          .ok (HM_setChunkListToChunkList s3 opInfo.chunkList toChunkList1, toChunkList1)
    else .ok (s, toChunkList)

/-- Lines 544-649 of `forwardHHObjptr`, the third case: the top-most
collectible replica `p` is in from-space and has no forwarding pointer, so it is
copied, a forwarding pointer is stored in its header and the slot is updated. -/
def forwardObject (x : Ext) (s : GC_state) (opp : Slot) (args : ForwardHHObjptrArgs)
    (p : Nat) (opInfo : HM_ObjptrInfo) : ForwardResult :=
  match computeObjectCopyParameters x s p with
  | .error (e, s1) => .error (e, s1, args)
  | .ok (cp, s1) =>
    let counted : Except Abort ForwardHHObjptrArgs :=
      match cp.tag with
      | .STACK_TAG => .ok { args with stacksCopied := args.stacksCopied + 1 }
      | .WEAK_TAG => .error .weakObject
      | _ => .ok args
    match counted with
    | .error e => .error (e, s1, args)
    | .ok args1 =>
      match forwardTargetList x s1 args1 opInfo cp.objectSize with
      | .error (e, s2) => .error (e, s2, args1)
      | .ok (s2, toChunkList) =>
        match copyObject x s2 (p - cp.metaDataSize) cp.objectSize cp.copySize toChunkList with
        | .error (e, s3) => .error (e, s3, args1)
        | .ok (copyPointer, s3) =>
          let args2 := { args1 with bytesCopied := args1.bytesCopied + cp.copySize,
                                    objectsCopied := args1.objectsCopied + 1 }
          let s4 := s3.writeMem (p - x.GC_HEADER_SIZE) (copyPointer + cp.metaDataSize)
          .ok (s4.writeSlot opp (getFwdPtr x s4 p), args2)

/-- `forwardHHObjptr`.  The fuel bounds the walk along forwarding pointers. -/
def forwardHHObjptr (x : Ext) (fuel : Nat) (s : GC_state) (opp : Slot)
    (args : ForwardHHObjptrArgs) : ForwardResult :=
  let op := s.readSlot opp
  if !x.isObjptr op || x.isObjptrInGlobalHeap op then .ok (s, args)
  else
    match HM_getObjptrInfo s op with
    | none => .error (.stuck, s, args)
    | some opInfo =>
      if args.maxLevel < opInfo.level then .error (.entanglement, s, args)
      else if args.maxLevel < opInfo.level ∨ opInfo.level < args.minLevel then .ok (s, args)
      else
        match HM_followForwardPointerUntilNullOrBelowLevel x s args.minLevel fuel op with
        | none => .error (.stuck, s, args)
        | some p =>
          match HM_getObjptrInfo s p with
          | none => .error (.stuck, s, args)
          | some pInfo =>
            if HM_isObjptrInToSpace s p then .ok (s.writeSlot opp p, args)
            else if hasFwdPtr x s p then .ok (s.writeSlot opp (getFwdPtr x s p), args)
            else forwardObject x s opp args p pInfo

/-- The state and the arguments a run of the forwarder ends with, whether it
returned or died. -/
def ForwardResult.final : ForwardResult → GC_state × ForwardHHObjptrArgs
  | .ok r => r
  | .error (_, r) => r

/-! ## A concrete object model and a concrete heap, for evaluation -/

/-- A concrete object model: 8-byte words, a header `1 + 2*tag + 8*bytes +
2^19*numObjptrs`, the global heap below 1 MiB. -/
def sampleExt : Ext where
  splitHeader := fun h =>
    (match (h / 2) % 4 with
     | 0 => .NORMAL_TAG
     | 1 => .ARRAY_TAG
     | 2 => .STACK_TAG
     | _ => .WEAK_TAG,
     (h / 8) % 65536, (h / 524288) % 65536)
  GC_HIERARCHICAL_HEAP_HEADER := 1 + 8 * 96
  GC_STACK_HEADER := 5
  GC_THREAD_HEADER := 1 + 8 * 16 + 524288
  GC_HEADER_SIZE := 8
  GC_NORMAL_METADATA_SIZE := 8
  GC_ARRAY_METADATA_SIZE := 24
  GC_STACK_METADATA_SIZE := 8
  OBJPTR_SIZE := 8
  sizeofGCStack := 32
  stackReservedOffset := 16
  stackUsedOffset := 24
  arrayLengthOffset := 16
  threadStackOffset := 16
  threadExnStackOffset := 8
  sizeofArrayNoMetaData := fun n b k => n * (b + 8 * k)
  sizeofStackShrinkReserved := fun reserved used current =>
    if current then max used (reserved / 2) else reserved
  isObjptr := fun op => op % 4 == 0 && op != 0
  isObjptrInGlobalHeap := fun op => decide (op < 1048576)
  objptrSlots := fun mem p =>
    (List.range ((mem (p - 8) / 524288) % 65536)).map
      (fun i => p + (mem (p - 8) / 8) % 65536 + 8 * i)
  objectEnd := fun mem p =>
    if (mem (p - 8) / 2) % 4 = 2 then p + 32 + mem (p + 16)
    else p + (mem (p - 8) / 8) % 65536 + 8 * ((mem (p - 8) / 524288) % 65536)
  advanceToObjectData := fun _ a => a + 8
  chunkStartOffset := 64
  configuredFloor := 0

/-- An all-zero chunk header. -/
def sampleNoChunk : HM_ChunkInfo :=
  { frontier := 0, nextChunk := 0, level := 0, nextHead := 0, lastChunk := 0, containingHH := 0,
    isInToSpace := false, toChunkList := 0, levelHead := 0, limit := 0 }

/-- A hierarchical heap at level 5 whose level list starts at the chunk
`1572864`. -/
def sampleHH : HM_HierarchicalHeap :=
  { lock := .HM_HH_LOCK_UNLOCKED, level := 5, stealLevel := 3, levelList := 1572864,
    newLevelList := 0, savedFrontier := 1573184, limit := 2097152, lastAllocatedChunk := 1572864,
    parentHH := BOGUS_OBJPTR, nextChildHH := BOGUS_OBJPTR, childHHList := BOGUS_OBJPTR,
    thread := 1572936, retVal := 0, locallyCollectibleSize := 0,
    locallyCollectibleHeapSize := 0 }

/-- The memory of `sampleState`.  Global heap: the cells 512 and 520 hold the
thread, 528 the object of level 3, 536 a non-pointer, 544 a pointer into the
global heap, 552 the weak object, 560 the object with the hierarchical-heap
header, 568 the stack; the deque object `2048` has one objptr field, holding
`BOGUS_OBJPTR`.  Chunk `1048576`: a normal object at `1048648`.  Chunk
`1572864`: the thread `1572936` (its `stack` field at `1572952`), the stack
`1572968` (reserved 64, used 16), a weak object at `1573072` and an object with
the hierarchical-heap header at `1573088`. -/
def sampleMem : Nat → Nat := fun a =>
  if a = 512 then 1572936 else if a = 520 then 1572936 else if a = 528 then 1048648
  else if a = 536 then 7 else if a = 544 then 2048 else if a = 552 then 1573072
  else if a = 560 then 1573088 else if a = 568 then 1572968
  else if a = 2040 then 524289 else if a = 2048 then 1
  else if a = 1048640 then 65 else if a = 1048648 then 99
  else if a = 1572928 then 524417 else if a = 1572936 then 77
  else if a = 1572952 then 1572968
  else if a = 1572960 then 5 else if a = 1572984 then 64 else if a = 1572992 then 16
  else if a = 1573064 then 7
  else if a = 1573080 then 769
  else 0

/-- A heap with two chunks of the hierarchical heap `4096`: the level head
`1048576` of level 3 and the level head `1572864` of level 5; two free chunks
in the pool. -/
def sampleState : GC_state where
  mem := sampleMem
  chunks := [1048576, 1572864]
  chunkInfo := fun c =>
    if c = 1048576 then
      { frontier := 1048656, nextChunk := 0, level := 3, nextHead := 0, lastChunk := 1048576,
        containingHH := 4096, isInToSpace := false, toChunkList := 0, levelHead := 0,
        limit := 1572864 }
    else if c = 1572864 then
      { frontier := 1573184, nextChunk := 0, level := 5, nextHead := 1048576,
        lastChunk := 1572864, containingHH := 4096, isInToSpace := false, toChunkList := 0,
        levelHead := 0, limit := 2097152 }
    else sampleNoChunk
  pool := [(2097152, 2621440), (2621440, 3145728)]
  hhs := fun _ => sampleHH
  currentHierarchicalHeap := 4096
  currentThread := 1572936
  wsQueue := 2048
  wsQueueLockHeld := false
  wsQueueLockedByMe := false
  wsQueueLockTakes := 0
  wsQueueLockReleases := 0
  hhCollectionLevel := .ALL
  currentStackUsed := 16
  exnStack := 0
  numHHLocalGCs := 0
  bytesHHLocaled := 0

/-- Forwarding arguments of a collection of the levels 4 to 5. -/
def sampleArgs : ForwardHHObjptrArgs :=
  { hh := 4096, minLevel := 4, maxLevel := 5, tgtChunkList := 0, bytesCopied := 0,
    objectsCopied := 0, stacksCopied := 0 }

/-! ## Well-formedness conditions used by the theorems -/

/-- What the sources take for granted of the object model: the header word is
part of the metadata of every object, and metadata sizes keep object pointers
word aligned. -/
def ExtOK (x : Ext) : Prop :=
  0 < x.GC_HEADER_SIZE ∧
  x.GC_HEADER_SIZE ≤ x.GC_NORMAL_METADATA_SIZE ∧
  x.GC_HEADER_SIZE ≤ x.GC_ARRAY_METADATA_SIZE ∧
  x.GC_HEADER_SIZE ≤ x.GC_STACK_METADATA_SIZE ∧
  x.GC_NORMAL_METADATA_SIZE % 2 = 0 ∧
  x.GC_ARRAY_METADATA_SIZE % 2 = 0 ∧
  x.GC_STACK_METADATA_SIZE % 2 = 0

instance (x : Ext) : Decidable (ExtOK x) := by
  delta ExtOK
  infer_instance

/-- The chunk pool is consistent: chunks are non-empty address ranges below
`2^64`, no two chunks in use overlap, and the free chunks are distinct, start
aligned and overlap no chunk in use. -/
def ChunkPoolOK (x : Ext) (s : GC_state) : Prop :=
  (∀ c ∈ s.chunks, 0 < c ∧ c < (s.chunkInfo c).limit ∧ (s.chunkInfo c).limit < 2 ^ 64) ∧
  (∀ c ∈ s.chunks, ∀ d ∈ s.chunks,
    c < (s.chunkInfo d).limit → d < (s.chunkInfo c).limit → c = d) ∧
  (∀ q ∈ s.pool, 0 < q.1 ∧ q.1 < q.2 ∧ q.2 < 2 ^ 64 ∧ (q.1 + x.chunkStartOffset) % 2 = 0) ∧
  (∀ q ∈ s.pool, ∀ c ∈ s.chunks, q.2 ≤ c ∨ (s.chunkInfo c).limit ≤ q.1) ∧
  (∀ q ∈ s.pool, ∀ r ∈ s.pool, q.1 < r.2 → r.1 < q.2 → q = r) ∧
  s.pool.Nodup

instance (x : Ext) (s : GC_state) : Decidable (ChunkPoolOK x s) := by
  delta ChunkPoolOK
  infer_instance

/-- The chunk list headed by `t` is a to-space list of level `L`: `t` is a level
head of level `L` owned by `COPY_OBJECT_HH_VALUE`, and its last chunk is a chunk
in use that is `t` itself or a normal chunk pointing at `t`, with an aligned
frontier between its address and its limit. -/
def ToSpaceListOK (s : GC_state) (t L : Nat) : Prop :=
  t ∈ s.chunks ∧
  (s.chunkInfo t).level = L ∧
  (s.chunkInfo t).containingHH = COPY_OBJECT_HH_VALUE ∧
  (s.chunkInfo t).lastChunk ∈ s.chunks ∧
  ((s.chunkInfo t).lastChunk = t ∨
    ((s.chunkInfo (s.chunkInfo t).lastChunk).level = CHUNK_INVALID_LEVEL ∧
     (s.chunkInfo (s.chunkInfo t).lastChunk).levelHead = t)) ∧
  (s.chunkInfo t).lastChunk ≤ (s.chunkInfo (s.chunkInfo t).lastChunk).frontier ∧
  (s.chunkInfo (s.chunkInfo t).lastChunk).frontier
    ≤ (s.chunkInfo (s.chunkInfo t).lastChunk).limit ∧
  (s.chunkInfo (s.chunkInfo t).lastChunk).frontier % 2 = 0

instance (s : GC_state) (t L : Nat) : Decidable (ToSpaceListOK s t L) := by
  delta ToSpaceListOK
  infer_instance

/-- The address lies in memory that is not allocated yet: between the frontier
and the limit of a chunk in use, or in a free chunk of the pool. -/
def InFreeSpace (s : GC_state) (a : Nat) : Prop :=
  (∃ c ∈ s.chunks, (s.chunkInfo c).frontier ≤ a ∧ a < (s.chunkInfo c).limit) ∨
  (∃ q ∈ s.pool, q.1 ≤ a ∧ a < q.2)

instance (s : GC_state) (a : Nat) : Decidable (InFreeSpace s a) := by
  delta InFreeSpace
  infer_instance

/-- The slot is not a cell of unallocated chunk memory. -/
def SlotAllocated (s : GC_state) : Slot → Prop
  | .cell a => ¬ InFreeSpace s a
  | _ => True

instance (s : GC_state) (opp : Slot) : Decidable (SlotAllocated s opp) := by
  cases opp <;> (simp only [SlotAllocated]; infer_instance)

/-- Two states agree on the chunks in use of the first: the second has these
chunks, followed by newer ones, and the same limit, level, level head link and owner for
each of them. -/
def CoreExtends (s s' : GC_state) : Prop :=
  (∃ l, s'.chunks = s.chunks ++ l) ∧
  ∀ c ∈ s.chunks, (s'.chunkInfo c).limit = (s.chunkInfo c).limit ∧
    (s'.chunkInfo c).level = (s.chunkInfo c).level ∧
    (s'.chunkInfo c).levelHead = (s.chunkInfo c).levelHead ∧
    (s'.chunkInfo c).containingHH = (s.chunkInfo c).containingHH

/-- A copy of `n` bytes at address `r` lies in a chunk of the chunk list headed
by `t`, a level head of level `L` owned by `COPY_OBJECT_HH_VALUE`. -/
def CopyPlaced (s : GC_state) (t L r n : Nat) : Prop :=
  ∃ c ∈ s.chunks, c ≤ r ∧ r + n ≤ (s.chunkInfo c).limit ∧ t ∈ s.chunks ∧
    (s.chunkInfo t).level = L ∧ (s.chunkInfo t).containingHH = COPY_OBJECT_HH_VALUE ∧
    (c = t ∨ ((s.chunkInfo c).level = CHUNK_INVALID_LEVEL ∧ (s.chunkInfo c).levelHead = t))

/-- The first step of `copyObject`: the chunk and the frontier the copy goes
to. -/
def copyObjectTarget (x : Ext) (s : GC_state) (objectSize toChunkList : Nat) :
    Except (Abort × GC_state) (GC_state × Nat × Nat) :=
  if sizeDiff (HM_getChunkLimit s (HM_getChunkListLastChunk s toChunkList))
      (HM_getChunkFrontier s (HM_getChunkListLastChunk s toChunkList)) < objectSize then
    if (HM_allocateChunk x s toChunkList objectSize).2 = 0 then
      .error (.outOfSpace, (HM_allocateChunk x s toChunkList objectSize).1)
    else .ok ((HM_allocateChunk x s toChunkList objectSize).1,
      (HM_allocateChunk x s toChunkList objectSize).2,
      HM_getChunkFrontier (HM_allocateChunk x s toChunkList objectSize).1
        (HM_allocateChunk x s toChunkList objectSize).2)
  else .ok (s, HM_getChunkListLastChunk s toChunkList,
    HM_getChunkFrontier s (HM_getChunkListLastChunk s toChunkList))

/-- The run returned (it did not die). -/
def ForwardResult.returned : ForwardResult → Bool
  | .ok _ => true
  | .error _ => false

/-! ## The local collector (`HM_HHC_collectLocal`) -/

/-- Apply `forwardHHObjptr` to the memory cells of a list, in order. -/
def forwardSlots (x : Ext) (fuel : Nat) :
    List Nat → GC_state → ForwardHHObjptrArgs → ForwardResult
  | [], s, args => .ok (s, args)
  | a :: rest, s, args =>
    match forwardHHObjptr x fuel s (.cell a) args with
    | .error e => .error e
    | .ok (s1, args1) => forwardSlots x fuel rest s1 args1

/-- Modelled from the spec: `foreachObjptrInObject (p, predicate, forwarder)`
with the forwarder `forwardHHObjptr`, "scanning slots with the object-model's
scanner". -/
def foreachObjptrInObject (x : Ext) (fuel : Nat) (s : GC_state) (p : Nat)
    (args : ForwardHHObjptrArgs) : ForwardResult :=
  forwardSlots x fuel (x.objptrSlots s.mem p) s args

/-- `skipStackAndThreadObjptrPredicate` (the asserts compiled out). -/
def skipStackAndThreadObjptrPredicate (x : Ext) (s : GC_state) (p : Nat) : Bool :=
  if getHeader x s p = x.GC_STACK_HEADER then false
  else if getHeader x s p = x.GC_THREAD_HEADER then false
  else true

/-- The chunks of one level, from a chunk on, along `nextChunk`. -/
def chunkListChunks (s : GC_state) : Nat → Nat → Option (List Nat)
  | 0, _ => none
  | fuel + 1, chunk =>
    if chunk = 0 then some []
    else (chunkListChunks s fuel (s.chunkInfo chunk).nextChunk).map (chunk :: ·)

/-- The level heads of a level list, along `nextHead`. -/
def levelListHeads (s : GC_state) : Nat → Nat → Option (List Nat)
  | 0, _ => none
  | fuel + 1, head =>
    if head = 0 then some []
    else (levelListHeads s fuel (s.chunkInfo head).nextHead).map (head :: ·)

/-- The chunks of the lists of some level heads, in order. -/
def headsChunks (s : GC_state) : List Nat → Option (List Nat)
  | [] => some []
  | h :: rest =>
    match chunkListChunks s (s.chunks.length + 1) h, headsChunks s rest with
    | some cs, some more => some (cs ++ more)
    | _, _ => none

/-- All chunks of a level list, level by level. -/
def levelListChunks (s : GC_state) (levelList : Nat) : Option (List Nat) :=
  match levelListHeads s (s.chunks.length + 1) levelList with
  | none => none
  | some heads => headsChunks s heads

/-- Modelled from the spec: `HM_forwardHHObjptrsInLevelList`, "repeatedly scan
the to-space level list with the same forwarder, using a predicate that skips
the current stack object and the current thread object ... terminates when the
to-space frontier equals the to-space scan cursor at every level".  `scanned`
gives, per chunk, the bytes past the chunk start that the scan cursor has
passed. -/
def HM_forwardHHObjptrsInLevelList (x : Ext) (fuel : Nat) :
    Nat → (Nat → Nat) → GC_state → ForwardHHObjptrArgs → ForwardResult
  | 0, _, s, args => .error (.stuck, s, args)
  | steps + 1, scanned, s, args =>
    match levelListChunks s (s.hhs args.hh).newLevelList with
    | none => .error (.stuck, s, args)
    | some chunks =>
      match chunks.find? (fun c =>
        decide (HM_getChunkStart x c + scanned c ≠ HM_getChunkFrontier s c)) with
      | none => .ok (s, args)
      | some c =>
        let p := x.advanceToObjectData s.mem (HM_getChunkStart x c + scanned c)
        let next := x.objectEnd s.mem p
        let r : ForwardResult :=
          if skipStackAndThreadObjptrPredicate x s p then foreachObjptrInObject x fuel s p args
          else .ok (s, args)
        match r with
        | .error e => .error e
        | .ok (s1, args1) =>
          HM_forwardHHObjptrsInLevelList x fuel steps
            (fun d => if d = c then next - HM_getChunkStart x c else scanned d) s1 args1

/-- Modelled from the spec: `ChunkPool_free`, the chunk goes back to the pool. -/
def ChunkPool_free (s : GC_state) (chunk : Nat) : GC_state :=
  { s with chunks := s.chunks.erase chunk, pool := s.pool ++ [(chunk, (s.chunkInfo chunk).limit)] }

/-- Modelled from the spec: `HM_freeChunks (listSlot, minLevel)`, "release to
the chunk pool every chunk whose level >= minLevel; update listSlot to the
first surviving head".  The result is the state and the new `*levelList`. -/
def HM_freeChunks (s : GC_state) (minLevel : Nat) : Nat → Nat → Option (GC_state × Nat)
  | 0, _ => none
  | fuel + 1, levelList =>
    if levelList = 0 then some (s, 0)
    else if (s.chunkInfo levelList).level < minLevel then some (s, levelList)
    else
      match chunkListChunks s (s.chunks.length + 1) levelList with
      | none => none
      | some cs =>
        HM_freeChunks (cs.foldl ChunkPool_free s) minLevel fuel (s.chunkInfo levelList).nextHead

/-- `HM_updateLevelListPointers`: rewrite every head's `containingHH`. -/
def HM_updateLevelListPointers (s : GC_state) (levelList hh : Nat) : Option GC_state :=
  match levelListHeads s (s.chunks.length + 1) levelList with
  | none => none
  | some heads =>
    some (heads.foldl (fun st h => st.setChunkInfo h { st.chunkInfo h with containingHH := hh }) s)

/-- Modelled from the spec: `HM_mergeLevelList (destination, source)`, "for
each level-head in source (in its descending order), find-or-splice into
destination.  If a head for the same level already exists in destination,
concatenate source's chunks onto destination's tail (using lastChunk), and
demote the source's head to a normal chunk (clear level, set levelHead to the
surviving head)".  The result is the state and the new `*destinationLevelList`. -/
def HM_mergeLevelList (s : GC_state) : Nat → Nat → Nat → Option (GC_state × Nat)
  | 0, _, _ => none
  | fuel + 1, destination, levelList =>
    if levelList = 0 then some (s, destination)
    else
      let next := (s.chunkInfo levelList).nextHead
      match findLevelPosition s (s.chunkInfo levelList).level (s.chunks.length + 1) 0
          destination with
      | none => none
      | some (prev, cur) =>
        if cur ≠ 0 ∧ (s.chunkInfo cur).level = (s.chunkInfo levelList).level then
          let last := (s.chunkInfo cur).lastChunk
          let s1 := s.setChunkInfo last { s.chunkInfo last with nextChunk := levelList }
          let s2 := s1.setChunkInfo cur
            { s1.chunkInfo cur with lastChunk := (s1.chunkInfo levelList).lastChunk }
          let s3 := s2.setChunkInfo levelList
            { s2.chunkInfo levelList with level := CHUNK_INVALID_LEVEL, levelHead := cur }
          HM_mergeLevelList s3 fuel destination next
        else
          let s1 := s.setChunkInfo levelList { s.chunkInfo levelList with nextHead := cur }
          if prev = 0 then HM_mergeLevelList s1 fuel levelList next
          else
            HM_mergeLevelList
              (s1.setChunkInfo prev { s1.chunkInfo prev with nextHead := levelList })
              fuel destination next

/-- Modelled from the spec: `HM_getLevelSize (levelList, level)`, the allocated
bytes of the chunks of one level (scenario 3: "locallyCollectibleSize equals
the total allocated bytes post-copy"); `0` when the list has no such level. -/
def HM_getLevelSize (x : Ext) (s : GC_state) (levelList level : Nat) : Nat :=
  match levelListHeads s (s.chunks.length + 1) levelList with
  | none => 0
  | some heads =>
    match heads.find? (fun h => decide ((s.chunkInfo h).level = level)) with
    | none => 0
    | some h =>
      match chunkListChunks s (s.chunks.length + 1) h with
      | none => 0
      | some cs => (cs.map (fun c => HM_getChunkFrontier s c - HM_getChunkStart x c)).sum

/-- Modelled from the spec: `HM_HH_getHighestStolenLevel`, the field
`stealLevel`, "highest level number that has been stolen from this task". -/
def HM_HH_getHighestStolenLevel (hh : HM_HierarchicalHeap) : Nat := hh.stealLevel

/-- Modelled from the spec: `HM_HH_getLowestPrivateLevel`,
"max(stealLevel+1, configuredFloor)", as a `Word32`. -/
def HM_HH_getLowestPrivateLevel (x : Ext) (hh : HM_HierarchicalHeap) : Nat :=
  max ((HM_HH_getHighestStolenLevel hh + 1) % 2 ^ 32) x.configuredFloor

/-- Lines 163-175 of `HM_HHC_collectLocal`: the forwarding arguments. -/
def collectLocalArgs (x : Ext) (s : GC_state) : ForwardHHObjptrArgs :=
  let hh := s.hhs s.currentHierarchicalHeap
  let forwardHHObjptrArgs : ForwardHHObjptrArgs :=
    { hh := s.currentHierarchicalHeap,
      minLevel := HM_HH_getLowestPrivateLevel x hh,
      maxLevel := hh.level,
      tgtChunkList := 0,
      bytesCopied := 0,
      objectsCopied := 0,
      stacksCopied := 0 }
  if s.hhCollectionLevel = .SUPERLOCAL then { forwardHHObjptrArgs with minLevel := hh.level }
  else forwardHHObjptrArgs

/-- Lines 375-382 of `HM_HHC_collectLocal`: the loop that sums the level sizes
from `level` down; `bound` is `HM_HH_getHighestStolenLevel (s, hh) + 1`.  The
result is the sum added to `acc`. -/
def locallyCollectibleSizeLoop (levelSize : Nat → Nat) (bound : Nat) : Nat → Nat → Nat
  | 0, acc => acc + levelSize 0
  | level + 1, acc =>
    if bound < level + 1 then
      locallyCollectibleSizeLoop levelSize bound level (acc + levelSize (level + 1))
    else acc + levelSize (level + 1)

/-- Lines 375-382 of `HM_HHC_collectLocal`: the new `locallyCollectibleSize`;
`level` and the bound are `Word32`. -/
def updateLocallyCollectibleSize (levelSize : Nat → Nat) (hhLevel stolen : Nat) : Nat :=
  locallyCollectibleSizeLoop levelSize ((stolen + 1) % 2 ^ 32) (hhLevel % 2 ^ 32) 0

/-- `lockHH` (`hierarchical-heap.c`, lines 376-382), a spin on a two-state
word; the collector's `lockWriterHH`, whose definition is not part of the
sources at hand, is taken to be the same spin lock (spec, section 5).  Alone on
the lock, the caller gets it when it is free and spins for ever when it is not
(`none`). -/
def lockHH (s : GC_state) (hh : Nat) : Option GC_state :=
  if (s.hhs hh).lock = .HM_HH_LOCK_LOCKED then none
  else some { s.setHH hh { s.hhs hh with lock := .HM_HH_LOCK_LOCKED } with
              hhLockLog := s.hhLockLog ++ [.acquired hh] }

/-- `unlockHH` (lines 384-389) / `unlockWriterHH`: compare-and-swap from LOCKED
to UNLOCKED. -/
def unlockHH (s : GC_state) (hh : Nat) : GC_state :=
  if (s.hhs hh).lock = .HM_HH_LOCK_LOCKED then
    { s.setHH hh { s.hhs hh with lock := .HM_HH_LOCK_UNLOCKED } with
      hhLockLog := s.hhLockLog ++ [.released hh] }
  else s

/-- Modelled from the spec: `Parallel_lockTake` on the work-stealing queue
lock; `none` when another processor holds the lock. -/
def Parallel_lockTake (s : GC_state) : Option GC_state :=
  if s.wsQueueLockHeld then none
  else some { s with wsQueueLockHeld := true, wsQueueLockedByMe := true,
                     wsQueueLockTakes := s.wsQueueLockTakes + 1 }

/-- Modelled from the spec: `Parallel_lockRelease` on the work-stealing queue
lock. -/
def Parallel_lockRelease (s : GC_state) : GC_state :=
  { s with wsQueueLockHeld := false, wsQueueLockedByMe := false,
           wsQueueLockReleases := s.wsQueueLockReleases + 1 }

/-- Run a forwarding step after another one that returned. -/
def ForwardResult.andThen (r : ForwardResult)
    (f : GC_state → ForwardHHObjptrArgs → ForwardResult) : ForwardResult :=
  match r with
  | .error e => .error e
  | .ok (s, args) => f s args

/-- Lines 120-159 of `HM_HHC_collectLocal`: count the collection, write back
`used` of the current stack and `exnStack` of the current thread, take the
queue lock unless this processor holds it, take the lock of the heap. -/
def collectLocalEnter (x : Ext) (s : GC_state) : Option GC_state :=
  let queueLockHeld := s.wsQueueLockedByMe
  let s1 := { s with numHHLocalGCs := s.numHHLocalGCs + 1 }
  let s2 := s1.writeMem (getStackCurrentObjptr x s1 + x.stackUsedOffset) s1.currentStackUsed
  let s3 := s2.writeMem (s2.currentThread + x.threadExnStackOffset) s2.exnStack
  match (if queueLockHeld then some s3 else Parallel_lockTake s3) with
  | none => none
  | some s4 => lockHH s4 s4.currentHierarchicalHeap

/-- Lines 191-285 of `HM_HHC_collectLocal`: forward the roots. -/
def collectLocalRoots (x : Ext) (fuel : Nat) (s : GC_state) (args : ForwardHHObjptrArgs) :
    ForwardResult :=
  (foreachObjptrInObject x fuel s (getStackCurrentObjptr x s) args).andThen fun s1 a1 =>
  (foreachObjptrInObject x fuel s1 s1.currentThread a1).andThen fun s2 a2 =>
  (forwardHHObjptr x fuel s2 .currentThread a2).andThen fun s3 a3 =>
  let s4 := s3.setHH s3.currentHierarchicalHeap
    { s3.hhs s3.currentHierarchicalHeap with thread := s3.currentThread }
  (foreachObjptrInObject x fuel s4 s4.wsQueue a3).andThen fun s5 a5 =>
  if (s5.hhs s5.currentHierarchicalHeap).retVal ≠ 0 then
    forwardHHObjptr x fuel s5 (.hhRetVal s5.currentHierarchicalHeap) a5
  else .ok (s5, a5)

/-- Lines 359-367 of `HM_HHC_collectLocal`: free the old chunks and merge the
to-space list back in. -/
def collectLocalReclaim (s : GC_state) (minLevel : Nat) : Option GC_state :=
  let cur := s.currentHierarchicalHeap
  match HM_freeChunks s minLevel (s.chunks.length + 1) (s.hhs cur).levelList with
  | none => none
  | some (s1, levelList1) =>
    let s2 := s1.setHH cur { s1.hhs cur with levelList := levelList1 }
    match HM_updateLevelListPointers s2 (s2.hhs cur).newLevelList cur with
    | none => none
    | some s3 =>
      match HM_mergeLevelList s3 (s3.chunks.length + 1) (s3.hhs cur).levelList
          (s3.hhs cur).newLevelList with
      | none => none
      | some (s4, levelList4) =>
        some (s4.setHH cur { s4.hhs cur with levelList := levelList4, newLevelList := 0 })

/-- Lines 375-392 of `HM_HHC_collectLocal`: recompute `locallyCollectibleSize`
and reset `lastAllocatedChunk`. -/
def collectLocalBookkeeping (x : Ext) (s : GC_state) : GC_state :=
  let cur := s.currentHierarchicalHeap
  let hh := s.hhs cur
  let size := updateLocallyCollectibleSize (HM_getLevelSize x s hh.levelList) hh.level
    (HM_HH_getHighestStolenLevel hh)
  let s1 := s.setHH cur { hh with locallyCollectibleSize := size }
  let lastChunk := HM_getChunkListLastChunk s1 (s1.hhs cur).levelList
  if lastChunk = 0 then s1.setHH cur { s1.hhs cur with lastAllocatedChunk := 0 }
  else s1.setHH cur { s1.hhs cur with lastAllocatedChunk := lastChunk }

/-- Lines 398-409 of `HM_HHC_collectLocal`: release the locks and add the
bytes copied to the statistics. -/
def collectLocalLeave (s : GC_state) (queueLockHeld : Bool) (bytesCopied : Nat) : GC_state :=
  let s1 := unlockHH s s.currentHierarchicalHeap
  let s2 := if !queueLockHeld then Parallel_lockRelease s1 else s1
  { s2 with bytesHHLocaled := s2.bytesHHLocaled + bytesCopied }

/-- The result type of `HM_HHC_collectLocal`. -/
abbrev CollectResult := Except (Abort × GC_state) (GC_state × Option ForwardHHObjptrArgs)

/-- The collection returned (it did not die). -/
def CollectResult.returned : CollectResult → Bool
  | .ok _ => true
  | .error _ => false

/-- The state a collection ends with. -/
def CollectResult.state : CollectResult → GC_state
  | .ok r => r.1
  | .error e => e.2

/-- The forwarding arguments a collection that ran returns. -/
def CollectResult.args : CollectResult → Option ForwardHHObjptrArgs
  | .ok r => r.2
  | .error _ => none

/-- `HM_HHC_collectLocal`.  The result is the state on return and, when the
collection ran, the forwarding arguments with the counters as the last
`Trace3 (EVENT_COPY, ...)` reports them. -/
def HM_HHC_collectLocal (x : Ext) (fuel : Nat) (s : GC_state) : CollectResult :=
  if s.hhCollectionLevel = .NONE then .ok (s, none)
  else
    match collectLocalEnter x s with
    | none => .error (.stuck, s)
    | some s1 =>
      match (collectLocalRoots x fuel s1 (collectLocalArgs x s1)).andThen
          (HM_forwardHHObjptrsInLevelList x fuel fuel (fun _ => 0)) with
      | .error (e, s2, _) => .error (e, s2)
      | .ok (s2, args) =>
        match collectLocalReclaim s2 args.minLevel with
        | none => .error (.stuck, s2)
        | some s3 =>
          .ok (collectLocalLeave (collectLocalBookkeeping x s3) s.wsQueueLockedByMe
            args.bytesCopied, some args)

/-- Two argument records describe the same collection: same heap, same level
range, same target list (the counters may differ). -/
def SameScope (a b : ForwardHHObjptrArgs) : Prop :=
  b.hh = a.hh ∧ b.minLevel = a.minLevel ∧ b.maxLevel = a.maxLevel ∧
    b.tgtChunkList = a.tgtChunkList

/-- The sum of the sizes of exactly the levels `L` with `lo <= L <= hi` (`0`
when there is no such level). -/
def levelRangeSum (levelSize : Nat → Nat) (lo hi : Nat) : Nat :=
  (((List.range (hi + 1)).filter (fun l => decide (lo ≤ l))).map levelSize).sum

/-- Lines 325-333 of `HM_HH_assertInvariants`: the invariant of the cache
fields `limit`, `savedFrontier`, `lastAllocatedChunk`. -/
def HM_HH_cacheInvariant (s : GC_state) (hh : HM_HierarchicalHeap) : Prop :=
  if hh.limit ≠ 0 then
    ChunkPool_find s (hh.limit - 1) = hh.lastAllocatedChunk ∧
    ChunkPool_find s hh.savedFrontier = hh.lastAllocatedChunk ∧
    hh.levelList ≠ 0
  else
    hh.savedFrontier = 0 ∧ hh.lastAllocatedChunk = 0 ∧ hh.levelList = 0

instance (s : GC_state) (hh : HM_HierarchicalHeap) : Decidable (HM_HH_cacheInvariant s hh) := by
  delta HM_HH_cacheInvariant
  infer_instance

/-- The heap of `sampleState` when the level 5 has been stolen: `stealLevel`
equals `level`. -/
def sampleStateStolen : GC_state :=
  { sampleState with hhs := fun _ => { sampleHH with stealLevel := 5 } }

/-- The heap of `sampleState` with the current thread `3072` and its stack
`3200` in the global heap, and `stealLevel = 2`: nothing in the two chunks of
the hierarchical heap is reachable, and both levels are private. -/
def sampleStateDead : GC_state :=
  { sampleState with
    mem := fun a =>
      if a = 3064 then 524417 else if a = 3088 then 3200
      else if a = 3192 then 5 else if a = 3216 then 64 else if a = 3224 then 16
      else sampleMem a
    currentThread := 3072
    hhs := fun _ => { sampleHH with stealLevel := 2, thread := 3072 } }

/-- The slot is out of the scope of the collection and `forwardHHObjptr` returns
at once: its value is not an object pointer, or points into the global heap, or
points to an object of a level below `minLevel` (and not above `maxLevel`). -/
def outOfScope (x : Ext) (s : GC_state) (opp : Slot) (args : ForwardHHObjptrArgs) : Bool :=
  !x.isObjptr (s.readSlot opp) || x.isObjptrInGlobalHeap (s.readSlot opp) ||
    match HM_getObjptrInfo s (s.readSlot opp) with
    | none => false
    | some info => decide (info.level < args.minLevel ∧ info.level ≤ args.maxLevel)

/-- The state a first collection of `sampleStateDead` leaves. -/
def sampleStateCollected : GC_state := (HM_HHC_collectLocal sampleExt 10 sampleStateDead).state

/-- The state after the entry of a second collection. -/
def sampleStateEntered : GC_state :=
  (collectLocalEnter sampleExt sampleStateCollected).getD sampleStateCollected

/-! ## Lifecycle (`hierarchical-heap.c`) -/

/-- `HM_HH_appendChild`; `none` when a `lockHH` spins for ever. -/
def HM_HH_appendChild (s : GC_state) (parentHHObjptr childHHObjptr : Nat) : Option GC_state :=
  match lockHH s parentHHObjptr with
  | none => none
  | some s1 =>
    match lockHH s1 childHHObjptr with
    | none => none
    | some s2 =>
      let s3 := s2.setHH childHHObjptr { s2.hhs childHHObjptr with parentHH := parentHHObjptr }
      let s4 := s3.setHH childHHObjptr
        { s3.hhs childHHObjptr with nextChildHH := (s3.hhs parentHHObjptr).childHHList }
      let s5 := s4.setHH parentHHObjptr
        { s4.hhs parentHHObjptr with childHHList := childHHObjptr }
      let s6 := unlockHH s5 childHHObjptr
      some (unlockHH s6 parentHHObjptr)

/-! ## The task tree: child lists and `HM_HH_mergeIntoParent` -/

/-- The nodes of a linked list from `a` up to, not including, `b`: each node
is not `null` and links to the next one. -/
def LinkSeg (next : Nat → Nat) (null : Nat) : Nat → List Nat → Nat → Prop
  | a, [], b => a = b
  | a, k :: l, b => a = k ∧ k ≠ null ∧ LinkSeg next null (next k) l b

/-- Walk a linked list to its `null` end, collecting the nodes. -/
def followLinks (next : Nat → Nat) (null : Nat) : Nat → Nat → Option (List Nat)
  | 0, _ => none
  | fuel + 1, a =>
    if a = null then some [] else (followLinks next null fuel (next a)).map (a :: ·)

/-- The `nextHead` link of a chunk header. -/
def nextHeadOf (s : GC_state) (k : Nat) : Nat := (s.chunkInfo k).nextHead

/-- The state after `HM_mergeLevelList` has appended the chunks of the head
`levelList` to the list of the head `cur` of the same level. -/
def mergeLevelListDemote (s : GC_state) (cur levelList : Nat) : GC_state :=
  let last := (s.chunkInfo cur).lastChunk
  let s1 := s.setChunkInfo last { s.chunkInfo last with nextChunk := levelList }
  let s2 := s1.setChunkInfo cur
    { s1.chunkInfo cur with lastChunk := (s1.chunkInfo levelList).lastChunk }
  s2.setChunkInfo levelList
    { s2.chunkInfo levelList with level := CHUNK_INVALID_LEVEL, levelHead := cur }

/-- The state after `HM_mergeLevelList` has spliced the head `levelList` in
between the heads `prev` and `cur`. -/
def mergeLevelListSplice (s : GC_state) (prev cur levelList : Nat) : GC_state :=
  let s1 := s.setChunkInfo levelList { s.chunkInfo levelList with nextHead := cur }
  if prev = 0 then s1
  else s1.setChunkInfo prev { s1.chunkInfo prev with nextHead := levelList }

/-- The places the `cursor` of `HM_HH_mergeIntoParent` can point at:
`&(parentHH->childHHList)` and `&(childHH->nextChildHH)`. -/
inductive ChildCursor where
  | childHHList (hh : Nat)
  | nextChildHH (hh : Nat)
  deriving DecidableEq, Repr

/-- Read `*cursor`. -/
def GC_state.readCursor (s : GC_state) : ChildCursor → Nat
  | .childHHList h => (s.hhs h).childHHList
  | .nextChildHH h => (s.hhs h).nextChildHH

/-- Write `*cursor`. -/
def GC_state.writeCursor (s : GC_state) : ChildCursor → Nat → GC_state
  | .childHHList h, v => s.setHH h { s.hhs h with childHHList := v }
  | .nextChildHH h, v => s.setHH h { s.hhs h with nextChildHH := v }

/-- Lines 128-135 of `HM_HH_mergeIntoParent` (release build, so without the
test for `BOGUS_OBJPTR`): move the cursor along the child list until it points
at the link that holds `hhObjptr`.  Past the end of the list `HHObjptrToStruct`
gives `NULL`, whose `nextChildHH` cannot be read: no result.  The fuel bounds
the number of links followed. -/
def findChildCursor (s : GC_state) (hhObjptr : Nat) : Nat → ChildCursor → Option ChildCursor
  | 0, _ => none
  | fuel + 1, cursor =>
    if hhObjptr ≠ s.readCursor cursor then
      if s.readCursor cursor = BOGUS_OBJPTR then none
      else findChildCursor s hhObjptr fuel (.nextChildHH (s.readCursor cursor))
    else some cursor

/-- `HM_HH_mergeIntoParent` (asserts compiled out).  `none` when a `lockHH`
spins for ever, when `hh` or its parent is `BOGUS_OBJPTR` (a `NULL` struct is
locked), when the cursor runs off the child list or out of fuel, or when the
merge of the level lists does not end. -/
def HM_HH_mergeIntoParent (fuel : Nat) (s : GC_state) (hhObjptr : Nat) : Option GC_state :=
  if hhObjptr = BOGUS_OBJPTR then none
  else
    let parentHHObjptr := (s.hhs hhObjptr).parentHH
    if parentHHObjptr = BOGUS_OBJPTR then none
    else
      match lockHH s hhObjptr with
      | none => none
      | some s1 =>
        match lockHH s1 parentHHObjptr with
        | none => none
        | some s2 =>
          match findChildCursor s2 hhObjptr fuel (.childHHList parentHHObjptr) with
          | none => none
          | some cursor =>
            let s3 := s2.writeCursor cursor (s2.hhs hhObjptr).nextChildHH
            match HM_mergeLevelList s3 (s3.chunks.length + 1) (s3.hhs parentHHObjptr).levelList
                (s3.hhs hhObjptr).levelList with
            | none => none
            | some (s4, levelList) =>
              let s5 := s4.setHH parentHHObjptr { s4.hhs parentHHObjptr with levelList := levelList }
              some (unlockHH (unlockHH s5 parentHHObjptr) hhObjptr)

/-- The children of a heap from a first child on, along `nextChildHH` up to
`BOGUS_OBJPTR`, as the loops of `HM_HH_assertInvariants` walk them. -/
def childHHChain (s : GC_state) : Nat → Nat → Option (List Nat)
  | 0, _ => none
  | fuel + 1, child =>
    if child = BOGUS_OBJPTR then some []
    else (childHHChain s fuel (s.hhs child).nextChildHH).map (child :: ·)

/-- The `nextChildHH` link of a hierarchical heap. -/
def nextChildOf (s : GC_state) (h : Nat) : Nat := (s.hhs h).nextChildHH

/-- Two level lists that `HM_mergeLevelList` can merge: both are finite lists
of level heads, all of them distinct chunks in use. -/
def LevelListsMergeable (s : GC_state) (destination levelList : Nat) : Prop :=
  match levelListHeads s (s.chunks.length + 1) destination,
      levelListHeads s (s.chunks.length + 1) levelList with
  | some D, some R => (D ++ R).Nodup ∧ ∀ k ∈ D ++ R, k ∈ s.chunks
  | _, _ => False

instance (s : GC_state) (destination levelList : Nat) :
    Decidable (LevelListsMergeable s destination levelList) := by
  unfold LevelListsMergeable
  split <;> infer_instance

/-- A task tree on the heap of `sampleState`: the heap `4096` has the children
`8192` and `12288`, in this order; `8192` has no chunks, `12288` owns the chunk
`2097152`, a level head of level 5. -/
def sampleStateFamily : GC_state :=
  { sampleState with
    chunks := [1048576, 1572864, 2097152]
    chunkInfo := fun c =>
      if c = 2097152 then
        { frontier := 2097232, nextChunk := 0, level := 5, nextHead := 0, lastChunk := 2097152,
          containingHH := 12288, isInToSpace := false, toChunkList := 0, levelHead := 0,
          limit := 2621440 }
      else sampleState.chunkInfo c
    pool := [(2621440, 3145728)]
    hhs := fun h =>
      if h = 4096 then { sampleHH with childHHList := 8192 }
      else if h = 8192 then
        { sampleHH with levelList := 0, savedFrontier := 0, limit := 0, lastAllocatedChunk := 0,
                        parentHH := 4096, nextChildHH := 12288, thread := 0 }
      else if h = 12288 then
        { sampleHH with levelList := 2097152, savedFrontier := 2097232, limit := 2621440,
                        lastAllocatedChunk := 2097152, parentHH := 4096, thread := 0 }
      else sampleHH }

/-- The heap of `sampleStateFamily` before any fork: the heap `8192`, without
chunks, and the heap `12288`, which owns the chunk `2097152`, are orphans of the
same level. -/
def sampleStateOrphan : GC_state :=
  { sampleStateFamily with
    hhs := fun h =>
      if h = 8192 then
        { sampleHH with levelList := 0, savedFrontier := 0, limit := 0, lastAllocatedChunk := 0,
                        thread := 0 }
      else if h = 12288 then
        { sampleHH with levelList := 2097152, savedFrontier := 2097232, limit := 2621440,
                        lastAllocatedChunk := 2097152, thread := 0 }
      else sampleHH }

/-- Lines 87-89 of `HM_HH_appendChild`: the three assignments that link the
child in. -/
def appendChildLink (s : GC_state) (parentHHObjptr childHHObjptr : Nat) : GC_state :=
  let s3 := s.setHH childHHObjptr { s.hhs childHHObjptr with parentHH := parentHHObjptr }
  let s4 := s3.setHH childHHObjptr
    { s3.hhs childHHObjptr with nextChildHH := (s3.hhs parentHHObjptr).childHHList }
  s4.setHH parentHHObjptr { s4.hhs parentHHObjptr with childHHList := childHHObjptr }

/-- The task tree is well formed, the heaps in `detached` (merged children,
thrown away) apart: every heap that has a parent occurs exactly once in the
child list of its parent, which ends in `BOGUS_OBJPTR`; and every member of the
child list of a heap has that heap, not `BOGUS_OBJPTR`, for parent (the two
loops of `HM_HH_assertInvariants`, lines 335-356). -/
def TaskTreeOK (s : GC_state) (detached : List Nat) : Prop :=
  (∀ h, (s.hhs h).parentHH ≠ BOGUS_OBJPTR → h ∉ detached →
    ∃ l, LinkSeg (nextChildOf s) BOGUS_OBJPTR (s.hhs (s.hhs h).parentHH).childHHList l
      BOGUS_OBJPTR ∧ l.count h = 1) ∧
  (∀ q l, LinkSeg (nextChildOf s) BOGUS_OBJPTR (s.hhs q).childHHList l BOGUS_OBJPTR →
    ∀ k ∈ l, (s.hhs k).parentHH = q ∧ q ≠ BOGUS_OBJPTR)

/-! ## Levels and allocation: `HM_HH_setLevel`, `HM_HH_promoteChunks`, `HM_HH_extend` -/

/-- `HM_HH_setLevel`. -/
def HM_HH_setLevel (s : GC_state) (hh level : Nat) : GC_state :=
  s.setHH hh { s.hhs hh with level := level }

/-- Modelled from the spec: `HM_promoteChunks (levelList, level)`, "move every
chunk at exactly level down to level-1, merging into the level-1 head (creating
it if needed)".  The head of `level` is looked up in the descending list; if the
next head is the head of `level - 1` the chunks are appended to its list and the
head of `level` is demoted to a normal chunk (as `HM_mergeLevelList` does for
two heads of one level), otherwise the head of `level` becomes the head of
`level - 1`.  `level - 1` is `size_t` arithmetic.  The
result is the state and the new `*levelList`. -/
def HM_promoteChunks (s : GC_state) (levelList level : Nat) : Option (GC_state × Nat) :=
  match findLevelPosition s level (s.chunks.length + 1) 0 levelList with
  | none => none
  | some (prev, cur) =>
    if cur = 0 ∨ (s.chunkInfo cur).level ≠ level then some (s, levelList)
    else
      let next := (s.chunkInfo cur).nextHead
      if next ≠ 0 ∧ (s.chunkInfo next).level = (level + 2 ^ 64 - 1) % 2 ^ 64 then
        let s3 := mergeLevelListDemote s next cur
        if prev = 0 then some (s3, next)
        else some (s3.setChunkInfo prev { s3.chunkInfo prev with nextHead := next }, levelList)
      else
        some (s.setChunkInfo cur
          { s.chunkInfo cur with level := (level + 2 ^ 64 - 1) % 2 ^ 64 }, levelList)

/-- The condition of the `assert` of `HM_HH_promoteChunks` (line 157). -/
def HM_HH_promoteChunksAssertion (s : GC_state) (hh : Nat) : Prop :=
  HM_getHighestLevel s (s.hhs hh).levelList ≤ (s.hhs hh).level

instance (s : GC_state) (hh : Nat) : Decidable (HM_HH_promoteChunksAssertion s hh) := by
  delta HM_HH_promoteChunksAssertion
  infer_instance

/-- `HM_HH_promoteChunks` in a release build (the `assert` compiled out);
`none` when the walk along the level list does not end. -/
def HM_HH_promoteChunks (s : GC_state) (hh : Nat) : Option GC_state :=
  match HM_promoteChunks s (s.hhs hh).levelList (s.hhs hh).level with
  | none => none
  | some (s1, levelList) => some (s1.setHH hh { s1.hhs hh with levelList := levelList })

/-- Modelled from the spec: `ChunkPool_overHalfAllocated`, the threshold check
of the chunk pool ("if the chunk pool is over-committed"): more than half of
the bytes of the pool are in chunks in use. -/
def ChunkPool_overHalfAllocated (s : GC_state) : Bool :=
  decide ((s.pool.map (fun q => q.2 - q.1)).sum
    < (s.chunks.map (fun c => (s.chunkInfo c).limit - c)).sum)

/-- Lines 213-216 of `HM_HH_extend`: "collect first to free up some space". -/
def extendCollect (x : Ext) (fuel : Nat) (s : GC_state) : Except (Abort × GC_state) GC_state :=
  if ChunkPool_overHalfAllocated s then
    match HM_HHC_collectLocal x fuel s with
    | .error e => .error e
    | .ok (s1, _) => .ok s1
  else .ok s

/-- Lines 218-236 of `HM_HH_extend`: allocate the chunk, as a level head or in
the list of the first level head, and on success update the cache fields.
`level` is the value read at line 208.  `none` when the walk of
`HM_allocateLevelHeadChunk` along the level list does not end. -/
def extendAllocate (x : Ext) (s : GC_state) (hh bytesRequested level : Nat) :
    Option (GC_state × Bool) :=
  let r : Option (GC_state × Nat) :=
    if CHUNK_INVALID_LEVEL = level ∨ level < (s.hhs hh).level then
      match HM_allocateLevelHeadChunk x s (s.hhs hh).levelList bytesRequested (s.hhs hh).level
          hh with
      | none => none
      | some (s1, levelList, chunk) =>
        some (s1.setHH hh { s1.hhs hh with levelList := levelList }, chunk)
    else some (HM_allocateChunk x s (s.hhs hh).levelList bytesRequested)
  match r with
  | none => none
  | some (s1, chunk) =>
    if chunk = 0 then some (s1, false)
    else
      let s2 := s1.setHH hh { s1.hhs hh with limit := HM_getChunkLimit s1 chunk }
      let s3 := s2.setHH hh { s2.hhs hh with savedFrontier := HM_getChunkFrontier s2 chunk }
      some (s3.setHH hh { s3.hhs hh with lastAllocatedChunk := chunk }, true)

/-- `HM_HH_extend (hh, bytesRequested)`: the state and the returned `bool`, or
the `die` of the collection it ran. -/
def HM_HH_extend (x : Ext) (fuel : Nat) (s : GC_state) (hh bytesRequested : Nat) :
    Except (Abort × GC_state) (GC_state × Bool) :=
  let level := HM_getHighestLevel s (s.hhs hh).levelList
  match extendCollect x fuel s with
  | .error e => .error e
  | .ok s1 =>
    match extendAllocate x s1 hh bytesRequested level with
    | none => .error (.stuck, s1)
    | some r => .ok r

/-- The `assert` of `HM_HH_extend` (line 211), invariant 1 of the spec: the
level list is empty or its highest level is at most the level of the heap. -/
def HM_HH_levelInvariant (s : GC_state) (hh : Nat) : Prop :=
  CHUNK_INVALID_LEVEL = HM_getHighestLevel s (s.hhs hh).levelList ∨
    HM_getHighestLevel s (s.hhs hh).levelList ≤ (s.hhs hh).level

instance (s : GC_state) (hh : Nat) : Decidable (HM_HH_levelInvariant s hh) := by
  delta HM_HH_levelInvariant
  infer_instance

/-- The heap of `sampleStateDead` with the level 3 stolen and a chunk pool that
is over half allocated: one free chunk, two chunks in use.  Nothing in the
chunk of level 5 is reachable. -/
def sampleStateFull : GC_state :=
  { sampleStateDead with
    pool := [(2097152, 2621440)]
    hhs := fun _ => { sampleHH with stealLevel := 3, thread := 3072 } }

/-- The heap of `sampleState` with an empty chunk pool. -/
def sampleStateExhausted : GC_state :=
  { sampleState with pool := [] }

/-! ## Locks and alignment units -/

/-- The locks as the state records them: the work-stealing queue lock (held,
held by this processor, takes, releases), the current heap, the record of the
heap lock events, and the lock word of every heap. -/
def lockState (s : GC_state) :
    (Bool × Bool × Nat × Nat × Nat × List HHLockEvent) × (Nat → HM_HH_Lock) :=
  ((s.wsQueueLockHeld, s.wsQueueLockedByMe, s.wsQueueLockTakes, s.wsQueueLockReleases,
    s.currentHierarchicalHeap, s.hhLockLog), fun h => (s.hhs h).lock)

/-- The state `sampleStateDead` inside a scheduler critical section: the running
processor holds the lock of the work-stealing queue. -/
def sampleStateInCriticalSection : GC_state :=
  { sampleStateDead with wsQueueLockHeld := true, wsQueueLockedByMe := true }

/-- The state `sampleState` with two free chunks in the pool, the first of two
alignment units (1 MiB, at a 512 KiB-aligned address). -/
def sampleStateBigChunk : GC_state :=
  { sampleState with pool := [(2097152, 3145728), (3145728, 3670016)] }

/-- The state `sampleState` with a third chunk in use, the level head of level
7, that extends over two alignment units (`2097152` to `3145728`) and whose
frontier is 500000 bytes into it. -/
def sampleStateWideChunk : GC_state :=
  { sampleState with
    chunks := [1048576, 1572864, 2097152]
    chunkInfo := fun c =>
      if c = 2097152 then
        { frontier := 2597152, nextChunk := 0, level := 7, nextHead := 1572864,
          lastChunk := 2097152, containingHH := 4096, isInToSpace := false, toChunkList := 0,
          levelHead := 0, limit := 3145728 }
      else sampleState.chunkInfo c
    pool := [(3145728, 3670016)] }

/-- The address `copyObject` returns, if it returns. -/
def copyObjectAddress (r : Except (Abort × GC_state) (Nat × GC_state)) : Option Nat :=
  match r with
  | .ok (a, _) => some a
  | .error _ => none

/-! ## Copy parameters, chunk lists and the drain predicate -/

/-- The second `assert` of `copyObject` (line 731): `copySize <= objectSize`. -/
def copyObjectSizeAssertion (objectSize copySize : Nat) : Prop := copySize ≤ objectSize

instance (objectSize copySize : Nat) : Decidable (copyObjectSizeAssertion objectSize copySize) := by
  delta copyObjectSizeAssertion
  infer_instance

/-- The parameters `computeObjectCopyParameters` reports, if it returns. -/
def reportedParameters (r : Except (Abort × GC_state) (CopyParameters × GC_state)) :
    Option CopyParameters :=
  match r with
  | .ok (cp, _) => some cp
  | .error _ => none

/-- The state `sampleState` with an array object at `1573120` in the chunk
`1572864`: four elements of eight non-pointer bytes each. -/
def sampleStateArray : GC_state :=
  { sampleState with
    mem := fun a => if a = 1573104 then 4 else if a = 1573112 then 67 else sampleMem a }

/-- The object model `sampleExt` with a `sizeofStackShrinkReserved` that also
shrinks the stacks that are not running, to twice what they use. -/
def sampleExtShrinkPaused : Ext :=
  { sampleExt with
    sizeofStackShrinkReserved := fun reserved used current =>
      if current then max used (reserved / 2) else min reserved (2 * used) }

/-- The state `computeObjectCopyParameters` leaves, if it returns. -/
def reportedState (r : Except (Abort × GC_state) (CopyParameters × GC_state)) :
    Option GC_state :=
  match r with
  | .ok (_, s) => some s
  | .error _ => none

/-- Lines 706-717 of `computeObjectCopyParameters`: the stack at `p` after the
write-back of the reserved size that `sizeofStackShrinkReserved` computes. -/
def shrinkStackReserved (x : Ext) (s : GC_state) (p : Nat) : GC_state :=
  let reservedNew := x.sizeofStackShrinkReserved (s.mem (p + x.stackReservedOffset))
    (s.mem (p + x.stackUsedOffset)) (decide (getStackCurrentObjptr x s = p))
  if reservedNew < s.mem (p + x.stackReservedOffset) then
    s.writeMem (p + x.stackReservedOffset) reservedNew
  else s

/-- Addition of two `size_t` values: the sum wraps at `2^64`. -/
def sizeAdd (a b : Nat) : Nat := (a + b) % 2 ^ 64

/-- Multiplication of two `size_t` values: the product wraps at `2^64`. -/
def sizeMul (a b : Nat) : Nat := (a * b) % 2 ^ 64

/-- `computeObjectCopyParameters` with the sizes computed in `size_t`, as the
source computes them (lines 689-720): every sum and product wraps at `2^64`.
The control flow and the write-back of the stack are those of
`computeObjectCopyParameters`; the two functions agree whenever no size reaches
`2^64`. -/
def computeObjectCopyParameters64 (x : Ext) (s : GC_state) (p : Nat) :
    Except (Abort × GC_state) (CopyParameters × GC_state) :=
  let header := getHeader x s p
  let (tag, bytesNonObjptrs, numObjptrs) := x.splitHeader header
  if x.GC_HIERARCHICAL_HEAP_HEADER = header then
    .error (.hierarchicalHeapObject, s)
  else if tag = .NORMAL_TAG ∨ tag = .WEAK_TAG then
    if tag = .WEAK_TAG then .error (.weakObject, s)
    else
      let metaDataSize := x.GC_NORMAL_METADATA_SIZE
      let objectSize := sizeAdd bytesNonObjptrs (sizeMul numObjptrs x.OBJPTR_SIZE)
      let copySize := objectSize
      .ok ({ tag := tag, objectSize := sizeAdd objectSize metaDataSize,
             copySize := sizeAdd copySize metaDataSize, metaDataSize := metaDataSize }, s)
  else if tag = .ARRAY_TAG then
    let metaDataSize := x.GC_ARRAY_METADATA_SIZE
    let objectSize :=
      x.sizeofArrayNoMetaData (s.mem (p - x.arrayLengthOffset)) bytesNonObjptrs numObjptrs
    let copySize := objectSize
    .ok ({ tag := tag, objectSize := sizeAdd objectSize metaDataSize,
           copySize := sizeAdd copySize metaDataSize, metaDataSize := metaDataSize }, s)
  else
    let metaDataSize := x.GC_STACK_METADATA_SIZE
    let current := decide (getStackCurrentObjptr x s = p)
    let reserved := s.mem (p + x.stackReservedOffset)
    let used := s.mem (p + x.stackUsedOffset)
    let reservedNew := x.sizeofStackShrinkReserved reserved used current
    let s1 := if reservedNew < reserved then s.writeMem (p + x.stackReservedOffset) reservedNew
              else s
    let objectSize := sizeAdd x.sizeofGCStack (s1.mem (p + x.stackReservedOffset))
    let copySize := sizeAdd x.sizeofGCStack (s1.mem (p + x.stackUsedOffset))
    .ok ({ tag := tag, objectSize := sizeAdd objectSize metaDataSize,
           copySize := sizeAdd copySize metaDataSize, metaDataSize := metaDataSize }, s1)

/-- The state `sampleStateDead` with the reserved size of the paused stack
`1572968` set to `2^64 - 16`; the stack uses 16 bytes. -/
def sampleStateHugeStack : GC_state :=
  { sampleStateDead with
    mem := fun a => if a = 1572984 then 2 ^ 64 - 16 else sampleStateDead.mem a }

/-- The `nextChunk` link of a chunk header. -/
def nextChunkOf (s : GC_state) (k : Nat) : Nat := (s.chunkInfo k).nextChunk

/-- The chunk bound invariant of a chunk: `start <= frontier <= limit`. -/
def ChunkBoundsOK (x : Ext) (s : GC_state) (c : Nat) : Prop :=
  HM_getChunkStart x c ≤ HM_getChunkFrontier s c ∧
    HM_getChunkFrontier s c ≤ HM_getChunkLimit s c

instance (x : Ext) (s : GC_state) (c : Nat) : Decidable (ChunkBoundsOK x s c) := by
  delta ChunkBoundsOK
  infer_instance

/-- The chunks `l` are the chunk list of the level head `t`: they are linked by
`nextChunk` from `t` to the end, the last of them is `lastChunk` of `t`, and the
free chunks of the pool are distinct chunks that are not in the list. -/
def ChunkListOK (s : GC_state) (t : Nat) (l : List Nat) : Prop :=
  LinkSeg (nextChunkOf s) 0 t l 0 ∧ l.getLast? = some (s.chunkInfo t).lastChunk ∧
    (∀ q ∈ s.pool, q.1 ≠ 0 ∧ q.1 ∉ l) ∧ (s.pool.map Prod.fst).Nodup

/-- The state `copyObject` leaves, if it returns. -/
def copyObjectState (r : Except (Abort × GC_state) (Nat × GC_state)) : Option GC_state :=
  match r with
  | .ok (_, s) => some s
  | .error _ => none

/-- The two `assert`s of `skipStackAndThreadObjptrPredicate` (lines 806 and
809): an object with the stack header is the expected stack, an object with the
thread header is the expected thread. -/
def skipStackAndThreadObjptrPredicateAssertion (x : Ext) (s : GC_state) (p : Nat)
    (expectedStackPointer expectedThreadPointer : Nat) : Prop :=
  if getHeader x s p = x.GC_STACK_HEADER then expectedStackPointer = p
  else if getHeader x s p = x.GC_THREAD_HEADER then expectedThreadPointer = p
  else True

instance (x : Ext) (s : GC_state) (p a b : Nat) :
    Decidable (skipStackAndThreadObjptrPredicateAssertion x s p a b) := by
  unfold skipStackAndThreadObjptrPredicateAssertion
  split
  · infer_instance
  · split <;> infer_instance

/-- The state `sampleStateDead` with the suspended thread `1572936` of the
chunk of level 5 in the work-stealing deque: the running thread `3072` and its
stack `3200` are in the global heap, the deque field `2048` holds the objptr of
the suspended thread, whose `stack` field holds the stack `1572968`. -/
def sampleStateParked : GC_state :=
  { sampleStateDead with
    mem := fun a => if a = 2048 then 1572936 else sampleStateDead.mem a }

/-- No chunk header of the chunk table carries a level above `L`: every header
has the level `L` or a lower one, or no level (`CHUNK_INVALID_LEVEL`, a normal
chunk). -/
def NoLevelAbove (s : GC_state) (L : Nat) : Prop :=
  ∀ c, (s.chunkInfo c).level = CHUNK_INVALID_LEVEL ∨ (s.chunkInfo c).level ≤ L

/-- From `s` to `s'` no hierarchical heap changes its level, and a chunk header
keeps its level, loses it, or gets a level that is at most `B`. -/
def LevelStep (B : Nat) (s s' : GC_state) : Prop :=
  (∀ h, (s'.hhs h).level = (s.hhs h).level) ∧
  ∀ c, (s'.chunkInfo c).level = (s.chunkInfo c).level ∨
    (s'.chunkInfo c).level = CHUNK_INVALID_LEVEL ∨ (s'.chunkInfo c).level ≤ B

/-- The level list is well formed: a finite list of level heads, each with a
level of its own, in strictly descending order of level. -/
def LevelListDescending (s : GC_state) (levelList : Nat) : Prop :=
  match levelListHeads s (s.chunks.length + 1) levelList with
  | some R =>
    (R.map (fun k => (s.chunkInfo k).level)).Pairwise (fun a b => b < a) ∧
      ∀ k ∈ R, (s.chunkInfo k).level ≠ CHUNK_INVALID_LEVEL
  | none => False

instance (s : GC_state) (levelList : Nat) : Decidable (LevelListDescending s levelList) := by
  unfold LevelListDescending
  split <;> infer_instance

/-- The heap of `sampleStateFull` next to a chunk of a deeper level: the chunk
`2621440` is a level head of level 7 of the heap `8192` and holds a normal
object at `2621512`; the thread object `1572936` of the chunk of level 5 carries
a forwarding pointer to that object, and the work-stealing deque holds the
thread.  Two free chunks are left in the pool. -/
def sampleStateForwardedDeeper : GC_state :=
  { sampleStateFull with
    mem := fun a =>
      if a = 2048 then 1572936 else if a = 1572928 then 2621512
      else if a = 2621504 then 65 else sampleStateFull.mem a
    chunks := [1048576, 1572864, 2621440]
    chunkInfo := fun c =>
      if c = 2621440 then
        { frontier := 2621520, nextChunk := 0, level := 7, nextHead := 0, lastChunk := 2621440,
          containingHH := 8192, isInToSpace := false, toChunkList := 0, levelHead := 0,
          limit := 3145728 }
      else sampleStateFull.chunkInfo c
    pool := [(2097152, 2621440), (3145728, 3670016)] }

/-! # Theorems -/

/-! ## Skipped slots and entanglement -/

theorem computeObjectCopyParameters_error (x : Ext) (s : GC_state) (p : Nat) (e : Abort)
    (s1 : GC_state) (h : computeObjectCopyParameters x s p = .error (e, s1)) :
    (e = .hierarchicalHeapObject ∨ e = .weakObject) ∧ s1 = s := by
  unfold computeObjectCopyParameters at h
  simp only at h
  split_ifs at h <;> simp_all

theorem forwardTargetList_error (x : Ext) (s : GC_state) (args : ForwardHHObjptrArgs)
    (info : HM_ObjptrInfo) (n : Nat) (e : Abort) (s1 : GC_state)
    (h : forwardTargetList x s args info n = .error (e, s1)) :
    e = .stuck ∨ e = .outOfSpace := by
  unfold forwardTargetList at h
  simp only at h
  split_ifs at h
  split at h
  · simp_all
  · split_ifs at h
    simp_all

theorem copyObject_error (x : Ext) (s : GC_state) (p n k l : Nat) (e : Abort) (s1 : GC_state)
    (h : copyObject x s p n k l = .error (e, s1)) : e = .outOfSpace := by
  unfold copyObject at h
  simp only at h
  split at h
  · rename_i e1 he
    split_ifs at he
    simp_all
  · split_ifs at h
    simp_all

theorem forwardObject_error (x : Ext) (s : GC_state) (opp : Slot)
    (args : ForwardHHObjptrArgs) (p : Nat) (info : HM_ObjptrInfo) (e : Abort)
    (st : GC_state × ForwardHHObjptrArgs)
    (h : forwardObject x s opp args p info = .error (e, st)) : e ≠ .entanglement := by
  unfold forwardObject at h
  cases h1 : computeObjectCopyParameters x s p with
  | error r =>
    obtain ⟨e1, s1⟩ := r
    rw [h1] at h
    simp only [Except.error.injEq, Prod.mk.injEq] at h
    have := (computeObjectCopyParameters_error x s p e1 s1 h1).1
    rcases this with h2 | h2 <;> simp [← h.1, h2]
  | ok r =>
    obtain ⟨cp, s1⟩ := r
    rw [h1] at h
    simp only at h
    split at h
    · rename_i e1 hc
      split at hc <;> simp_all
      rw [← hc]; decide
    · rename_i args1 hc
      split at h
      · rename_i e2 s2 h2
        have := forwardTargetList_error x s1 args1 info _ e2 s2 h2
        simp only [Except.error.injEq, Prod.mk.injEq] at h
        rcases this with h3 | h3 <;> simp [← h.1, h3]
      · rename_i s2 l h2
        split at h
        · rename_i e3 s3 h3
          have := copyObject_error x s2 _ _ _ _ e3 s3 h3
          simp only [Except.error.injEq, Prod.mk.injEq] at h
          simp [← h.1, this]
        · simp at h

/-- C3.  A slot whose value is not an object pointer, or points into the global
heap, or points to a hierarchical-heap object at a level below `minLevel`, is
left alone: the run ends in the very state (memory with every slot and object
header, chunk headers and level lists, hierarchical heaps) and with the very
arguments (counters `bytesCopied`, `objectsCopied`, `stacksCopied`) it started
with, and it returns normally unless the level is also above `maxLevel`. -/
theorem forwardHHObjptr_skips_out_of_scope (x : Ext) (fuel : Nat) (s : GC_state) (opp : Slot)
    (args : ForwardHHObjptrArgs)
    (h : x.isObjptr (s.readSlot opp) = false ∨ x.isObjptrInGlobalHeap (s.readSlot opp) = true ∨
      ∃ info, HM_getObjptrInfo s (s.readSlot opp) = some info ∧ info.level < args.minLevel) :
    (forwardHHObjptr x fuel s opp args).final = (s, args) ∧
    ((∀ info, HM_getObjptrInfo s (s.readSlot opp) = some info → info.level ≤ args.maxLevel) →
      forwardHHObjptr x fuel s opp args = .ok (s, args)) := by
  unfold forwardHHObjptr
  simp only
  by_cases h1 : (!x.isObjptr (s.readSlot opp) || x.isObjptrInGlobalHeap (s.readSlot opp)) = true
  · simp [h1, ForwardResult.final]
  · rw [if_neg h1]
    simp only [Bool.or_eq_true, Bool.not_eq_true', not_or, Bool.not_eq_false,
      Bool.not_eq_true] at h1
    rcases h with h | h | ⟨info, hi, hl⟩
    · simp [h1.1] at h
    · simp [h1.2] at h
    · rw [hi]
      simp only
      by_cases h2 : args.maxLevel < info.level
      · simp only [h2, if_true, ForwardResult.final, true_and]
        intro h3
        have := h3 info rfl
        omega
      · simp [h2, hl, ForwardResult.final]

theorem forwardHHObjptr_skips_out_of_scope_witness :
    (sampleExt.isObjptr (sampleState.readSlot (.cell 528)) = false ∨
      sampleExt.isObjptrInGlobalHeap (sampleState.readSlot (.cell 528)) = true ∨
      ∃ info, HM_getObjptrInfo sampleState (sampleState.readSlot (.cell 528)) = some info ∧
        info.level < sampleArgs.minLevel) ∧
    (forwardHHObjptr sampleExt 5 sampleState (.cell 528) sampleArgs).final
      = (sampleState, sampleArgs) :=
  have h : sampleExt.isObjptr (sampleState.readSlot (.cell 528)) = false ∨
      sampleExt.isObjptrInGlobalHeap (sampleState.readSlot (.cell 528)) = true ∨
      ∃ info, HM_getObjptrInfo sampleState (sampleState.readSlot (.cell 528)) = some info ∧
        info.level < sampleArgs.minLevel :=
    Or.inr (Or.inr ⟨⟨4096, 1048576, 3⟩, by decide, by decide⟩)
  ⟨h, (forwardHHObjptr_skips_out_of_scope sampleExt 5 sampleState (.cell 528) sampleArgs h).1⟩

/-- C4.  A slot that holds an object pointer outside the global heap whose level
is above `maxLevel` makes `forwardHHObjptr` die with the entanglement error in
the state and with the arguments it was called with (no slot written, nothing
copied); and the run ends with the entanglement error only for such a slot,
never for a pointer whose level is at most `maxLevel`. -/
theorem forwardHHObjptr_entanglement (x : Ext) (fuel : Nat) (s : GC_state) (opp : Slot)
    (args : ForwardHHObjptrArgs) :
    (∀ info, x.isObjptr (s.readSlot opp) = true →
      x.isObjptrInGlobalHeap (s.readSlot opp) = false →
      HM_getObjptrInfo s (s.readSlot opp) = some info → args.maxLevel < info.level →
      forwardHHObjptr x fuel s opp args = .error (.entanglement, s, args)) ∧
    (∀ st, forwardHHObjptr x fuel s opp args = .error (.entanglement, st) →
      x.isObjptr (s.readSlot opp) = true ∧ x.isObjptrInGlobalHeap (s.readSlot opp) = false ∧
      ∃ info, HM_getObjptrInfo s (s.readSlot opp) = some info ∧ args.maxLevel < info.level) := by
  constructor
  · intro info h1 h2 hinfo h3
    unfold forwardHHObjptr
    simp [h1, h2, hinfo, h3]
  · intro st h
    unfold forwardHHObjptr at h
    simp only at h
    by_cases h1 : (!x.isObjptr (s.readSlot opp) || x.isObjptrInGlobalHeap (s.readSlot opp)) = true
    · rw [if_pos h1] at h; simp at h
    rw [if_neg h1] at h
    have h1' : x.isObjptr (s.readSlot opp) = true ∧
        x.isObjptrInGlobalHeap (s.readSlot opp) = false := by
      simpa using h1
    cases hinfo : HM_getObjptrInfo s (s.readSlot opp) with
    | none => rw [hinfo] at h; simp at h
    | some info =>
      rw [hinfo] at h
      simp only at h
      by_cases h3 : args.maxLevel < info.level
      · exact ⟨h1'.1, h1'.2, info, rfl, h3⟩
      rw [if_neg h3] at h
      exfalso
      split_ifs at h
      split at h
      · simp at h
      · split at h
        · simp at h
        · split_ifs at h
          exact forwardObject_error x s opp args _ _ _ st h rfl

theorem forwardHHObjptr_entanglement_witness :
    HM_getObjptrInfo sampleState (sampleState.readSlot (.cell 528)) = some ⟨4096, 1048576, 3⟩ ∧
    forwardHHObjptr sampleExt 5 sampleState (.cell 528) { sampleArgs with maxLevel := 2 }
      = .error (.entanglement, sampleState, { sampleArgs with maxLevel := 2 }) :=
  ⟨by decide,
   (forwardHHObjptr_entanglement sampleExt 5 sampleState (.cell 528)
      { sampleArgs with maxLevel := 2 }).1 ⟨4096, 1048576, 3⟩
      (by decide) (by decide) (by decide) (by decide)⟩

/-! ## Objects the copier refuses -/

theorem computeObjectCopyParameters_hh (x : Ext) (s : GC_state) (p : Nat)
    (h : getHeader x s p = x.GC_HIERARCHICAL_HEAP_HEADER) :
    computeObjectCopyParameters x s p = .error (.hierarchicalHeapObject, s) := by
  unfold computeObjectCopyParameters
  simp [h]

theorem computeObjectCopyParameters_weak (x : Ext) (s : GC_state) (p : Nat)
    (h : (x.splitHeader (getHeader x s p)).1 = .WEAK_TAG) :
    ∃ e, computeObjectCopyParameters x s p = .error (e, s) := by
  unfold computeObjectCopyParameters
  simp only [h]
  by_cases h1 : x.GC_HIERARCHICAL_HEAP_HEADER = getHeader x s p
  · exact ⟨.hierarchicalHeapObject, by simp [h1]⟩
  · exact ⟨.weakObject, by simp [h1]⟩

theorem computeObjectCopyParameters_returns (x : Ext) (s : GC_state) (p : Nat)
    (hh : getHeader x s p ≠ x.GC_HIERARCHICAL_HEAP_HEADER)
    (hw : (x.splitHeader (getHeader x s p)).1 ≠ .WEAK_TAG) :
    ∃ cp s1, computeObjectCopyParameters x s p = .ok (cp, s1) ∧
      cp.tag = (x.splitHeader (getHeader x s p)).1 := by
  unfold computeObjectCopyParameters
  simp only [if_neg (Ne.symm hh), hw, or_false, if_false]
  by_cases h1 : (x.splitHeader (getHeader x s p)).1 = .NORMAL_TAG
  · rw [if_pos h1]
    exact ⟨_, _, rfl, rfl⟩
  · rw [if_neg h1]
    by_cases h2 : (x.splitHeader (getHeader x s p)).1 = .ARRAY_TAG
    · rw [if_pos h2]
      exact ⟨_, _, rfl, rfl⟩
    · rw [if_neg h2]
      exact ⟨_, _, rfl, rfl⟩

theorem writeSlot_chunks (s : GC_state) (opp : Slot) (v : Nat) :
    (s.writeSlot opp v).chunks = s.chunks ∧ (s.writeSlot opp v).chunkInfo = s.chunkInfo ∧
    (s.writeSlot opp v).pool = s.pool := by
  cases opp <;> simp [GC_state.writeSlot, GC_state.writeMem, GC_state.setHH]

theorem forwardObject_refuses (x : Ext) (s : GC_state) (opp : Slot)
    (args : ForwardHHObjptrArgs) (p : Nat) (info : HM_ObjptrInfo)
    (h : getHeader x s p = x.GC_HIERARCHICAL_HEAP_HEADER ∨
      (x.splitHeader (getHeader x s p)).1 = .WEAK_TAG) :
    ∃ e, forwardObject x s opp args p info = .error (e, s, args) := by
  unfold forwardObject
  rcases h with h | h
  · rw [computeObjectCopyParameters_hh x s p h]
    exact ⟨_, rfl⟩
  · obtain ⟨e, he⟩ := computeObjectCopyParameters_weak x s p h
    rw [he]
    exact ⟨_, rfl⟩

/-- The ways a run of `forwardHHObjptr` can go. -/
theorem forwardHHObjptr_cases (x : Ext) (fuel : Nat) (s : GC_state) (opp : Slot)
    (args : ForwardHHObjptrArgs) :
    forwardHHObjptr x fuel s opp args = .ok (s, args) ∨
    forwardHHObjptr x fuel s opp args = .error (.stuck, s, args) ∨
    forwardHHObjptr x fuel s opp args = .error (.entanglement, s, args) ∨
    (∃ v, forwardHHObjptr x fuel s opp args = .ok (s.writeSlot opp v, args)) ∨
    (∃ p info,
      HM_followForwardPointerUntilNullOrBelowLevel x s args.minLevel fuel (s.readSlot opp)
        = some p ∧
      HM_getObjptrInfo s p = some info ∧ HM_isObjptrInToSpace s p = false ∧
      hasFwdPtr x s p = false ∧
      forwardHHObjptr x fuel s opp args = forwardObject x s opp args p info) := by
  unfold forwardHHObjptr
  simp only
  by_cases h1 : (!x.isObjptr (s.readSlot opp) || x.isObjptrInGlobalHeap (s.readSlot opp)) = true
  · simp [h1]
  rw [if_neg h1]
  cases h2 : HM_getObjptrInfo s (s.readSlot opp) with
  | none => simp
  | some opInfo =>
    simp only
    by_cases h3 : args.maxLevel < opInfo.level
    · simp [h3]
    rw [if_neg h3]
    by_cases h4 : args.maxLevel < opInfo.level ∨ opInfo.level < args.minLevel
    · simp [h4]
    rw [if_neg h4]
    cases h5 : HM_followForwardPointerUntilNullOrBelowLevel x s args.minLevel fuel
        (s.readSlot opp) with
    | none => simp
    | some p =>
      simp only
      cases h6 : HM_getObjptrInfo s p with
      | none => simp
      | some pInfo =>
        simp only
        by_cases h7 : HM_isObjptrInToSpace s p = true
        · rw [if_pos h7]
          exact Or.inr (Or.inr (Or.inr (Or.inl ⟨_, rfl⟩)))
        rw [if_neg h7]
        by_cases h8 : hasFwdPtr x s p = true
        · rw [if_pos h8]
          exact Or.inr (Or.inr (Or.inr (Or.inl ⟨_, rfl⟩)))
        rw [if_neg h8]
        refine Or.inr (Or.inr (Or.inr (Or.inr ⟨p, pInfo, rfl, h6, ?_, ?_, rfl⟩)))
        · simpa using h7
        · simpa using h8

/-- C9.  `computeObjectCopyParameters` dies for every object whose header is
the hierarchical-heap header and for every object whose tag is Weak, and returns
the tag decoded from the header, with the sizes, for every other object (tag
Normal, Array or Stack).  So `forwardHHObjptr` never copies a Weak or
hierarchical-heap object: when the object it resolved the slot to is one, the
run ends with the counters, the chunk headers, the chunks and the pool as they
were at the call. -/
theorem computeObjectCopyParameters_refuses_weak_and_hh (x : Ext) (s : GC_state) (p : Nat) :
    (getHeader x s p = x.GC_HIERARCHICAL_HEAP_HEADER →
      computeObjectCopyParameters x s p = .error (.hierarchicalHeapObject, s)) ∧
    ((x.splitHeader (getHeader x s p)).1 = .WEAK_TAG →
      ∃ e, computeObjectCopyParameters x s p = .error (e, s)) ∧
    (getHeader x s p ≠ x.GC_HIERARCHICAL_HEAP_HEADER →
      (x.splitHeader (getHeader x s p)).1 ≠ .WEAK_TAG →
      ∃ cp s1, computeObjectCopyParameters x s p = .ok (cp, s1) ∧
        cp.tag = (x.splitHeader (getHeader x s p)).1) ∧
    (getHeader x s p = x.GC_HIERARCHICAL_HEAP_HEADER ∨
        (x.splitHeader (getHeader x s p)).1 = .WEAK_TAG →
      ∀ (fuel : Nat) (opp : Slot) (args : ForwardHHObjptrArgs),
        HM_followForwardPointerUntilNullOrBelowLevel x s args.minLevel fuel (s.readSlot opp)
          = some p →
        (forwardHHObjptr x fuel s opp args).final.2 = args ∧
        (forwardHHObjptr x fuel s opp args).final.1.chunkInfo = s.chunkInfo ∧
        (forwardHHObjptr x fuel s opp args).final.1.chunks = s.chunks ∧
        (forwardHHObjptr x fuel s opp args).final.1.pool = s.pool) := by
  refine ⟨computeObjectCopyParameters_hh x s p, computeObjectCopyParameters_weak x s p,
    computeObjectCopyParameters_returns x s p, ?_⟩
  intro h fuel opp args hf
  rcases forwardHHObjptr_cases x fuel s opp args with
    h1 | h1 | h1 | ⟨v, h1⟩ | ⟨q, info, hq, _, _, _, h1⟩
  · simp [h1, ForwardResult.final]
  · simp [h1, ForwardResult.final]
  · simp [h1, ForwardResult.final]
  · simp [h1, ForwardResult.final, writeSlot_chunks]
  · rw [hf] at hq
    cases hq
    obtain ⟨e, he⟩ := forwardObject_refuses x s opp args p info h
    rw [h1, he]
    simp [ForwardResult.final]

theorem computeObjectCopyParameters_refuses_weak_and_hh_witness :
    getHeader sampleExt sampleState 1573088 = sampleExt.GC_HIERARCHICAL_HEAP_HEADER ∧
    computeObjectCopyParameters sampleExt sampleState 1573088
      = .error (.hierarchicalHeapObject, sampleState) ∧
    (sampleExt.splitHeader (getHeader sampleExt sampleState 1573072)).1 = .WEAK_TAG ∧
    (∃ e, computeObjectCopyParameters sampleExt sampleState 1573072 = .error (e, sampleState)) ∧
    getHeader sampleExt sampleState 1572968 ≠ sampleExt.GC_HIERARCHICAL_HEAP_HEADER ∧
    (sampleExt.splitHeader (getHeader sampleExt sampleState 1572968)).1 ≠ .WEAK_TAG ∧
    (∃ cp s1, computeObjectCopyParameters sampleExt sampleState 1572968 = .ok (cp, s1) ∧
      cp.tag = (sampleExt.splitHeader (getHeader sampleExt sampleState 1572968)).1) ∧
    HM_followForwardPointerUntilNullOrBelowLevel sampleExt sampleState sampleArgs.minLevel 5
      (sampleState.readSlot (.cell 552)) = some 1573072 ∧
    (forwardHHObjptr sampleExt 5 sampleState (.cell 552) sampleArgs).final.2 = sampleArgs :=
  ⟨by decide,
   (computeObjectCopyParameters_refuses_weak_and_hh sampleExt sampleState 1573088).1 (by decide),
   by decide,
   (computeObjectCopyParameters_refuses_weak_and_hh sampleExt sampleState 1573072).2.1
     (by decide),
   by decide, by decide,
   (computeObjectCopyParameters_refuses_weak_and_hh sampleExt sampleState 1572968).2.2.1
     (by decide) (by decide),
   by decide,
   ((computeObjectCopyParameters_refuses_weak_and_hh sampleExt sampleState 1573072).2.2.2
     (Or.inr (by decide)) 5 (.cell 552) sampleArgs (by decide)).1⟩


/-! ## Chunk pool and level heads -/

theorem find?_eq_some_of_unique {α : Type} (l : List α) (f : α → Bool) (c : α) (hc : c ∈ l)
    (hf : f c = true) (hu : ∀ d ∈ l, f d = true → d = c) : l.find? f = some c := by
  induction l with
  | nil => simp at hc
  | cons a t ih =>
    by_cases ha : f a = true
    · have := hu a (by simp) ha
      subst this
      simp [List.find?_cons, ha]
    · have hct : c ∈ t := by
        rcases List.mem_cons.mp hc with h | h
        · exact absurd (h ▸ hf) ha
        · exact h
      have := ih hct (fun d hd => hu d (List.mem_cons_of_mem _ hd))
      simp [List.find?_cons, ha, this]

theorem ChunkPool_find_eq (x : Ext) (s : GC_state) (hs : ChunkPoolOK x s) (c a : Nat)
    (hc : c ∈ s.chunks) (h1 : c ≤ a) (h2 : a < (s.chunkInfo c).limit) :
    ChunkPool_find s a = c := by
  unfold ChunkPool_find
  rw [find?_eq_some_of_unique s.chunks _ c hc (by simp [h1, h2])]
  · rfl
  · intro d hd hdp
    simp only [decide_eq_true_eq] at hdp
    exact hs.2.1 d hd c hc (by omega) (by omega)

theorem ChunkPool_find_mem (s : GC_state) (a : Nat) (h : ChunkPool_find s a ≠ 0) :
    ChunkPool_find s a ∈ s.chunks ∧ ChunkPool_find s a ≤ a ∧
      a < (s.chunkInfo (ChunkPool_find s a)).limit := by
  unfold ChunkPool_find at h ⊢
  cases hf : s.chunks.find? (fun c => decide (c ≤ a ∧ a < (s.chunkInfo c).limit)) with
  | none => rw [hf] at h; simp at h
  | some c =>
    have h1 := List.mem_of_find?_eq_some hf
    have h2 := List.find?_some hf
    simp only [decide_eq_true_eq] at h2
    simpa using ⟨h1, h2⟩

theorem getLevelHead_some (s : GC_state) (fuel c h : Nat) (hg : getLevelHead s fuel c = some h) :
    h ∈ s.chunks ∧ (s.chunkInfo h).level ≠ CHUNK_INVALID_LEVEL := by
  induction fuel generalizing c with
  | zero => simp [getLevelHead] at hg
  | succ n ih =>
    unfold getLevelHead at hg
    split_ifs at hg with h1 h2
    · cases hg
      exact ⟨by simpa using h1, h2⟩
    · exact ih _ hg

theorem CoreExtends.extends_refl (s : GC_state) : CoreExtends s s :=
  ⟨⟨[], by simp⟩, fun _ _ => ⟨rfl, rfl, rfl, rfl⟩⟩

theorem CoreExtends.mem {s s' : GC_state} (h : CoreExtends s s') (c : Nat) (hc : c ∈ s.chunks) :
    c ∈ s'.chunks := by
  obtain ⟨l, hl⟩ := h.1
  rw [hl]
  exact List.mem_append_left _ hc

theorem CoreExtends.length {s s' : GC_state} (h : CoreExtends s s') :
    ∃ k, s'.chunks.length = s.chunks.length + k := by
  obtain ⟨l, hl⟩ := h.1
  exact ⟨l.length, by rw [hl, List.length_append]⟩

theorem CoreExtends.extends_trans {s1 s2 s3 : GC_state} (h12 : CoreExtends s1 s2)
    (h23 : CoreExtends s2 s3) : CoreExtends s1 s3 := by
  refine ⟨?_, fun c hc => ?_⟩
  · obtain ⟨l1, hl1⟩ := h12.1
    obtain ⟨l2, hl2⟩ := h23.1
    exact ⟨l1 ++ l2, by rw [hl2, hl1, List.append_assoc]⟩
  have a := h12.2 c hc
  have b := h23.2 c (h12.mem c hc)
  exact ⟨b.1.trans a.1, b.2.1.trans a.2.1, b.2.2.1.trans a.2.2.1, b.2.2.2.trans a.2.2.2⟩

theorem getLevelHead_extends (s s' : GC_state) (he : CoreExtends s s') (fuel k c h : Nat)
    (hg : getLevelHead s fuel c = some h) : getLevelHead s' (fuel + k) c = some h := by
  induction fuel generalizing c with
  | zero => simp [getLevelHead] at hg
  | succ n ih =>
    unfold getLevelHead at hg
    rw [show n + 1 + k = (n + k) + 1 by omega]
    unfold getLevelHead
    by_cases h1 : c ∈ s.chunks
    · have e := he.2 c h1
      simp only [h1, not_true_eq_false, if_false] at hg
      simp only [he.mem c h1, not_true_eq_false, if_false, e.2.1, e.2.2.1]
      by_cases h2 : (s.chunkInfo c).level ≠ CHUNK_INVALID_LEVEL
      · simpa [h2] using hg
      · simp only [h2, if_false] at hg ⊢
        exact ih _ hg
    · simp [h1] at hg

theorem ChunkPoolOK_congr (x : Ext) (s s' : GC_state) (hs : ChunkPoolOK x s)
    (hch : s'.chunks = s.chunks) (hpool : s'.pool = s.pool)
    (hl : ∀ d, (s'.chunkInfo d).limit = (s.chunkInfo d).limit) : ChunkPoolOK x s' := by
  unfold ChunkPoolOK at hs ⊢
  simp only [hch, hpool, hl]
  exact hs

theorem ChunkPoolOK_alloc (x : Ext) (s s' : GC_state) (c e : Nat) (hs : ChunkPoolOK x s)
    (hq : (c, e) ∈ s.pool) (hch : s'.chunks = s.chunks ++ [c])
    (hpool : s'.pool = s.pool.erase (c, e)) (hl : (s'.chunkInfo c).limit = e)
    (hd : ∀ d, d ≠ c → (s'.chunkInfo d).limit = (s.chunkInfo d).limit) :
    ChunkPoolOK x s' ∧ c ∉ s.chunks := by
  obtain ⟨h1, h2, h3, h4, h5, h6⟩ := hs
  have hq3 := h3 _ hq
  simp only at hq3
  have hfresh : c ∉ s.chunks := by
    intro hc
    have a := h1 c hc
    have b := h4 _ hq c hc
    simp only at b
    omega
  have hne : ∀ d ∈ s.chunks, d ≠ c := fun d hd he => hfresh (he ▸ hd)
  have hmem : ∀ q ∈ s'.pool, q ∈ s.pool ∧ q ≠ (c, e) := by
    intro q hq'
    rw [hpool] at hq'
    exact ⟨List.mem_of_mem_erase hq', fun he => by
      rw [he] at hq'
      exact (List.Nodup.not_mem_erase h6) hq'⟩
  refine ⟨⟨?_, ?_, ?_, ?_, ?_, ?_⟩, hfresh⟩
  · intro d hd'
    rw [hch] at hd'
    rcases List.mem_append.mp hd' with hd' | hd'
    · rw [hd d (hne d hd')]
      exact h1 d hd'
    · simp only [List.mem_singleton] at hd'
      subst hd'
      rw [hl]
      omega
  · intro a ha b hb hab hba
    rw [hch] at ha hb
    rcases List.mem_append.mp ha with ha1 | ha1 <;> rcases List.mem_append.mp hb with hb1 | hb1
    · rw [hd b (hne b hb1)] at hab
      rw [hd a (hne a ha1)] at hba
      exact h2 a ha1 b hb1 hab hba
    · simp only [List.mem_singleton] at hb1
      subst hb1
      rw [hl] at hab
      rw [hd a (hne a ha1)] at hba
      have := h4 _ hq a ha1
      simp only at this
      omega
    · simp only [List.mem_singleton] at ha1
      subst ha1
      rw [hl] at hba
      rw [hd b (hne b hb1)] at hab
      have := h4 _ hq b hb1
      simp only at this
      omega
    · simp only [List.mem_singleton] at ha1 hb1
      rw [ha1, hb1]
  · intro q hq'
    exact h3 q (hmem q hq').1
  · intro q hq' d hd'
    rw [hch] at hd'
    rcases List.mem_append.mp hd' with hd' | hd'
    · rw [hd d (hne d hd')]
      exact h4 q (hmem q hq').1 d hd'
    · simp only [List.mem_singleton] at hd'
      subst hd'
      rw [hl]
      by_contra hcon
      have := h5 q (hmem q hq').1 _ hq (by simp only; omega) (by simp only; omega)
      exact (hmem q hq').2 this
  · intro q hq' r hr'
    exact h5 q (hmem q hq').1 r (hmem r hr').1
  · rw [hpool]
    exact h6.erase _

theorem getObjptrInfo_of_placed (x : Ext) (s : GC_state) (hs : ChunkPoolOK x s) (t L r n : Nat)
    (hp : CopyPlaced s t L r n) (hL : L ≠ CHUNK_INVALID_LEVEL) (a : Nat) (h1 : r ≤ a)
    (h2 : a < r + n) : HM_getObjptrInfo s a = some ⟨COPY_OBJECT_HH_VALUE, t, L⟩ := by
  obtain ⟨c, hc, hcr, hrl, ht, hlev, hhh, hct⟩ := hp
  have hfind := ChunkPool_find_eq x s hs c a hc (by omega) (by omega)
  have hc0 := (hs.1 c hc).1
  have hlen : s.chunks.length = (s.chunks.length - 1) + 1 := by
    have := List.length_pos_of_mem hc
    omega
  unfold HM_getObjptrInfo
  simp only [hfind]
  rw [if_neg (by omega)]
  have hg : getLevelHead s (s.chunks.length + 1) c = some t := by
    rcases hct with hct | ⟨hci, hch⟩
    · subst hct
      unfold getLevelHead
      simp [hc, hlev, hL]
    · unfold getLevelHead
      simp only [hc, not_true_eq_false, if_false, hci, ne_eq, hch]
      rw [hlen]
      unfold getLevelHead
      simp [ht, hlev, hL]
  rw [hg]
  simp [hlev, hhh]

theorem setChunkInfo_same (s : GC_state) (c : Nat) (i : HM_ChunkInfo) :
    (s.setChunkInfo c i).chunkInfo c = i := by
  simp [GC_state.setChunkInfo]

theorem setChunkInfo_ne (s : GC_state) (c d : Nat) (i : HM_ChunkInfo) (h : d ≠ c) :
    (s.setChunkInfo c i).chunkInfo d = s.chunkInfo d := by
  simp [GC_state.setChunkInfo, h]

theorem setChunkInfo_field {α : Type} (f : HM_ChunkInfo → α) (s : GC_state) (c d : Nat)
    (i : HM_ChunkInfo) (hf : f i = f (s.chunkInfo c)) :
    f ((s.setChunkInfo c i).chunkInfo d) = f (s.chunkInfo d) := by
  by_cases h : d = c
  · subst h
    rw [setChunkInfo_same]
    exact hf
  · rw [setChunkInfo_ne _ _ _ _ h]

theorem ChunkPool_allocate_some (x : Ext) (s s1 : GC_state) (n c e : Nat)
    (h : ChunkPool_allocate x s n = some (c, e, s1)) :
    (c, e) ∈ s.pool ∧ c + x.chunkStartOffset + n ≤ e ∧
      s1 = { s with pool := s.pool.erase (c, e), chunks := s.chunks ++ [c] } := by
  unfold ChunkPool_allocate at h
  split at h
  · simp at h
  · rename_i q hq
    have h1 := List.mem_of_find?_eq_some hq
    have h2 := List.find?_some hq
    simp only [decide_eq_true_eq] at h2
    simp only [Option.some.injEq, Prod.mk.injEq] at h
    obtain ⟨rfl, rfl, rfl⟩ := h
    exact ⟨h1, h2, rfl⟩

/-- What a successful `HM_allocateChunk` does. -/
theorem HM_allocateChunk_spec (x : Ext) (s s' : GC_state) (t n c : Nat)
    (h : HM_allocateChunk x s t n = (s', c)) (hc : c ≠ 0) :
    ∃ e, (c, e) ∈ s.pool ∧ c + x.chunkStartOffset + n ≤ e ∧
      s'.chunks = s.chunks ++ [c] ∧ s'.pool = s.pool.erase (c, e) ∧ s'.mem = s.mem ∧
      s'.hhs = s.hhs ∧ s'.currentThread = s.currentThread ∧
      s'.chunkInfo c =
        { frontier := HM_getChunkStart x c, nextChunk := 0, level := CHUNK_INVALID_LEVEL,
          nextHead := 0, lastChunk := 0, containingHH := 0, isInToSpace := false,
          toChunkList := 0, levelHead := t, limit := e } ∧
      ∀ d, d ≠ c → (s'.chunkInfo d).frontier = (s.chunkInfo d).frontier ∧
        (s'.chunkInfo d).level = (s.chunkInfo d).level ∧
        (s'.chunkInfo d).levelHead = (s.chunkInfo d).levelHead ∧
        (s'.chunkInfo d).containingHH = (s.chunkInfo d).containingHH ∧
        (s'.chunkInfo d).limit = (s.chunkInfo d).limit := by
  unfold HM_allocateChunk at h
  cases ha : ChunkPool_allocate x s n with
  | none =>
    rw [ha] at h
    simp only [Prod.mk.injEq] at h
    exact absurd h.2.symm hc
  | some r =>
    obtain ⟨c1, e, s1⟩ := r
    rw [ha] at h
    simp only [Prod.mk.injEq] at h
    obtain ⟨hs', rfl⟩ := h
    obtain ⟨hq, hsz, hs1⟩ := ChunkPool_allocate_some x s s1 n c1 e ha
    have e1 : s1.chunkInfo = s.chunkInfo := by rw [hs1]
    have e2 : s1.chunks = s.chunks ++ [c1] := by rw [hs1]
    have e3 : s1.pool = s.pool.erase (c1, e) := by rw [hs1]
    have e4 : s1.mem = s.mem := by rw [hs1]
    have e5 : s1.hhs = s.hhs := by rw [hs1]
    have e6 : s1.currentThread = s.currentThread := by rw [hs1]
    subst hs'
    refine ⟨e, hq, hsz, e2, e3, e4, e5, e6, setChunkInfo_same _ _ _, ?_⟩
    intro d hd
    rw [setChunkInfo_ne _ _ _ _ hd]
    have k : ∀ {α : Type} (f : HM_ChunkInfo → α),
        (∀ (i : HM_ChunkInfo) (v : Nat), f { i with nextChunk := v } = f i) →
        (∀ (i : HM_ChunkInfo) (v : Nat), f { i with lastChunk := v } = f i) →
        f (((s1.setChunkInfo (s1.chunkInfo t).lastChunk
            { s1.chunkInfo (s1.chunkInfo t).lastChunk with nextChunk := c1 }).setChunkInfo t
            { (s1.setChunkInfo (s1.chunkInfo t).lastChunk
                { s1.chunkInfo (s1.chunkInfo t).lastChunk with nextChunk := c1 }).chunkInfo t with
              lastChunk := c1 }).chunkInfo d) = f (s.chunkInfo d) := by
      intro α f h1 h2
      rw [← e1]
      exact (setChunkInfo_field f _ _ _ _ (h2 _ _)).trans
        (setChunkInfo_field f _ _ _ _ (h1 _ _))
    exact ⟨k (·.frontier) (fun _ _ => rfl) (fun _ _ => rfl),
      k (·.level) (fun _ _ => rfl) (fun _ _ => rfl),
      k (·.levelHead) (fun _ _ => rfl) (fun _ _ => rfl),
      k (·.containingHH) (fun _ _ => rfl) (fun _ _ => rfl),
      k (·.limit) (fun _ _ => rfl) (fun _ _ => rfl)⟩

theorem HM_allocateChunk_ok (x : Ext) (s s' : GC_state) (t n c : Nat) (hs : ChunkPoolOK x s)
    (h : HM_allocateChunk x s t n = (s', c)) (hc : c ≠ 0) :
    ChunkPoolOK x s' ∧ c ∉ s.chunks ∧ CoreExtends s s' := by
  obtain ⟨e, hq, _, hch, hpool, _, _, _, hinfo, hd⟩ := HM_allocateChunk_spec x s s' t n c h hc
  have h1 := ChunkPoolOK_alloc x s s' c e hs hq hch hpool (by rw [hinfo])
    (fun d hd' => (hd d hd').2.2.2.2)
  refine ⟨h1.1, h1.2, ⟨[c], hch⟩, ?_⟩
  · intro d hd'
    have hne : d ≠ c := fun he => h1.2 (he ▸ hd')
    have := hd d hne
    exact ⟨this.2.2.2.2, this.2.1, this.2.2.1, this.2.2.2.1⟩

theorem CoreExtends_of_eq (s s' : GC_state) (hch : s'.chunks = s.chunks)
    (h : ∀ c, (s'.chunkInfo c).limit = (s.chunkInfo c).limit ∧
      (s'.chunkInfo c).level = (s.chunkInfo c).level ∧
      (s'.chunkInfo c).levelHead = (s.chunkInfo c).levelHead ∧
      (s'.chunkInfo c).containingHH = (s.chunkInfo c).containingHH) : CoreExtends s s' :=
  ⟨⟨[], by simp [hch]⟩, fun c _ => h c⟩

theorem CopyPlaced_extends (s s' : GC_state) (t L r n : Nat) (he : CoreExtends s s')
    (hp : CopyPlaced s t L r n) : CopyPlaced s' t L r n := by
  obtain ⟨c, hc, hcr, hrl, ht, hlev, hhh, hct⟩ := hp
  have ec := he.2 c hc
  have et := he.2 t ht
  refine ⟨c, he.mem c hc, hcr, by rw [ec.1]; exact hrl, he.mem t ht, by rw [et.2.1]; exact hlev,
    by rw [et.2.2.2]; exact hhh, ?_⟩
  rcases hct with h | h
  · exact Or.inl h
  · exact Or.inr ⟨by rw [ec.2.1]; exact h.1, by rw [ec.2.2.1]; exact h.2⟩

theorem HM_updateChunkValues_extends (s : GC_state) (c f : Nat) :
    CoreExtends s (HM_updateChunkValues s c f) := by
  apply CoreExtends_of_eq
  · rfl
  · intro d
    unfold HM_updateChunkValues
    exact ⟨setChunkInfo_field (·.limit) _ _ _ _ rfl, setChunkInfo_field (·.level) _ _ _ _ rfl,
      setChunkInfo_field (·.levelHead) _ _ _ _ rfl,
      setChunkInfo_field (·.containingHH) _ _ _ _ rfl⟩

theorem HM_updateChunkValues_ok (x : Ext) (s : GC_state) (c f : Nat) (hs : ChunkPoolOK x s) :
    ChunkPoolOK x (HM_updateChunkValues s c f) :=
  ChunkPoolOK_congr x s _ hs rfl rfl
    (fun _ => by
      unfold HM_updateChunkValues
      exact setChunkInfo_field (·.limit) _ _ _ _ rfl)

theorem sizeDiff_eq (a b : Nat) (hb : b ≤ a) (ha : a < 2 ^ 64) : sizeDiff a b = a - b := by
  unfold sizeDiff
  have : a + 2 ^ 64 - b = (a - b) + 2 ^ 64 := by omega
  rw [this, Nat.add_mod_right, Nat.mod_eq_of_lt (by omega)]

theorem copyObject_eq (x : Ext) (s : GC_state) (p n k t : Nat) :
    copyObject x s p n k t =
      match copyObjectTarget x s n t with
      | .error e => .error e
      | .ok (s1, chunk1, frontier1) =>
        if alignDown (frontier1 + n) (512 * 1024) ≠ chunk1 then
          if (HM_allocateChunk x (GC_memcpy s1 p frontier1 k) t 42).2 = 0 then
            .error (.outOfSpace, (HM_allocateChunk x (GC_memcpy s1 p frontier1 k) t 42).1)
          else .ok (frontier1,
            HM_updateChunkValues (HM_allocateChunk x (GC_memcpy s1 p frontier1 k) t 42).1
              (HM_allocateChunk x (GC_memcpy s1 p frontier1 k) t 42).2
              (HM_getChunkFrontier (HM_allocateChunk x (GC_memcpy s1 p frontier1 k) t 42).1
                (HM_allocateChunk x (GC_memcpy s1 p frontier1 k) t 42).2))
        else .ok (frontier1, HM_updateChunkValues (GC_memcpy s1 p frontier1 k) chunk1
          (frontier1 + n)) := by
  unfold copyObject copyObjectTarget
  rfl

/-- The chunk `c` holds the bytes `[r, r + n)` and belongs to the list of the
to-space head `t` of level `L`. -/
theorem copyObjectTarget_spec (x : Ext) (s : GC_state) (hs : ChunkPoolOK x s) (t L n : Nat)
    (ht : ToSpaceListOK s t L) (s1 : GC_state) (c r : Nat)
    (h : copyObjectTarget x s n t = .ok (s1, c, r)) :
    ChunkPoolOK x s1 ∧ CoreExtends s s1 ∧ s1.mem = s.mem ∧ s1.hhs = s.hhs ∧
    s1.currentThread = s.currentThread ∧
    c ∈ s1.chunks ∧ c ≤ r ∧ r + n ≤ (s1.chunkInfo c).limit ∧ t ∈ s1.chunks ∧
    (c = t ∨ ((s1.chunkInfo c).level = CHUNK_INVALID_LEVEL ∧ (s1.chunkInfo c).levelHead = t)) ∧
    r % 2 = 0 ∧ (∀ a, r ≤ a → a < r + n → InFreeSpace s a) := by
  obtain ⟨ht1, ht2, ht3, ht4, ht5, ht6, ht7, ht8⟩ := ht
  have ht0 : t ≠ 0 := by have := (hs.1 t ht1).1; omega
  have hlast : HM_getChunkListLastChunk s t = (s.chunkInfo t).lastChunk := by
    simp [HM_getChunkListLastChunk, ht0]
  unfold copyObjectTarget at h
  rw [hlast] at h
  simp only [HM_getChunkLimit, HM_getChunkFrontier] at h
  have hlim := (hs.1 _ ht4).2.2
  rw [sizeDiff_eq _ _ ht7 hlim] at h
  split_ifs at h with h1 h2
  · -- a fresh chunk
    simp only [Except.ok.injEq, Prod.mk.injEq] at h
    obtain ⟨hs1, hc, hr⟩ := h
    have hal : HM_allocateChunk x s t n = (s1, c) := by
      rw [← hs1, ← hc]
    obtain ⟨e, hq, hsz, hch, hpool, hmem, hhhs, hct, hinfo, hd⟩ :=
      HM_allocateChunk_spec x s s1 t n c hal (by rw [← hc]; exact h2)
    obtain ⟨hok, hfresh, hext⟩ := HM_allocateChunk_ok x s s1 t n c hs hal (by rw [← hc]; exact h2)
    have hq3 := hs.2.2.1 _ hq
    simp only at hq3
    have hr' : r = c + x.chunkStartOffset := by
      rw [← hr, hs1, hc, hinfo]
      rfl
    refine ⟨hok, hext, hmem, hhhs, hct, ?_, ?_, ?_, hext.mem t ht1, ?_, ?_, ?_⟩
    · rw [hch]; simp
    · omega
    · rw [hinfo]; simp only; omega
    · right
      rw [hinfo]
      exact ⟨rfl, rfl⟩
    · rw [hr']; exact hq3.2.2.2
    · intro a ha1 ha2
      exact Or.inr ⟨(c, e), hq, by simp only; omega, by simp only; omega⟩
  · -- room in the last chunk
    simp only [Except.ok.injEq, Prod.mk.injEq] at h
    obtain ⟨rfl, rfl, rfl⟩ := h
    refine ⟨hs, CoreExtends.extends_refl _, rfl, rfl, rfl, ht4, ht6, by omega, ht1, ?_, ht8, ?_⟩
    · rcases ht5 with h5 | h5
      · exact Or.inl h5
      · exact Or.inr h5
    · intro a ha1 ha2
      exact Or.inl ⟨_, ht4, ha1, by omega⟩

theorem GC_memcpy_ok (x : Ext) (s : GC_state) (a b k : Nat) (hs : ChunkPoolOK x s) :
    ChunkPoolOK x (GC_memcpy s a b k) :=
  ChunkPoolOK_congr x s _ hs rfl rfl (fun _ => rfl)

theorem GC_memcpy_extends (s : GC_state) (a b k : Nat) : CoreExtends s (GC_memcpy s a b k) :=
  CoreExtends_of_eq _ _ rfl (fun _ => ⟨rfl, rfl, rfl, rfl⟩)

/-- What a returning `copyObject` into a to-space list does. -/
theorem copyObject_spec (x : Ext) (s : GC_state) (hs : ChunkPoolOK x s) (t L src n k : Nat)
    (ht : ToSpaceListOK s t L) (r : Nat) (s' : GC_state)
    (h : copyObject x s src n k t = .ok (r, s')) :
    ChunkPoolOK x s' ∧ CoreExtends s s' ∧ CopyPlaced s' t L r n ∧
    s'.mem = (fun a => if r ≤ a ∧ a < r + k then s.mem (src + (a - r)) else s.mem a) ∧
    s'.hhs = s.hhs ∧ s'.currentThread = s.currentThread ∧
    r % 2 = 0 ∧ (∀ a, r ≤ a → a < r + n → InFreeSpace s a) := by
  rw [copyObject_eq] at h
  cases htg : copyObjectTarget x s n t with
  | error e => rw [htg] at h; simp at h
  | ok res =>
    obtain ⟨s1, c, r1⟩ := res
    rw [htg] at h
    simp only at h
    obtain ⟨hok1, hext1, hmem1, hhhs1, hct1, hc, hcr, hrl, ht1, hcc, hev, hfree⟩ :=
      copyObjectTarget_spec x s hs t L n ht s1 c r1 htg
    have hplaced1 : CopyPlaced s1 t L r1 n :=
      ⟨c, hc, hcr, hrl, ht1, by rw [(hext1.2 t ht.1).2.1]; exact ht.2.1,
        by rw [(hext1.2 t ht.1).2.2.2]; exact ht.2.2.1, hcc⟩
    have hmemcpy : (GC_memcpy s1 src r1 k).mem
        = (fun a => if r1 ≤ a ∧ a < r1 + k then s.mem (src + (a - r1)) else s.mem a) := by
      simp only [GC_memcpy, hmem1]
    split_ifs at h with h1 h2
    · simp only [Except.ok.injEq, Prod.mk.injEq] at h
      obtain ⟨rfl, rfl⟩ := h
      have hal : HM_allocateChunk x (GC_memcpy s1 src r1 k) t 42
          = ((HM_allocateChunk x (GC_memcpy s1 src r1 k) t 42).1,
             (HM_allocateChunk x (GC_memcpy s1 src r1 k) t 42).2) := rfl
      obtain ⟨e, _, _, _, _, hmem3, hhhs3, hct3, _, _⟩ :=
        HM_allocateChunk_spec x _ _ t 42 _ hal h2
      obtain ⟨hok3, _, hext3⟩ :=
        HM_allocateChunk_ok x _ _ t 42 _ (GC_memcpy_ok x s1 src r1 k hok1) hal h2
      have hext : CoreExtends s1 (HM_updateChunkValues
          (HM_allocateChunk x (GC_memcpy s1 src r1 k) t 42).1
          (HM_allocateChunk x (GC_memcpy s1 src r1 k) t 42).2
          (HM_getChunkFrontier (HM_allocateChunk x (GC_memcpy s1 src r1 k) t 42).1
            (HM_allocateChunk x (GC_memcpy s1 src r1 k) t 42).2)) :=
        ((GC_memcpy_extends s1 src r1 k).extends_trans hext3).extends_trans (HM_updateChunkValues_extends _ _ _)
      refine ⟨HM_updateChunkValues_ok x _ _ _ hok3, hext1.extends_trans hext,
        CopyPlaced_extends _ _ _ _ _ _ hext hplaced1, ?_, ?_, ?_, hev, hfree⟩
      · show (HM_allocateChunk x (GC_memcpy s1 src r1 k) t 42).1.mem = _
        rw [hmem3, hmemcpy]
      · show (HM_allocateChunk x (GC_memcpy s1 src r1 k) t 42).1.hhs = _
        rw [hhhs3]
        exact hhhs1
      · show (HM_allocateChunk x (GC_memcpy s1 src r1 k) t 42).1.currentThread = _
        rw [hct3]
        exact hct1
    · simp only [Except.ok.injEq, Prod.mk.injEq] at h
      obtain ⟨rfl, rfl⟩ := h
      have hext : CoreExtends s1 (HM_updateChunkValues (GC_memcpy s1 src r1 k) c (r1 + n)) :=
        (GC_memcpy_extends s1 src r1 k).extends_trans (HM_updateChunkValues_extends _ _ _)
      exact ⟨HM_updateChunkValues_ok x _ _ _ (GC_memcpy_ok x s1 src r1 k hok1),
        hext1.extends_trans hext, CopyPlaced_extends _ _ _ _ _ _ hext hplaced1, hmemcpy, hhhs1, hct1,
        hev, hfree⟩

/-- What a successful `HM_allocateLevelHeadChunk` does. -/
theorem HM_allocateLevelHeadChunk_spec (x : Ext) (s s' : GC_state) (l n L hh newList c : Nat)
    (h : HM_allocateLevelHeadChunk x s l n L hh = some (s', newList, c)) (hc : c ≠ 0) :
    ∃ e, (c, e) ∈ s.pool ∧ c + x.chunkStartOffset + n ≤ e ∧
      s'.chunks = s.chunks ++ [c] ∧ s'.pool = s.pool.erase (c, e) ∧ s'.mem = s.mem ∧
      s'.hhs = s.hhs ∧ s'.currentThread = s.currentThread ∧
      (s'.chunkInfo c).frontier = HM_getChunkStart x c ∧ (s'.chunkInfo c).level = L ∧
      (s'.chunkInfo c).lastChunk = c ∧ (s'.chunkInfo c).containingHH = hh ∧
      (s'.chunkInfo c).limit = e ∧
      ∀ d, d ≠ c → (s'.chunkInfo d).frontier = (s.chunkInfo d).frontier ∧
        (s'.chunkInfo d).level = (s.chunkInfo d).level ∧
        (s'.chunkInfo d).levelHead = (s.chunkInfo d).levelHead ∧
        (s'.chunkInfo d).containingHH = (s.chunkInfo d).containingHH ∧
        (s'.chunkInfo d).limit = (s.chunkInfo d).limit := by
  unfold HM_allocateLevelHeadChunk at h
  cases ha : ChunkPool_allocate x s n with
  | none =>
    rw [ha] at h
    simp only [Option.some.injEq, Prod.mk.injEq] at h
    exact absurd h.2.2.symm hc
  | some r =>
    obtain ⟨c1, e, s1⟩ := r
    rw [ha] at h
    simp only at h
    obtain ⟨hq, hsz, hs1⟩ := ChunkPool_allocate_some x s s1 n c1 e ha
    have e1 : s1.chunkInfo = s.chunkInfo := by rw [hs1]
    have e2 : s1.chunks = s.chunks ++ [c1] := by rw [hs1]
    have e3 : s1.pool = s.pool.erase (c1, e) := by rw [hs1]
    have e4 : s1.mem = s.mem := by rw [hs1]
    have e5 : s1.hhs = s.hhs := by rw [hs1]
    have e6 : s1.currentThread = s.currentThread := by rw [hs1]
    cases hpos : findLevelPosition s1 L (s1.chunks.length + 1) 0 l with
    | none => rw [hpos] at h; simp at h
    | some pn =>
      obtain ⟨prev, next⟩ := pn
      rw [hpos] at h
      simp only [Option.some.injEq, Prod.mk.injEq] at h
      obtain ⟨hs', _, rfl⟩ := h
      subst hs'
      refine ⟨e, hq, hsz, ?_, ?_, ?_, ?_, ?_, ?_, ?_, ?_, ?_, ?_, ?_⟩
      · show (if prev = 0 then s1 else _).chunks = _
        split_ifs <;> exact e2
      · show (if prev = 0 then s1 else _).pool = _
        split_ifs <;> exact e3
      · show (if prev = 0 then s1 else _).mem = _
        split_ifs <;> exact e4
      · show (if prev = 0 then s1 else _).hhs = _
        split_ifs <;> exact e5
      · show (if prev = 0 then s1 else _).currentThread = _
        split_ifs <;> exact e6
      · rw [setChunkInfo_same]
      · rw [setChunkInfo_same]
      · rw [setChunkInfo_same]
      · rw [setChunkInfo_same]
      · rw [setChunkInfo_same]
      · intro d hd
        rw [setChunkInfo_ne _ _ _ _ hd, ← e1]
        split_ifs
        · exact ⟨rfl, rfl, rfl, rfl, rfl⟩
        · exact ⟨setChunkInfo_field (·.frontier) _ _ _ _ rfl,
            setChunkInfo_field (·.level) _ _ _ _ rfl,
            setChunkInfo_field (·.levelHead) _ _ _ _ rfl,
            setChunkInfo_field (·.containingHH) _ _ _ _ rfl,
            setChunkInfo_field (·.limit) _ _ _ _ rfl⟩

theorem InFreeSpace_alloc (x : Ext) (s s' : GC_state) (c e : Nat)
    (hq : (c, e) ∈ s.pool) (hch : s'.chunks = s.chunks ++ [c])
    (hpool : s'.pool = s.pool.erase (c, e)) (hl : (s'.chunkInfo c).limit = e)
    (hf : c ≤ (s'.chunkInfo c).frontier)
    (hd : ∀ d, d ≠ c → (s'.chunkInfo d).frontier = (s.chunkInfo d).frontier ∧
      (s'.chunkInfo d).limit = (s.chunkInfo d).limit) (a : Nat)
    (ha : InFreeSpace s' a) : InFreeSpace s a := by
  have _ := x
  rcases ha with ⟨d, hd1, hd2, hd3⟩ | ⟨q, hq1, hq2⟩
  · by_cases hdc : d = c
    · subst hdc
      exact Or.inr ⟨(d, e), hq, by simp only; omega, by simp only; omega⟩
    · rw [hch] at hd1
      have hd1' : d ∈ s.chunks := by
        rcases List.mem_append.mp hd1 with h | h
        · exact h
        · exact absurd (List.mem_singleton.mp h) hdc
      rw [(hd d hdc).1] at hd2
      rw [(hd d hdc).2] at hd3
      exact Or.inl ⟨d, hd1', hd2, hd3⟩
  · rw [hpool] at hq1
    exact Or.inr ⟨q, List.mem_of_mem_erase hq1, hq2⟩

/-- What a returning `forwardTargetList` does during a collection: the list it
yields is a to-space list of the level of the object. -/
theorem forwardTargetList_spec (x : Ext) (s : GC_state) (hs : ChunkPoolOK x s)
    (args : ForwardHHObjptrArgs) (hcoll : args.tgtChunkList = 0) (info : HM_ObjptrInfo) (n : Nat)
    (hcache : HM_getChunkListToChunkList s info.chunkList ≠ 0 →
      ToSpaceListOK s (HM_getChunkListToChunkList s info.chunkList) info.level)
    (s2 : GC_state) (t : Nat) (h : forwardTargetList x s args info n = .ok (s2, t)) :
    ChunkPoolOK x s2 ∧ CoreExtends s s2 ∧ ToSpaceListOK s2 t info.level ∧ s2.mem = s.mem ∧
    s2.currentThread = s.currentThread ∧
    (∀ h, (s2.hhs h).thread = (s.hhs h).thread ∧ (s2.hhs h).retVal = (s.hhs h).retVal) ∧
    (∀ a, InFreeSpace s2 a → InFreeSpace s a) := by
  unfold forwardTargetList at h
  rw [if_neg (by simp [hcoll])] at h
  simp only at h
  by_cases h0 : HM_getChunkListToChunkList s info.chunkList = 0
  · rw [if_pos h0] at h
    cases hal : HM_allocateLevelHeadChunk x s (s.hhs args.hh).newLevelList n info.level
        COPY_OBJECT_HH_VALUE with
    | none => rw [hal] at h; simp at h
    | some res =>
      obtain ⟨s1, newList, c⟩ := res
      rw [hal] at h
      simp only at h
      by_cases hc : c = 0
      · rw [if_pos hc] at h; simp at h
      rw [if_neg hc] at h
      simp only [Except.ok.injEq, Prod.mk.injEq] at h
      obtain ⟨hs2, rfl⟩ := h
      obtain ⟨e, hq, hsz, hch, hpool, hmem, hhhs, hct, hfr, hlev, hlast, hown, hlim, hd⟩ :=
        HM_allocateLevelHeadChunk_spec x s s1 _ n _ _ newList c hal hc
      have hq3 := hs.2.2.1 _ hq
      simp only at hq3
      have hA := ChunkPoolOK_alloc x s s1 c e hs hq hch hpool hlim (fun d hd' => (hd d hd').2.2.2.2)
      have hfield : ∀ {α : Type} (f : HM_ChunkInfo → α),
          (∀ (i : HM_ChunkInfo) (v : Bool), f { i with isInToSpace := v } = f i) →
          (∀ (i : HM_ChunkInfo) (v : Nat), f { i with toChunkList := v } = f i) →
          ∀ d, f (s2.chunkInfo d) = f (s1.chunkInfo d) := by
        intro α f h1 h2 d
        rw [← hs2]
        unfold HM_setChunkListToChunkList
        exact (setChunkInfo_field f _ _ _ _ (h2 _ _)).trans
          (setChunkInfo_field f (s1.setHH args.hh _) _ _ _ (h1 _ _))
      have hch2 : s2.chunks = s1.chunks := by rw [← hs2]; rfl
      have hpool2 : s2.pool = s1.pool := by rw [← hs2]; rfl
      have hmem2 : s2.mem = s1.mem := by rw [← hs2]; rfl
      have hct2 : s2.currentThread = s1.currentThread := by rw [← hs2]; rfl
      have hhhs2 : ∀ h, (s2.hhs h).thread = (s1.hhs h).thread ∧
          (s2.hhs h).retVal = (s1.hhs h).retVal := by
        intro h
        rw [← hs2]
        show ((s1.setHH args.hh _).hhs h).thread = _ ∧ ((s1.setHH args.hh _).hhs h).retVal = _
        unfold GC_state.setHH
        simp only
        split_ifs with hh
        · subst hh; exact ⟨rfl, rfl⟩
        · exact ⟨rfl, rfl⟩
      have hlim2 := hfield (·.limit) (fun _ _ => rfl) (fun _ _ => rfl)
      have hfr2 := hfield (·.frontier) (fun _ _ => rfl) (fun _ _ => rfl)
      have hlev2 := hfield (·.level) (fun _ _ => rfl) (fun _ _ => rfl)
      have hlh2 := hfield (·.levelHead) (fun _ _ => rfl) (fun _ _ => rfl)
      have hown2 := hfield (·.containingHH) (fun _ _ => rfl) (fun _ _ => rfl)
      have hlast2 := hfield (·.lastChunk) (fun _ _ => rfl) (fun _ _ => rfl)
      simp only at hlim2 hfr2 hlev2 hlh2 hown2 hlast2
      have hmemc : c ∈ s2.chunks := by rw [hch2, hch]; simp
      refine ⟨ChunkPoolOK_congr x s1 s2 hA.1 hch2 hpool2 hlim2, ⟨?_, ?_⟩,
        ⟨hmemc, ?_, ?_, ?_, ?_, ?_, ?_, ?_⟩, by rw [hmem2, hmem], by rw [hct2, hct], ?_, ?_⟩
      · exact ⟨[c], by rw [hch2, hch]⟩
      · intro d hd'
        have hne : d ≠ c := fun he => hA.2 (he ▸ hd')
        have := hd d hne
        exact ⟨by rw [hlim2, this.2.2.2.2], by rw [hlev2, this.2.1], by rw [hlh2, this.2.2.1],
          by rw [hown2, this.2.2.2.1]⟩
      · rw [hlev2, hlev]
      · rw [hown2, hown]
      · rw [hlast2, hlast]; exact hmemc
      · left; rw [hlast2, hlast]
      · rw [hlast2, hlast, hfr2, hfr]; unfold HM_getChunkStart; omega
      · rw [hlast2, hlast, hfr2, hfr, hlim2, hlim]; unfold HM_getChunkStart; omega
      · rw [hlast2, hlast, hfr2, hfr]; exact hq3.2.2.2
      · intro h
        rw [(hhhs2 h).1, (hhhs2 h).2, hhhs]
        exact ⟨rfl, rfl⟩
      · intro a ha
        apply InFreeSpace_alloc x s s2 c e hq (by rw [hch2, hch]) (by rw [hpool2, hpool])
          (by rw [hlim2, hlim]) (by rw [hfr2, hfr]; unfold HM_getChunkStart; omega) _ a ha
        intro d hd'
        exact ⟨by rw [hfr2, (hd d hd').1], by rw [hlim2, (hd d hd').2.2.2.2]⟩
  · rw [if_neg h0] at h
    simp only [Except.ok.injEq, Prod.mk.injEq] at h
    obtain ⟨rfl, rfl⟩ := h
    exact ⟨hs, CoreExtends.extends_refl _, hcache h0, rfl, rfl, fun _ => ⟨rfl, rfl⟩, fun _ ha => ha⟩

theorem getObjptrInfo_extends (x : Ext) (s s' : GC_state) (he : CoreExtends s s')
    (hs' : ChunkPoolOK x s') (a : Nat) (i : HM_ObjptrInfo) (h : HM_getObjptrInfo s a = some i) :
    HM_getObjptrInfo s' a = some i := by
  unfold HM_getObjptrInfo at h
  simp only at h
  by_cases h0 : ChunkPool_find s a = 0
  · simp [h0] at h
  rw [if_neg h0] at h
  obtain ⟨hc1, hc2, hc3⟩ := ChunkPool_find_mem s a h0
  have hfind : ChunkPool_find s' a = ChunkPool_find s a :=
    ChunkPool_find_eq x s' hs' _ a (he.mem _ hc1) hc2 (by rw [(he.2 _ hc1).1]; exact hc3)
  cases hg : getLevelHead s (s.chunks.length + 1) (ChunkPool_find s a) with
  | none => rw [hg] at h; simp at h
  | some head =>
    rw [hg] at h
    simp only [Option.some.injEq] at h
    obtain ⟨k, hk⟩ := he.length
    have hg' : getLevelHead s' (s'.chunks.length + 1) (ChunkPool_find s a) = some head := by
      have := getLevelHead_extends s s' he (s.chunks.length + 1) k _ _ hg
      rw [hk, show s.chunks.length + k + 1 = s.chunks.length + 1 + k by omega]
      exact this
    have hhead := (getLevelHead_some s _ _ _ hg).1
    unfold HM_getObjptrInfo
    simp only [hfind, if_neg h0, hg']
    rw [← h, (he.2 head hhead).2.1, (he.2 head hhead).2.2.2]

theorem computeObjectCopyParameters_ok (x : Ext) (s s1 : GC_state) (p : Nat)
    (cp : CopyParameters) (hx : ExtOK x)
    (h : computeObjectCopyParameters x s p = .ok (cp, s1)) :
    s1.chunks = s.chunks ∧ s1.chunkInfo = s.chunkInfo ∧ s1.pool = s.pool ∧ s1.hhs = s.hhs ∧
    s1.currentThread = s.currentThread ∧
    (∀ a, a ≠ p + x.stackReservedOffset → s1.mem a = s.mem a) ∧
    x.GC_HEADER_SIZE ≤ cp.metaDataSize ∧ cp.metaDataSize % 2 = 0 ∧
    cp.metaDataSize ≤ cp.objectSize ∧ cp.metaDataSize ≤ cp.copySize ∧
    cp.tag = (x.splitHeader (getHeader x s p)).1 ∧ cp.tag ≠ .WEAK_TAG := by
  obtain ⟨_, h1, h2, h3, h4, h5, h6⟩ := hx
  unfold computeObjectCopyParameters at h
  simp only at h
  by_cases c1 : x.GC_HIERARCHICAL_HEAP_HEADER = getHeader x s p
  · rw [if_pos c1] at h; simp at h
  rw [if_neg c1] at h
  by_cases c2 : (x.splitHeader (getHeader x s p)).1 = .NORMAL_TAG ∨
      (x.splitHeader (getHeader x s p)).1 = .WEAK_TAG
  · rw [if_pos c2] at h
    by_cases c3 : (x.splitHeader (getHeader x s p)).1 = .WEAK_TAG
    · rw [if_pos c3] at h; simp at h
    rw [if_neg c3] at h
    simp only [Except.ok.injEq, Prod.mk.injEq] at h
    obtain ⟨rfl, rfl⟩ := h
    exact ⟨rfl, rfl, rfl, rfl, rfl, fun _ _ => rfl, h1, h4, by simp, by simp, rfl, c3⟩
  rw [if_neg c2] at h
  have c3 : (x.splitHeader (getHeader x s p)).1 ≠ .WEAK_TAG := fun hc => c2 (Or.inr hc)
  by_cases c4 : (x.splitHeader (getHeader x s p)).1 = .ARRAY_TAG
  · rw [if_pos c4] at h
    simp only [Except.ok.injEq, Prod.mk.injEq] at h
    obtain ⟨rfl, rfl⟩ := h
    exact ⟨rfl, rfl, rfl, rfl, rfl, fun _ _ => rfl, h2, h5, by simp, by simp, rfl, c3⟩
  rw [if_neg c4] at h
  simp only [Except.ok.injEq, Prod.mk.injEq] at h
  obtain ⟨rfl, rfl⟩ := h
  refine ⟨?_, ?_, ?_, ?_, ?_, ?_, h3, h6, by simp, by simp, rfl, c3⟩
  · split_ifs <;> rfl
  · split_ifs <;> rfl
  · split_ifs <;> rfl
  · split_ifs <;> rfl
  · split_ifs <;> rfl
  · intro a ha
    split_ifs
    · simp [GC_state.writeMem, ha]
    · rfl

theorem getLevelHead_congr (s s' : GC_state) (h1 : s'.chunks = s.chunks)
    (h2 : s'.chunkInfo = s.chunkInfo) (fuel c : Nat) :
    getLevelHead s' fuel c = getLevelHead s fuel c := by
  induction fuel generalizing c with
  | zero => rfl
  | succ n ih =>
    unfold getLevelHead
    rw [h1, h2, ih]

theorem getObjptrInfo_congr (s s' : GC_state) (h1 : s'.chunks = s.chunks)
    (h2 : s'.chunkInfo = s.chunkInfo) (a : Nat) :
    HM_getObjptrInfo s' a = HM_getObjptrInfo s a := by
  unfold HM_getObjptrInfo ChunkPool_find
  simp only [h1, h2, getLevelHead_congr s s' h1 h2]

theorem InFreeSpace_congr (s s' : GC_state) (h1 : s'.chunks = s.chunks)
    (h2 : s'.chunkInfo = s.chunkInfo) (h3 : s'.pool = s.pool) (a : Nat) :
    InFreeSpace s' a ↔ InFreeSpace s a := by
  unfold InFreeSpace
  rw [h1, h2, h3]

theorem ToSpaceListOK_congr (s s' : GC_state) (h1 : s'.chunks = s.chunks)
    (h2 : s'.chunkInfo = s.chunkInfo) (t L : Nat) (h : ToSpaceListOK s t L) :
    ToSpaceListOK s' t L := by
  unfold ToSpaceListOK at h ⊢
  rw [h1, h2]
  exact h

theorem CopyPlaced_congr (s s' : GC_state) (h1 : s'.chunks = s.chunks)
    (h2 : s'.chunkInfo = s.chunkInfo) (t L r n : Nat) (h : CopyPlaced s t L r n) :
    CopyPlaced s' t L r n := by
  unfold CopyPlaced at h ⊢
  rw [h1, h2]
  exact h

theorem readSlot_writeSlot (s : GC_state) (opp : Slot) (v : Nat) :
    (s.writeSlot opp v).readSlot opp = v := by
  cases opp <;> simp [GC_state.writeSlot, GC_state.readSlot, GC_state.writeMem, GC_state.setHH]

theorem readSlot_writeSlot_ne (s : GC_state) (opp o2 : Slot) (v : Nat) (h : o2 ≠ opp) :
    (s.writeSlot opp v).readSlot o2 = s.readSlot o2 := by
  cases opp <;> cases o2 <;>
    simp_all [GC_state.writeSlot, GC_state.readSlot, GC_state.writeMem, GC_state.setHH]
  all_goals
    split_ifs with h1
    · subst h1; rfl
    · rfl

theorem mem_writeSlot (s : GC_state) (opp : Slot) (v a : Nat) (h : opp ≠ .cell a) :
    (s.writeSlot opp v).mem a = s.mem a := by
  cases opp <;> simp_all [GC_state.writeSlot, GC_state.writeMem, GC_state.setHH]
  intro h1
  exact absurd h1.symm h

theorem computeObjectCopyParameters_tag (x : Ext) (s s1 : GC_state) (p : Nat)
    (cp : CopyParameters) (h : computeObjectCopyParameters x s p = .ok (cp, s1)) :
    cp.tag ≠ .WEAK_TAG := by
  by_cases hh : getHeader x s p = x.GC_HIERARCHICAL_HEAP_HEADER
  · rw [computeObjectCopyParameters_hh x s p hh] at h
    simp at h
  by_cases hw : (x.splitHeader (getHeader x s p)).1 = .WEAK_TAG
  · obtain ⟨e, he⟩ := computeObjectCopyParameters_weak x s p hw
    rw [he] at h
    simp at h
  obtain ⟨cp', s1', h1, h2⟩ := computeObjectCopyParameters_returns x s p hh hw
  rw [h1] at h
  simp only [Except.ok.injEq, Prod.mk.injEq] at h
  rw [← h.1, h2]
  exact hw

theorem forwardObject_ok_inv (x : Ext) (s : GC_state) (opp : Slot) (args : ForwardHHObjptrArgs)
    (p : Nat) (pInfo : HM_ObjptrInfo) (s' : GC_state)
    (args' : ForwardHHObjptrArgs) (h : forwardObject x s opp args p pInfo = .ok (s', args')) :
    ∃ cp s1 s2 t r s3,
      computeObjectCopyParameters x s p = .ok (cp, s1) ∧
      forwardTargetList x s1
        { args with stacksCopied :=
            if cp.tag = .STACK_TAG then args.stacksCopied + 1 else args.stacksCopied }
        pInfo cp.objectSize = .ok (s2, t) ∧
      copyObject x s2 (p - cp.metaDataSize) cp.objectSize cp.copySize t = .ok (r, s3) ∧
      s' = (s3.writeMem (p - x.GC_HEADER_SIZE) (r + cp.metaDataSize)).writeSlot opp
        (r + cp.metaDataSize) ∧
      args' = { args with
        bytesCopied := args.bytesCopied + cp.copySize,
        objectsCopied := args.objectsCopied + 1,
        stacksCopied :=
          if cp.tag = .STACK_TAG then args.stacksCopied + 1 else args.stacksCopied } := by
  unfold forwardObject at h
  cases hc : computeObjectCopyParameters x s p with
  | error e => rw [hc] at h; simp at h
  | ok res =>
    obtain ⟨cp, s1⟩ := res
    rw [hc] at h
    simp only at h
    have hw := computeObjectCopyParameters_tag x s s1 p cp hc
    have hcount : (match cp.tag with
        | .STACK_TAG => (Except.ok { args with stacksCopied := args.stacksCopied + 1 } :
            Except Abort ForwardHHObjptrArgs)
        | .WEAK_TAG => .error .weakObject
        | _ => .ok args)
        = .ok { args with stacksCopied :=
            if cp.tag = .STACK_TAG then args.stacksCopied + 1 else args.stacksCopied } := by
      cases ht : cp.tag <;> simp_all
    rw [hcount] at h
    simp only at h
    cases htl : forwardTargetList x s1
        { args with stacksCopied :=
            if cp.tag = .STACK_TAG then args.stacksCopied + 1 else args.stacksCopied }
        pInfo cp.objectSize with
    | error e => rw [htl] at h; simp at h
    | ok res2 =>
      obtain ⟨s2, t⟩ := res2
      rw [htl] at h
      simp only at h
      cases hco : copyObject x s2 (p - cp.metaDataSize) cp.objectSize cp.copySize t with
      | error e => rw [hco] at h; simp at h
      | ok res3 =>
        obtain ⟨r, s3⟩ := res3
        rw [hco] at h
        simp only [Except.ok.injEq, Prod.mk.injEq] at h
        refine ⟨cp, s1, s2, t, r, s3, rfl, htl, hco, ?_, h.2.symm⟩
        rw [← h.1]
        simp [getFwdPtr, GC_state.writeMem]

/-- What a returning `forwardObject` does during a collection. -/
theorem forwardObject_spec (x : Ext) (s : GC_state) (opp : Slot) (args : ForwardHHObjptrArgs)
    (p : Nat) (pInfo : HM_ObjptrInfo) (hx : ExtOK x) (hs : ChunkPoolOK x s)
    (hcoll : args.tgtChunkList = 0) (hslot : SlotAllocated s opp)
    (hp : HM_getObjptrInfo s p = some pInfo) (hfrom : HM_isObjptrInToSpace s p = false)
    (hnofwd : hasFwdPtr x s p = false)
    (hcache : HM_getChunkListToChunkList s pInfo.chunkList ≠ 0 →
      ToSpaceListOK s (HM_getChunkListToChunkList s pInfo.chunkList) pInfo.level)
    (hbody : ∀ cp s1, computeObjectCopyParameters x s p = .ok (cp, s1) →
      cp.metaDataSize < cp.objectSize ∧ cp.copySize ≤ cp.objectSize ∧ cp.metaDataSize ≤ p)
    (s' : GC_state) (args' : ForwardHHObjptrArgs)
    (h : forwardObject x s opp args p pInfo = .ok (s', args')) :
    ∃ t cp s1, computeObjectCopyParameters x s p = .ok (cp, s1) ∧
      ChunkPoolOK x s' ∧ CoreExtends s s' ∧
      getFwdPtr x s' p = s'.readSlot opp ∧ hasFwdPtr x s' p = true ∧
      HM_getObjptrInfo s' (s'.readSlot opp) = some ⟨COPY_OBJECT_HH_VALUE, t, pInfo.level⟩ ∧
      hasFwdPtr x s' (s'.readSlot opp) = false ∧
      args' = { args with
        bytesCopied := args.bytesCopied + cp.copySize,
        objectsCopied := args.objectsCopied + 1,
        stacksCopied :=
          if cp.tag = .STACK_TAG then args.stacksCopied + 1 else args.stacksCopied } ∧
      (∀ o2, o2 ≠ opp → SlotAllocated s o2 → o2 ≠ .cell (p - x.GC_HEADER_SIZE) →
        o2 ≠ .cell (p + x.stackReservedOffset) → s'.readSlot o2 = s.readSlot o2) := by
  obtain ⟨cp, s1, s2, t, r, s3, hc, htl, hco, hs', hargs⟩ :=
    forwardObject_ok_inv x s opp args p pInfo s' args' h
  obtain ⟨c1, c2, c3, c4, c5, c6, c7, c8, c9, c10, _, _⟩ :=
    computeObjectCopyParameters_ok x s s1 p cp hx hc
  obtain ⟨b1, b2, b3⟩ := hbody cp s1 hc
  have hx1 := hx.1
  -- the state after the size computation
  have hs1 : ChunkPoolOK x s1 := ChunkPoolOK_congr x s s1 hs c1 c3 (fun d => by rw [c2])
  have hcache1 : HM_getChunkListToChunkList s1 pInfo.chunkList ≠ 0 →
      ToSpaceListOK s1 (HM_getChunkListToChunkList s1 pInfo.chunkList) pInfo.level := by
    unfold HM_getChunkListToChunkList
    rw [c2]
    exact fun h0 => ToSpaceListOK_congr s s1 c1 c2 _ _ (hcache h0)
  -- the target list
  obtain ⟨hs2, he12, hto2, hmem2, hct2, hhh2, hfree2⟩ :=
    forwardTargetList_spec x s1 hs1 _ hcoll pInfo cp.objectSize hcache1 s2 t htl
  -- the copy
  obtain ⟨hs3, he23, hpl3, hmem3, hhhs3, hct3, hev, hfree3⟩ :=
    copyObject_spec x s2 hs2 t pInfo.level (p - cp.metaDataSize) cp.objectSize cp.copySize
      hto2 r s3 hco
  have he01 : CoreExtends s s1 := CoreExtends_of_eq s s1 c1 (fun c => by rw [c2]; simp)
  have he03 : CoreExtends s s3 := (he01.extends_trans he12).extends_trans he23
  have hfree : ∀ a, r ≤ a → a < r + cp.objectSize → InFreeSpace s a := fun a h1 h2 =>
    (InFreeSpace_congr s s1 c1 c2 c3 a).mp (hfree2 a (hfree3 a h1 h2))
  -- the final state
  have hch' : s'.chunks = s3.chunks := by rw [hs']; exact (writeSlot_chunks _ _ _).1
  have hci' : s'.chunkInfo = s3.chunkInfo := by rw [hs']; exact (writeSlot_chunks _ _ _).2.1
  have hpool' : s'.pool = s3.pool := by rw [hs']; exact (writeSlot_chunks _ _ _).2.2
  have hok' : ChunkPoolOK x s' := ChunkPoolOK_congr x s3 s' hs3 hch' hpool' (fun d => by rw [hci'])
  have he' : CoreExtends s s' :=
    he03.extends_trans (CoreExtends_of_eq s3 s' hch' (fun c => by rw [hci']; simp))
  have hread : s'.readSlot opp = r + cp.metaDataSize := by rw [hs']; exact readSlot_writeSlot _ _ _
  have hL : pInfo.level ≠ CHUNK_INVALID_LEVEL := by
    unfold HM_getObjptrInfo at hp
    simp only at hp
    split_ifs at hp
    split at hp
    · simp at hp
    · rename_i head hg
      simp only [Option.some.injEq] at hp
      rw [← hp]
      exact (getLevelHead_some s _ _ _ hg).2
  have hinfo' : HM_getObjptrInfo s' (r + cp.metaDataSize)
      = some ⟨COPY_OBJECT_HH_VALUE, t, pInfo.level⟩ :=
    getObjptrInfo_of_placed x s' hok' t pInfo.level r cp.objectSize
      (CopyPlaced_congr s3 s' hch' hci' _ _ _ _ hpl3) hL _ (by omega) (by omega)
  -- the object is not its own copy
  have hpne : p ≠ r + cp.metaDataSize := by
    intro he
    have h1 := getObjptrInfo_extends x s s' he' hok' p pInfo hp
    rw [he, hinfo'] at h1
    unfold HM_isObjptrInToSpace at hfrom
    rw [hp] at hfrom
    simp only [Option.some.injEq] at h1
    rw [← h1] at hfrom
    simp at hfrom
  -- memory
  have hmemfwd : s'.mem (p - x.GC_HEADER_SIZE) = r + cp.metaDataSize := by
    rw [hs']
    cases opp with
    | cell a =>
      simp only [GC_state.writeSlot, GC_state.writeMem]
      split_ifs <;> rfl
    | currentThread => simp [GC_state.writeSlot, GC_state.writeMem]
    | hhThread h => simp [GC_state.writeSlot, GC_state.writeMem, GC_state.setHH]
    | hhRetVal h => simp [GC_state.writeSlot, GC_state.writeMem, GC_state.setHH]
  have hcell : opp ≠ .cell (r + cp.metaDataSize - x.GC_HEADER_SIZE) := by
    intro he
    rw [he] at hslot
    exact hslot (hfree _ (by omega) (by omega))
  have hmemcopy : s'.mem (r + cp.metaDataSize - x.GC_HEADER_SIZE) = s.mem (p - x.GC_HEADER_SIZE) := by
    rw [hs', mem_writeSlot _ _ _ _ hcell]
    simp only [GC_state.writeMem]
    rw [if_neg (by omega), hmem3]
    simp only
    rw [if_pos (by omega), hmem2]
    rw [show p - cp.metaDataSize + (r + cp.metaDataSize - x.GC_HEADER_SIZE - r)
      = p - x.GC_HEADER_SIZE by omega]
    exact c6 _ (by omega)
  refine ⟨t, cp, s1, hc, hok', he', ?_, ?_, ?_, ?_, hargs, ?_⟩
  · rw [hread]; exact hmemfwd
  · unfold hasFwdPtr getHeader
    rw [hmemfwd]
    simp only [beq_iff_eq]
    omega
  · rw [hread]; exact hinfo'
  · rw [hread]
    unfold hasFwdPtr getHeader at hnofwd ⊢
    rw [hmemcopy]
    exact hnofwd
  · intro o2 ho2 hal2 hne1 hne2
    rw [hs', readSlot_writeSlot_ne _ _ _ _ ho2]
    cases o2 with
    | cell a =>
      simp only [GC_state.readSlot, GC_state.writeMem]
      rw [if_neg (fun he => hne1 (by rw [he])), hmem3]
      simp only
      have hnf : ¬ (r ≤ a ∧ a < r + cp.copySize) := fun hh =>
        hal2 (hfree a hh.1 (by omega))
      rw [if_neg hnf, hmem2]
      exact c6 a (fun he => hne2 (by rw [he]))
    | currentThread =>
      simp only [GC_state.readSlot, GC_state.writeMem]
      rw [hct3, hct2, c5]
    | hhThread h =>
      simp only [GC_state.readSlot, GC_state.writeMem]
      rw [hhhs3, (hhh2 h).1, c4]
    | hhRetVal h =>
      simp only [GC_state.readSlot, GC_state.writeMem]
      rw [hhhs3, (hhh2 h).2, c4]

theorem ForwardResult.eq_ok_final (r : ForwardResult) (h : r.returned = true) :
    r = .ok r.final := by
  cases r with
  | ok v => rfl
  | error e => simp [ForwardResult.returned] at h

theorem forwardHHObjptr_eq_forwardObject (x : Ext) (fuel : Nat) (s : GC_state) (opp : Slot)
    (args : ForwardHHObjptrArgs) (opInfo pInfo : HM_ObjptrInfo) (p : Nat)
    (hptr : x.isObjptr (s.readSlot opp) = true)
    (hglob : x.isObjptrInGlobalHeap (s.readSlot opp) = false)
    (hop : HM_getObjptrInfo s (s.readSlot opp) = some opInfo)
    (hoprange : args.minLevel ≤ opInfo.level ∧ opInfo.level ≤ args.maxLevel)
    (hfollow : HM_followForwardPointerUntilNullOrBelowLevel x s args.minLevel fuel
      (s.readSlot opp) = some p)
    (hp : HM_getObjptrInfo s p = some pInfo) (hfrom : HM_isObjptrInToSpace s p = false)
    (hnofwd : hasFwdPtr x s p = false) :
    forwardHHObjptr x fuel s opp args = forwardObject x s opp args p pInfo := by
  unfold forwardHHObjptr
  simp only [hptr, hglob, hop, hfollow, hp, hfrom, hnofwd]
  rw [if_neg (by simp), if_neg (by omega), if_neg (by omega)]
  simp

/-- C1.  In collection mode (`tgtChunkList` is `NULL`), let the slot hold an
object pointer in scope whose top-most collectible replica `p` is a from-space
object of level `L` (within `minLevel` and `maxLevel`) without a forwarding
pointer.  When `forwardHHObjptr` returns, `p` carries a forwarding pointer, the
slot holds exactly the forwarded address, and the object at that address lies
in a to-space chunk list (owner `COPY_OBJECT_HH_VALUE`) whose level is exactly
`L` and has no forwarding pointer itself. -/
theorem forwardHHObjptr_forwards_object (x : Ext) (fuel : Nat) (s : GC_state) (opp : Slot)
    (args : ForwardHHObjptrArgs) (opInfo pInfo : HM_ObjptrInfo) (p : Nat)
    (hx : ExtOK x) (hs : ChunkPoolOK x s) (hcoll : args.tgtChunkList = 0)
    (hslot : SlotAllocated s opp)
    (hptr : x.isObjptr (s.readSlot opp) = true)
    (hglob : x.isObjptrInGlobalHeap (s.readSlot opp) = false)
    (hop : HM_getObjptrInfo s (s.readSlot opp) = some opInfo)
    (hoprange : args.minLevel ≤ opInfo.level ∧ opInfo.level ≤ args.maxLevel)
    (hfollow : HM_followForwardPointerUntilNullOrBelowLevel x s args.minLevel fuel
      (s.readSlot opp) = some p)
    (hp : HM_getObjptrInfo s p = some pInfo)
    (hrange : args.minLevel ≤ pInfo.level ∧ pInfo.level ≤ args.maxLevel)
    (hfrom : HM_isObjptrInToSpace s p = false) (hnofwd : hasFwdPtr x s p = false)
    (hcache : HM_getChunkListToChunkList s pInfo.chunkList ≠ 0 →
      ToSpaceListOK s (HM_getChunkListToChunkList s pInfo.chunkList) pInfo.level)
    (hbody : ∀ cp s1, computeObjectCopyParameters x s p = .ok (cp, s1) →
      cp.metaDataSize < cp.objectSize ∧ cp.copySize ≤ cp.objectSize ∧ cp.metaDataSize ≤ p)
    (s' : GC_state) (args' : ForwardHHObjptrArgs)
    (h : forwardHHObjptr x fuel s opp args = .ok (s', args')) :
    hasFwdPtr x s' p = true ∧ getFwdPtr x s' p = s'.readSlot opp ∧
    (∃ info, HM_getObjptrInfo s' (s'.readSlot opp) = some info ∧
      info.level = pInfo.level ∧ info.hh = COPY_OBJECT_HH_VALUE) ∧
    HM_isObjptrInToSpace s' (s'.readSlot opp) = true ∧
    hasFwdPtr x s' (s'.readSlot opp) = false := by
  have _ := hrange
  rw [forwardHHObjptr_eq_forwardObject x fuel s opp args opInfo pInfo p hptr hglob hop hoprange
    hfollow hp hfrom hnofwd] at h
  obtain ⟨t, cp, s1, _, _, _, h1, h2, h3, h4, _, _⟩ :=
    forwardObject_spec x s opp args p pInfo hx hs hcoll hslot hp hfrom hnofwd hcache hbody
      s' args' h
  refine ⟨h2, h1, ⟨_, h3, rfl, rfl⟩, ?_, h4⟩
  unfold HM_isObjptrInToSpace
  rw [h3]
  simp

set_option maxRecDepth 4000 in
theorem forwardHHObjptr_forwards_object_witness :
    sampleState.readSlot (.cell 512) = 1572936 ∧
    HM_getObjptrInfo sampleState 1572936 = some ⟨4096, 1572864, 5⟩ ∧
    hasFwdPtr sampleExt sampleState 1572936 = false ∧
    hasFwdPtr sampleExt
      (forwardHHObjptr sampleExt 5 sampleState (.cell 512) sampleArgs).final.1 1572936 = true ∧
    (forwardHHObjptr sampleExt 5 sampleState (.cell 512) sampleArgs).final.1.readSlot (.cell 512)
      = 2097224 ∧
    HM_getObjptrInfo (forwardHHObjptr sampleExt 5 sampleState (.cell 512) sampleArgs).final.1
      2097224 = some ⟨COPY_OBJECT_HH_VALUE, 2097152, 5⟩ :=
  have hrun : forwardHHObjptr sampleExt 5 sampleState (.cell 512) sampleArgs
      = .ok (forwardHHObjptr sampleExt 5 sampleState (.cell 512) sampleArgs).final :=
    ForwardResult.eq_ok_final _ (by decide)
  have hbody : ∀ cp s1, computeObjectCopyParameters sampleExt sampleState 1572936 = .ok (cp, s1) →
      cp.metaDataSize < cp.objectSize ∧ cp.copySize ≤ cp.objectSize ∧
        cp.metaDataSize ≤ 1572936 := by
    intro cp s1 hc
    have : computeObjectCopyParameters sampleExt sampleState 1572936
        = .ok (⟨.NORMAL_TAG, 32, 32, 8⟩, sampleState) := by rfl
    rw [this] at hc
    simp only [Except.ok.injEq, Prod.mk.injEq] at hc
    rw [← hc.1]
    decide
  have key := forwardHHObjptr_forwards_object sampleExt 5 sampleState (.cell 512) sampleArgs
    ⟨4096, 1572864, 5⟩ ⟨4096, 1572864, 5⟩ 1572936 (by decide) (by decide) (by decide) (by decide)
    (by decide) (by decide) (by decide) (by decide) (by decide) (by decide) (by decide)
    (by decide) (by decide) (by decide) hbody _ _ hrun
  ⟨by decide, by decide, by decide, key.1, by decide, by decide⟩

theorem follow_no_fwd (x : Ext) (s : GC_state) (m fuel p : Nat) (h : hasFwdPtr x s p = false) :
    HM_followForwardPointerUntilNullOrBelowLevel x s m (fuel + 1) p = some p := by
  unfold HM_followForwardPointerUntilNullOrBelowLevel
  simp [h]

/-- C2.  Within one collection, let two different slots hold the same object
pointer, to a from-space object of a level within `minLevel` and `maxLevel`
that has not been forwarded.  When `forwardHHObjptr` has returned for the
first slot, it returns for the second slot too (with fuel for the one
forwarding pointer it follows), both slots then hold the same to-space address,
and the object has been copied exactly once: the first call counts one object,
the second call leaves the arguments, with `bytesCopied`, `objectsCopied` and
`stacksCopied`, unchanged. -/
theorem forwardHHObjptr_same_object_twice (x : Ext) (f1 f2 : Nat) (s : GC_state) (o1 o2 : Slot)
    (args : ForwardHHObjptrArgs) (pInfo : HM_ObjptrInfo)
    (hx : ExtOK x) (hs : ChunkPoolOK x s) (hcoll : args.tgtChunkList = 0)
    (hslot1 : SlotAllocated s o1) (hslot2 : SlotAllocated s o2) (hne : o1 ≠ o2)
    (hsame : s.readSlot o2 = s.readSlot o1)
    (ho2a : o2 ≠ .cell (s.readSlot o1 - x.GC_HEADER_SIZE))
    (ho2b : o2 ≠ .cell (s.readSlot o1 + x.stackReservedOffset))
    (hptr : x.isObjptr (s.readSlot o1) = true)
    (hglob : x.isObjptrInGlobalHeap (s.readSlot o1) = false)
    (hp : HM_getObjptrInfo s (s.readSlot o1) = some pInfo)
    (hrange : args.minLevel ≤ pInfo.level ∧ pInfo.level ≤ args.maxLevel)
    (hfrom : HM_isObjptrInToSpace s (s.readSlot o1) = false)
    (hnofwd : hasFwdPtr x s (s.readSlot o1) = false)
    (hcache : HM_getChunkListToChunkList s pInfo.chunkList ≠ 0 →
      ToSpaceListOK s (HM_getChunkListToChunkList s pInfo.chunkList) pInfo.level)
    (hbody : ∀ cp s1, computeObjectCopyParameters x s (s.readSlot o1) = .ok (cp, s1) →
      cp.metaDataSize < cp.objectSize ∧ cp.copySize ≤ cp.objectSize ∧
        cp.metaDataSize ≤ s.readSlot o1)
    (hf2 : 2 ≤ f2) (s1 : GC_state) (a1 : ForwardHHObjptrArgs)
    (h1 : forwardHHObjptr x f1 s o1 args = .ok (s1, a1)) :
    ∃ s2, forwardHHObjptr x f2 s1 o2 a1 = .ok (s2, a1) ∧
      s2.readSlot o1 = s2.readSlot o2 ∧ HM_isObjptrInToSpace s2 (s2.readSlot o2) = true ∧
      a1.objectsCopied = args.objectsCopied + 1 := by
  -- the first call copies the object
  have hfollow : HM_followForwardPointerUntilNullOrBelowLevel x s args.minLevel f1
      (s.readSlot o1) = some (s.readSlot o1) := by
    cases f1 with
    | zero =>
      unfold forwardHHObjptr at h1
      simp only [hptr, hglob, hp, HM_followForwardPointerUntilNullOrBelowLevel] at h1
      rw [if_neg (by simp), if_neg (by omega), if_neg (by omega)] at h1
      simp at h1
    | succ n => exact follow_no_fwd x s _ n _ hnofwd
  rw [forwardHHObjptr_eq_forwardObject x f1 s o1 args pInfo pInfo _ hptr hglob hp hrange
    hfollow hp hfrom hnofwd] at h1
  obtain ⟨t, cp, s0, _, hok1, hext1, g1, g2, g3, g4, g5, g6⟩ :=
    forwardObject_spec x s o1 args _ pInfo hx hs hcoll hslot1 hp hfrom hnofwd hcache hbody
      s1 a1 h1
  -- the second slot still holds the object pointer
  have hread2 : s1.readSlot o2 = s.readSlot o1 := by
    rw [g6 o2 (Ne.symm hne) hslot2 ho2a ho2b, hsame]
  have hmin : a1.minLevel = args.minLevel := by rw [g5]
  have hmax : a1.maxLevel = args.maxLevel := by rw [g5]
  have hinfo1 := getObjptrInfo_extends x s s1 hext1 hok1 _ pInfo hp
  have hto : HM_isObjptrInToSpace s1 (s1.readSlot o1) = true := by
    unfold HM_isObjptrInToSpace
    rw [g3]
    simp
  have hfollow2 : HM_followForwardPointerUntilNullOrBelowLevel x s1 a1.minLevel f2
      (s.readSlot o1) = some (s1.readSlot o1) := by
    obtain ⟨n, rfl⟩ : ∃ n, f2 = n + 2 := ⟨f2 - 2, by omega⟩
    unfold HM_followForwardPointerUntilNullOrBelowLevel
    simp only [g2, if_true, g1, g3, hmin]
    rw [if_pos hrange.1]
    exact follow_no_fwd x s1 _ n _ g4
  refine ⟨s1.writeSlot o2 (s1.readSlot o1), ?_, ?_, ?_, ?_⟩
  · unfold forwardHHObjptr
    simp only [hread2, hptr, hglob, hinfo1, hfollow2, g3, hto, hmin, hmax]
    rw [if_neg (by simp), if_neg (by omega), if_neg (by omega)]
    rw [hmin] at hfollow2
    rw [hfollow2]
    simp only [g3, hto, if_true]
  · rw [readSlot_writeSlot, readSlot_writeSlot_ne _ _ _ _ hne]
  · rw [readSlot_writeSlot]
    unfold HM_isObjptrInToSpace at hto ⊢
    rw [getObjptrInfo_congr s1 _ (writeSlot_chunks _ _ _).1 (writeSlot_chunks _ _ _).2.1]
    exact hto
  · rw [g5]

set_option maxRecDepth 4000 in
theorem forwardHHObjptr_same_object_twice_witness :
    Slot.cell 512 ≠ Slot.cell 520 ∧
    sampleState.readSlot (.cell 520) = sampleState.readSlot (.cell 512) ∧
    HM_getObjptrInfo sampleState (sampleState.readSlot (.cell 512))
      = some ⟨4096, 1572864, 5⟩ ∧
    ∃ s2, forwardHHObjptr sampleExt 2
        (forwardHHObjptr sampleExt 1 sampleState (.cell 512) sampleArgs).final.1 (.cell 520)
        (forwardHHObjptr sampleExt 1 sampleState (.cell 512) sampleArgs).final.2
        = .ok (s2, (forwardHHObjptr sampleExt 1 sampleState (.cell 512) sampleArgs).final.2) ∧
      s2.readSlot (.cell 512) = s2.readSlot (.cell 520) ∧
      HM_isObjptrInToSpace s2 (s2.readSlot (.cell 520)) = true ∧
      (forwardHHObjptr sampleExt 1 sampleState (.cell 512) sampleArgs).final.2.objectsCopied
        = sampleArgs.objectsCopied + 1 :=
  have hrun : forwardHHObjptr sampleExt 1 sampleState (.cell 512) sampleArgs
      = .ok (forwardHHObjptr sampleExt 1 sampleState (.cell 512) sampleArgs).final :=
    ForwardResult.eq_ok_final _ (by decide)
  have hbody : ∀ cp s1,
      computeObjectCopyParameters sampleExt sampleState (sampleState.readSlot (.cell 512))
        = .ok (cp, s1) →
      cp.metaDataSize < cp.objectSize ∧ cp.copySize ≤ cp.objectSize ∧
        cp.metaDataSize ≤ sampleState.readSlot (.cell 512) := by
    intro cp s1 hc
    have : computeObjectCopyParameters sampleExt sampleState (sampleState.readSlot (.cell 512))
        = .ok (⟨.NORMAL_TAG, 32, 32, 8⟩, sampleState) := by rfl
    rw [this] at hc
    simp only [Except.ok.injEq, Prod.mk.injEq] at hc
    rw [← hc.1]
    decide
  ⟨by decide, by decide, by decide,
   forwardHHObjptr_same_object_twice sampleExt 1 2 sampleState (.cell 512) (.cell 520)
    sampleArgs ⟨4096, 1572864, 5⟩ (by decide) (by decide) (by decide) (by decide) (by decide)
    (by decide) (by decide) (by decide) (by decide) (by decide) (by decide) (by decide)
    (by decide) (by decide) (by decide) (by decide) hbody (by decide) _ _ hrun⟩

/-! ## The local collector -/

theorem SameScope.scope_refl (a : ForwardHHObjptrArgs) : SameScope a a := ⟨rfl, rfl, rfl, rfl⟩

theorem SameScope.scope_trans {a b c : ForwardHHObjptrArgs} (h1 : SameScope a b) (h2 : SameScope b c) :
    SameScope a c :=
  ⟨h2.1.trans h1.1, h2.2.1.trans h1.2.1, h2.2.2.1.trans h1.2.2.1, h2.2.2.2.trans h1.2.2.2⟩

theorem forwardHHObjptr_scope (x : Ext) (fuel : Nat) (s s' : GC_state) (opp : Slot)
    (args args' : ForwardHHObjptrArgs) (h : forwardHHObjptr x fuel s opp args = .ok (s', args')) :
    SameScope args args' := by
  rcases forwardHHObjptr_cases x fuel s opp args with
    h1 | h1 | h1 | ⟨v, h1⟩ | ⟨q, info, _, _, _, _, h1⟩
  · rw [h1] at h; simp only [Except.ok.injEq, Prod.mk.injEq] at h; rw [← h.2]; exact SameScope.scope_refl _
  · rw [h1] at h; simp at h
  · rw [h1] at h; simp at h
  · rw [h1] at h; simp only [Except.ok.injEq, Prod.mk.injEq] at h; rw [← h.2]; exact SameScope.scope_refl _
  · rw [h1] at h
    obtain ⟨cp, _, _, _, _, _, _, _, _, _, ha⟩ := forwardObject_ok_inv x s opp args q info s' args' h
    rw [ha]
    exact ⟨rfl, rfl, rfl, rfl⟩

theorem ForwardResult.andThen_ok (r : ForwardResult)
    (f : GC_state → ForwardHHObjptrArgs → ForwardResult) (v : GC_state × ForwardHHObjptrArgs)
    (h : r.andThen f = .ok v) : ∃ s1 a1, r = .ok (s1, a1) ∧ f s1 a1 = .ok v := by
  cases r with
  | error e => simp [ForwardResult.andThen] at h
  | ok w => exact ⟨w.1, w.2, rfl, h⟩

theorem forwardSlots_scope (x : Ext) (fuel : Nat) (l : List Nat) (s s' : GC_state)
    (args args' : ForwardHHObjptrArgs) (h : forwardSlots x fuel l s args = .ok (s', args')) :
    SameScope args args' := by
  induction l generalizing s args with
  | nil =>
    simp only [forwardSlots, Except.ok.injEq, Prod.mk.injEq] at h
    rw [← h.2]; exact SameScope.scope_refl _
  | cons a rest ih =>
    unfold forwardSlots at h
    cases h1 : forwardHHObjptr x fuel s (.cell a) args with
    | error e => rw [h1] at h; simp at h
    | ok w =>
      obtain ⟨s1, a1⟩ := w
      rw [h1] at h
      exact (forwardHHObjptr_scope x fuel s s1 _ args a1 h1).scope_trans (ih s1 a1 h)

theorem collectLocalRoots_scope (x : Ext) (fuel : Nat) (s s' : GC_state)
    (args args' : ForwardHHObjptrArgs) (h : collectLocalRoots x fuel s args = .ok (s', args')) :
    SameScope args args' := by
  unfold collectLocalRoots at h
  obtain ⟨s1, a1, h1, h⟩ := ForwardResult.andThen_ok _ _ _ h
  obtain ⟨s2, a2, h2, h⟩ := ForwardResult.andThen_ok _ _ _ h
  obtain ⟨s3, a3, h3, h⟩ := ForwardResult.andThen_ok _ _ _ h
  obtain ⟨s5, a5, h5, h⟩ := ForwardResult.andThen_ok _ _ _ h
  have e1 := forwardSlots_scope x fuel _ _ _ _ _ h1
  have e2 := forwardSlots_scope x fuel _ _ _ _ _ h2
  have e3 := forwardHHObjptr_scope x fuel _ _ _ _ _ h3
  have e5 := forwardSlots_scope x fuel _ _ _ _ _ h5
  have e04 := ((e1.scope_trans e2).scope_trans e3).scope_trans e5
  split_ifs at h
  · exact e04.scope_trans (forwardHHObjptr_scope x fuel _ _ _ _ _ h)
  · simp only [Except.ok.injEq, Prod.mk.injEq] at h
    rw [← h.2]; exact e04

theorem HM_forwardHHObjptrsInLevelList_scope (x : Ext) (fuel steps : Nat) (scanned : Nat → Nat)
    (s s' : GC_state) (args args' : ForwardHHObjptrArgs)
    (h : HM_forwardHHObjptrsInLevelList x fuel steps scanned s args = .ok (s', args')) :
    SameScope args args' := by
  induction steps generalizing scanned s args with
  | zero => simp [HM_forwardHHObjptrsInLevelList] at h
  | succ n ih =>
    unfold HM_forwardHHObjptrsInLevelList at h
    split at h
    · simp at h
    · split at h
      · simp only [Except.ok.injEq, Prod.mk.injEq] at h
        rw [← h.2]; exact SameScope.scope_refl _
      · simp only at h
        split at h
        · simp at h
        · rename_i s1 a1 hr
          have e1 : SameScope args a1 := by
            split_ifs at hr
            · exact forwardSlots_scope x fuel _ _ _ _ _ hr
            · simp only [Except.ok.injEq, Prod.mk.injEq] at hr
              rw [← hr.2]; exact SameScope.scope_refl _
          exact e1.scope_trans (ih _ _ _ h)

theorem collectLocalEnter_hh (x : Ext) (s s1 : GC_state) (h : collectLocalEnter x s = some s1) :
    s1.currentHierarchicalHeap = s.currentHierarchicalHeap ∧
    s1.hhCollectionLevel = s.hhCollectionLevel ∧
    (s1.hhs s.currentHierarchicalHeap).level = (s.hhs s.currentHierarchicalHeap).level ∧
    (s1.hhs s.currentHierarchicalHeap).stealLevel
      = (s.hhs s.currentHierarchicalHeap).stealLevel := by
  unfold collectLocalEnter at h
  simp only at h
  split at h
  · simp at h
  · rename_i s4 h4
    unfold lockHH at h
    split_ifs at h
    simp only [Option.some.injEq] at h
    have e : s4.currentHierarchicalHeap = s.currentHierarchicalHeap ∧
        s4.hhCollectionLevel = s.hhCollectionLevel ∧ s4.hhs = s.hhs := by
      split_ifs at h4
      · simp only [Option.some.injEq] at h4
        rw [← h4]
        exact ⟨rfl, rfl, rfl⟩
      · unfold Parallel_lockTake at h4
        split_ifs at h4
        simp only [Option.some.injEq] at h4
        rw [← h4]
        exact ⟨rfl, rfl, rfl⟩
    rw [← h]
    simp [GC_state.setHH, e.1, e.2.1, e.2.2]

/-- C5.  `HM_HHC_collectLocal` obeys the control `hhCollectionLevel`: with NONE
it returns the state it was called in, whole; otherwise the forwarding
arguments it builds after entering, and still holds when it returns, have
`minLevel = maxLevel = hh.level` with SUPERLOCAL, and `minLevel` the lowest
private level of the heap and `maxLevel = hh.level` with ALL. -/
theorem HM_HHC_collectLocal_obeys_hhCollectionLevel (x : Ext) (fuel : Nat) (s : GC_state) :
    (s.hhCollectionLevel = .NONE → HM_HHC_collectLocal x fuel s = .ok (s, none)) ∧
    (∀ s1, collectLocalEnter x s = some s1 →
      (s.hhCollectionLevel = .SUPERLOCAL →
        (collectLocalArgs x s1).minLevel = (s.hhs s.currentHierarchicalHeap).level ∧
        (collectLocalArgs x s1).maxLevel = (s.hhs s.currentHierarchicalHeap).level) ∧
      (s.hhCollectionLevel = .ALL →
        (collectLocalArgs x s1).minLevel
          = HM_HH_getLowestPrivateLevel x (s.hhs s.currentHierarchicalHeap) ∧
        (collectLocalArgs x s1).maxLevel = (s.hhs s.currentHierarchicalHeap).level)) ∧
    (∀ s' args, HM_HHC_collectLocal x fuel s = .ok (s', some args) →
      (s.hhCollectionLevel = .SUPERLOCAL →
        args.minLevel = (s.hhs s.currentHierarchicalHeap).level ∧
        args.maxLevel = (s.hhs s.currentHierarchicalHeap).level) ∧
      (s.hhCollectionLevel = .ALL →
        args.minLevel = HM_HH_getLowestPrivateLevel x (s.hhs s.currentHierarchicalHeap) ∧
        args.maxLevel = (s.hhs s.currentHierarchicalHeap).level)) := by
  have hargs : ∀ s1, collectLocalEnter x s = some s1 →
      (s.hhCollectionLevel = .SUPERLOCAL →
        (collectLocalArgs x s1).minLevel = (s.hhs s.currentHierarchicalHeap).level ∧
        (collectLocalArgs x s1).maxLevel = (s.hhs s.currentHierarchicalHeap).level) ∧
      (s.hhCollectionLevel = .ALL →
        (collectLocalArgs x s1).minLevel
          = HM_HH_getLowestPrivateLevel x (s.hhs s.currentHierarchicalHeap) ∧
        (collectLocalArgs x s1).maxLevel = (s.hhs s.currentHierarchicalHeap).level) := by
    intro s1 h1
    obtain ⟨e1, e2, e3, e4⟩ := collectLocalEnter_hh x s s1 h1
    unfold collectLocalArgs
    simp only [e1, e2]
    constructor
    · intro hc
      simp [hc, e3]
    · intro hc
      simp [hc, e3, HM_HH_getLowestPrivateLevel, HM_HH_getHighestStolenLevel, e4]
  refine ⟨?_, hargs, ?_⟩
  · intro h
    unfold HM_HHC_collectLocal
    simp [h]
  · intro s' args h
    unfold HM_HHC_collectLocal at h
    split_ifs at h
    · simp at h
    · split at h
      · simp at h
      · rename_i s1 h1
        split at h
        · simp at h
        · rename_i s2 a2 h2
          split at h
          · simp at h
          · simp only [Except.ok.injEq, Prod.mk.injEq, Option.some.injEq] at h
            obtain ⟨s15, a15, h3, h4⟩ := ForwardResult.andThen_ok _ _ _ h2
            have e := (collectLocalRoots_scope x fuel _ _ _ _ h3).scope_trans
              (HM_forwardHHObjptrsInLevelList_scope x fuel _ _ _ _ _ _ h4)
            rw [← h.2, e.2.1, e.2.2.1]
            exact hargs s1 h1

theorem CollectResult.eq_ok (r : CollectResult) (h : r.returned = true) :
    r = .ok (r.state, r.args) := by
  cases r with
  | ok v => rfl
  | error e => simp [CollectResult.returned] at h

set_option maxRecDepth 8000 in
theorem HM_HHC_collectLocal_obeys_hhCollectionLevel_witness :
    ({ sampleState with hhCollectionLevel := .NONE } : GC_state).hhCollectionLevel = .NONE ∧
    HM_HHC_collectLocal sampleExt 10 { sampleState with hhCollectionLevel := .NONE }
      = .ok ({ sampleState with hhCollectionLevel := .NONE }, none) ∧
    sampleState.hhCollectionLevel = .ALL ∧
    (HM_HHC_collectLocal sampleExt 10 sampleState).args
      = some ⟨4096, 4, 5, 0, 88, 2, 1⟩ ∧
    HM_HH_getLowestPrivateLevel sampleExt (sampleState.hhs sampleState.currentHierarchicalHeap)
      = 4 :=
  have hrun : HM_HHC_collectLocal sampleExt 10 sampleState
      = .ok ((HM_HHC_collectLocal sampleExt 10 sampleState).state, some ⟨4096, 4, 5, 0, 88, 2, 1⟩) :=
    (CollectResult.eq_ok _ (by decide)).trans (by
      have : (HM_HHC_collectLocal sampleExt 10 sampleState).args
          = some ⟨4096, 4, 5, 0, 88, 2, 1⟩ := by decide
      rw [this])
  have key := ((HM_HHC_collectLocal_obeys_hhCollectionLevel sampleExt 10 sampleState).2.2
    _ _ hrun).2 rfl
  ⟨rfl, (HM_HHC_collectLocal_obeys_hhCollectionLevel sampleExt 10
    { sampleState with hhCollectionLevel := .NONE }).1 rfl, rfl, by decide, key.1.symm⟩

/-! ## Bookkeeping after a collection -/

theorem levelRangeSum_succ (levelSize : Nat → Nat) (lo hi : Nat) :
    levelRangeSum levelSize lo (hi + 1)
      = levelRangeSum levelSize lo hi + (if lo ≤ hi + 1 then levelSize (hi + 1) else 0) := by
  unfold levelRangeSum
  rw [List.range_succ, List.filter_append, List.map_append, List.sum_append]
  by_cases h : lo ≤ hi + 1
  · simp [h]
  · simp [h]

theorem levelRangeSum_empty (levelSize : Nat → Nat) (lo hi : Nat) (h : hi < lo) :
    levelRangeSum levelSize lo hi = 0 := by
  induction hi with
  | zero =>
    unfold levelRangeSum
    have : ¬ lo = 0 := by omega
    simp [List.range_succ, this]
  | succ n ih =>
    rw [levelRangeSum_succ, ih (by omega)]
    have : ¬ lo ≤ n + 1 := by omega
    simp [this]

/-- When the range is not empty the loop sums exactly the levels of the range. -/
theorem locallyCollectibleSizeLoop_range (levelSize : Nat → Nat) (lo hi acc : Nat)
    (h : lo ≤ hi) :
    locallyCollectibleSizeLoop levelSize lo hi acc = acc + levelRangeSum levelSize lo hi := by
  induction hi generalizing acc with
  | zero =>
    have : lo = 0 := by omega
    subst this
    simp [locallyCollectibleSizeLoop, levelRangeSum, List.range_succ]
  | succ n ih =>
    unfold locallyCollectibleSizeLoop
    rw [levelRangeSum_succ]
    by_cases h1 : lo < n + 1
    · rw [if_pos h1, ih _ (by omega), if_pos h]
      omega
    · rw [if_neg h1, levelRangeSum_empty levelSize lo n (by omega), if_pos h]
      omega

/-- When the range is empty the loop still adds the size of the level it
starts from. -/
theorem locallyCollectibleSizeLoop_empty_range (levelSize : Nat → Nat) (lo hi acc : Nat)
    (h : hi < lo) : locallyCollectibleSizeLoop levelSize lo hi acc = acc + levelSize hi := by
  cases hi with
  | zero => simp [locallyCollectibleSizeLoop]
  | succ n =>
    unfold locallyCollectibleSizeLoop
    rw [if_neg (by omega)]

set_option maxRecDepth 8000 in
/-- C8 (the code at the failing input).  With `hh.level = 5` and
`stealLevel = 5` no level `L` has `stealLevel + 1 <= L <= hh.level`, so the sum
of the claim is 0, but `HM_HHC_collectLocal` leaves `locallyCollectibleSize` at
256, the size of level 5. -/
theorem collectLocal_locallyCollectibleSize_empty_range :
    (sampleStateStolen.hhs 4096).level = 5 ∧ (sampleStateStolen.hhs 4096).stealLevel = 5 ∧
    (HM_HHC_collectLocal sampleExt 10 sampleStateStolen).returned = true ∧
    ((HM_HHC_collectLocal sampleExt 10 sampleStateStolen).state.hhs 4096).locallyCollectibleSize
      = 256 ∧
    levelRangeSum
      (HM_getLevelSize sampleExt (HM_HHC_collectLocal sampleExt 10 sampleStateStolen).state
        ((HM_HHC_collectLocal sampleExt 10 sampleStateStolen).state.hhs 4096).levelList)
      ((5 + 1) % 2 ^ 32) 5 = 0 := by
  decide

set_option maxRecDepth 8000 in
/-- C7 (the code at the failing input).  The cache invariant holds before the
collection.  No object survives, every chunk of the heap is freed and the level
list is empty on return, but `limit` and `savedFrontier` keep their values, so
the invariant is broken.  It is broken as well after the collection of
`sampleState`, in which the thread and the stack survive. -/
theorem collectLocal_breaks_cache_invariant :
    HM_HH_cacheInvariant sampleStateDead (sampleStateDead.hhs 4096) ∧
    (HM_HHC_collectLocal sampleExt 10 sampleStateDead).returned = true ∧
    (HM_HHC_collectLocal sampleExt 10 sampleStateDead).state.chunks = [] ∧
    ((HM_HHC_collectLocal sampleExt 10 sampleStateDead).state.hhs 4096).levelList = 0 ∧
    ((HM_HHC_collectLocal sampleExt 10 sampleStateDead).state.hhs 4096).lastAllocatedChunk = 0 ∧
    ((HM_HHC_collectLocal sampleExt 10 sampleStateDead).state.hhs 4096).limit = 2097152 ∧
    ((HM_HHC_collectLocal sampleExt 10 sampleStateDead).state.hhs 4096).savedFrontier
      = 1573184 ∧
    ¬ HM_HH_cacheInvariant (HM_HHC_collectLocal sampleExt 10 sampleStateDead).state
      ((HM_HHC_collectLocal sampleExt 10 sampleStateDead).state.hhs 4096) ∧
    HM_HH_cacheInvariant sampleState (sampleState.hhs 4096) ∧
    (HM_HHC_collectLocal sampleExt 10 sampleState).returned = true ∧
    ¬ HM_HH_cacheInvariant (HM_HHC_collectLocal sampleExt 10 sampleState).state
      ((HM_HHC_collectLocal sampleExt 10 sampleState).state.hhs 4096) := by
  decide

set_option maxRecDepth 16000 in
/-- C6 (counterexample).  Two collections of `sampleState` in succession: the
second one copies the stack and the thread again (88 bytes, 2 objects, 1 stack)
and leaves a level list with another head than the first one left. -/
theorem collectLocal_twice_copies_again :
    (HM_HHC_collectLocal sampleExt 10 sampleState).returned = true ∧
    (HM_HHC_collectLocal sampleExt 10
      (HM_HHC_collectLocal sampleExt 10 sampleState).state).returned = true ∧
    (HM_HHC_collectLocal sampleExt 10 (HM_HHC_collectLocal sampleExt 10 sampleState).state).args
      = some ⟨4096, 4, 5, 0, 88, 2, 1⟩ ∧
    ((HM_HHC_collectLocal sampleExt 10 sampleState).state.hhs 4096).levelList = 2097152 ∧
    ((HM_HHC_collectLocal sampleExt 10
      (HM_HHC_collectLocal sampleExt 10 sampleState).state).state.hhs 4096).levelList
      = 2621440 := by
  decide

/-! ## A collection that finds nothing in scope -/

theorem forwardHHObjptr_outOfScope (x : Ext) (fuel : Nat) (s : GC_state) (opp : Slot)
    (args : ForwardHHObjptrArgs) (h : outOfScope x s opp args = true) :
    forwardHHObjptr x fuel s opp args = .ok (s, args) := by
  unfold outOfScope at h
  unfold forwardHHObjptr
  simp only
  by_cases h1 : (!x.isObjptr (s.readSlot opp) || x.isObjptrInGlobalHeap (s.readSlot opp)) = true
  · rw [if_pos h1]
  · rw [if_neg h1]
    simp only [Bool.not_eq_true] at h1
    rw [h1, Bool.false_or] at h
    cases hi : HM_getObjptrInfo s (s.readSlot opp) with
    | none => rw [hi] at h; simp at h
    | some info =>
      rw [hi] at h
      simp only [decide_eq_true_eq] at h
      simp only
      rw [if_neg (by omega), if_pos (Or.inr h.1)]

theorem forwardSlots_outOfScope (x : Ext) (fuel : Nat) (l : List Nat) (s : GC_state)
    (args : ForwardHHObjptrArgs) (h : ∀ a ∈ l, outOfScope x s (.cell a) args = true) :
    forwardSlots x fuel l s args = .ok (s, args) := by
  induction l with
  | nil => rfl
  | cons a rest ih =>
    unfold forwardSlots
    rw [forwardHHObjptr_outOfScope x fuel s _ args (h a (by simp))]
    exact ih (fun b hb => h b (List.mem_cons_of_mem _ hb))

theorem outOfScope_cell_congr (x : Ext) (s s' : GC_state) (a : Nat) (args : ForwardHHObjptrArgs)
    (h1 : s'.mem = s.mem) (h2 : s'.chunks = s.chunks) (h3 : s'.chunkInfo = s.chunkInfo) :
    outOfScope x s' (.cell a) args = outOfScope x s (.cell a) args := by
  unfold outOfScope
  simp only [GC_state.readSlot, h1, getObjptrInfo_congr s s' h2 h3]

theorem collectLocalEnter_frame (x : Ext) (s s1 : GC_state) (h : collectLocalEnter x s = some s1) :
    s1.chunks = s.chunks ∧ s1.chunkInfo = s.chunkInfo ∧ s1.pool = s.pool ∧
    s1.currentHierarchicalHeap = s.currentHierarchicalHeap ∧
    (s1.hhs s.currentHierarchicalHeap).levelList = (s.hhs s.currentHierarchicalHeap).levelList ∧
    (s1.hhs s.currentHierarchicalHeap).newLevelList
      = (s.hhs s.currentHierarchicalHeap).newLevelList := by
  unfold collectLocalEnter at h
  simp only at h
  split at h
  · simp at h
  · rename_i s4 h4
    unfold lockHH at h
    split_ifs at h
    simp only [Option.some.injEq] at h
    have e : s4.chunks = s.chunks ∧ s4.chunkInfo = s.chunkInfo ∧ s4.pool = s.pool ∧
        s4.currentHierarchicalHeap = s.currentHierarchicalHeap ∧ s4.hhs = s.hhs := by
      split_ifs at h4
      · simp only [Option.some.injEq] at h4
        rw [← h4]
        exact ⟨rfl, rfl, rfl, rfl, rfl⟩
      · unfold Parallel_lockTake at h4
        split_ifs at h4
        simp only [Option.some.injEq] at h4
        rw [← h4]
        exact ⟨rfl, rfl, rfl, rfl, rfl⟩
    rw [← h]
    simp [GC_state.setHH, e.1, e.2.1, e.2.2.1, e.2.2.2.1, e.2.2.2.2]

theorem outOfScope_retVal_setThread (x : Ext) (s : GC_state) (h v : Nat)
    (args : ForwardHHObjptrArgs) :
    outOfScope x (s.setHH h { s.hhs h with thread := v }) (.hhRetVal h) args
      = outOfScope x s (.hhRetVal h) args := by
  have hr : (s.setHH h { s.hhs h with thread := v }).readSlot (.hhRetVal h)
      = s.readSlot (.hhRetVal h) := by
    simp [GC_state.readSlot, GC_state.setHH]
  unfold outOfScope
  rw [hr, getObjptrInfo_congr s (s.setHH h { s.hhs h with thread := v }) rfl rfl]

theorem collectLocalRoots_outOfScope (x : Ext) (fuel : Nat) (s : GC_state)
    (args : ForwardHHObjptrArgs)
    (hstack : ∀ a ∈ x.objptrSlots s.mem (getStackCurrentObjptr x s),
      outOfScope x s (.cell a) args = true)
    (hthread : ∀ a ∈ x.objptrSlots s.mem s.currentThread, outOfScope x s (.cell a) args = true)
    (hcur : outOfScope x s .currentThread args = true)
    (hqueue : ∀ a ∈ x.objptrSlots s.mem s.wsQueue, outOfScope x s (.cell a) args = true)
    (hret : (s.hhs s.currentHierarchicalHeap).retVal = 0 ∨
      outOfScope x s (.hhRetVal s.currentHierarchicalHeap) args = true) :
    collectLocalRoots x fuel s args
      = .ok (s.setHH s.currentHierarchicalHeap
          { s.hhs s.currentHierarchicalHeap with thread := s.currentThread }, args) := by
  unfold collectLocalRoots foreachObjptrInObject
  rw [forwardSlots_outOfScope x fuel _ s args hstack]
  simp only [ForwardResult.andThen]
  rw [forwardSlots_outOfScope x fuel _ s args hthread]
  simp only
  rw [forwardHHObjptr_outOfScope x fuel s _ args hcur]
  simp only
  have hq : ∀ a ∈ x.objptrSlots
      (s.setHH s.currentHierarchicalHeap
        { s.hhs s.currentHierarchicalHeap with thread := s.currentThread }).mem
      (s.setHH s.currentHierarchicalHeap
        { s.hhs s.currentHierarchicalHeap with thread := s.currentThread }).wsQueue,
      outOfScope x (s.setHH s.currentHierarchicalHeap
        { s.hhs s.currentHierarchicalHeap with thread := s.currentThread }) (.cell a) args
        = true := by
    intro a ha
    exact (outOfScope_cell_congr x s (s.setHH s.currentHierarchicalHeap
      { s.hhs s.currentHierarchicalHeap with thread := s.currentThread }) a args
      rfl rfl rfl).trans (hqueue a ha)
  rw [forwardSlots_outOfScope x fuel _ _ args hq]
  simp only
  split_ifs with h0
  · rcases hret with hret | hret
    · exact absurd (by simpa [GC_state.setHH] using hret) h0
    · apply forwardHHObjptr_outOfScope
      exact (outOfScope_retVal_setThread x s _ _ args).trans hret
  · rfl

theorem HM_forwardHHObjptrsInLevelList_empty (x : Ext) (fuel steps : Nat) (scanned : Nat → Nat)
    (s : GC_state) (args : ForwardHHObjptrArgs) (h : (s.hhs args.hh).newLevelList = 0) :
    HM_forwardHHObjptrsInLevelList x fuel (steps + 1) scanned s args = .ok (s, args) := by
  unfold HM_forwardHHObjptrsInLevelList
  simp [h, levelListChunks, levelListHeads, headsChunks]

theorem collectLocalReclaim_nothing (s : GC_state) (minLevel : Nat)
    (hnew : (s.hhs s.currentHierarchicalHeap).newLevelList = 0)
    (hlist : (s.hhs s.currentHierarchicalHeap).levelList = 0 ∨
      (s.chunkInfo (s.hhs s.currentHierarchicalHeap).levelList).level < minLevel) :
    ∃ s3, collectLocalReclaim s minLevel = some s3 ∧ s3.chunkInfo = s.chunkInfo ∧
      s3.chunks = s.chunks ∧ s3.pool = s.pool ∧
      s3.currentHierarchicalHeap = s.currentHierarchicalHeap ∧
      (s3.hhs s.currentHierarchicalHeap).levelList
        = (s.hhs s.currentHierarchicalHeap).levelList := by
  have hfree : HM_freeChunks s minLevel (s.chunks.length + 1)
      (s.hhs s.currentHierarchicalHeap).levelList
      = some (s, (s.hhs s.currentHierarchicalHeap).levelList) := by
    unfold HM_freeChunks
    rcases hlist with h | h
    · simp [h]
    · by_cases h0 : (s.hhs s.currentHierarchicalHeap).levelList = 0
      · simp [h0]
      · simp [h0, h]
  unfold collectLocalReclaim
  simp only [hfree]
  simp [GC_state.setHH, hnew, HM_updateLevelListPointers, levelListHeads, HM_mergeLevelList]

theorem collectLocalBookkeeping_frame (x : Ext) (s : GC_state) :
    (collectLocalBookkeeping x s).chunkInfo = s.chunkInfo ∧
    (collectLocalBookkeeping x s).chunks = s.chunks ∧
    (collectLocalBookkeeping x s).pool = s.pool ∧
    (collectLocalBookkeeping x s).currentHierarchicalHeap = s.currentHierarchicalHeap ∧
    ((collectLocalBookkeeping x s).hhs s.currentHierarchicalHeap).levelList
      = (s.hhs s.currentHierarchicalHeap).levelList := by
  unfold collectLocalBookkeeping
  simp only
  split_ifs <;> simp [GC_state.setHH]

theorem collectLocalLeave_frame (s : GC_state) (b : Bool) (n : Nat) :
    (collectLocalLeave s b n).chunkInfo = s.chunkInfo ∧
    (collectLocalLeave s b n).chunks = s.chunks ∧
    (collectLocalLeave s b n).pool = s.pool ∧
    ((collectLocalLeave s b n).hhs s.currentHierarchicalHeap).levelList
      = (s.hhs s.currentHierarchicalHeap).levelList := by
  unfold collectLocalLeave unlockHH Parallel_lockRelease
  simp only
  split_ifs <;> simp [GC_state.setHH]

theorem collectLocalArgs_counters (x : Ext) (s : GC_state) :
    (collectLocalArgs x s).hh = s.currentHierarchicalHeap ∧
    (collectLocalArgs x s).bytesCopied = 0 ∧ (collectLocalArgs x s).objectsCopied = 0 ∧
    (collectLocalArgs x s).stacksCopied = 0 := by
  unfold collectLocalArgs
  simp only
  split_ifs <;> exact ⟨rfl, rfl, rfl, rfl⟩

/-- C6 (amended).  A collection that runs in a state in which no root slot (of
the current stack, of the current thread, the thread slot itself, of the deque,
the return value) refers to an object of the collected range, and in which the
level list holds no chunk of the collected range, returns, copies zero bytes,
zero objects and zero stacks, and leaves the level list, every chunk header,
the chunks and the pool as they were.  That is the state a first collection
leaves when nothing in the range is reachable; an object of the range that is
reachable is copied again by every collection. -/
theorem HM_HHC_collectLocal_nothing_in_scope (x : Ext) (fuel : Nat) (s s1 : GC_state)
    (hfuel : 1 ≤ fuel) (hen : s.hhCollectionLevel ≠ .NONE)
    (henter : collectLocalEnter x s = some s1)
    (hnew : (s.hhs s.currentHierarchicalHeap).newLevelList = 0)
    (hstack : ∀ a ∈ x.objptrSlots s1.mem (getStackCurrentObjptr x s1),
      outOfScope x s1 (.cell a) (collectLocalArgs x s1) = true)
    (hthread : ∀ a ∈ x.objptrSlots s1.mem s1.currentThread,
      outOfScope x s1 (.cell a) (collectLocalArgs x s1) = true)
    (hcur : outOfScope x s1 .currentThread (collectLocalArgs x s1) = true)
    (hqueue : ∀ a ∈ x.objptrSlots s1.mem s1.wsQueue,
      outOfScope x s1 (.cell a) (collectLocalArgs x s1) = true)
    (hret : (s1.hhs s1.currentHierarchicalHeap).retVal = 0 ∨
      outOfScope x s1 (.hhRetVal s1.currentHierarchicalHeap) (collectLocalArgs x s1) = true)
    (hlist : (s.hhs s.currentHierarchicalHeap).levelList = 0 ∨
      (s.chunkInfo (s.hhs s.currentHierarchicalHeap).levelList).level
        < (collectLocalArgs x s1).minLevel) :
    ∃ s', HM_HHC_collectLocal x fuel s = .ok (s', some (collectLocalArgs x s1)) ∧
      (collectLocalArgs x s1).bytesCopied = 0 ∧ (collectLocalArgs x s1).objectsCopied = 0 ∧
      (collectLocalArgs x s1).stacksCopied = 0 ∧
      s'.chunkInfo = s.chunkInfo ∧ s'.chunks = s.chunks ∧ s'.pool = s.pool ∧
      (s'.hhs s.currentHierarchicalHeap).levelList
        = (s.hhs s.currentHierarchicalHeap).levelList := by
  obtain ⟨e1, e2, e3, e4, e5, e6⟩ := collectLocalEnter_frame x s s1 henter
  obtain ⟨a1, a2, a3, a4⟩ := collectLocalArgs_counters x s1
  obtain ⟨n, rfl⟩ : ∃ n, fuel = n + 1 := ⟨fuel - 1, by omega⟩
  have hroots := collectLocalRoots_outOfScope x (n + 1) s1 (collectLocalArgs x s1) hstack hthread
    hcur hqueue hret
  -- the state after the roots
  have hs2 : ∀ s2, s2 = s1.setHH s1.currentHierarchicalHeap
      { s1.hhs s1.currentHierarchicalHeap with thread := s1.currentThread } →
      s2.chunkInfo = s.chunkInfo ∧ s2.chunks = s.chunks ∧ s2.pool = s.pool ∧
      s2.currentHierarchicalHeap = s.currentHierarchicalHeap ∧
      (s2.hhs s.currentHierarchicalHeap).levelList
        = (s.hhs s.currentHierarchicalHeap).levelList ∧
      (s2.hhs s.currentHierarchicalHeap).newLevelList = 0 := by
    intro s2 h2
    rw [h2]
    refine ⟨e2, e1, e3, e4, ?_, ?_⟩
    · rw [e4]; simp [GC_state.setHH, e5]
    · rw [e4]; simp [GC_state.setHH, e6, hnew]
  generalize s1.setHH s1.currentHierarchicalHeap
      { s1.hhs s1.currentHierarchicalHeap with thread := s1.currentThread } = s2 at hroots hs2
  obtain ⟨b1, b2, b3, b4, b5, b6⟩ := hs2 s2 rfl
  have hdrain : HM_forwardHHObjptrsInLevelList x (n + 1) (n + 1) (fun _ => 0) s2
      (collectLocalArgs x s1) = .ok (s2, collectLocalArgs x s1) :=
    HM_forwardHHObjptrsInLevelList_empty x (n + 1) n _ s2 _ (by rw [a1, e4]; exact b6)
  obtain ⟨s3, hrec, c1, c2, c3, c4, c5⟩ := collectLocalReclaim_nothing s2
    (collectLocalArgs x s1).minLevel (by rw [b4]; exact b6) (by
      rw [b4, b5, b1]; exact hlist)
  unfold HM_HHC_collectLocal
  rw [if_neg hen, henter]
  simp only [hroots, ForwardResult.andThen, hdrain, hrec]
  refine ⟨_, rfl, a2, a3, a4, ?_, ?_, ?_, ?_⟩
  · rw [(collectLocalLeave_frame _ _ _).1, (collectLocalBookkeeping_frame x s3).1, c1, b1]
  · rw [(collectLocalLeave_frame _ _ _).2.1, (collectLocalBookkeeping_frame x s3).2.1, c2, b2]
  · rw [(collectLocalLeave_frame _ _ _).2.2.1, (collectLocalBookkeeping_frame x s3).2.2.1, c3, b3]
  · have k1 := (collectLocalLeave_frame (collectLocalBookkeeping x s3) s.wsQueueLockedByMe
      (collectLocalArgs x s1).bytesCopied).2.2.2
    have k2 := (collectLocalBookkeeping_frame x s3).2.2.2.2
    rw [(collectLocalBookkeeping_frame x s3).2.2.2.1] at k1
    rw [c4, b4] at k1 k2
    rw [k1, k2]
    rw [b4] at c5
    rw [c5, b5]

theorem Option.eq_some_getD {α : Type} (o : Option α) (d : α) (h : o.isSome = true) :
    o = some (o.getD d) := by
  cases o with
  | none => simp at h
  | some v => rfl

set_option maxRecDepth 16000 in
theorem HM_HHC_collectLocal_nothing_in_scope_witness :
    (HM_HHC_collectLocal sampleExt 10 sampleStateDead).returned = true ∧
    sampleStateCollected.hhCollectionLevel ≠ .NONE ∧
    ∃ s', HM_HHC_collectLocal sampleExt 10 sampleStateCollected
        = .ok (s', some (collectLocalArgs sampleExt sampleStateEntered)) ∧
      (collectLocalArgs sampleExt sampleStateEntered).bytesCopied = 0 ∧
      (collectLocalArgs sampleExt sampleStateEntered).objectsCopied = 0 ∧
      (collectLocalArgs sampleExt sampleStateEntered).stacksCopied = 0 ∧
      s'.chunkInfo = sampleStateCollected.chunkInfo ∧ s'.chunks = sampleStateCollected.chunks ∧
      s'.pool = sampleStateCollected.pool ∧
      (s'.hhs sampleStateCollected.currentHierarchicalHeap).levelList
        = (sampleStateCollected.hhs sampleStateCollected.currentHierarchicalHeap).levelList :=
  ⟨by decide, by decide,
   HM_HHC_collectLocal_nothing_in_scope sampleExt 10 sampleStateCollected sampleStateEntered
    (by decide) (by decide) (Option.eq_some_getD _ _ (by decide)) (by decide) (by decide)
    (by decide) (by decide) (by decide) (by decide) (by decide)⟩

/-! ## Lifecycle -/

/-- C10.  For a parent `p` and an orphan child `c` (another heap, with
`parentHH` and `nextChildHH` none), both locks free, `HM_HH_appendChild`
returns and has put `c` at the front of the child list of `p`: `p.childHHList`
is `c`, `c.nextChildHH` is the former `p.childHHList`, `c.parentHH` is `p`.
Every other field of `p` and of `c` (level, level list, cache fields, the lock,
back at UNLOCKED), every other heap, so the rest of the chain, and the rest of
the state (the record of the lock events apart) are unchanged. -/
theorem HM_HH_appendChild_prepends (s : GC_state) (p c : Nat) (hpc : p ≠ c)
    (hlp : (s.hhs p).lock = .HM_HH_LOCK_UNLOCKED) (hlc : (s.hhs c).lock = .HM_HH_LOCK_UNLOCKED)
    (horphan : (s.hhs c).parentHH = BOGUS_OBJPTR ∧ (s.hhs c).nextChildHH = BOGUS_OBJPTR) :
    ∃ s', HM_HH_appendChild s p c = some s' ∧
      s'.hhs p = { s.hhs p with childHHList := c } ∧
      s'.hhs c = { s.hhs c with parentHH := p, nextChildHH := (s.hhs p).childHHList } ∧
      (∀ h, h ≠ p → h ≠ c → s'.hhs h = s.hhs h) ∧
      (s'.hhs p).lock = .HM_HH_LOCK_UNLOCKED ∧ (s'.hhs c).lock = .HM_HH_LOCK_UNLOCKED ∧
      s' = { s with hhs := s'.hhs, hhLockLog := s'.hhLockLog } := by
  have _ := horphan
  have hcp : c ≠ p := Ne.symm hpc
  have e1 : lockHH s p = some { s.setHH p { s.hhs p with lock := .HM_HH_LOCK_LOCKED } with
      hhLockLog := s.hhLockLog ++ [.acquired p] } := by
    unfold lockHH
    rw [if_neg (by rw [hlp]; decide)]
  have e2 : lockHH { s.setHH p { s.hhs p with lock := .HM_HH_LOCK_LOCKED } with
        hhLockLog := s.hhLockLog ++ [.acquired p] } c
      = some { (s.setHH p { s.hhs p with lock := .HM_HH_LOCK_LOCKED }).setHH c
          { s.hhs c with lock := .HM_HH_LOCK_LOCKED } with
          hhLockLog := s.hhLockLog ++ [.acquired p] ++ [.acquired c] } := by
    unfold lockHH
    have : (({ s.setHH p { s.hhs p with lock := .HM_HH_LOCK_LOCKED } with
        hhLockLog := s.hhLockLog ++ [.acquired p] } : GC_state).hhs c) = s.hhs c := by
      simp [GC_state.setHH, hcp]
    rw [this, if_neg (by rw [hlc]; decide)]
    rfl
  unfold HM_HH_appendChild
  rw [e1]
  simp only [e2]
  refine ⟨_, rfl, ?_, ?_, ?_, ?_, ?_, ?_⟩
  · simp [unlockHH, GC_state.setHH, hpc, hcp, ← hlp]
  · simp [unlockHH, GC_state.setHH, hpc, hcp, ← hlc]
  · intro h h1 h2
    simp [unlockHH, GC_state.setHH, hpc, hcp, h1, h2]
  · simp [unlockHH, GC_state.setHH, hpc, hcp]
  · simp [unlockHH, GC_state.setHH, hpc, hcp]
  · simp [unlockHH, GC_state.setHH, hpc, hcp]

theorem HM_HH_appendChild_prepends_witness :
    (4096 : Nat) ≠ 8192 ∧
    ((sampleState.hhs 8192).parentHH = BOGUS_OBJPTR ∧
      (sampleState.hhs 8192).nextChildHH = BOGUS_OBJPTR) ∧
    ∃ s', HM_HH_appendChild sampleState 4096 8192 = some s' ∧
      s'.hhs 4096 = { sampleState.hhs 4096 with childHHList := 8192 } ∧
      s'.hhs 8192 = { sampleState.hhs 8192 with
        parentHH := 4096, nextChildHH := (sampleState.hhs 4096).childHHList } ∧
      (∀ h, h ≠ 4096 → h ≠ 8192 → s'.hhs h = sampleState.hhs h) ∧
      (s'.hhs 4096).lock = .HM_HH_LOCK_UNLOCKED ∧ (s'.hhs 8192).lock = .HM_HH_LOCK_UNLOCKED ∧
      s' = { sampleState with hhs := s'.hhs, hhLockLog := s'.hhLockLog } :=
  ⟨by decide, by decide,
   HM_HH_appendChild_prepends sampleState 4096 8192 (by decide) (by decide) (by decide)
     (by decide)⟩

/-! ## Merging a child into its parent -/

theorem followLinks_iff (next : Nat → Nat) (null : Nat) (fuel a : Nat) (l : List Nat) :
    followLinks next null fuel a = some l ↔ LinkSeg next null a l null ∧ l.length < fuel := by
  induction fuel generalizing a l with
  | zero => simp [followLinks]
  | succ n ih =>
    unfold followLinks
    by_cases h : a = null
    · rw [if_pos h]
      cases l with
      | nil => simp [LinkSeg, h]
      | cons k t =>
        simp only [LinkSeg, Option.some.injEq, List.length_cons]
        constructor
        · intro h1; cases h1
        · rintro ⟨⟨h1, h2, _⟩, _⟩
          exact absurd (h1 ▸ h) h2
    · rw [if_neg h]
      cases l with
      | nil =>
        simp only [LinkSeg, Option.map_eq_some', List.length_nil]
        constructor
        · rintro ⟨t, _, h2⟩; cases h2
        · rintro ⟨h1, _⟩; exact absurd h1 h
      | cons k t =>
        simp only [LinkSeg, Option.map_eq_some', List.cons.injEq, List.length_cons]
        constructor
        · rintro ⟨t', h1, h2, h3⟩
          subst h2 h3
          have := (ih _ _).1 h1
          exact ⟨⟨rfl, h, this.1⟩, by omega⟩
        · rintro ⟨⟨h1, h2, h3⟩, h4⟩
          subst h1
          exact ⟨t, (ih _ _).2 ⟨h3, by omega⟩, rfl, rfl⟩

theorem LinkSeg_congr (next next' : Nat → Nat) (null : Nat) (l : List Nat) (a b : Nat)
    (h : ∀ k ∈ l, next' k = next k) (hs : LinkSeg next null a l b) :
    LinkSeg next' null a l b := by
  induction l generalizing a with
  | nil => exact hs
  | cons k t ih =>
    obtain ⟨h1, h2, h3⟩ := hs
    refine ⟨h1, h2, ?_⟩
    rw [h k (List.mem_cons_self _ _)]
    exact ih _ (fun j hj => h j (List.mem_cons_of_mem _ hj)) h3

theorem LinkSeg_append (next : Nat → Nat) (null : Nat) (l1 l2 : List Nat) (a b : Nat) :
    LinkSeg next null a (l1 ++ l2) b ↔
      ∃ m, LinkSeg next null a l1 m ∧ LinkSeg next null m l2 b := by
  induction l1 generalizing a with
  | nil => simp [LinkSeg]
  | cons k t ih =>
    show LinkSeg next null a (k :: (t ++ l2)) b ↔ _
    constructor
    · rintro ⟨h1, h2, h3⟩
      obtain ⟨m, h4, h5⟩ := (ih _).1 h3
      exact ⟨m, ⟨h1, h2, h4⟩, h5⟩
    · rintro ⟨m, ⟨h1, h2, h3⟩, h4⟩
      exact ⟨h1, h2, (ih _).2 ⟨m, h3, h4⟩⟩

theorem LinkSeg_snoc (next : Nat → Nat) (null : Nat) (l : List Nat) (p a b : Nat) :
    LinkSeg next null a (l ++ [p]) b ↔ LinkSeg next null a l p ∧ p ≠ null ∧ next p = b := by
  rw [LinkSeg_append]
  simp only [LinkSeg]
  constructor
  · rintro ⟨m, h1, h2, h3, h4⟩
    subst h2
    exact ⟨h1, h3, h4⟩
  · rintro ⟨h1, h2, h3⟩
    exact ⟨p, h1, rfl, h2, h3⟩

theorem LinkSeg_unique (next : Nat → Nat) (null : Nat) (l1 l2 : List Nat) (a : Nat)
    (h1 : LinkSeg next null a l1 null) (h2 : LinkSeg next null a l2 null) : l1 = l2 := by
  induction l1 generalizing a l2 with
  | nil =>
    cases l2 with
    | nil => rfl
    | cons k t =>
      simp only [LinkSeg] at h1 h2
      exact absurd (h2.1 ▸ h1) h2.2.1
  | cons k t ih =>
    cases l2 with
    | nil =>
      simp only [LinkSeg] at h1 h2
      exact absurd (h1.1 ▸ h2) h1.2.1
    | cons k2 t2 =>
      simp only [LinkSeg] at h1 h2
      have : k = k2 := h1.1.symm.trans h2.1
      subst this
      rw [ih _ _ h1.2.2 h2.2.2]

theorem LinkSeg_nodup (next : Nat → Nat) (null : Nat) (l : List Nat) (a : Nat)
    (h : LinkSeg next null a l null) : l.Nodup := by
  induction l generalizing a with
  | nil => exact List.nodup_nil
  | cons k t ih =>
    obtain ⟨h1, h2, h3⟩ := h
    refine List.nodup_cons.2 ⟨?_, ih _ h3⟩
    intro hk
    obtain ⟨u, v, rfl⟩ := List.append_of_mem hk
    obtain ⟨m, h4, h5⟩ := (LinkSeg_append _ _ _ _ _ _).1 h3
    have h6 : m = k := h5.1
    subst h6
    have h7 : LinkSeg next null m (m :: (u ++ m :: v)) null := ⟨rfl, h2, h3⟩
    have := LinkSeg_unique _ _ _ _ _ h5 h7
    have := congrArg List.length this
    simp at this
    omega

theorem LinkSeg_not_null (next : Nat → Nat) (null : Nat) (l : List Nat) (a b : Nat)
    (h : LinkSeg next null a l b) : ∀ k ∈ l, k ≠ null := by
  induction l generalizing a with
  | nil => simp
  | cons k t ih =>
    obtain ⟨_, h2, h3⟩ := h
    intro j hj
    rcases List.mem_cons.1 hj with rfl | hj
    · exact h2
    · exact ih _ h3 j hj

theorem levelListHeads_eq_followLinks (s : GC_state) (fuel a : Nat) :
    levelListHeads s fuel a = followLinks (nextHeadOf s) 0 fuel a := by
  induction fuel generalizing a with
  | zero => rfl
  | succ n ih =>
    unfold levelListHeads followLinks
    rw [ih]
    rfl

theorem levelListHeads_iff (s : GC_state) (fuel a : Nat) (l : List Nat) :
    levelListHeads s fuel a = some l ↔ LinkSeg (nextHeadOf s) 0 a l 0 ∧ l.length < fuel := by
  rw [levelListHeads_eq_followLinks, followLinks_iff]

theorem nextHeadOf_setChunkInfo (s : GC_state) (c k : Nat) (i : HM_ChunkInfo) :
    nextHeadOf (s.setChunkInfo c i) k = if k = c then i.nextHead else nextHeadOf s k := by
  unfold nextHeadOf
  by_cases h : k = c
  · subst h
    rw [setChunkInfo_same, if_pos rfl]
  · rw [setChunkInfo_ne _ _ _ _ h, if_neg h]

theorem findLevelPosition_spec (s : GC_state) (level : Nat) (fuel : Nat) :
    ∀ (prev cur : Nat) (D : List Nat), LinkSeg (nextHeadOf s) 0 cur D 0 → D.length < fuel →
    ∃ prev' cur' A B, findLevelPosition s level fuel prev cur = some (prev', cur') ∧
      D = A ++ B ∧ LinkSeg (nextHeadOf s) 0 cur A cur' ∧ LinkSeg (nextHeadOf s) 0 cur' B 0 ∧
      ((A = [] ∧ prev' = prev) ∨ ∃ A', A = A' ++ [prev']) := by
  induction fuel with
  | zero => intro _ _ D _ h; exact absurd h (Nat.not_lt_zero _)
  | succ n ih =>
    intro prev cur D hD hlen
    unfold findLevelPosition
    by_cases hc : cur ≠ 0 ∧ level < (s.chunkInfo cur).level
    · rw [if_pos hc]
      cases D with
      | nil => exact absurd hD hc.1
      | cons k t =>
        obtain ⟨h1, h2, h3⟩ := hD
        subst h1
        obtain ⟨p', c', A, B, e1, e2, e3, e4, e5⟩ :=
          ih cur (s.chunkInfo cur).nextHead t h3 (by simpa using hlen)
        refine ⟨p', c', cur :: A, B, e1, by rw [e2]; rfl, ⟨rfl, h2, e3⟩, e4, ?_⟩
        right
        rcases e5 with ⟨ha, hp⟩ | ⟨A', ha⟩
        · exact ⟨[], by rw [ha, hp]; rfl⟩
        · exact ⟨cur :: A', by rw [ha]; rfl⟩
    · rw [if_neg hc]
      exact ⟨prev, cur, [], D, rfl, rfl, rfl, hD, Or.inl ⟨rfl, rfl⟩⟩

theorem mergeLevelListDemote_nextHead (s : GC_state) (cur src : Nat) :
    nextHeadOf (mergeLevelListDemote s cur src) = nextHeadOf s := by
  funext k
  unfold mergeLevelListDemote nextHeadOf
  simp only
  exact (setChunkInfo_field (fun i => i.nextHead) _ _ _ _ (by rfl)).trans
    ((setChunkInfo_field (fun i => i.nextHead) _ _ _ _ (by rfl)).trans
      (setChunkInfo_field (fun i => i.nextHead) _ _ _ _ (by rfl)))

theorem mergeLevelListDemote_level (s : GC_state) (cur src k : Nat) :
    ((mergeLevelListDemote s cur src).chunkInfo k).level = (s.chunkInfo k).level ∨
      ((mergeLevelListDemote s cur src).chunkInfo k).level = CHUNK_INVALID_LEVEL := by
  unfold mergeLevelListDemote
  simp only
  by_cases h : k = src
  · subst h
    rw [setChunkInfo_same]
    exact Or.inr rfl
  · rw [setChunkInfo_ne _ _ _ _ h]
    exact Or.inl ((setChunkInfo_field (fun i => i.level) _ _ _ _ (by rfl)).trans
      (setChunkInfo_field (fun i => i.level) _ _ _ _ (by rfl)))

theorem mergeLevelListSplice_level (s : GC_state) (prev cur src k : Nat) :
    ((mergeLevelListSplice s prev cur src).chunkInfo k).level = (s.chunkInfo k).level := by
  unfold mergeLevelListSplice
  simp only
  split
  · exact setChunkInfo_field (fun i => i.level) _ _ _ _ (by rfl)
  · exact (setChunkInfo_field (fun i => i.level) _ _ _ _ (by rfl)).trans
      (setChunkInfo_field (fun i => i.level) _ _ _ _ (by rfl))

theorem mergeLevelListSplice_nextHead (s : GC_state) (prev cur src k : Nat) :
    nextHeadOf (mergeLevelListSplice s prev cur src) k =
      if k = prev ∧ prev ≠ 0 then src else if k = src then cur else nextHeadOf s k := by
  unfold mergeLevelListSplice
  simp only
  by_cases hp : prev = 0
  · rw [if_pos hp, nextHeadOf_setChunkInfo, if_neg (fun h : k = prev ∧ prev ≠ 0 => h.2 hp)]
  · rw [if_neg hp, nextHeadOf_setChunkInfo, nextHeadOf_setChunkInfo]
    by_cases hk : k = prev
    · rw [if_pos hk, if_pos (⟨hk, hp⟩ : k = prev ∧ prev ≠ 0)]
    · rw [if_neg hk, if_neg (fun h : k = prev ∧ prev ≠ 0 => hk h.1)]

theorem mergeLevelListDemote_frame (s : GC_state) (cur src : Nat) :
    mergeLevelListDemote s cur src =
      { s with chunkInfo := (mergeLevelListDemote s cur src).chunkInfo } := rfl

theorem mergeLevelListSplice_frame (s : GC_state) (prev cur src : Nat) :
    mergeLevelListSplice s prev cur src =
      { s with chunkInfo := (mergeLevelListSplice s prev cur src).chunkInfo } := by
  unfold mergeLevelListSplice
  simp only
  split <;> rfl

theorem HM_mergeLevelList_step_demote (s : GC_state) (n dest src prev cur : Nat) (h0 : src ≠ 0)
    (hf : findLevelPosition s (s.chunkInfo src).level (s.chunks.length + 1) 0 dest
      = some (prev, cur))
    (hc : cur ≠ 0 ∧ (s.chunkInfo cur).level = (s.chunkInfo src).level) :
    HM_mergeLevelList s (n + 1) dest src =
      HM_mergeLevelList (mergeLevelListDemote s cur src) n dest (nextHeadOf s src) := by
  conv_lhs => unfold HM_mergeLevelList
  rw [if_neg h0]
  simp only [hf]
  rw [if_pos hc]
  rfl

theorem HM_mergeLevelList_step_splice (s : GC_state) (n dest src prev cur : Nat) (h0 : src ≠ 0)
    (hf : findLevelPosition s (s.chunkInfo src).level (s.chunks.length + 1) 0 dest
      = some (prev, cur))
    (hc : ¬ (cur ≠ 0 ∧ (s.chunkInfo cur).level = (s.chunkInfo src).level)) :
    HM_mergeLevelList s (n + 1) dest src =
      HM_mergeLevelList (mergeLevelListSplice s prev cur src) n
        (if prev = 0 then src else dest) (nextHeadOf s src) := by
  conv_lhs => unfold HM_mergeLevelList
  rw [if_neg h0]
  simp only [hf]
  rw [if_neg hc]
  unfold mergeLevelListSplice
  by_cases hp : prev = 0
  · simp only [hp, if_true]
    rfl
  · simp only [hp, if_false]
    rfl

theorem HM_mergeLevelList_total (fuel : Nat) :
    ∀ (s : GC_state) (dest src : Nat) (D R : List Nat),
    LinkSeg (nextHeadOf s) 0 dest D 0 → LinkSeg (nextHeadOf s) 0 src R 0 →
    (D ++ R).Nodup → (D ++ R).length ≤ s.chunks.length → R.length < fuel →
    ∃ s' d, HM_mergeLevelList s fuel dest src = some (s', d) ∧
      s' = { s with chunkInfo := s'.chunkInfo } ∧ (d = dest ∨ d ∈ R) ∧
      ∀ k, (s'.chunkInfo k).level = (s.chunkInfo k).level ∨
        (s'.chunkInfo k).level = CHUNK_INVALID_LEVEL := by
  induction fuel with
  | zero => intro _ _ _ _ R _ _ _ _ h; exact absurd h (Nat.not_lt_zero _)
  | succ n ih =>
    intro s dest src D R hD hR hnd hlen hfuel
    cases R with
    | nil =>
      have h0 : src = 0 := hR
      refine ⟨s, dest, ?_, rfl, Or.inl rfl, fun k => Or.inl rfl⟩
      unfold HM_mergeLevelList
      rw [if_pos h0]
    | cons r R' =>
      obtain ⟨h1, h2, h3⟩ := hR
      subst h1
      have hl : (D ++ src :: R').length = D.length + R'.length + 1 := by simp; omega
      have hDlen : D.length < s.chunks.length + 1 := by omega
      obtain ⟨prev, cur, A, B, e1, e2, e3, e4, e5⟩ :=
        findLevelPosition_spec s (s.chunkInfo src).level _ 0 dest D hD hDlen
      have hsrcD : src ∉ D := fun hm =>
        (List.nodup_append.1 hnd).2.2 hm (List.mem_cons_self _ _)
      have hsrcR : src ∉ R' := (List.nodup_cons.1 (List.nodup_append.1 hnd).2.1).1
      by_cases hc : cur ≠ 0 ∧ (s.chunkInfo cur).level = (s.chunkInfo src).level
      · rw [HM_mergeLevelList_step_demote s n dest src prev cur h2 e1 hc]
        have hnx := mergeLevelListDemote_nextHead s cur src
        obtain ⟨s', d, q1, q2, q3, q4⟩ := ih (mergeLevelListDemote s cur src) dest
          (nextHeadOf s src) D R' (by rw [hnx]; exact hD) (by rw [hnx]; exact h3)
          (hnd.sublist ((List.sublist_cons_self src R').append_left D))
          (by show (D ++ R').length ≤ s.chunks.length
              rw [hl] at hlen
              simp only [List.length_append]; omega)
          (by simp only [List.length_cons] at hfuel; omega)
        refine ⟨s', d, q1, q2.trans rfl, ?_, ?_⟩
        · rcases q3 with q3 | q3
          · exact Or.inl q3
          · exact Or.inr (List.mem_cons_of_mem _ q3)
        · intro k
          rcases q4 k with q4 | q4
          · rw [q4]; exact mergeLevelListDemote_level s cur src k
          · exact Or.inr q4
      · rw [HM_mergeLevelList_step_splice s n dest src prev cur h2 e1 hc]
        have hnx := mergeLevelListSplice_nextHead s prev cur src
        have hDnn := LinkSeg_not_null _ _ _ _ _ hD
        have hDnd : D.Nodup := (List.nodup_append.1 hnd).1
        -- the remaining source list is untouched
        have hR' : LinkSeg (nextHeadOf (mergeLevelListSplice s prev cur src)) 0
            (nextHeadOf s src) R' 0 := by
          refine LinkSeg_congr _ _ _ _ _ _ ?_ h3
          intro k hk
          rw [hnx]
          have k1 : k ≠ src := fun h => hsrcR (h ▸ hk)
          have k2 : ¬ (k = prev ∧ prev ≠ 0) := by
            rintro ⟨rfl, _⟩
            rcases e5 with ⟨_, hp⟩ | ⟨A', ha⟩
            · exact absurd hp (by assumption)
            · have : k ∈ D := by rw [e2, ha]; simp
              exact (List.nodup_append.1 hnd).2.2 this (List.mem_cons_of_mem _ hk)
          rw [if_neg k2, if_neg k1]
        -- the destination list with the head spliced in
        have hD' : LinkSeg (nextHeadOf (mergeLevelListSplice s prev cur src)) 0
            (if prev = 0 then src else dest) (A ++ src :: B) 0 := by
          have hB : LinkSeg (nextHeadOf (mergeLevelListSplice s prev cur src)) 0 cur B 0 := by
            refine LinkSeg_congr _ _ _ _ _ _ ?_ e4
            intro k hk
            rw [hnx]
            have kD : k ∈ D := by rw [e2]; simp [hk]
            have k1 : k ≠ src := fun h => hsrcD (h ▸ kD)
            have k2 : ¬ (k = prev ∧ prev ≠ 0) := by
              rintro ⟨rfl, _⟩
              rcases e5 with ⟨_, hp⟩ | ⟨A', ha⟩
              · exact absurd hp (by assumption)
              · rw [e2, ha] at hDnd
                have := (List.nodup_append.1 hDnd).2.2 (by simp : k ∈ A' ++ [k]) hk
                exact this
            rw [if_neg k2, if_neg k1]
          rcases e5 with ⟨ha, hp⟩ | ⟨A', ha⟩
          · subst ha
            have hcd : dest = cur := e3
            rw [if_pos hp]
            refine ⟨rfl, h2, ?_⟩
            rw [hnx, if_neg (fun h => h.2 hp), if_pos rfl]
            exact hB
          · have hpD : prev ∈ D := by rw [e2, ha]; simp
            have hp0 : prev ≠ 0 := hDnn prev hpD
            rw [if_neg hp0]
            refine (LinkSeg_append _ _ _ _ _ _).2 ⟨src, ?_, rfl, h2, ?_⟩
            · rw [ha] at e3 ⊢
              obtain ⟨f1, f2, f3⟩ := (LinkSeg_snoc _ _ _ _ _ _).1 e3
              refine (LinkSeg_snoc _ _ _ _ _ _).2 ⟨?_, f2, ?_⟩
              · refine LinkSeg_congr _ _ _ _ _ _ ?_ f1
                intro k hk
                rw [hnx]
                have kD : k ∈ D := by rw [e2, ha]; simp [hk]
                have k1 : k ≠ src := fun h => hsrcD (h ▸ kD)
                have k2 : ¬ (k = prev ∧ prev ≠ 0) := by
                  rintro ⟨rfl, _⟩
                  rw [e2, ha] at hDnd
                  have := (List.nodup_append.1 (List.nodup_append.1 hDnd).1).2.2 hk
                    (List.mem_singleton_self _)
                  exact this
                rw [if_neg k2, if_neg k1]
              · rw [hnx, if_pos ⟨rfl, hp0⟩]
            · have : src ≠ prev := fun h => hsrcD (h ▸ hpD)
              rw [hnx, if_neg (fun h => this h.1), if_pos rfl]
              exact hB
        have hperm : ((A ++ src :: B) ++ R').Perm (D ++ src :: R') := by
          rw [e2]
          simp only [List.append_assoc]
          refine List.Perm.append_left A ?_
          show (src :: (B ++ R')).Perm (B ++ src :: R')
          exact List.perm_middle.symm
        obtain ⟨s', d, q1, q2, q3, q4⟩ := ih (mergeLevelListSplice s prev cur src)
          (if prev = 0 then src else dest) (nextHeadOf s src) (A ++ src :: B) R' hD' hR'
          (hperm.nodup_iff.2 hnd)
          (by have := hperm.length_eq
              have e : (mergeLevelListSplice s prev cur src).chunks = s.chunks := by
                rw [mergeLevelListSplice_frame]
              rw [e, this]; exact hlen)
          (by simp only [List.length_cons] at hfuel; omega)
        refine ⟨s', d, q1, ?_, ?_, ?_⟩
        · rw [mergeLevelListSplice_frame] at q2
          exact q2
        · rcases q3 with q3 | q3
          · by_cases hp : prev = 0
            · rw [if_pos hp] at q3
              exact Or.inr (q3 ▸ List.mem_cons_self _ _)
            · rw [if_neg hp] at q3
              exact Or.inl q3
          · exact Or.inr (List.mem_cons_of_mem _ q3)
        · intro k
          rcases q4 k with q4 | q4
          · rw [q4, mergeLevelListSplice_level]; exact Or.inl rfl
          · exact Or.inr q4

theorem childHHChain_eq_followLinks (s : GC_state) (fuel a : Nat) :
    childHHChain s fuel a = followLinks (nextChildOf s) BOGUS_OBJPTR fuel a := by
  induction fuel generalizing a with
  | zero => rfl
  | succ n ih =>
    unfold childHHChain followLinks
    rw [ih]
    rfl

theorem childHHChain_iff (s : GC_state) (fuel a : Nat) (l : List Nat) :
    childHHChain s fuel a = some l ↔
      LinkSeg (nextChildOf s) BOGUS_OBJPTR a l BOGUS_OBJPTR ∧ l.length < fuel := by
  rw [childHHChain_eq_followLinks, followLinks_iff]

theorem lockHH_some (s : GC_state) (h : Nat) (hl : (s.hhs h).lock = .HM_HH_LOCK_UNLOCKED) :
    lockHH s h = some { s.setHH h { s.hhs h with lock := .HM_HH_LOCK_LOCKED } with
      hhLockLog := s.hhLockLog ++ [.acquired h] } := by
  unfold lockHH
  rw [if_neg (by rw [hl]; decide)]

theorem lockHH_spec (s s1 : GC_state) (h : Nat) (e : lockHH s h = some s1) :
    (s.hhs h).lock = .HM_HH_LOCK_UNLOCKED ∧
      s1 = { s.setHH h { s.hhs h with lock := .HM_HH_LOCK_LOCKED } with
        hhLockLog := s.hhLockLog ++ [.acquired h] } := by
  unfold lockHH at e
  by_cases hl : (s.hhs h).lock = .HM_HH_LOCK_LOCKED
  · rw [if_pos hl] at e
    cases e
  · rw [if_neg hl] at e
    refine ⟨?_, (Option.some.inj e).symm⟩
    cases hq : (s.hhs h).lock
    · rfl
    · exact absurd hq hl

theorem unlockHH_hhs (s : GC_state) (h k : Nat) :
    (unlockHH s h).hhs k =
      if k = h then { s.hhs h with lock := .HM_HH_LOCK_UNLOCKED } else s.hhs k := by
  unfold unlockHH
  by_cases hl : (s.hhs h).lock = .HM_HH_LOCK_LOCKED
  · rw [if_pos hl]
    simp [GC_state.setHH]
  · rw [if_neg hl]
    by_cases hk : k = h
    · subst hk
      rw [if_pos rfl]
      cases hq : (s.hhs k).lock
      · cases hv : s.hhs k
        rw [hv] at hq
        simp only at hq
        subst hq
        rfl
      · exact absurd hq hl
    · rw [if_neg hk]

theorem unlockHH_frame (s : GC_state) (h : Nat) :
    unlockHH s h = { s with hhs := (unlockHH s h).hhs, hhLockLog := (unlockHH s h).hhLockLog } := by
  unfold unlockHH
  split <;> rfl

theorem findChildCursor_spec (s : GC_state) (c : Nat) (fuel : Nat) :
    ∀ (cursor : ChildCursor) (a b : List Nat),
    LinkSeg (nextChildOf s) BOGUS_OBJPTR (s.readCursor cursor) (a ++ c :: b) BOGUS_OBJPTR →
    c ∉ a → a.length < fuel →
    ∃ cursor', findChildCursor s c fuel cursor = some cursor' ∧
      ((a = [] ∧ cursor' = cursor) ∨ ∃ a' k, a = a' ++ [k] ∧ cursor' = .nextChildHH k) := by
  induction fuel with
  | zero => intro _ a _ _ _ h; exact absurd h (Nat.not_lt_zero _)
  | succ n ih =>
    intro cursor a b hseg hca hlen
    unfold findChildCursor
    cases a with
    | nil =>
      have h1 : s.readCursor cursor = c := hseg.1
      rw [if_neg (by rw [h1]; exact fun h => h rfl)]
      exact ⟨cursor, rfl, Or.inl ⟨rfl, rfl⟩⟩
    | cons k t =>
      obtain ⟨h1, h2, h3⟩ := hseg
      have hck : c ≠ k := fun h => hca (h ▸ List.mem_cons_self _ _)
      rw [h1, if_pos hck, if_neg h2]
      obtain ⟨cursor', e1, e2⟩ := ih (.nextChildHH k) t b h3
        (fun h => hca (List.mem_cons_of_mem _ h)) (by simpa using hlen)
      refine ⟨cursor', e1, Or.inr ?_⟩
      rcases e2 with ⟨ht, hc⟩ | ⟨a', j, ht, hc⟩
      · exact ⟨[], k, by rw [ht]; rfl, hc⟩
      · exact ⟨k :: a', j, by rw [ht]; rfl, hc⟩

theorem HM_HH_mergeIntoParent_eq (fuel : Nat) (s s1 s2 s4 : GC_state) (c ll : Nat)
    (cursor : ChildCursor)
    (hc : c ≠ BOGUS_OBJPTR) (hp : (s.hhs c).parentHH ≠ BOGUS_OBJPTR)
    (e1 : lockHH s c = some s1) (e2 : lockHH s1 (s.hhs c).parentHH = some s2)
    (e3 : findChildCursor s2 c fuel (.childHHList (s.hhs c).parentHH) = some cursor)
    (e4 : HM_mergeLevelList (s2.writeCursor cursor (s2.hhs c).nextChildHH)
        ((s2.writeCursor cursor (s2.hhs c).nextChildHH).chunks.length + 1)
        ((s2.writeCursor cursor (s2.hhs c).nextChildHH).hhs (s.hhs c).parentHH).levelList
        ((s2.writeCursor cursor (s2.hhs c).nextChildHH).hhs c).levelList = some (s4, ll)) :
    HM_HH_mergeIntoParent fuel s c =
      some (unlockHH (unlockHH (s4.setHH (s.hhs c).parentHH
        { s4.hhs (s.hhs c).parentHH with levelList := ll }) (s.hhs c).parentHH) c) := by
  unfold HM_HH_mergeIntoParent
  rw [if_neg hc]
  simp only [if_neg hp, e1, e2, e3, e4]

theorem lockHH_two (s : GC_state) (c p : Nat) (hpc : p ≠ c)
    (hlc : (s.hhs c).lock = .HM_HH_LOCK_UNLOCKED) (hlp : (s.hhs p).lock = .HM_HH_LOCK_UNLOCKED) :
    ∃ s1 s2, lockHH s c = some s1 ∧ lockHH s1 p = some s2 ∧
      s2 = { s with hhs := s2.hhs, hhLockLog := s.hhLockLog ++ [.acquired c, .acquired p] } ∧
      ∀ k, s2.hhs k = if k = p then { s.hhs p with lock := .HM_HH_LOCK_LOCKED }
        else if k = c then { s.hhs c with lock := .HM_HH_LOCK_LOCKED } else s.hhs k := by
  have e1 := lockHH_some s c hlc
  have h1 : (({ s.setHH c { s.hhs c with lock := .HM_HH_LOCK_LOCKED } with
      hhLockLog := s.hhLockLog ++ [.acquired c] } : GC_state).hhs p).lock
      = .HM_HH_LOCK_UNLOCKED := by
    simp [GC_state.setHH, hpc, hlp]
  have e2 := lockHH_some _ p h1
  refine ⟨_, _, e1, e2, ?_, ?_⟩
  · simp [GC_state.setHH]
  · intro k
    by_cases hkp : k = p
    · subst hkp
      simp [GC_state.setHH, hpc]
    · by_cases hkc : k = c
      · subst hkc
        simp [GC_state.setHH, hkp]
      · simp [GC_state.setHH, hkp, hkc]

theorem writeCursor_frame (s : GC_state) (cursor : ChildCursor) (v : Nat) :
    s.writeCursor cursor v = { s with hhs := (s.writeCursor cursor v).hhs } := by
  cases cursor <;> rfl

theorem writeCursor_levelList (s : GC_state) (cursor : ChildCursor) (v k : Nat) :
    ((s.writeCursor cursor v).hhs k).levelList = (s.hhs k).levelList := by
  cases cursor <;> simp only [GC_state.writeCursor, GC_state.setHH] <;> split <;> simp_all

theorem writeCursor_chain (s : GC_state) (c p start : Nat) (a b : List Nat)
    (cursor : ChildCursor) (hstart : (s.hhs p).childHHList = start)
    (hseg : LinkSeg (nextChildOf s) BOGUS_OBJPTR start (a ++ c :: b) BOGUS_OBJPTR)
    (hcur : (a = [] ∧ cursor = .childHHList p) ∨
      ∃ a' k, a = a' ++ [k] ∧ cursor = .nextChildHH k) :
    LinkSeg (nextChildOf (s.writeCursor cursor (nextChildOf s c))) BOGUS_OBJPTR
      ((s.writeCursor cursor (nextChildOf s c)).hhs p).childHHList (a ++ b) BOGUS_OBJPTR := by
  have hnd := LinkSeg_nodup _ _ _ _ hseg
  obtain ⟨m, h1, h2, h3, h4⟩ := (LinkSeg_append _ _ _ _ _ _).1 hseg
  subst h2
  rcases hcur with ⟨ha, hc⟩ | ⟨a', k, ha, hc⟩
  · subst ha hc
    have e1 : nextChildOf (s.writeCursor (.childHHList p) (nextChildOf s m)) = nextChildOf s := by
      funext j
      simp only [nextChildOf, GC_state.writeCursor, GC_state.setHH]
      split <;> simp_all
    have e2 : ((s.writeCursor (.childHHList p) (nextChildOf s m)).hhs p).childHHList
        = nextChildOf s m := by
      simp [GC_state.writeCursor, GC_state.setHH]
    rw [e1, e2]
    exact h4
  · subst ha hc
    have e1 : ∀ j, nextChildOf (s.writeCursor (.nextChildHH k) (nextChildOf s m)) j
        = if j = k then nextChildOf s m else nextChildOf s j := by
      intro j
      simp only [nextChildOf, GC_state.writeCursor, GC_state.setHH]
      split <;> simp_all
    have e2 : ((s.writeCursor (.nextChildHH k) (nextChildOf s m)).hhs p).childHHList = start := by
      rw [← hstart]
      simp only [GC_state.writeCursor, GC_state.setHH]
      split <;> simp_all
    rw [e2]
    obtain ⟨f1, f2, f3⟩ := (LinkSeg_snoc _ _ _ _ _ _).1 h1
    have hk1 : k ∉ a' := by
      have := (List.nodup_append.1 hnd).1
      exact fun h => (List.nodup_append.1 this).2.2 h (List.mem_singleton_self _)
    have hk2 : k ∉ b := by
      intro h
      exact (List.nodup_append.1 hnd).2.2 (by simp : k ∈ a' ++ [k])
        (List.mem_cons_of_mem _ h)
    refine (LinkSeg_append _ _ _ _ _ _).2 ⟨nextChildOf s m, ?_, ?_⟩
    · refine (LinkSeg_snoc _ _ _ _ _ _).2 ⟨?_, f2, ?_⟩
      · refine LinkSeg_congr _ _ _ _ _ _ ?_ f1
        intro j hj
        rw [e1, if_neg (fun h : j = k => hk1 (h ▸ hj))]
      · rw [e1, if_pos rfl]
    · refine LinkSeg_congr _ _ _ _ _ _ ?_ h4
      intro j hj
      rw [e1, if_neg (fun h : j = k => hk2 (h ▸ hj))]

/-- The run of `HM_HH_mergeIntoParent` on a linked child, step by step. -/
theorem HM_HH_mergeIntoParent_run (fuel n : Nat) (s : GC_state) (c p : Nat) (l : List Nat)
    (hc : c ≠ BOGUS_OBJPTR) (hparent : (s.hhs c).parentHH = p) (hp : p ≠ BOGUS_OBJPTR)
    (hpc : p ≠ c)
    (hlc : (s.hhs c).lock = .HM_HH_LOCK_UNLOCKED) (hlp : (s.hhs p).lock = .HM_HH_LOCK_UNLOCKED)
    (hchain : childHHChain s n (s.hhs p).childHHList = some l) (hmem : c ∈ l)
    (hfuel : l.length ≤ fuel)
    (hlists : LevelListsMergeable s (s.hhs p).levelList (s.hhs c).levelList) :
    ∃ (s2 s4 : GC_state) (cursor : ChildCursor) (d : Nat) (a b R : List Nat),
      l = a ++ c :: b ∧ c ∉ a ∧ c ∉ b ∧
      s2 = { s with hhs := s2.hhs, hhLockLog := s.hhLockLog ++ [.acquired c, .acquired p] } ∧
      (∀ k, s2.hhs k = if k = p then { s.hhs p with lock := .HM_HH_LOCK_LOCKED }
        else if k = c then { s.hhs c with lock := .HM_HH_LOCK_LOCKED } else s.hhs k) ∧
      ((a = [] ∧ cursor = .childHHList p) ∨ ∃ a' k, a = a' ++ [k] ∧ cursor = .nextChildHH k) ∧
      s4 = { s2.writeCursor cursor (nextChildOf s c) with chunkInfo := s4.chunkInfo } ∧
      levelListHeads s (s.chunks.length + 1) (s.hhs c).levelList = some R ∧
      (d = (s.hhs p).levelList ∨ d ∈ R) ∧
      (∀ k, (s4.chunkInfo k).level = (s.chunkInfo k).level ∨
        (s4.chunkInfo k).level = CHUNK_INVALID_LEVEL) ∧
      HM_HH_mergeIntoParent fuel s c =
        some (unlockHH (unlockHH (s4.setHH p { s4.hhs p with levelList := d }) p) c) := by
  obtain ⟨hseg, hn⟩ := (childHHChain_iff _ _ _ _).1 hchain
  have hnd := LinkSeg_nodup _ _ _ _ hseg
  obtain ⟨a, b, rfl⟩ := List.append_of_mem hmem
  have hca : c ∉ a := fun h =>
    (List.nodup_append.1 hnd).2.2 h (List.mem_cons_self _ _)
  have hcb : c ∉ b := (List.nodup_cons.1 (List.nodup_append.1 hnd).2.1).1
  obtain ⟨s1, s2, e1, e2, f1, f2⟩ := lockHH_two s c p hpc hlc hlp
  have hnc2 : nextChildOf s2 = nextChildOf s := by
    funext k
    unfold nextChildOf
    rw [f2 k]
    split
    · next h => rw [h]
    · split
      · next h => rw [h]
      · rfl
  have hstart2 : (s2.hhs p).childHHList = (s.hhs p).childHHList := by
    rw [f2 p, if_pos rfl]
  have hseg2 : LinkSeg (nextChildOf s2) BOGUS_OBJPTR (s2.readCursor (.childHHList p))
      (a ++ c :: b) BOGUS_OBJPTR := by
    rw [hnc2]
    show LinkSeg _ _ (s2.hhs p).childHHList _ _
    rw [hstart2]
    exact hseg
  obtain ⟨cursor, e3, hcur⟩ := findChildCursor_spec s2 c fuel (.childHHList p) a b hseg2 hca
    (by simp at hfuel; omega)
  -- the level lists
  unfold LevelListsMergeable at hlists
  split at hlists
  · next D R hD hR =>
    obtain ⟨hnd2, hsub⟩ := hlists
    have hlen : (D ++ R).length ≤ s.chunks.length := (hnd2.subperm hsub).length_le
    obtain ⟨hD1, hD2⟩ := (levelListHeads_iff _ _ _ _).1 hD
    obtain ⟨hR1, hR2⟩ := (levelListHeads_iff _ _ _ _).1 hR
    have hci : (s2.writeCursor cursor (s2.hhs c).nextChildHH).chunkInfo = s.chunkInfo := by
      rw [writeCursor_frame, f1]
    have hch : (s2.writeCursor cursor (s2.hhs c).nextChildHH).chunks = s.chunks := by
      rw [writeCursor_frame, f1]
    have hnh : nextHeadOf (s2.writeCursor cursor (s2.hhs c).nextChildHH) = nextHeadOf s := by
      funext k
      unfold nextHeadOf
      rw [hci]
    have hllp : ((s2.writeCursor cursor (s2.hhs c).nextChildHH).hhs p).levelList
        = (s.hhs p).levelList := by
      rw [writeCursor_levelList, f2 p, if_pos rfl]
    have hllc : ((s2.writeCursor cursor (s2.hhs c).nextChildHH).hhs c).levelList
        = (s.hhs c).levelList := by
      rw [writeCursor_levelList, f2 c, if_neg (Ne.symm hpc), if_pos rfl]
    obtain ⟨s4, d, g1, g2, g3, g4⟩ := HM_mergeLevelList_total
      ((s2.writeCursor cursor (s2.hhs c).nextChildHH).chunks.length + 1)
      (s2.writeCursor cursor (s2.hhs c).nextChildHH)
      ((s2.writeCursor cursor (s2.hhs c).nextChildHH).hhs p).levelList
      ((s2.writeCursor cursor (s2.hhs c).nextChildHH).hhs c).levelList D R
      (by rw [hnh, hllp]; exact hD1) (by rw [hnh, hllc]; exact hR1) hnd2
      (by rw [hch]; exact hlen) (by rw [hch]; exact hR2)
    have hnc : (s2.hhs c).nextChildHH = nextChildOf s c := by
      rw [← hnc2]; rfl
    refine ⟨s2, s4, cursor, d, a, b, R, rfl, hca, hcb, f1, f2, hcur, ?_, hR, ?_, ?_, ?_⟩
    · rw [← hnc]; exact g2
    · rw [hllp] at g3; exact g3
    · intro k
      have := g4 k
      rw [hci] at this
      exact this
    · subst hparent
      exact HM_HH_mergeIntoParent_eq fuel s s1 s2 s4 c d cursor hc hp e1 e2 e3 g1
  · exact absurd hlists (fun h => h)

theorem mergeIntoParent_final_hhs (s4 : GC_state) (p c d k : Nat) :
    (unlockHH (unlockHH (s4.setHH p { s4.hhs p with levelList := d }) p) c).hhs k =
      if k = c then { s4.hhs c with lock := .HM_HH_LOCK_UNLOCKED,
                                    levelList := if c = p then d else (s4.hhs c).levelList }
      else if k = p then { s4.hhs p with lock := .HM_HH_LOCK_UNLOCKED, levelList := d }
      else s4.hhs k := by
  rw [unlockHH_hhs]
  by_cases hkc : k = c
  · subst hkc
    rw [if_pos rfl, if_pos rfl, unlockHH_hhs]
    by_cases hkp : k = p
    · subst hkp
      simp [GC_state.setHH]
    · simp [GC_state.setHH, hkp]
  · rw [if_neg hkc, if_neg hkc, unlockHH_hhs]
    by_cases hkp : k = p
    · subst hkp
      simp [GC_state.setHH]
    · simp [GC_state.setHH, hkp]

/-- C11.  For a child `c` linked to the parent `p` (another heap), both locks
free, whose parent has a finite child list `l` (it ends in `BOGUS_OBJPTR`, so it
has no cycle) that contains `c` exactly once, at any position, and with level
lists that can be merged, `HM_HH_mergeIntoParent` returns as soon as the fuel
covers the list, and the child list of `p` is then `l` with `c` erased: the
other children in their former order, and `c` no more among them. -/
theorem HM_HH_mergeIntoParent_removes_child (fuel n : Nat) (s : GC_state) (c p : Nat)
    (l : List Nat)
    (hc : c ≠ BOGUS_OBJPTR) (hparent : (s.hhs c).parentHH = p) (hp : p ≠ BOGUS_OBJPTR)
    (hpc : p ≠ c)
    (hlc : (s.hhs c).lock = .HM_HH_LOCK_UNLOCKED) (hlp : (s.hhs p).lock = .HM_HH_LOCK_UNLOCKED)
    (hchain : childHHChain s n (s.hhs p).childHHList = some l) (hcount : l.count c = 1)
    (hfuel : l.length ≤ fuel)
    (hlists : LevelListsMergeable s (s.hhs p).levelList (s.hhs c).levelList) :
    ∃ s', HM_HH_mergeIntoParent fuel s c = some s' ∧
      childHHChain s' n (s'.hhs p).childHHList = some (l.erase c) ∧
      l.erase c = l.filter (fun k => k != c) ∧ c ∉ l.erase c := by
  have hmem : c ∈ l := List.count_pos_iff.1 (by omega)
  obtain ⟨hseg, hn⟩ := (childHHChain_iff _ _ _ _).1 hchain
  have hnd := LinkSeg_nodup _ _ _ _ hseg
  obtain ⟨s2, s4, cursor, d, a, b, R, e1, hca, hcb, f1, f2, hcur, g2, _, _, _, hrun⟩ :=
    HM_HH_mergeIntoParent_run fuel n s c p l hc hparent hp hpc hlc hlp hchain hmem hfuel hlists
  refine ⟨_, hrun, ?_, hnd.erase_eq_filter c, hnd.not_mem_erase⟩
  have her : l.erase c = a ++ b := by
    rw [e1, List.erase_append_right _ hca, List.erase_cons_head]
  rw [her]
  refine (childHHChain_iff _ _ _ _).2 ⟨?_, ?_⟩
  · have hnc2 : nextChildOf s2 = nextChildOf s := by
      funext k
      unfold nextChildOf
      rw [f2 k]
      split
      · next h => rw [h]
      · split
        · next h => rw [h]
        · rfl
    have hstart2 : (s2.hhs p).childHHList = (s.hhs p).childHHList := by
      rw [f2 p, if_pos rfl]
    have key := writeCursor_chain s2 c p _ a b cursor hstart2
      (by rw [hnc2, ← e1]; exact hseg) hcur
    rw [hnc2] at key
    have h4 : s4.hhs = (s2.writeCursor cursor (nextChildOf s c)).hhs := by
      have := congrArg GC_state.hhs g2
      exact this
    have e3 : nextChildOf (unlockHH (unlockHH (s4.setHH p { s4.hhs p with levelList := d }) p) c)
        = nextChildOf (s2.writeCursor cursor (nextChildOf s c)) := by
      funext k
      unfold nextChildOf
      rw [mergeIntoParent_final_hhs, h4]
      by_cases hkc : k = c
      · subst hkc
        rw [if_pos rfl]
        rfl
      · rw [if_neg hkc]
        by_cases hkp : k = p
        · subst hkp
          rw [if_pos rfl]
          rfl
        · rw [if_neg hkp]
          rfl
    have e4 : ((unlockHH (unlockHH (s4.setHH p { s4.hhs p with levelList := d }) p) c).hhs
        p).childHHList = ((s2.writeCursor cursor (nextChildOf s c)).hhs p).childHHList := by
      rw [mergeIntoParent_final_hhs, h4, if_neg hpc, if_pos rfl]
    rw [e3, e4]
    exact key
  · rw [e1] at hn
    simp only [List.length_append, List.length_cons] at hn ⊢
    omega

theorem HM_HH_mergeIntoParent_removes_child_witness :
    (sampleStateFamily.hhs 12288).parentHH = 4096 ∧
    childHHChain sampleStateFamily 3 (sampleStateFamily.hhs 4096).childHHList
      = some [8192, 12288] ∧
    ∃ s', HM_HH_mergeIntoParent 2 sampleStateFamily 12288 = some s' ∧
      childHHChain s' 3 (s'.hhs 4096).childHHList = some ([8192, 12288].erase 12288) ∧
      [8192, 12288].erase 12288 = [8192, 12288].filter (fun k => k != 12288) ∧
      12288 ∉ [8192, 12288].erase 12288 :=
  ⟨by decide, by decide,
   HM_HH_mergeIntoParent_removes_child 2 3 sampleStateFamily 12288 4096 [8192, 12288]
    (by decide) (by decide) (by decide) (by decide) (by decide) (by decide) (by decide)
    (by decide) (by decide) (by decide)⟩

/-! ## Append and merge, one after the other -/

theorem unlockHH_log (s : GC_state) (h : Nat) (hl : (s.hhs h).lock = .HM_HH_LOCK_LOCKED) :
    (unlockHH s h).hhLockLog = s.hhLockLog ++ [.released h] := by
  unfold unlockHH
  rw [if_pos hl]

theorem unlockHH_data (s : GC_state) (h : Nat) :
    unlockHH s h = { s with hhs := (unlockHH s h).hhs, hhLockLog := (unlockHH s h).hhLockLog } := by
  unfold unlockHH
  split <;> rfl

theorem setHH_hhs (s : GC_state) (h k : Nat) (v : HM_HierarchicalHeap) :
    (s.setHH h v).hhs k = if k = h then v else s.hhs k := rfl

theorem unlock_after_lock (v : HM_HierarchicalHeap) (hl : v.lock = .HM_HH_LOCK_UNLOCKED) :
    ({ ({ v with lock := .HM_HH_LOCK_LOCKED } : HM_HierarchicalHeap) with
      lock := .HM_HH_LOCK_UNLOCKED } : HM_HierarchicalHeap) = v := by
  cases v
  simp only at hl
  subst hl
  rfl

theorem appendChildLink_hhs (s : GC_state) (p c k : Nat) (hpc : p ≠ c) :
    (appendChildLink s p c).hhs k =
      if k = p then { s.hhs p with childHHList := c }
      else if k = c then { s.hhs c with parentHH := p, nextChildHH := (s.hhs p).childHHList }
      else s.hhs k := by
  unfold appendChildLink
  simp only [setHH_hhs]
  by_cases hkp : k = p
  · subst hkp
    simp only [if_pos, if_neg hpc]
  · rw [if_neg hkp, if_neg hkp]
    by_cases hkc : k = c
    · subst hkc
      simp only [if_pos, if_neg hpc]
    · rw [if_neg hkc, if_neg hkc, if_neg hkc]

theorem HM_HH_appendChild_eq (s s1 s2 : GC_state) (p c : Nat) (e1 : lockHH s p = some s1)
    (e2 : lockHH s1 c = some s2) :
    HM_HH_appendChild s p c = some (unlockHH (unlockHH (appendChildLink s2 p c) c) p) := by
  unfold HM_HH_appendChild
  rw [e1]
  simp only [e2]
  rfl

theorem sameData_trans (t u s : GC_state)
    (h1 : t = { u with hhs := t.hhs, hhLockLog := t.hhLockLog })
    (h2 : u = { s with hhs := u.hhs, hhLockLog := u.hhLockLog }) :
    t = { s with hhs := t.hhs, hhLockLog := t.hhLockLog } := by
  rw [h2] at h1
  exact h1

/-- The run of `HM_HH_appendChild` with both locks free. -/
theorem HM_HH_appendChild_run (s : GC_state) (p c : Nat) (hpc : p ≠ c)
    (hlp : (s.hhs p).lock = .HM_HH_LOCK_UNLOCKED) (hlc : (s.hhs c).lock = .HM_HH_LOCK_UNLOCKED) :
    ∃ s', HM_HH_appendChild s p c = some s' ∧
      s' = { s with hhs := s'.hhs, hhLockLog := s'.hhLockLog } ∧
      s'.hhLockLog = s.hhLockLog ++ [.acquired p, .acquired c, .released c, .released p] ∧
      ∀ k, s'.hhs k = if k = p then { s.hhs p with childHHList := c }
        else if k = c then
          { s.hhs c with parentHH := p, nextChildHH := (s.hhs p).childHHList }
        else s.hhs k := by
  have hcp : c ≠ p := Ne.symm hpc
  obtain ⟨s1, s2, e1, e2, f1, f2⟩ := lockHH_two s p c hcp hlp hlc
  have f2p : s2.hhs p = { s.hhs p with lock := .HM_HH_LOCK_LOCKED } := by
    rw [f2, if_neg hpc, if_pos rfl]
  have f2c : s2.hhs c = { s.hhs c with lock := .HM_HH_LOCK_LOCKED } := by
    rw [f2, if_pos rfl]
  have l5c : ((appendChildLink s2 p c).hhs c).lock = .HM_HH_LOCK_LOCKED := by
    rw [appendChildLink_hhs _ _ _ _ hpc, if_neg hcp, if_pos rfl, f2c]
  have l6p : ((unlockHH (appendChildLink s2 p c) c).hhs p).lock = .HM_HH_LOCK_LOCKED := by
    rw [unlockHH_hhs, if_neg hpc, appendChildLink_hhs _ _ _ _ hpc, if_pos rfl, f2p]
  refine ⟨_, HM_HH_appendChild_eq s s1 s2 p c e1 e2, ?_, ?_, ?_⟩
  · refine sameData_trans _ _ _ (unlockHH_data _ p) ?_
    refine sameData_trans _ _ _ (unlockHH_data _ c) ?_
    refine sameData_trans _ s2 _ rfl ?_
    have := congrArg GC_state.hhLockLog f1
    simp only at this
    rw [this]
    exact f1
  · rw [unlockHH_log _ p l6p, unlockHH_log _ c l5c]
    have := congrArg GC_state.hhLockLog f1
    simp only at this
    show s2.hhLockLog ++ _ ++ _ = _
    rw [this]
    simp
  · intro k
    simp only [unlockHH_hhs, appendChildLink_hhs _ _ _ _ hpc]
    by_cases hkp : k = p
    · simp only [hkp, if_true, hpc, if_false, f2p]
      exact unlock_after_lock { s.hhs p with childHHList := c } hlp
    · by_cases hkc : k = c
      · simp only [hkc, if_true, hcp, if_false, f2c, f2p]
        exact unlock_after_lock
          { s.hhs c with parentHH := p, nextChildHH := (s.hhs p).childHHList } hlc
      · simp only [hkp, hkc, if_false, f2]

theorem findChildCursor_here (s : GC_state) (c fuel : Nat) (cursor : ChildCursor)
    (h : s.readCursor cursor = c) (hfuel : 0 < fuel) :
    findChildCursor s c fuel cursor = some cursor := by
  cases fuel with
  | zero => exact absurd hfuel (Nat.lt_irrefl 0)
  | succ n =>
    unfold findChildCursor
    rw [if_neg (by rw [h]; exact fun h => h rfl)]

theorem HM_mergeLevelList_empty (s : GC_state) (n destination : Nat) :
    HM_mergeLevelList s (n + 1) destination 0 = some (s, destination) := by
  unfold HM_mergeLevelList
  rw [if_pos rfl]

/-- C12, counterexample.  The orphans `8192` (no chunks, so an empty level list)
and `12288` (one chunk) have the same level; after `HM_HH_appendChild` of `12288`
to `8192` and `HM_HH_mergeIntoParent` of `12288`, with nothing in between, the
level list of `8192` is the chunk `2097152` and no longer empty. -/
theorem appendChild_mergeIntoParent_changes_levelList :
    ((sampleStateOrphan.hhs 12288).parentHH = BOGUS_OBJPTR ∧
      (sampleStateOrphan.hhs 12288).nextChildHH = BOGUS_OBJPTR ∧
      (sampleStateOrphan.hhs 12288).level = (sampleStateOrphan.hhs 8192).level) ∧
    (sampleStateOrphan.hhs 8192).levelList = 0 ∧
    ((HM_HH_appendChild sampleStateOrphan 8192 12288).bind
      (fun s1 => HM_HH_mergeIntoParent 2 s1 12288)).map (fun s2 => (s2.hhs 8192).levelList)
      = some 2097152 := by
  decide

/-- C12, amended.  For a parent `p` and a child `c` (another heap), both locks
free, where `c` has an empty level list (it has allocated nothing),
`HM_HH_appendChild` followed by `HM_HH_mergeIntoParent` of `c` returns, and the
level list of `p`, every chunk header and the chunks in use are as before the
append. -/
theorem HM_HH_appendChild_mergeIntoParent_empty_child (fuel : Nat) (s : GC_state) (p c : Nat)
    (hp : p ≠ BOGUS_OBJPTR) (hc : c ≠ BOGUS_OBJPTR) (hpc : p ≠ c)
    (hlp : (s.hhs p).lock = .HM_HH_LOCK_UNLOCKED) (hlc : (s.hhs c).lock = .HM_HH_LOCK_UNLOCKED)
    (hempty : (s.hhs c).levelList = 0) (hfuel : 0 < fuel) :
    ∃ s1 s2, HM_HH_appendChild s p c = some s1 ∧ HM_HH_mergeIntoParent fuel s1 c = some s2 ∧
      (s2.hhs p).levelList = (s.hhs p).levelList ∧ s2.chunkInfo = s.chunkInfo ∧
      s2.chunks = s.chunks := by
  have hcp : c ≠ p := Ne.symm hpc
  obtain ⟨s1, e1, d1, _, h1⟩ := HM_HH_appendChild_run s p c hpc hlp hlc
  have h1p : s1.hhs p = { s.hhs p with childHHList := c } := by rw [h1, if_pos rfl]
  have h1c : s1.hhs c = { s.hhs c with parentHH := p, nextChildHH := (s.hhs p).childHHList } := by
    rw [h1, if_neg hcp, if_pos rfl]
  have hpar : (s1.hhs c).parentHH = p := by rw [h1c]
  obtain ⟨t1, t2, e2, e3, f1, f2⟩ := lockHH_two s1 c p hpc (by rw [h1c]; exact hlc)
    (by rw [h1p]; exact hlp)
  have f2p : t2.hhs p = { s1.hhs p with lock := .HM_HH_LOCK_LOCKED } := by
    rw [f2, if_pos rfl]
  have f2c : t2.hhs c = { s1.hhs c with lock := .HM_HH_LOCK_LOCKED } := by
    rw [f2, if_neg hcp, if_pos rfl]
  have e4 : findChildCursor t2 c fuel (.childHHList p) = some (.childHHList p) :=
    findChildCursor_here _ _ _ _ (by show (t2.hhs p).childHHList = c; rw [f2p, h1p]) hfuel
  have hl3c : ((t2.writeCursor (.childHHList p) (t2.hhs c).nextChildHH).hhs c).levelList = 0 := by
    rw [writeCursor_levelList, f2c, h1c]
    exact hempty
  have e5 := HM_mergeLevelList_empty (t2.writeCursor (.childHHList p) (t2.hhs c).nextChildHH)
    (t2.writeCursor (.childHHList p) (t2.hhs c).nextChildHH).chunks.length
    ((t2.writeCursor (.childHHList p) (t2.hhs c).nextChildHH).hhs p).levelList
  rw [← hl3c] at e5
  have hrun := HM_HH_mergeIntoParent_eq fuel s1 t1 t2 _ c _ (.childHHList p) hc
    (by rw [hpar]; exact hp) e2 (by rw [hpar]; exact e3) (by rw [hpar]; exact e4)
    (by rw [hpar]; exact e5)
  rw [hpar] at hrun
  refine ⟨s1, _, e1, hrun, ?_, ?_, ?_⟩
  · rw [mergeIntoParent_final_hhs, if_neg hpc, if_pos rfl]
    show ((t2.writeCursor (.childHHList p) (t2.hhs c).nextChildHH).hhs p).levelList = _
    rw [writeCursor_levelList, f2p, h1p]
  · rw [unlockHH_data, unlockHH_data _ p]
    show t2.chunkInfo = _
    rw [f1, d1]
  · rw [unlockHH_data, unlockHH_data _ p]
    show t2.chunks = _
    rw [f1, d1]

theorem HM_HH_appendChild_mergeIntoParent_empty_child_witness :
    (sampleStateOrphan.hhs 8192).levelList = 0 ∧
    ∃ s1 s2, HM_HH_appendChild sampleStateOrphan 12288 8192 = some s1 ∧
      HM_HH_mergeIntoParent 1 s1 8192 = some s2 ∧
      (s2.hhs 12288).levelList = (sampleStateOrphan.hhs 12288).levelList ∧
      s2.chunkInfo = sampleStateOrphan.chunkInfo ∧ s2.chunks = sampleStateOrphan.chunks :=
  ⟨by decide,
   HM_HH_appendChild_mergeIntoParent_empty_child 1 sampleStateOrphan 12288 8192 (by decide)
    (by decide) (by decide) (by decide) (by decide) (by decide) (by decide)⟩

/-! ## The task tree invariant -/

theorem writeCursor_hhs (s : GC_state) (cursor : ChildCursor) (v k : Nat) :
    ((s.writeCursor cursor v).hhs k).parentHH = (s.hhs k).parentHH ∧
    ((s.writeCursor cursor v).hhs k).nextChildHH
      = (if cursor = .nextChildHH k then v else (s.hhs k).nextChildHH) ∧
    ((s.writeCursor cursor v).hhs k).childHHList
      = (if cursor = .childHHList k then v else (s.hhs k).childHHList) := by
  cases cursor with
  | childHHList h =>
    by_cases e : k = h
    · subst e
      simp [GC_state.writeCursor, setHH_hhs]
    · have e' : ¬ h = k := fun q => e q.symm
      simp [GC_state.writeCursor, setHH_hhs, e, e']
  | nextChildHH h =>
    by_cases e : k = h
    · subst e
      simp [GC_state.writeCursor, setHH_hhs]
    · have e' : ¬ h = k := fun q => e q.symm
      simp [GC_state.writeCursor, setHH_hhs, e, e']

/-- What `HM_HH_mergeIntoParent` leaves of the links of the task tree. -/
theorem HM_HH_mergeIntoParent_links (fuel n : Nat) (s : GC_state) (c p : Nat) (l : List Nat)
    (hc : c ≠ BOGUS_OBJPTR) (hparent : (s.hhs c).parentHH = p) (hp : p ≠ BOGUS_OBJPTR)
    (hpc : p ≠ c)
    (hlc : (s.hhs c).lock = .HM_HH_LOCK_UNLOCKED) (hlp : (s.hhs p).lock = .HM_HH_LOCK_UNLOCKED)
    (hchain : childHHChain s n (s.hhs p).childHHList = some l) (hmem : c ∈ l)
    (hfuel : l.length ≤ fuel)
    (hlists : LevelListsMergeable s (s.hhs p).levelList (s.hhs c).levelList) :
    ∃ s' a b, HM_HH_mergeIntoParent fuel s c = some s' ∧ l = a ++ c :: b ∧ c ∉ a ∧ c ∉ b ∧
      LinkSeg (nextChildOf s') BOGUS_OBJPTR (s'.hhs p).childHHList (a ++ b) BOGUS_OBJPTR ∧
      (∀ k, (s'.hhs k).parentHH = (s.hhs k).parentHH) ∧
      (∀ q, q ≠ p → (s'.hhs q).childHHList = (s.hhs q).childHHList) ∧
      (∀ k, k ∉ a → nextChildOf s' k = nextChildOf s k) := by
  obtain ⟨hseg, hn⟩ := (childHHChain_iff _ _ _ _).1 hchain
  obtain ⟨s2, s4, cursor, d, a, b, R, e1, hca, hcb, f1, f2, hcur, g2, _, _, _, hrun⟩ :=
    HM_HH_mergeIntoParent_run fuel n s c p l hc hparent hp hpc hlc hlp hchain hmem hfuel hlists
  have hnc2 : nextChildOf s2 = nextChildOf s := by
    funext k
    unfold nextChildOf
    rw [f2 k]
    split
    · next h => rw [h]
    · split
      · next h => rw [h]
      · rfl
  have hstart2 : (s2.hhs p).childHHList = (s.hhs p).childHHList := by
    rw [f2 p, if_pos rfl]
  have key := writeCursor_chain s2 c p _ a b cursor hstart2
    (by rw [hnc2, ← e1]; exact hseg) hcur
  rw [hnc2] at key
  have h4 : s4.hhs = (s2.writeCursor cursor (nextChildOf s c)).hhs := by
    have := congrArg GC_state.hhs g2
    exact this
  have hfin : ∀ k,
      ((unlockHH (unlockHH (s4.setHH p { s4.hhs p with levelList := d }) p) c).hhs k).parentHH
        = ((s2.writeCursor cursor (nextChildOf s c)).hhs k).parentHH ∧
      ((unlockHH (unlockHH (s4.setHH p { s4.hhs p with levelList := d }) p) c).hhs k).nextChildHH
        = ((s2.writeCursor cursor (nextChildOf s c)).hhs k).nextChildHH ∧
      ((unlockHH (unlockHH (s4.setHH p { s4.hhs p with levelList := d }) p) c).hhs k).childHHList
        = ((s2.writeCursor cursor (nextChildOf s c)).hhs k).childHHList := by
    intro k
    rw [mergeIntoParent_final_hhs, h4]
    by_cases hkc : k = c
    · simp only [hkc, if_true, and_self]
    · by_cases hkp : k = p
      · simp only [hkp, hpc, if_true, if_false, and_self]
      · simp only [hkc, hkp, if_false, and_self]
  have h2 : ∀ k, (s2.hhs k).parentHH = (s.hhs k).parentHH ∧
      (s2.hhs k).nextChildHH = (s.hhs k).nextChildHH ∧
      (s2.hhs k).childHHList = (s.hhs k).childHHList := by
    intro k
    rw [f2 k]
    by_cases hkp : k = p
    · simp only [hkp, if_true, and_self]
    · by_cases hkc : k = c
      · simp only [hkc, Ne.symm hpc, if_true, if_false, and_self]
      · simp only [hkc, hkp, if_false, and_self]
  refine ⟨_, a, b, hrun, e1, hca, hcb, ?_, ?_, ?_, ?_⟩
  · have e3 : nextChildOf (unlockHH (unlockHH (s4.setHH p { s4.hhs p with levelList := d }) p) c)
        = nextChildOf (s2.writeCursor cursor (nextChildOf s c)) := by
      funext k
      exact (hfin k).2.1
    rw [e3, (hfin p).2.2]
    exact key
  · intro k
    rw [(hfin k).1, ← (h2 k).1]
    exact (writeCursor_hhs _ _ _ _).1
  · intro q hq
    rw [(hfin q).2.2, ← (h2 q).2.2, (writeCursor_hhs _ _ _ _).2.2]
    rcases hcur with ⟨_, rfl⟩ | ⟨a', k0, _, rfl⟩
    · rw [if_neg (fun e => hq (ChildCursor.childHHList.inj e).symm)]
    · rw [if_neg (fun e => by cases e)]
  · intro k hk
    show ((unlockHH _ c).hhs k).nextChildHH = (s.hhs k).nextChildHH
    rw [(hfin k).2.1, ← (h2 k).2.1, (writeCursor_hhs _ _ _ _).2.1]
    rcases hcur with ⟨_, rfl⟩ | ⟨a', k0, ha, rfl⟩
    · rw [if_neg (fun e => by cases e)]
    · have : k ≠ k0 := by
        rintro rfl
        exact hk (by rw [ha]; simp)
      rw [if_neg (fun e => this (ChildCursor.nextChildHH.inj e).symm)]

theorem LinkSeg_from_null (next : Nat → Nat) (null a b : Nat) (l : List Nat)
    (h : LinkSeg next null a l b) (ha : a = null) : l = [] := by
  cases l with
  | nil => rfl
  | cons k t => exact absurd (h.1 ▸ ha) h.2.1

theorem TaskTreeOK_appendChild (s : GC_state) (det : List Nat) (p c n : Nat) (lp : List Nat)
    (hok : TaskTreeOK s det) (hp : p ≠ BOGUS_OBJPTR) (hc : c ≠ BOGUS_OBJPTR) (hpc : p ≠ c)
    (hlp : (s.hhs p).lock = .HM_HH_LOCK_UNLOCKED) (hlc : (s.hhs c).lock = .HM_HH_LOCK_UNLOCKED)
    (horphan : (s.hhs c).parentHH = BOGUS_OBJPTR ∧ (s.hhs c).nextChildHH = BOGUS_OBJPTR)
    (hchain : childHHChain s n (s.hhs p).childHHList = some lp) :
    ∃ s', HM_HH_appendChild s p c = some s' ∧ TaskTreeOK s' det := by
  have hcp : c ≠ p := Ne.symm hpc
  obtain ⟨s', e, _, _, hh⟩ := HM_HH_appendChild_run s p c hpc hlp hlc
  refine ⟨s', e, ?_⟩
  have hpar : ∀ k, (s'.hhs k).parentHH = if k = c then p else (s.hhs k).parentHH := by
    intro k
    rw [hh k]
    by_cases hkp : k = p
    · simp only [hkp, hpc, if_true, if_false]
    · by_cases hkc : k = c
      · simp only [hkc, hcp, if_true, if_false]
      · simp only [hkp, hkc, if_false]
  have hnx : ∀ k, nextChildOf s' k = if k = c then (s.hhs p).childHHList else nextChildOf s k := by
    intro k
    unfold nextChildOf
    rw [hh k]
    by_cases hkp : k = p
    · simp only [hkp, hpc, if_true, if_false]
    · by_cases hkc : k = c
      · simp only [hkc, hcp, if_true, if_false]
      · simp only [hkp, hkc, if_false]
  have hcl : ∀ q, (s'.hhs q).childHHList = if q = p then c else (s.hhs q).childHHList := by
    intro k
    rw [hh k]
    by_cases hkp : k = p
    · simp only [hkp, if_true]
    · by_cases hkc : k = c
      · simp only [hkc, hcp, if_true, if_false]
      · simp only [hkp, hkc, if_false]
  have factA : ∀ q l, LinkSeg (nextChildOf s) BOGUS_OBJPTR (s.hhs q).childHHList l BOGUS_OBJPTR →
      c ∉ l := by
    intro q l hl hm
    have := hok.2 q l hl c hm
    rw [horphan.1] at this
    exact this.2 this.1.symm
  have factB : ∀ a l b, c ∉ l → (LinkSeg (nextChildOf s') BOGUS_OBJPTR a l b ↔
      LinkSeg (nextChildOf s) BOGUS_OBJPTR a l b) := by
    intro a l b hcl'
    have : ∀ k ∈ l, nextChildOf s' k = nextChildOf s k := by
      intro k hk
      rw [hnx, if_neg (fun h : k = c => hcl' (h ▸ hk))]
    exact ⟨LinkSeg_congr _ _ _ _ _ _ (fun k hk => (this k hk).symm),
      LinkSeg_congr _ _ _ _ _ _ this⟩
  obtain ⟨hlpseg, _⟩ := (childHHChain_iff _ _ _ _).1 hchain
  have hclp : c ∉ lp := factA p lp hlpseg
  have hnewp : LinkSeg (nextChildOf s') BOGUS_OBJPTR (s'.hhs p).childHHList (c :: lp)
      BOGUS_OBJPTR := by
    rw [hcl, if_pos rfl]
    refine ⟨rfl, hc, ?_⟩
    rw [hnx, if_pos rfl]
    exact (factB _ _ _ hclp).2 hlpseg
  constructor
  · intro h hph hdet
    by_cases hhc : h = c
    · subst hhc
      rw [hpar, if_pos rfl]
      exact ⟨h :: lp, hnewp, by rw [List.count_cons_self, List.count_eq_zero_of_not_mem hclp]⟩
    · rw [hpar, if_neg hhc] at hph ⊢
      obtain ⟨l, hl, hcount⟩ := hok.1 h hph hdet
      have hcl' : c ∉ l := factA _ l hl
      by_cases hq : (s.hhs h).parentHH = p
      · rw [hq] at hl ⊢
        have : l = lp := LinkSeg_unique _ _ _ _ _ hl hlpseg
        subst this
        exact ⟨c :: l, hnewp, by rw [List.count_cons_of_ne hhc]; exact hcount⟩
      · refine ⟨l, ?_, hcount⟩
        rw [hcl, if_neg hq]
        exact (factB _ _ _ hcl').2 hl
  · intro q l' hl' k hk
    by_cases hq : q = p
    · subst hq
      have : l' = c :: lp := LinkSeg_unique _ _ _ _ _ hl' hnewp
      subst this
      rcases List.mem_cons.1 hk with rfl | hk
      · rw [hpar, if_pos rfl]
        exact ⟨rfl, hp⟩
      · rw [hpar, if_neg (fun h : k = c => hclp (h ▸ hk))]
        exact hok.2 q lp hlpseg k hk
    · rw [hcl, if_neg hq] at hl'
      by_cases hm : c ∈ l'
      · exfalso
        obtain ⟨a, b, rfl⟩ := List.append_of_mem hm
        have hnd := LinkSeg_nodup _ _ _ _ hl'
        have hca : c ∉ a := fun h =>
          (List.nodup_append.1 hnd).2.2 h (List.mem_cons_self _ _)
        obtain ⟨m, h1, h2, h3, h4⟩ := (LinkSeg_append _ _ _ _ _ _).1 hl'
        subst h2
        have h1' := (factB _ _ _ hca).1 h1
        have : LinkSeg (nextChildOf s) BOGUS_OBJPTR (s.hhs q).childHHList (a ++ [m])
            BOGUS_OBJPTR := (LinkSeg_snoc _ _ _ _ _ _).2 ⟨h1', h3, horphan.2⟩
        exact factA q _ this (by simp)
      · have hl := (factB _ _ _ hm).1 hl'
        rw [hpar, if_neg (fun h : k = c => hm (h ▸ hk))]
        exact hok.2 q l' hl k hk

theorem List.split_at_first (P : Nat → Prop) [DecidablePred P] (l : List Nat)
    (h : ∃ k ∈ l, P k) : ∃ u k0 v, l = u ++ k0 :: v ∧ P k0 ∧ ∀ k ∈ u, ¬ P k := by
  induction l with
  | nil =>
    obtain ⟨k, hk, _⟩ := h
    cases hk
  | cons x t ih =>
    by_cases hx : P x
    · exact ⟨[], x, t, rfl, hx, fun k hk => by cases hk⟩
    · obtain ⟨k, hk, hpk⟩ := h
      have hkt : k ∈ t := by
        rcases List.mem_cons.1 hk with rfl | hk
        · exact absurd hpk hx
        · exact hk
      obtain ⟨u, k0, v, e, h1, h2⟩ := ih ⟨k, hkt, hpk⟩
      refine ⟨x :: u, k0, v, by rw [e]; rfl, h1, ?_⟩
      intro j hj
      rcases List.mem_cons.1 hj with rfl | hj
      · exact hx
      · exact h2 j hj

theorem TaskTreeOK_mergeIntoParent (fuel n : Nat) (s : GC_state) (det : List Nat) (c p : Nat)
    (l : List Nat) (hok : TaskTreeOK s det)
    (hc : c ≠ BOGUS_OBJPTR) (hparent : (s.hhs c).parentHH = p) (hp : p ≠ BOGUS_OBJPTR)
    (hpc : p ≠ c) (hcdet : c ∉ det)
    (hlc : (s.hhs c).lock = .HM_HH_LOCK_UNLOCKED) (hlp : (s.hhs p).lock = .HM_HH_LOCK_UNLOCKED)
    (hchain : childHHChain s n (s.hhs p).childHHList = some l) (hfuel : l.length ≤ fuel)
    (hlists : LevelListsMergeable s (s.hhs p).levelList (s.hhs c).levelList) :
    ∃ s', HM_HH_mergeIntoParent fuel s c = some s' ∧ TaskTreeOK s' (c :: det) := by
  obtain ⟨hl, _⟩ := (childHHChain_iff _ _ _ _).1 hchain
  have hmem : c ∈ l := by
    obtain ⟨l0, h1, h2⟩ := hok.1 c (by rw [hparent]; exact hp) hcdet
    rw [hparent] at h1
    rw [← LinkSeg_unique _ _ _ _ _ h1 hl]
    exact List.count_pos_iff.1 (by omega)
  obtain ⟨s', a, b, e, e1, hca, hcb, hnew, hpar, hcl, hnx⟩ :=
    HM_HH_mergeIntoParent_links fuel n s c p l hc hparent hp hpc hlc hlp hchain hmem hfuel hlists
  refine ⟨s', e, ?_⟩
  have hal : ∀ k ∈ a, k ∈ l := fun k hk => by rw [e1]; simp [hk]
  have hlpar : ∀ k ∈ l, (s.hhs k).parentHH = p := fun k hk => (hok.2 p l hl k hk).1
  have factC : ∀ q, q ≠ p → ∀ l', LinkSeg (nextChildOf s) BOGUS_OBJPTR (s.hhs q).childHHList l'
      BOGUS_OBJPTR → ∀ k ∈ l', k ∉ l := by
    intro q hq l' hl' k hk hkl
    have h1 := (hok.2 q l' hl' k hk).1
    rw [hlpar k hkl] at h1
    exact hq h1.symm
  have factD : ∀ q, q ≠ p → ∀ l', LinkSeg (nextChildOf s') BOGUS_OBJPTR (s.hhs q).childHHList l'
      BOGUS_OBJPTR → LinkSeg (nextChildOf s) BOGUS_OBJPTR (s.hhs q).childHHList l'
      BOGUS_OBJPTR := by
    intro q hq l' hl'
    by_cases hex : ∃ k ∈ l', k ∈ l
    · exfalso
      obtain ⟨u, k0, v, rfl, hk0, hu⟩ := List.split_at_first (fun k => k ∈ l) l' hex
      obtain ⟨m, h1, h2, h3, h4⟩ := (LinkSeg_append _ _ _ _ _ _).1 hl'
      subst h2
      have h1' : LinkSeg (nextChildOf s) BOGUS_OBJPTR (s.hhs q).childHHList u m :=
        LinkSeg_congr _ _ _ _ _ _
          (fun k hk => (hnx k (fun hka => hu k hk (hal k hka))).symm) h1
      obtain ⟨l1, l2, rfl⟩ := List.append_of_mem hk0
      obtain ⟨m', g1, g2⟩ := (LinkSeg_append _ _ _ _ _ _).1 hl
      have : m' = m := g2.1
      subst this
      have hq' := (hok.2 q (u ++ m' :: l2) ((LinkSeg_append _ _ _ _ _ _).2 ⟨m', h1', g2⟩) m'
        (by simp)).1
      rw [hlpar m' hk0] at hq'
      exact hq hq'.symm
    · refine LinkSeg_congr _ _ _ _ _ _ ?_ hl'
      intro k hk
      exact (hnx k (fun hka => hex ⟨k, hk, hal k hka⟩)).symm
  constructor
  · intro h hph hdet
    rw [hpar] at hph ⊢
    have hhc : h ≠ c := fun q => hdet (q ▸ List.mem_cons_self _ _)
    obtain ⟨l0, h1, h2⟩ := hok.1 h hph (fun q => hdet (List.mem_cons_of_mem _ q))
    by_cases hq : (s.hhs h).parentHH = p
    · rw [hq] at h1 ⊢
      have : l0 = l := LinkSeg_unique _ _ _ _ _ h1 hl
      subst this
      refine ⟨a ++ b, hnew, ?_⟩
      rw [e1] at h2
      rw [List.count_append] at h2 ⊢
      rw [List.count_cons_of_ne hhc] at h2
      exact h2
    · refine ⟨l0, ?_, h2⟩
      rw [hcl _ hq]
      refine LinkSeg_congr _ _ _ _ _ _ ?_ h1
      intro k hk
      exact hnx k (fun hka => factC _ hq l0 h1 k hk (hal k hka))
  · intro q l' hl' k hk
    rw [hpar]
    by_cases hq : q = p
    · subst hq
      have : l' = a ++ b := LinkSeg_unique _ _ _ _ _ hl' hnew
      subst this
      have hkl : k ∈ l := by
        rw [e1]
        rcases List.mem_append.1 hk with h | h
        · simp [h]
        · simp [h]
      exact hok.2 q l hl k hkl
    · rw [hcl _ hq] at hl'
      exact hok.2 q l' (factD q hq l' hl') k hk

theorem sampleState_taskTree : TaskTreeOK sampleState [] := by
  constructor
  · intro h hph _
    exact absurd rfl hph
  · intro q l hl k hk
    have := LinkSeg_from_null _ _ _ _ _ hl rfl
    subst this
    cases hk

theorem sampleStateFamily_taskTree : TaskTreeOK sampleStateFamily [] := by
  have hhs : ∀ h, sampleStateFamily.hhs h =
      if h = 4096 then { sampleHH with childHHList := 8192 }
      else if h = 8192 then
        { sampleHH with levelList := 0, savedFrontier := 0, limit := 0, lastAllocatedChunk := 0,
                        parentHH := 4096, nextChildHH := 12288, thread := 0 }
      else if h = 12288 then
        { sampleHH with levelList := 2097152, savedFrontier := 2097232, limit := 2621440,
                        lastAllocatedChunk := 2097152, parentHH := 4096, thread := 0 }
      else sampleHH := fun _ => rfl
  have hchain : LinkSeg (nextChildOf sampleStateFamily) BOGUS_OBJPTR
      (sampleStateFamily.hhs 4096).childHHList [8192, 12288] BOGUS_OBJPTR :=
    ((childHHChain_iff sampleStateFamily 3 _ _).1 (by decide)).1
  constructor
  · intro h hph _
    by_cases h1 : h = 4096
    · subst h1
      exact absurd rfl hph
    · by_cases h2 : h = 8192
      · subst h2
        exact ⟨[8192, 12288], hchain, by decide⟩
      · by_cases h3 : h = 12288
        · subst h3
          exact ⟨[8192, 12288], hchain, by decide⟩
        · rw [hhs, if_neg h1, if_neg h2, if_neg h3] at hph
          exact absurd rfl hph
  · intro q l hl k hk
    by_cases h1 : q = 4096
    · subst h1
      have := LinkSeg_unique _ _ _ _ _ hl hchain
      subst this
      rcases List.mem_cons.1 hk with rfl | hk
      · exact ⟨rfl, by decide⟩
      · rcases List.mem_cons.1 hk with rfl | hk
        · exact ⟨rfl, by decide⟩
        · cases hk
    · have hq : (sampleStateFamily.hhs q).childHHList = BOGUS_OBJPTR := by
        rw [hhs, if_neg h1]
        split
        · rfl
        · split <;> rfl
      have := LinkSeg_from_null _ _ _ _ _ hl hq
      subst this
      cases hk

/-- C13, counterexample.  `sampleStateFamily` is a well-formed task tree in
which `12288` is the second child of `4096`.  After `HM_HH_mergeIntoParent` of
`12288` its `parentHH` is still `4096`, and the child list of `4096` is `[8192]`:
the merged child has a parent whose child list does not contain it. -/
theorem mergeIntoParent_keeps_parentHH_of_merged_child :
    (HM_HH_mergeIntoParent 2 sampleStateFamily 12288).map
      (fun s' => ((s'.hhs 12288).parentHH, childHHChain s' 3 (s'.hhs 4096).childHHList))
      = some (4096, some [8192]) ∧ (12288 : Nat) ∉ [8192] ∧ (4096 : Nat) ≠ BOGUS_OBJPTR := by
  decide

/-- C13, amended.  The task tree invariant (every heap that has a parent occurs
exactly once in the finite child list of its parent, and every member of a
child list has the owner of the list for parent), taken over all heaps but the
merged children, is kept by `HM_HH_appendChild` of an orphan to a heap with a
finite child list and by `HM_HH_mergeIntoParent` of a linked child, which both
return; the merged child joins the heaps left out: it keeps its `parentHH` and
is no longer in the child list. -/
theorem TaskTreeOK_appendChild_mergeIntoParent :
    (∀ (s : GC_state) (detached : List Nat) (p c n : Nat) (lp : List Nat),
      TaskTreeOK s detached → p ≠ BOGUS_OBJPTR → c ≠ BOGUS_OBJPTR → p ≠ c →
      (s.hhs p).lock = .HM_HH_LOCK_UNLOCKED → (s.hhs c).lock = .HM_HH_LOCK_UNLOCKED →
      (s.hhs c).parentHH = BOGUS_OBJPTR ∧ (s.hhs c).nextChildHH = BOGUS_OBJPTR →
      childHHChain s n (s.hhs p).childHHList = some lp →
      ∃ s', HM_HH_appendChild s p c = some s' ∧ TaskTreeOK s' detached) ∧
    (∀ (fuel n : Nat) (s : GC_state) (detached : List Nat) (c p : Nat) (l : List Nat),
      TaskTreeOK s detached → c ≠ BOGUS_OBJPTR → (s.hhs c).parentHH = p → p ≠ BOGUS_OBJPTR →
      p ≠ c → c ∉ detached →
      (s.hhs c).lock = .HM_HH_LOCK_UNLOCKED → (s.hhs p).lock = .HM_HH_LOCK_UNLOCKED →
      childHHChain s n (s.hhs p).childHHList = some l → l.length ≤ fuel →
      LevelListsMergeable s (s.hhs p).levelList (s.hhs c).levelList →
      ∃ s', HM_HH_mergeIntoParent fuel s c = some s' ∧ TaskTreeOK s' (c :: detached) ∧
        (s'.hhs c).parentHH = p ∧
        ∀ l', childHHChain s' n (s'.hhs p).childHHList = some l' → c ∉ l') := by
  constructor
  · intro s detached p c n lp hok hp hc hpc hlp hlc horphan hchain
    exact TaskTreeOK_appendChild s detached p c n lp hok hp hc hpc hlp hlc horphan hchain
  · intro fuel n s detached c p l hok hc hparent hp hpc hcdet hlc hlp hchain hfuel hlists
    obtain ⟨s', e, hok'⟩ := TaskTreeOK_mergeIntoParent fuel n s detached c p l hok hc hparent hp
      hpc hcdet hlc hlp hchain hfuel hlists
    obtain ⟨hl, _⟩ := (childHHChain_iff _ _ _ _).1 hchain
    have hmem : c ∈ l := by
      obtain ⟨l0, h1, h2⟩ := hok.1 c (by rw [hparent]; exact hp) hcdet
      rw [hparent] at h1
      rw [← LinkSeg_unique _ _ _ _ _ h1 hl]
      exact List.count_pos_iff.1 (by omega)
    obtain ⟨t, a, b, e2, e1, hca, hcb, hnew, hpar, _, _⟩ :=
      HM_HH_mergeIntoParent_links fuel n s c p l hc hparent hp hpc hlc hlp hchain hmem hfuel
        hlists
    have : t = s' := Option.some.inj (e2.symm.trans e)
    subst this
    refine ⟨t, e, hok', by rw [hpar, hparent], ?_⟩
    intro l' hl'
    have := LinkSeg_unique _ _ _ _ _ ((childHHChain_iff _ _ _ _).1 hl').1 hnew
    subst this
    intro hm
    rcases List.mem_append.1 hm with h | h
    · exact hca h
    · exact hcb h

theorem TaskTreeOK_appendChild_mergeIntoParent_witness :
    (childHHChain sampleState 1 (sampleState.hhs 4096).childHHList = some [] ∧
      ∃ s', HM_HH_appendChild sampleState 4096 8192 = some s' ∧ TaskTreeOK s' []) ∧
    (childHHChain sampleStateFamily 3 (sampleStateFamily.hhs 4096).childHHList
        = some [8192, 12288] ∧
      ∃ s', HM_HH_mergeIntoParent 2 sampleStateFamily 12288 = some s' ∧
        TaskTreeOK s' [12288] ∧ (s'.hhs 12288).parentHH = 4096 ∧
        ∀ l', childHHChain s' 3 (s'.hhs 4096).childHHList = some l' → 12288 ∉ l') :=
  ⟨⟨by decide,
    TaskTreeOK_appendChild_mergeIntoParent.1 sampleState [] 4096 8192 1 [] sampleState_taskTree
      (by decide) (by decide) (by decide) (by decide) (by decide) (by decide) (by decide)⟩,
   ⟨by decide,
    TaskTreeOK_appendChild_mergeIntoParent.2 2 3 sampleStateFamily [] 12288 4096 [8192, 12288]
      sampleStateFamily_taskTree (by decide) (by decide) (by decide) (by decide) (by decide)
      (by decide) (by decide) (by decide) (by decide) (by decide)⟩⟩

/-! ## The level invariant -/

/-- The levels a lifecycle operation on a heap of level `L` may leave in a
chunk header: the former level, `CHUNK_INVALID_LEVEL`, or a level that is
`CHUNK_INVALID_LEVEL` or at most `L`. -/
theorem getHighestLevel_bound (s s' : GC_state) (ll L : Nat)
    (h : CHUNK_INVALID_LEVEL = HM_getHighestLevel s ll ∨ HM_getHighestLevel s ll ≤ L)
    (hl : ∀ k, (s'.chunkInfo k).level = (s.chunkInfo k).level ∨
      (s'.chunkInfo k).level = CHUNK_INVALID_LEVEL ∨ (s'.chunkInfo k).level ≤ L) :
    CHUNK_INVALID_LEVEL = HM_getHighestLevel s' ll ∨ HM_getHighestLevel s' ll ≤ L := by
  unfold HM_getHighestLevel at h ⊢
  by_cases h0 : ll = 0
  · rw [if_pos h0]
    exact Or.inl rfl
  · rw [if_neg h0] at h ⊢
    rcases hl ll with e | e | e
    · rw [e]; exact h
    · exact Or.inl e.symm
    · exact Or.inr e

theorem HM_allocateChunk_level (x : Ext) (s : GC_state) (head n k : Nat) :
    ((HM_allocateChunk x s head n).1.chunkInfo k).level = (s.chunkInfo k).level ∨
      ((HM_allocateChunk x s head n).1.chunkInfo k).level = CHUNK_INVALID_LEVEL := by
  unfold HM_allocateChunk
  cases h : ChunkPool_allocate x s n with
  | none => exact Or.inl rfl
  | some r =>
    obtain ⟨chunk, chunkEnd, s1⟩ := r
    have h1 := (ChunkPool_allocate_some x s s1 n chunk chunkEnd h).2.2
    simp only
    by_cases hk : k = chunk
    · subst hk
      rw [setChunkInfo_same]
      exact Or.inr rfl
    · rw [setChunkInfo_ne _ _ _ _ hk]
      left
      refine (setChunkInfo_field (fun i => i.level) _ _ _ _ (by rfl)).trans
        ((setChunkInfo_field (fun i => i.level) _ _ _ _ (by rfl)).trans ?_)
      rw [h1]

theorem HM_allocateChunk_hhs (x : Ext) (s : GC_state) (head n : Nat) :
    (HM_allocateChunk x s head n).1.hhs = s.hhs := by
  unfold HM_allocateChunk
  cases h : ChunkPool_allocate x s n with
  | none => rfl
  | some r =>
    obtain ⟨chunk, chunkEnd, s1⟩ := r
    have h1 := (ChunkPool_allocate_some x s s1 n chunk chunkEnd h).2.2
    simp only [GC_state.setChunkInfo]
    rw [h1]

theorem HM_allocateLevelHeadChunk_level (x : Ext) (s s1 : GC_state)
    (ll n L hh ll' chunk : Nat)
    (h : HM_allocateLevelHeadChunk x s ll n L hh = some (s1, ll', chunk)) :
    s1.hhs = s.hhs ∧
    (∀ k, (s1.chunkInfo k).level = (s.chunkInfo k).level ∨ (s1.chunkInfo k).level = L) ∧
    (ll' = ll ∨ (ll' = chunk ∧ (s1.chunkInfo chunk).level = L)) := by
  unfold HM_allocateLevelHeadChunk at h
  cases ha : ChunkPool_allocate x s n with
  | none =>
    rw [ha] at h
    simp only [Option.some.injEq, Prod.mk.injEq] at h
    obtain ⟨rfl, rfl, rfl⟩ := h
    exact ⟨rfl, fun k => Or.inl rfl, Or.inl rfl⟩
  | some r =>
    obtain ⟨c, e, t1⟩ := r
    have h1 := (ChunkPool_allocate_some x s t1 n c e ha).2.2
    rw [ha] at h
    simp only at h
    cases hf : findLevelPosition t1 L (t1.chunks.length + 1) 0 ll with
    | none => rw [hf] at h; cases h
    | some pc =>
      obtain ⟨prev, next⟩ := pc
      rw [hf] at h
      simp only [Option.some.injEq, Prod.mk.injEq] at h
      obtain ⟨rfl, rfl, rfl⟩ := h
      have ht : t1.chunkInfo = s.chunkInfo := by rw [h1]
      have hth : t1.hhs = s.hhs := by rw [h1]
      refine ⟨?_, ?_, ?_⟩
      · rw [← hth]
        split <;> rfl
      · intro k
        by_cases hk : k = c
        · subst hk
          rw [setChunkInfo_same]
          exact Or.inr rfl
        · rw [setChunkInfo_ne _ _ _ _ hk]
          left
          rw [← ht]
          split
          · rfl
          · exact setChunkInfo_field (fun i => i.level) _ _ _ _ (by rfl)
      · by_cases hp : prev = 0
        · right
          rw [if_pos hp, setChunkInfo_same]
          exact ⟨rfl, rfl⟩
        · left
          rw [if_neg hp]

theorem levelInvariant_congr (s s' : GC_state) (hh : Nat)
    (h1 : s'.chunkInfo = s.chunkInfo) (h2 : (s'.hhs hh).levelList = (s.hhs hh).levelList)
    (h3 : (s'.hhs hh).level = (s.hhs hh).level) (h : HM_HH_levelInvariant s hh) :
    HM_HH_levelInvariant s' hh := by
  unfold HM_HH_levelInvariant HM_getHighestLevel at h ⊢
  rw [h1, h2, h3]
  exact h

/-- The cache fields that `HM_HH_extend` writes on success. -/
theorem extendAllocate_cache (s1 : GC_state) (hh chunk : Nat) :
    let s' := (((s1.setHH hh { s1.hhs hh with limit := HM_getChunkLimit s1 chunk }).setHH hh
      { (s1.setHH hh { s1.hhs hh with limit := HM_getChunkLimit s1 chunk }).hhs hh with
        savedFrontier := HM_getChunkFrontier
          (s1.setHH hh { s1.hhs hh with limit := HM_getChunkLimit s1 chunk }) chunk }).setHH hh
      { ((s1.setHH hh { s1.hhs hh with limit := HM_getChunkLimit s1 chunk }).setHH hh
      { (s1.setHH hh { s1.hhs hh with limit := HM_getChunkLimit s1 chunk }).hhs hh with
        savedFrontier := HM_getChunkFrontier
          (s1.setHH hh { s1.hhs hh with limit := HM_getChunkLimit s1 chunk }) chunk }).hhs hh with
        lastAllocatedChunk := chunk })
    s'.hhs hh = { s1.hhs hh with limit := (s1.chunkInfo chunk).limit,
                                 savedFrontier := (s1.chunkInfo chunk).frontier,
                                 lastAllocatedChunk := chunk } ∧
      s' = { s1 with hhs := s'.hhs } := by
  simp only [setHH_hhs, if_true, HM_getChunkLimit, HM_getChunkFrontier]
  exact ⟨rfl, rfl⟩

theorem extendAllocate_spec (x : Ext) (s s' : GC_state) (hh bytes level : Nat) (b : Bool)
    (h : extendAllocate x s hh bytes level = some (s', b)) :
    ∃ s1 chunk,
      (((CHUNK_INVALID_LEVEL = level ∨ level < (s.hhs hh).level) ∧
        ∃ t ll, HM_allocateLevelHeadChunk x s (s.hhs hh).levelList bytes (s.hhs hh).level hh
          = some (t, ll, chunk) ∧ s1 = t.setHH hh { t.hhs hh with levelList := ll }) ∨
      (¬ (CHUNK_INVALID_LEVEL = level ∨ level < (s.hhs hh).level) ∧
        (s1, chunk) = HM_allocateChunk x s (s.hhs hh).levelList bytes)) ∧
      ((chunk = 0 ∧ b = false ∧ s' = s1) ∨
       (chunk ≠ 0 ∧ b = true ∧
        s'.hhs hh = { s1.hhs hh with limit := (s1.chunkInfo chunk).limit,
                                     savedFrontier := (s1.chunkInfo chunk).frontier,
                                     lastAllocatedChunk := chunk } ∧
        s' = { s1 with hhs := s'.hhs })) := by
  unfold extendAllocate at h
  simp only at h
  split at h
  · cases h
  · next s1 chunk hr =>
    refine ⟨s1, chunk, ?_, ?_⟩
    · by_cases hc : CHUNK_INVALID_LEVEL = level ∨ level < (s.hhs hh).level
      · left
        rw [if_pos hc] at hr
        refine ⟨hc, ?_⟩
        split at hr
        · cases hr
        · next t ll c ha =>
          simp only [Option.some.injEq, Prod.mk.injEq] at hr
          exact ⟨t, ll, by rw [ha, hr.2], hr.1.symm⟩
      · right
        rw [if_neg hc] at hr
        exact ⟨hc, (Option.some.inj hr).symm⟩
    · by_cases h0 : chunk = 0
      · rw [if_pos h0] at h
        simp only [Option.some.injEq, Prod.mk.injEq] at h
        exact Or.inl ⟨h0, h.2.symm, h.1.symm⟩
      · rw [if_neg h0] at h
        simp only [Option.some.injEq, Prod.mk.injEq] at h
        obtain ⟨h1, h2⟩ := h
        subst h1
        exact Or.inr ⟨h0, h2.symm, extendAllocate_cache s1 hh chunk⟩

theorem extendAllocate_levelInvariant (x : Ext) (s s' : GC_state) (hh bytes level : Nat)
    (b : Bool) (h : extendAllocate x s hh bytes level = some (s', b))
    (hinv : HM_HH_levelInvariant s hh) : HM_HH_levelInvariant s' hh := by
  obtain ⟨s1, chunk, hs1, hs'⟩ := extendAllocate_spec x s s' hh bytes level b h
  have key : HM_HH_levelInvariant s1 hh := by
    rcases hs1 with ⟨_, t, ll, ha, rfl⟩ | ⟨_, ha⟩
    · obtain ⟨g1, g2, g3⟩ := HM_allocateLevelHeadChunk_level x s t _ _ _ _ _ _ ha
      have hlev : ((t.setHH hh { t.hhs hh with levelList := ll }).hhs hh).level
          = (s.hhs hh).level := by
        rw [setHH_hhs, if_pos rfl, g1]
      have hll : ((t.setHH hh { t.hhs hh with levelList := ll }).hhs hh).levelList = ll := by
        rw [setHH_hhs, if_pos rfl]
      unfold HM_HH_levelInvariant
      rw [hlev, hll]
      rcases g3 with rfl | ⟨rfl, g3⟩
      · exact getHighestLevel_bound s _ _ _ hinv (fun k => by
          rcases g2 k with e | e
          · exact Or.inl e
          · exact Or.inr (Or.inr (by
              show (t.chunkInfo k).level ≤ _
              rw [e])))
      · unfold HM_getHighestLevel
        by_cases h0 : ll = 0
        · rw [if_pos h0]; exact Or.inl rfl
        · rw [if_neg h0]
          right
          show (t.chunkInfo ll).level ≤ _
          rw [g3]
    · have e1 : s1 = (HM_allocateChunk x s (s.hhs hh).levelList bytes).1 :=
        congrArg Prod.fst ha
      have hh1 : s1.hhs = s.hhs := by rw [e1]; exact HM_allocateChunk_hhs _ _ _ _
      unfold HM_HH_levelInvariant
      rw [hh1]
      exact getHighestLevel_bound s _ _ _ hinv (fun k => by
        rw [e1]
        rcases HM_allocateChunk_level x s (s.hhs hh).levelList bytes k with e | e
        · exact Or.inl e
        · exact Or.inr (Or.inl e))
  rcases hs' with ⟨_, _, rfl⟩ | ⟨_, _, e1, e2⟩
  · exact key
  · refine levelInvariant_congr s1 s' hh ?_ ?_ ?_ key
    · rw [e2]
    · rw [e1]
    · rw [e1]

theorem HM_promoteChunks_level (s s1 : GC_state) (ll L ll' : Nat)
    (h : HM_promoteChunks s ll L = some (s1, ll')) :
    s1.hhs = s.hhs ∧
    (∀ k, (s1.chunkInfo k).level = (s.chunkInfo k).level ∨
      (s1.chunkInfo k).level = CHUNK_INVALID_LEVEL ∨
      (s1.chunkInfo k).level = (L + 2 ^ 64 - 1) % 2 ^ 64) ∧
    (ll' = ll ∨ (ll' ≠ 0 ∧ (s.chunkInfo ll').level = (L + 2 ^ 64 - 1) % 2 ^ 64)) := by
  unfold HM_promoteChunks at h
  split at h
  · cases h
  · next prev cur hf =>
    by_cases hc : cur = 0 ∨ (s.chunkInfo cur).level ≠ L
    · rw [if_pos hc] at h
      simp only [Option.some.injEq, Prod.mk.injEq] at h
      obtain ⟨rfl, rfl⟩ := h
      exact ⟨rfl, fun k => Or.inl rfl, Or.inl rfl⟩
    · rw [if_neg hc] at h
      simp only at h
      by_cases hn : (s.chunkInfo cur).nextHead ≠ 0 ∧
          (s.chunkInfo (s.chunkInfo cur).nextHead).level = (L + 2 ^ 64 - 1) % 2 ^ 64
      · rw [if_pos hn] at h
        have hlev := mergeLevelListDemote_level s (s.chunkInfo cur).nextHead cur
        by_cases hp : prev = 0
        · rw [if_pos hp] at h
          simp only [Option.some.injEq, Prod.mk.injEq] at h
          obtain ⟨rfl, rfl⟩ := h
          refine ⟨rfl, ?_, Or.inr hn⟩
          intro k
          rcases hlev k with e | e
          · exact Or.inl e
          · exact Or.inr (Or.inl e)
        · rw [if_neg hp] at h
          simp only [Option.some.injEq, Prod.mk.injEq] at h
          obtain ⟨rfl, rfl⟩ := h
          refine ⟨rfl, ?_, Or.inl rfl⟩
          intro k
          have := setChunkInfo_field (fun i => i.level)
            (mergeLevelListDemote s (s.chunkInfo cur).nextHead cur) prev k
            { (mergeLevelListDemote s (s.chunkInfo cur).nextHead cur).chunkInfo prev with
              nextHead := (s.chunkInfo cur).nextHead } (by rfl)
          simp only at this
          rw [this]
          rcases hlev k with e | e
          · exact Or.inl e
          · exact Or.inr (Or.inl e)
      · rw [if_neg hn] at h
        simp only [Option.some.injEq, Prod.mk.injEq] at h
        obtain ⟨rfl, rfl⟩ := h
        refine ⟨rfl, ?_, Or.inl rfl⟩
        intro k
        by_cases hk : k = cur
        · subst hk
          rw [setChunkInfo_same]
          exact Or.inr (Or.inr rfl)
        · rw [setChunkInfo_ne _ _ _ _ hk]
          exact Or.inl rfl

theorem size_t_pred_bound (L : Nat) :
    (L + 2 ^ 64 - 1) % 2 ^ 64 = CHUNK_INVALID_LEVEL ∨ (L + 2 ^ 64 - 1) % 2 ^ 64 ≤ L := by
  rcases Nat.eq_zero_or_pos L with h | h
  · left
    subst h
    decide
  · right
    have e : L + 2 ^ 64 - 1 = (L - 1) + 2 ^ 64 := by omega
    rw [e, Nat.add_mod_right]
    exact (Nat.mod_le _ _).trans (Nat.sub_le _ _)

theorem HM_HH_promoteChunks_levelInvariant (s s' : GC_state) (hh : Nat)
    (h : HM_HH_promoteChunks s hh = some s') (hinv : HM_HH_levelInvariant s hh) :
    HM_HH_levelInvariant s' hh := by
  unfold HM_HH_promoteChunks at h
  split at h
  · cases h
  · next s1 ll' hp =>
    obtain ⟨g1, g2, g3⟩ := HM_promoteChunks_level s s1 _ _ _ hp
    have e := Option.some.inj h
    subst e
    have hlev : ((s1.setHH hh { s1.hhs hh with levelList := ll' }).hhs hh).level
        = (s.hhs hh).level := by
      rw [setHH_hhs, if_pos rfl, g1]
    have hll : ((s1.setHH hh { s1.hhs hh with levelList := ll' }).hhs hh).levelList = ll' := by
      rw [setHH_hhs, if_pos rfl]
    have hb : ∀ k, (s1.chunkInfo k).level = (s.chunkInfo k).level ∨
        (s1.chunkInfo k).level = CHUNK_INVALID_LEVEL ∨
        (s1.chunkInfo k).level ≤ (s.hhs hh).level := by
      intro k
      rcases g2 k with e | e | e
      · exact Or.inl e
      · exact Or.inr (Or.inl e)
      · rcases size_t_pred_bound (s.hhs hh).level with q | q
        · exact Or.inr (Or.inl (e.trans q))
        · exact Or.inr (Or.inr (e ▸ q))
    unfold HM_HH_levelInvariant
    rw [hlev, hll]
    rcases g3 with rfl | ⟨h0, g3⟩
    · exact getHighestLevel_bound s _ _ _ hinv hb
    · unfold HM_getHighestLevel
      rw [if_neg h0]
      show CHUNK_INVALID_LEVEL = (s1.chunkInfo ll').level ∨ (s1.chunkInfo ll').level ≤ _
      rcases hb ll' with e | e | e
      · rw [e, g3]
        rcases size_t_pred_bound (s.hhs hh).level with q | q
        · exact Or.inl q.symm
        · exact Or.inr q
      · exact Or.inl e.symm
      · exact Or.inr e

theorem HM_HH_setLevel_levelInvariant (s : GC_state) (hh L : Nat)
    (h : CHUNK_INVALID_LEVEL = HM_getHighestLevel s (s.hhs hh).levelList ∨
      HM_getHighestLevel s (s.hhs hh).levelList ≤ L) :
    HM_HH_levelInvariant (HM_HH_setLevel s hh L) hh := by
  unfold HM_HH_levelInvariant HM_HH_setLevel
  simp only [setHH_hhs, if_true]
  exact h

theorem HM_HH_appendChild_some (s s' : GC_state) (p c : Nat)
    (h : HM_HH_appendChild s p c = some s') :
    p ≠ c ∧ (s.hhs p).lock = .HM_HH_LOCK_UNLOCKED ∧ (s.hhs c).lock = .HM_HH_LOCK_UNLOCKED := by
  unfold HM_HH_appendChild at h
  split at h
  · cases h
  · next s1 h1 =>
    split at h
    · cases h
    · next s2 h2 =>
      obtain ⟨a1, a2⟩ := lockHH_spec _ _ _ h1
      obtain ⟨b1, _⟩ := lockHH_spec _ _ _ h2
      have hpc : p ≠ c := by
        rintro rfl
        rw [a2] at b1
        simp [setHH_hhs] at b1
      refine ⟨hpc, a1, ?_⟩
      rw [a2] at b1
      simpa [setHH_hhs, Ne.symm hpc] using b1

theorem HM_HH_appendChild_levelInvariant (s s' : GC_state) (p c h : Nat)
    (e : HM_HH_appendChild s p c = some s') (hinv : HM_HH_levelInvariant s h) :
    HM_HH_levelInvariant s' h := by
  obtain ⟨hpc, hlp, hlc⟩ := HM_HH_appendChild_some s s' p c e
  obtain ⟨t, e', d, _, hh⟩ := HM_HH_appendChild_run s p c hpc hlp hlc
  have : t = s' := Option.some.inj (e'.symm.trans e)
  subst this
  refine levelInvariant_congr s t h (by rw [d]) ?_ ?_ hinv
  · rw [hh]
    by_cases h1 : h = p
    · simp only [h1, if_true]
    · by_cases h2 : h = c
      · simp only [h2, Ne.symm hpc, if_true, if_false]
      · simp only [h1, h2, if_false]
  · rw [hh]
    by_cases h1 : h = p
    · simp only [h1, if_true]
    · by_cases h2 : h = c
      · simp only [h2, Ne.symm hpc, if_true, if_false]
      · simp only [h1, h2, if_false]

theorem HM_HH_mergeIntoParent_levelInvariant (fuel n : Nat) (s : GC_state) (c p : Nat)
    (l R : List Nat)
    (hc : c ≠ BOGUS_OBJPTR) (hparent : (s.hhs c).parentHH = p) (hp : p ≠ BOGUS_OBJPTR)
    (hpc : p ≠ c)
    (hlc : (s.hhs c).lock = .HM_HH_LOCK_UNLOCKED) (hlp : (s.hhs p).lock = .HM_HH_LOCK_UNLOCKED)
    (hchain : childHHChain s n (s.hhs p).childHHList = some l) (hmem : c ∈ l)
    (hfuel : l.length ≤ fuel)
    (hlists : LevelListsMergeable s (s.hhs p).levelList (s.hhs c).levelList)
    (hR : levelListHeads s (s.chunks.length + 1) (s.hhs c).levelList = some R)
    (hRb : ∀ k ∈ R, (s.chunkInfo k).level ≤ (s.hhs c).level)
    (hlev : (s.hhs c).level = (s.hhs p).level) (hinv : HM_HH_levelInvariant s p) :
    ∃ s', HM_HH_mergeIntoParent fuel s c = some s' ∧ HM_HH_levelInvariant s' p := by
  obtain ⟨s2, s4, cursor, d, a, b, R', e1, hca, hcb, f1, f2, hcur, g2, hR', hd, hl4, hrun⟩ :=
    HM_HH_mergeIntoParent_run fuel n s c p l hc hparent hp hpc hlc hlp hchain hmem hfuel hlists
  have : R' = R := Option.some.inj (hR'.symm.trans hR)
  subst this
  refine ⟨_, hrun, ?_⟩
  have h4 : s4.hhs = (s2.writeCursor cursor (nextChildOf s c)).hhs := by
    have := congrArg GC_state.hhs g2
    exact this
  have hci : (unlockHH (unlockHH (s4.setHH p { s4.hhs p with levelList := d }) p) c).chunkInfo
      = s4.chunkInfo := by
    rw [unlockHH_data, unlockHH_data _ p]
    rfl
  have hlvl : ((unlockHH (unlockHH (s4.setHH p { s4.hhs p with levelList := d }) p) c).hhs
      p).level = (s.hhs p).level := by
    rw [mergeIntoParent_final_hhs, if_neg hpc, if_pos rfl, h4]
    show ((s2.writeCursor cursor (nextChildOf s c)).hhs p).level = _
    have : ∀ k, ((s2.writeCursor cursor (nextChildOf s c)).hhs k).level = (s2.hhs k).level := by
      intro k
      cases cursor with
      | childHHList h =>
        by_cases e : k = h
        · subst e; simp [GC_state.writeCursor, setHH_hhs]
        · simp [GC_state.writeCursor, setHH_hhs, e]
      | nextChildHH h =>
        by_cases e : k = h
        · subst e; simp [GC_state.writeCursor, setHH_hhs]
        · simp [GC_state.writeCursor, setHH_hhs, e]
    rw [this, f2 p, if_pos rfl]
  have hll : ((unlockHH (unlockHH (s4.setHH p { s4.hhs p with levelList := d }) p) c).hhs
      p).levelList = d := by
    rw [mergeIntoParent_final_hhs, if_neg hpc, if_pos rfl]
  unfold HM_HH_levelInvariant
  rw [hlvl, hll]
  have hb : ∀ k, (s4.chunkInfo k).level = (s.chunkInfo k).level ∨
      (s4.chunkInfo k).level = CHUNK_INVALID_LEVEL ∨ (s4.chunkInfo k).level ≤ (s.hhs p).level :=
    fun k => (hl4 k).elim Or.inl (fun e => Or.inr (Or.inl e))
  unfold HM_getHighestLevel
  rw [hci]
  rcases hd with rfl | hd
  · exact getHighestLevel_bound s s4 _ _ hinv hb
  · by_cases h0 : d = 0
    · rw [if_pos h0]; exact Or.inl rfl
    · rw [if_neg h0]
      rcases hl4 d with e | e
      · right
        rw [e, ← hlev]
        exact hRb d hd
      · exact Or.inl e.symm

/-- The state an `Except` run ends with. -/
theorem Except.eq_ok_of_isOk {ε α : Type} (r : Except ε α) (d : α)
    (h : (match r with | .ok _ => true | .error _ => false) = true) :
    r = .ok (match r with | .ok a => a | .error _ => d) := by
  cases r with
  | ok a => rfl
  | error e => cases h

/-! ## Extending a heap and promoting its chunks -/

/-- C15.  In `sampleStateFull` the chunk pool is over half allocated, the heap
`4096` has level 5 and a level list with the heads of the levels 5 and 3, and
nothing in the chunk of level 5 is reachable.  `HM_HH_extend` reads the highest
level, 5, runs the collection, which frees the chunk of level 5, and then, on
the level read before, appends the new chunk `2097152` to the list of the first
head left, the head of level 3: it returns true and the new chunk belongs to
level 3, not to level 5. -/
theorem extend_after_collection_allocates_at_lower_level :
    ChunkPool_overHalfAllocated sampleStateFull = true ∧
    HM_HH_levelInvariant sampleStateFull 4096 ∧
    HM_getHighestLevel sampleStateFull (sampleStateFull.hhs 4096).levelList = 5 ∧
    (match HM_HH_extend sampleExt 10 sampleStateFull 4096 64 with
     | .ok (s', b) =>
       some (b, (s'.hhs 4096).level, (s'.hhs 4096).lastAllocatedChunk,
         (s'.chunkInfo (s'.hhs 4096).lastAllocatedChunk).levelHead,
         (HM_getObjptrInfo s' (s'.hhs 4096).savedFrontier).map (fun i => i.level))
     | .error _ => none) = some (true, 5, 2097152, 1048576, some 3) := by
  decide

theorem HM_allocateChunk_chunk (x : Ext) (s : GC_state) (t n : Nat) :
    (HM_allocateChunk x s t n).2 =
      match ChunkPool_allocate x s n with
      | none => 0
      | some r => r.1 := by
  unfold HM_allocateChunk
  cases ChunkPool_allocate x s n with
  | none => rfl
  | some r => rfl

theorem HM_allocateLevelHeadChunk_chunk (x : Ext) (s s' : GC_state) (l n L hh newList c : Nat)
    (h : HM_allocateLevelHeadChunk x s l n L hh = some (s', newList, c)) :
    c = match ChunkPool_allocate x s n with
      | none => 0
      | some r => r.1 := by
  unfold HM_allocateLevelHeadChunk at h
  cases ha : ChunkPool_allocate x s n with
  | none =>
    rw [ha] at h
    simp only [Option.some.injEq, Prod.mk.injEq] at h
    exact h.2.2.symm
  | some r =>
    obtain ⟨c1, e, s1⟩ := r
    rw [ha] at h
    simp only at h
    split at h
    · cases h
    · simp only [Option.some.injEq, Prod.mk.injEq] at h
      exact h.2.2.symm

theorem HM_allocateLevelHeadChunk_none (x : Ext) (s : GC_state) (l n L hh : Nat)
    (h : ChunkPool_allocate x s n = none) :
    HM_allocateLevelHeadChunk x s l n L hh = some (s, l, 0) := by
  unfold HM_allocateLevelHeadChunk
  rw [h]

theorem HM_allocateChunk_none (x : Ext) (s : GC_state) (t n : Nat)
    (h : ChunkPool_allocate x s n = none) : HM_allocateChunk x s t n = (s, 0) := by
  unfold HM_allocateChunk
  rw [h]

theorem HM_HH_extend_eq (x : Ext) (fuel : Nat) (s s1 : GC_state) (hh bytes : Nat)
    (h : extendCollect x fuel s = .ok s1) :
    HM_HH_extend x fuel s hh bytes =
      match extendAllocate x s1 hh bytes (HM_getHighestLevel s (s.hhs hh).levelList) with
      | none => .error (.stuck, s1)
      | some r => .ok r := by
  unfold HM_HH_extend
  simp only
  rw [h]

theorem HM_HH_extend_ok (x : Ext) (fuel : Nat) (s s' : GC_state) (hh bytes : Nat) (b : Bool)
    (h : HM_HH_extend x fuel s hh bytes = .ok (s', b)) :
    ∃ s1, extendCollect x fuel s = .ok s1 ∧
      extendAllocate x s1 hh bytes (HM_getHighestLevel s (s.hhs hh).levelList) = some (s', b) := by
  cases hc : extendCollect x fuel s with
  | error e =>
    unfold HM_HH_extend at h
    simp only [hc] at h
    cases h
  | ok s1 =>
    rw [HM_HH_extend_eq x fuel s s1 hh bytes hc] at h
    refine ⟨s1, rfl, ?_⟩
    split at h
    · cases h
    · next r hr =>
      simp only [Except.ok.injEq] at h
      rw [hr, h]

/-- C16, counterexample.  In `sampleStateExhausted` the chunk pool has no free
chunk and is over half allocated, so `HM_HH_extend` first runs the collection;
the first object to copy needs a chunk and the collection dies of "Ran out of
space": `HM_HH_extend` aborts on the exhausted pool and returns nothing. -/
theorem extend_aborts_when_the_collection_runs_out_of_chunks :
    sampleStateExhausted.pool = [] ∧
    (match HM_HH_extend sampleExt 10 sampleStateExhausted 4096 64 with
     | .ok _ => none
     | .error (e, _) => some e) = some Abort.outOfSpace := by
  decide

/-- C16, amended.  After the collection that `HM_HH_extend` may run first has
returned the state `s1`: if the pool has no chunk for the request,
`HM_HH_extend` returns false, without abort, and `savedFrontier`, `limit` and
`lastAllocatedChunk` are those of `s1`; it returns true only with a chunk taken
from the pool that holds the request, and then `limit` is the end of that
chunk, `savedFrontier` its frontier (its start) and `lastAllocatedChunk` the
chunk; it returns false only when the allocator gave no chunk.  An abort of
`HM_HH_extend` for lack of chunks is the abort of that collection. -/
theorem HM_HH_extend_returns_allocation_result (x : Ext) (fuel : Nat) (s : GC_state)
    (hh bytesRequested : Nat) :
    (∀ s1, extendCollect x fuel s = .ok s1 → ChunkPool_allocate x s1 bytesRequested = none →
      ∃ s', HM_HH_extend x fuel s hh bytesRequested = .ok (s', false) ∧
        (s'.hhs hh).savedFrontier = (s1.hhs hh).savedFrontier ∧
        (s'.hhs hh).limit = (s1.hhs hh).limit ∧
        (s'.hhs hh).lastAllocatedChunk = (s1.hhs hh).lastAllocatedChunk) ∧
    (∀ s', HM_HH_extend x fuel s hh bytesRequested = .ok (s', true) →
      ∃ s1 chunk chunkEnd, extendCollect x fuel s = .ok s1 ∧ chunk ≠ 0 ∧
        (chunk, chunkEnd) ∈ s1.pool ∧ chunk + x.chunkStartOffset + bytesRequested ≤ chunkEnd ∧
        chunk ∈ s'.chunks ∧ HM_getChunkLimit s' chunk = chunkEnd ∧
        HM_getChunkFrontier s' chunk = HM_getChunkStart x chunk ∧
        (s'.hhs hh).limit = chunkEnd ∧
        (s'.hhs hh).savedFrontier = HM_getChunkFrontier s' chunk ∧
        (s'.hhs hh).lastAllocatedChunk = chunk) ∧
    (∀ s', HM_HH_extend x fuel s hh bytesRequested = .ok (s', false) →
      ∃ s1, extendCollect x fuel s = .ok s1 ∧
        (∀ r, ChunkPool_allocate x s1 bytesRequested = some r → r.1 = 0) ∧
        (s'.hhs hh).savedFrontier = (s1.hhs hh).savedFrontier ∧
        (s'.hhs hh).limit = (s1.hhs hh).limit ∧
        (s'.hhs hh).lastAllocatedChunk = (s1.hhs hh).lastAllocatedChunk) ∧
    (∀ st, HM_HH_extend x fuel s hh bytesRequested = .error (.outOfSpace, st) →
      ChunkPool_overHalfAllocated s = true ∧
      HM_HHC_collectLocal x fuel s = .error (.outOfSpace, st)) := by
  refine ⟨?_, ?_, ?_, ?_⟩
  · intro s1 hc hnone
    rw [HM_HH_extend_eq x fuel s s1 hh bytesRequested hc]
    unfold extendAllocate
    simp only
    by_cases hl : CHUNK_INVALID_LEVEL = HM_getHighestLevel s (s.hhs hh).levelList ∨
        HM_getHighestLevel s (s.hhs hh).levelList < (s1.hhs hh).level
    · rw [if_pos hl, HM_allocateLevelHeadChunk_none x s1 _ _ _ _ hnone]
      simp only [if_true]
      refine ⟨_, rfl, ?_, ?_, ?_⟩ <;> simp only [setHH_hhs, if_true]
    · rw [if_neg hl, HM_allocateChunk_none x s1 _ _ hnone]
      simp only [if_true]
      exact ⟨_, rfl, rfl, rfl, rfl⟩
  · intro s' h
    obtain ⟨s1, hc, ha⟩ := HM_HH_extend_ok x fuel s s' hh bytesRequested true h
    obtain ⟨t1, chunk, ht1, hs'⟩ := extendAllocate_spec x s1 s' hh bytesRequested _ true ha
    rcases hs' with ⟨_, hb, _⟩ | ⟨h0, _, e1, e2⟩
    · cases hb
    · have hci : s'.chunkInfo = t1.chunkInfo := by rw [e2]
      have hch : s'.chunks = t1.chunks := by rw [e2]
      have key : ∃ chunkEnd, (chunk, chunkEnd) ∈ s1.pool ∧
          chunk + x.chunkStartOffset + bytesRequested ≤ chunkEnd ∧ chunk ∈ t1.chunks ∧
          (t1.chunkInfo chunk).limit = chunkEnd ∧
          (t1.chunkInfo chunk).frontier = HM_getChunkStart x chunk := by
        rcases ht1 with ⟨_, t, ll, hal, rfl⟩ | ⟨_, hal⟩
        · obtain ⟨e, q1, q2, q3, _, _, _, _, q4, _, _, _, q5, _⟩ :=
            HM_allocateLevelHeadChunk_spec x s1 t _ _ _ _ _ _ hal h0
          exact ⟨e, q1, q2, by show chunk ∈ t.chunks; rw [q3]; simp, q5, q4⟩
        · obtain ⟨e, q1, q2, q3, _, _, _, _, q4, _⟩ :=
            HM_allocateChunk_spec x s1 t1 _ _ chunk hal.symm h0
          exact ⟨e, q1, q2, by rw [q3]; simp, by rw [q4], by rw [q4]⟩
      obtain ⟨chunkEnd, k1, k2, k3, k4, k5⟩ := key
      refine ⟨s1, chunk, chunkEnd, hc, h0, k1, k2, by rw [hch]; exact k3, ?_, ?_, ?_, ?_, ?_⟩
      · unfold HM_getChunkLimit; rw [hci]; exact k4
      · unfold HM_getChunkFrontier; rw [hci]; exact k5
      · rw [e1]; exact k4
      · unfold HM_getChunkFrontier; rw [e1, hci]
      · rw [e1]
  · intro s' h
    obtain ⟨s1, hc, ha⟩ := HM_HH_extend_ok x fuel s s' hh bytesRequested false h
    obtain ⟨t1, chunk, ht1, hs'⟩ := extendAllocate_spec x s1 s' hh bytesRequested _ false ha
    rcases hs' with ⟨h0, _, rfl⟩ | ⟨_, hb, _⟩
    · refine ⟨s1, hc, ?_, ?_⟩
      · intro r hr
        rcases ht1 with ⟨_, t, ll, hal, _⟩ | ⟨_, hal⟩
        · have := HM_allocateLevelHeadChunk_chunk x s1 t _ _ _ _ _ _ hal
          rw [hr] at this
          simp only at this
          rw [← this, h0]
        · have := HM_allocateChunk_chunk x s1 (s1.hhs hh).levelList bytesRequested
          rw [← hal, hr] at this
          simp only at this
          rw [← this, h0]
      · rcases ht1 with ⟨_, t, ll, hal, rfl⟩ | ⟨_, hal⟩
        · have g1 := (HM_allocateLevelHeadChunk_level x s1 t _ _ _ _ _ _ hal).1
          simp only [setHH_hhs, if_true, g1, and_self]
        · have e1 : s' = (HM_allocateChunk x s1 (s1.hhs hh).levelList bytesRequested).1 :=
            congrArg Prod.fst hal
          rw [e1, HM_allocateChunk_hhs]
          exact ⟨rfl, rfl, rfl⟩
    · cases hb
  · intro st h
    unfold HM_HH_extend at h
    simp only at h
    cases hc : extendCollect x fuel s with
    | error e =>
      rw [hc] at h
      simp only [Except.error.injEq] at h
      subst h
      unfold extendCollect at hc
      by_cases ho : ChunkPool_overHalfAllocated s = true
      · rw [if_pos ho] at hc
        refine ⟨ho, ?_⟩
        cases hr : HM_HHC_collectLocal x fuel s with
        | error e' =>
          rw [hr] at hc
          simp only [Except.error.injEq] at hc
          rw [hc]
        | ok r =>
          rw [hr] at hc
          cases hc
      · rw [if_neg ho] at hc
        cases hc
    | ok s1 =>
      rw [hc] at h
      simp only at h
      split at h
      · simp only [Except.error.injEq, Prod.mk.injEq] at h
        cases h.1
      · cases h

theorem HM_HH_extend_returns_allocation_result_witness :
    (∃ s', HM_HH_extend sampleExt 10 sampleState 4096 1048576 = .ok (s', false) ∧
      (s'.hhs 4096).savedFrontier = (sampleState.hhs 4096).savedFrontier ∧
      (s'.hhs 4096).limit = (sampleState.hhs 4096).limit ∧
      (s'.hhs 4096).lastAllocatedChunk = (sampleState.hhs 4096).lastAllocatedChunk) ∧
    (∃ s', HM_HH_extend sampleExt 10 sampleState 4096 64 = .ok (s', true) ∧
      ∃ s1 chunk chunkEnd, extendCollect sampleExt 10 sampleState = .ok s1 ∧ chunk ≠ 0 ∧
        (chunk, chunkEnd) ∈ s1.pool ∧ chunk + sampleExt.chunkStartOffset + 64 ≤ chunkEnd ∧
        chunk ∈ s'.chunks ∧ HM_getChunkLimit s' chunk = chunkEnd ∧
        HM_getChunkFrontier s' chunk = HM_getChunkStart sampleExt chunk ∧
        (s'.hhs 4096).limit = chunkEnd ∧
        (s'.hhs 4096).savedFrontier = HM_getChunkFrontier s' chunk ∧
        (s'.hhs 4096).lastAllocatedChunk = chunk) :=
  ⟨(HM_HH_extend_returns_allocation_result sampleExt 10 sampleState 4096 1048576).1
      sampleState (by rfl) (by rfl),
   ⟨_, Except.eq_ok_of_isOk _ (sampleState, true) (by decide) |>.trans (by rfl),
    (HM_HH_extend_returns_allocation_result sampleExt 10 sampleState 4096 64).2.1 _
      (Except.eq_ok_of_isOk _ (sampleState, true) (by decide) |>.trans (by rfl))⟩⟩

/-- C17.  The heap `8192` of `sampleStateOrphan` has an empty level list and
empty cache fields, as the safe-point invariants ask of an empty heap, and
level 5.  `HM_getHighestLevel` of its list is `CHUNK_INVALID_LEVEL`, the largest
`size_t`, so the condition of the `assert` of `HM_HH_promoteChunks`,
`HM_getHighestLevel (hh->levelList) <= hh->level`, is false: a build with
asserts aborts.  The `assert` of `HM_HH_extend` has the test for
`CHUNK_INVALID_LEVEL` and holds.  With the asserts compiled out
`HM_HH_promoteChunks` leaves the heap and the chunks as they are. -/
theorem promoteChunks_assertion_fails_on_empty_level_list :
    (sampleStateOrphan.hhs 8192).levelList = 0 ∧
    HM_HH_cacheInvariant sampleStateOrphan (sampleStateOrphan.hhs 8192) ∧
    HM_getHighestLevel sampleStateOrphan (sampleStateOrphan.hhs 8192).levelList
      = CHUNK_INVALID_LEVEL ∧
    HM_HH_levelInvariant sampleStateOrphan 8192 ∧
    ¬ HM_HH_promoteChunksAssertion sampleStateOrphan 8192 ∧
    (HM_HH_promoteChunks sampleStateOrphan 8192).map
      (fun s' => (s'.hhs 8192, s'.chunks, s'.chunks.map s'.chunkInfo))
      = some (sampleStateOrphan.hhs 8192, sampleStateOrphan.chunks,
          sampleStateOrphan.chunks.map sampleStateOrphan.chunkInfo) := by
  decide

/-! ## The locks of a collection -/

theorem lockState_setHH (s : GC_state) (h : Nat) (v : HM_HierarchicalHeap)
    (hv : v.lock = (s.hhs h).lock) : lockState (s.setHH h v) = lockState s := by
  unfold lockState
  refine Prod.ext rfl ?_
  funext k
  show ((s.setHH h v).hhs k).lock = _
  rw [setHH_hhs]
  by_cases e : k = h
  · rw [if_pos e, hv, e]
  · rw [if_neg e]

theorem lockState_writeSlot (s : GC_state) (opp : Slot) (v : Nat) :
    lockState (s.writeSlot opp v) = lockState s := by
  cases opp with
  | cell a => rfl
  | currentThread => rfl
  | hhThread h => exact lockState_setHH s h _ rfl
  | hhRetVal h => exact lockState_setHH s h _ rfl

theorem lockState_allocateChunk (x : Ext) (s : GC_state) (t n : Nat) :
    lockState (HM_allocateChunk x s t n).1 = lockState s := by
  unfold HM_allocateChunk
  cases h : ChunkPool_allocate x s n with
  | none => rfl
  | some r =>
    obtain ⟨c, e, s1⟩ := r
    have h1 := (ChunkPool_allocate_some x s s1 n c e h).2.2
    show lockState s1 = _
    rw [h1]
    rfl

theorem lockState_allocateLevelHeadChunk (x : Ext) (s s' : GC_state) (l n L hh l' c : Nat)
    (h : HM_allocateLevelHeadChunk x s l n L hh = some (s', l', c)) :
    lockState s' = lockState s := by
  unfold HM_allocateLevelHeadChunk at h
  cases ha : ChunkPool_allocate x s n with
  | none =>
    rw [ha] at h
    simp only [Option.some.injEq, Prod.mk.injEq] at h
    rw [← h.1]
  | some r =>
    obtain ⟨c1, e, s1⟩ := r
    have h1 := (ChunkPool_allocate_some x s s1 n c1 e ha).2.2
    rw [ha] at h
    simp only at h
    split at h
    · cases h
    · simp only [Option.some.injEq, Prod.mk.injEq] at h
      rw [← h.1]
      show lockState (if _ then s1 else _) = _
      split
      · rw [h1]; rfl
      · show lockState s1 = _
        rw [h1]; rfl

theorem lockState_computeObjectCopyParameters (x : Ext) (s s1 : GC_state) (p : Nat)
    (cp : CopyParameters) (h : computeObjectCopyParameters x s p = .ok (cp, s1)) :
    lockState s1 = lockState s := by
  unfold computeObjectCopyParameters at h
  simp only at h
  by_cases c1 : x.GC_HIERARCHICAL_HEAP_HEADER = getHeader x s p
  · rw [if_pos c1] at h; cases h
  rw [if_neg c1] at h
  by_cases c2 : (x.splitHeader (getHeader x s p)).1 = .NORMAL_TAG ∨
      (x.splitHeader (getHeader x s p)).1 = .WEAK_TAG
  · rw [if_pos c2] at h
    by_cases c3 : (x.splitHeader (getHeader x s p)).1 = .WEAK_TAG
    · rw [if_pos c3] at h; cases h
    · rw [if_neg c3] at h
      simp only [Except.ok.injEq, Prod.mk.injEq] at h
      rw [← h.2]
  rw [if_neg c2] at h
  by_cases c4 : (x.splitHeader (getHeader x s p)).1 = .ARRAY_TAG
  · rw [if_pos c4] at h
    simp only [Except.ok.injEq, Prod.mk.injEq] at h
    rw [← h.2]
  rw [if_neg c4] at h
  simp only [Except.ok.injEq, Prod.mk.injEq] at h
  rw [← h.2]
  split <;> rfl

theorem lockState_copyObject (x : Ext) (s s' : GC_state) (p n k t r : Nat)
    (h : copyObject x s p n k t = .ok (r, s')) : lockState s' = lockState s := by
  rw [copyObject_eq] at h
  cases htg : copyObjectTarget x s n t with
  | error e => rw [htg] at h; cases h
  | ok res =>
    obtain ⟨s1, c, r1⟩ := res
    rw [htg] at h
    simp only at h
    have h1 : lockState s1 = lockState s := by
      unfold copyObjectTarget at htg
      split_ifs at htg <;>
        first
        | (cases htg; done)
        | (simp only [Except.ok.injEq, Prod.mk.injEq] at htg
           rw [← htg.1] <;> exact lockState_allocateChunk x s t n)
    split_ifs at h <;>
      first
      | (cases h; done)
      | (simp only [Except.ok.injEq, Prod.mk.injEq] at h
         rw [← h.2]
         first
         | exact h1
         | (show lockState (HM_allocateChunk x (GC_memcpy s1 p r1 k) t 42).1 = _
            rw [lockState_allocateChunk]
            exact h1))

theorem lockState_forwardTargetList (x : Ext) (s s2 : GC_state) (args : ForwardHHObjptrArgs)
    (info : HM_ObjptrInfo) (n t : Nat) (h : forwardTargetList x s args info n = .ok (s2, t)) :
    lockState s2 = lockState s := by
  unfold forwardTargetList at h
  by_cases h0 : args.tgtChunkList ≠ 0
  · rw [if_pos h0] at h
    simp only [Except.ok.injEq, Prod.mk.injEq] at h
    rw [← h.1]
  · rw [if_neg h0] at h
    simp only at h
    by_cases h1 : HM_getChunkListToChunkList s info.chunkList = 0
    · rw [if_pos h1] at h
      cases hal : HM_allocateLevelHeadChunk x s (s.hhs args.hh).newLevelList n info.level
          COPY_OBJECT_HH_VALUE with
      | none => rw [hal] at h; cases h
      | some res =>
        obtain ⟨s1, nl, c⟩ := res
        rw [hal] at h
        simp only at h
        have e1 := lockState_allocateLevelHeadChunk x s s1 _ _ _ _ _ _ hal
        by_cases hc : c = 0
        · rw [if_pos hc] at h; cases h
        · rw [if_neg hc] at h
          simp only [Except.ok.injEq, Prod.mk.injEq] at h
          rw [← h.1]
          exact (lockState_setHH s1 args.hh { s1.hhs args.hh with newLevelList := nl } rfl).trans
            e1
    · rw [if_neg h1] at h
      simp only [Except.ok.injEq, Prod.mk.injEq] at h
      rw [← h.1]

theorem lockState_forwardHHObjptr (x : Ext) (fuel : Nat) (s s' : GC_state) (opp : Slot)
    (args args' : ForwardHHObjptrArgs) (h : forwardHHObjptr x fuel s opp args = .ok (s', args')) :
    lockState s' = lockState s := by
  rcases forwardHHObjptr_cases x fuel s opp args with
    h1 | h1 | h1 | ⟨v, h1⟩ | ⟨q, info, _, _, _, _, h1⟩
  · rw [h1] at h; simp only [Except.ok.injEq, Prod.mk.injEq] at h; rw [← h.1]
  · rw [h1] at h; cases h
  · rw [h1] at h; cases h
  · rw [h1] at h; simp only [Except.ok.injEq, Prod.mk.injEq] at h
    rw [← h.1]; exact lockState_writeSlot _ _ _
  · rw [h1] at h
    obtain ⟨cp, s1, s2, t, r, s3, e1, e2, e3, e4, _⟩ :=
      forwardObject_ok_inv x s opp args q info s' args' h
    rw [e4, lockState_writeSlot]
    show lockState s3 = _
    rw [lockState_copyObject x s2 s3 _ _ _ _ _ e3, lockState_forwardTargetList x s1 s2 _ _ _ _ e2,
      lockState_computeObjectCopyParameters x s s1 _ _ e1]

theorem lockState_forwardSlots (x : Ext) (fuel : Nat) (l : List Nat) (s s' : GC_state)
    (args args' : ForwardHHObjptrArgs) (h : forwardSlots x fuel l s args = .ok (s', args')) :
    lockState s' = lockState s := by
  induction l generalizing s args with
  | nil =>
    simp only [forwardSlots, Except.ok.injEq, Prod.mk.injEq] at h
    rw [← h.1]
  | cons a rest ih =>
    unfold forwardSlots at h
    cases h1 : forwardHHObjptr x fuel s (.cell a) args with
    | error e => rw [h1] at h; cases h
    | ok w =>
      obtain ⟨s1, a1⟩ := w
      rw [h1] at h
      exact (ih s1 a1 h).trans (lockState_forwardHHObjptr x fuel s s1 _ args a1 h1)

theorem lockState_collectLocalRoots (x : Ext) (fuel : Nat) (s s' : GC_state)
    (args args' : ForwardHHObjptrArgs) (h : collectLocalRoots x fuel s args = .ok (s', args')) :
    lockState s' = lockState s := by
  unfold collectLocalRoots at h
  obtain ⟨s1, a1, h1, h⟩ := ForwardResult.andThen_ok _ _ _ h
  obtain ⟨s2, a2, h2, h⟩ := ForwardResult.andThen_ok _ _ _ h
  obtain ⟨s3, a3, h3, h⟩ := ForwardResult.andThen_ok _ _ _ h
  obtain ⟨s5, a5, h5, h⟩ := ForwardResult.andThen_ok _ _ _ h
  have e1 := lockState_forwardSlots x fuel _ _ _ _ _ h1
  have e2 := lockState_forwardSlots x fuel _ _ _ _ _ h2
  have e3 := lockState_forwardHHObjptr x fuel _ _ _ _ _ h3
  have e5 := lockState_forwardSlots x fuel _ _ _ _ _ h5
  have e4 : lockState (s3.setHH s3.currentHierarchicalHeap
      { s3.hhs s3.currentHierarchicalHeap with thread := s3.currentThread }) = lockState s3 :=
    lockState_setHH _ _ _ rfl
  rw [e4] at e5
  have e04 : lockState s5 = lockState s := e5.trans (e3.trans (e2.trans e1))
  split_ifs at h
  · exact (lockState_forwardHHObjptr x fuel _ _ _ _ _ h).trans e04
  · simp only [Except.ok.injEq, Prod.mk.injEq] at h
    rw [← h.1]; exact e04

theorem lockState_forwardHHObjptrsInLevelList (x : Ext) (fuel steps : Nat) (scanned : Nat → Nat)
    (s s' : GC_state) (args args' : ForwardHHObjptrArgs)
    (h : HM_forwardHHObjptrsInLevelList x fuel steps scanned s args = .ok (s', args')) :
    lockState s' = lockState s := by
  induction steps generalizing scanned s args with
  | zero => simp [HM_forwardHHObjptrsInLevelList] at h
  | succ n ih =>
    unfold HM_forwardHHObjptrsInLevelList at h
    cases hl : levelListChunks s (s.hhs args.hh).newLevelList with
    | none => rw [hl] at h; cases h
    | some chunks =>
      rw [hl] at h
      simp only at h
      cases hf : chunks.find? (fun c =>
          decide (HM_getChunkStart x c + scanned c ≠ HM_getChunkFrontier s c)) with
      | none =>
        rw [hf] at h
        simp only [Except.ok.injEq, Prod.mk.injEq] at h
        rw [← h.1]
      | some c =>
        rw [hf] at h
        simp only at h
        by_cases hp : skipStackAndThreadObjptrPredicate x s
            (x.advanceToObjectData s.mem (HM_getChunkStart x c + scanned c)) = true
        · rw [if_pos hp] at h
          cases hr : foreachObjptrInObject x fuel s
              (x.advanceToObjectData s.mem (HM_getChunkStart x c + scanned c)) args with
          | error e => rw [hr] at h; cases h
          | ok w =>
            obtain ⟨s1, a1⟩ := w
            rw [hr] at h
            exact (ih _ s1 a1 h).trans (lockState_forwardSlots x fuel _ _ _ _ _ hr)
        · rw [if_neg hp] at h
          exact ih _ s args h

theorem lockState_foldl_free (cs : List Nat) (s : GC_state) :
    lockState (cs.foldl ChunkPool_free s) = lockState s := by
  induction cs generalizing s with
  | nil => rfl
  | cons c t ih =>
    rw [List.foldl_cons, ih]
    rfl

theorem lockState_freeChunks (fuel : Nat) (s s' : GC_state) (minLevel ll ll' : Nat)
    (h : HM_freeChunks s minLevel fuel ll = some (s', ll')) : lockState s' = lockState s := by
  induction fuel generalizing s ll with
  | zero => simp [HM_freeChunks] at h
  | succ n ih =>
    unfold HM_freeChunks at h
    by_cases h0 : ll = 0
    · rw [if_pos h0] at h
      simp only [Option.some.injEq, Prod.mk.injEq] at h
      rw [← h.1]
    · rw [if_neg h0] at h
      by_cases h1 : (s.chunkInfo ll).level < minLevel
      · rw [if_pos h1] at h
        simp only [Option.some.injEq, Prod.mk.injEq] at h
        rw [← h.1]
      · rw [if_neg h1] at h
        cases hc : chunkListChunks s (s.chunks.length + 1) ll with
        | none => rw [hc] at h; cases h
        | some cs =>
          rw [hc] at h
          exact (ih _ _ h).trans (lockState_foldl_free cs s)

theorem lockState_foldl_setChunkInfo (heads : List Nat) (hh : Nat) (s : GC_state) :
    lockState (heads.foldl
      (fun st h => st.setChunkInfo h { st.chunkInfo h with containingHH := hh }) s)
      = lockState s := by
  induction heads generalizing s with
  | nil => rfl
  | cons c t ih =>
    rw [List.foldl_cons, ih]
    rfl

theorem lockState_updateLevelListPointers (s s' : GC_state) (ll hh : Nat)
    (h : HM_updateLevelListPointers s ll hh = some s') : lockState s' = lockState s := by
  unfold HM_updateLevelListPointers at h
  cases hl : levelListHeads s (s.chunks.length + 1) ll with
  | none => rw [hl] at h; cases h
  | some heads =>
    rw [hl] at h
    simp only [Option.some.injEq] at h
    rw [← h]
    exact lockState_foldl_setChunkInfo heads hh s

theorem lockState_mergeLevelList (fuel : Nat) (s s' : GC_state) (dest src d : Nat)
    (h : HM_mergeLevelList s fuel dest src = some (s', d)) : lockState s' = lockState s := by
  induction fuel generalizing s dest src with
  | zero => simp [HM_mergeLevelList] at h
  | succ n ih =>
    by_cases h0 : src = 0
    · unfold HM_mergeLevelList at h
      rw [if_pos h0] at h
      simp only [Option.some.injEq, Prod.mk.injEq] at h
      rw [← h.1]
    · cases hf : findLevelPosition s (s.chunkInfo src).level (s.chunks.length + 1) 0 dest with
      | none =>
        unfold HM_mergeLevelList at h
        rw [if_neg h0] at h
        simp only [hf] at h
        cases h
      | some pc =>
        obtain ⟨prev, cur⟩ := pc
        by_cases hc : cur ≠ 0 ∧ (s.chunkInfo cur).level = (s.chunkInfo src).level
        · rw [HM_mergeLevelList_step_demote s n dest src prev cur h0 hf hc] at h
          have := ih _ _ _ h
          rw [this, mergeLevelListDemote_frame]
          rfl
        · rw [HM_mergeLevelList_step_splice s n dest src prev cur h0 hf hc] at h
          have := ih _ _ _ h
          rw [this, mergeLevelListSplice_frame]
          rfl

theorem lockState_collectLocalReclaim (s s' : GC_state) (minLevel : Nat)
    (h : collectLocalReclaim s minLevel = some s') : lockState s' = lockState s := by
  unfold collectLocalReclaim at h
  simp only at h
  cases h1 : HM_freeChunks s minLevel (s.chunks.length + 1)
      (s.hhs s.currentHierarchicalHeap).levelList with
  | none => rw [h1] at h; cases h
  | some r1 =>
    obtain ⟨s1, ll1⟩ := r1
    rw [h1] at h
    simp only at h
    have e1 := lockState_freeChunks _ _ _ _ _ _ h1
    have e2 : lockState (s1.setHH s.currentHierarchicalHeap
        { s1.hhs s.currentHierarchicalHeap with levelList := ll1 }) = lockState s1 :=
      lockState_setHH _ _ _ rfl
    split at h
    · cases h
    · next s3 h3 =>
      have e3 := lockState_updateLevelListPointers _ _ _ _ h3
      split at h
      · cases h
      · next s4 ll4 h4 =>
        have e4 := lockState_mergeLevelList _ _ _ _ _ _ h4
        simp only [Option.some.injEq] at h
        rw [← h]
        have e5 : lockState (s4.setHH s.currentHierarchicalHeap
            { s4.hhs s.currentHierarchicalHeap with levelList := ll4, newLevelList := 0 })
            = lockState s4 := lockState_setHH _ _ _ rfl
        exact e5.trans (e4.trans (e3.trans (e2.trans e1)))

theorem lockState_collectLocalBookkeeping (x : Ext) (s : GC_state) :
    lockState (collectLocalBookkeeping x s) = lockState s := by
  unfold collectLocalBookkeeping
  simp only
  split <;>
  · refine Prod.ext rfl ?_
    funext k
    simp only [lockState, setHH_hhs]
    by_cases hk : k = s.currentHierarchicalHeap
    · simp only [hk, if_true]
    · simp only [hk, if_false]

theorem collectLocalEnter_locks (x : Ext) (s s1 : GC_state) (h : collectLocalEnter x s = some s1) :
    s1.currentHierarchicalHeap = s.currentHierarchicalHeap ∧
    (s1.hhs s.currentHierarchicalHeap).lock = .HM_HH_LOCK_LOCKED ∧
    s1.hhLockLog = s.hhLockLog ++ [.acquired s.currentHierarchicalHeap] ∧
    (s.wsQueueLockedByMe = false →
      s.wsQueueLockHeld = false ∧ s1.wsQueueLockTakes = s.wsQueueLockTakes + 1 ∧
      s1.wsQueueLockReleases = s.wsQueueLockReleases) ∧
    (s.wsQueueLockedByMe = true →
      s1.wsQueueLockHeld = s.wsQueueLockHeld ∧ s1.wsQueueLockedByMe = true ∧
      s1.wsQueueLockTakes = s.wsQueueLockTakes ∧
      s1.wsQueueLockReleases = s.wsQueueLockReleases) := by
  unfold collectLocalEnter at h
  simp only at h
  by_cases hb : s.wsQueueLockedByMe = true
  · rw [if_pos hb] at h
    simp only at h
    obtain ⟨_, e⟩ := lockHH_spec _ _ _ h
    rw [e]
    refine ⟨rfl, ?_, rfl, fun q => ?_, fun _ => ⟨rfl, hb, rfl, rfl⟩⟩
    · simp [setHH_hhs, GC_state.writeMem]
    · rw [hb] at q; cases q
  · rw [if_neg hb] at h
    unfold Parallel_lockTake at h
    by_cases hheld : s.wsQueueLockHeld = true
    · rw [show ((({ s with numHHLocalGCs := s.numHHLocalGCs + 1 } : GC_state).writeMem _
        _).writeMem _ _).wsQueueLockHeld = s.wsQueueLockHeld from rfl, if_pos hheld] at h
      cases h
    · rw [show ((({ s with numHHLocalGCs := s.numHHLocalGCs + 1 } : GC_state).writeMem _
        _).writeMem _ _).wsQueueLockHeld = s.wsQueueLockHeld from rfl, if_neg hheld] at h
      simp only at h
      obtain ⟨_, e⟩ := lockHH_spec _ _ _ h
      rw [e]
      refine ⟨rfl, ?_, rfl, fun _ => ⟨?_, rfl, rfl⟩, fun q => absurd q hb⟩
      · simp [setHH_hhs, GC_state.writeMem]
      · cases hq : s.wsQueueLockHeld
        · rfl
        · exact absurd hq hheld

/-- C18. A `HM_HHC_collectLocal` call that returns with the collection enabled
leaves the lock of the collected hierarchical heap released, having acquired and
released it once, and leaves the work-stealing queue lock as held or unheld as it
was on entry: when the caller did not hold it, it is taken once and released
once; when the caller held it, it is neither taken nor released. -/
theorem HM_HHC_collectLocal_lock_discipline (x : Ext) (fuel : Nat) (s s' : GC_state)
    (a : Option ForwardHHObjptrArgs)
    (henabled : s.hhCollectionLevel ≠ .NONE)
    (h : HM_HHC_collectLocal x fuel s = .ok (s', a)) :
    (s'.hhs s.currentHierarchicalHeap).lock = .HM_HH_LOCK_UNLOCKED ∧
    s'.hhLockLog = s.hhLockLog ++
      [.acquired s.currentHierarchicalHeap, .released s.currentHierarchicalHeap] ∧
    s'.wsQueueLockHeld = s.wsQueueLockHeld ∧
    (s.wsQueueLockedByMe = false →
      s'.wsQueueLockTakes = s.wsQueueLockTakes + 1 ∧
      s'.wsQueueLockReleases = s.wsQueueLockReleases + 1) ∧
    (s.wsQueueLockedByMe = true →
      s'.wsQueueLockTakes = s.wsQueueLockTakes ∧
      s'.wsQueueLockReleases = s.wsQueueLockReleases ∧
      s'.wsQueueLockedByMe = true) := by
  unfold HM_HHC_collectLocal at h
  rw [if_neg henabled] at h
  cases he : collectLocalEnter x s with
  | none => rw [he] at h; cases h
  | some s1 =>
    rw [he] at h
    simp only at h
    obtain ⟨hcur, hlock, hlog, hfree, hheld⟩ := collectLocalEnter_locks x s s1 he
    cases hr : (collectLocalRoots x fuel s1 (collectLocalArgs x s1)).andThen
        (HM_forwardHHObjptrsInLevelList x fuel fuel (fun _ => 0)) with
    | error e => rw [hr] at h; cases h
    | ok v =>
      obtain ⟨s2, args⟩ := v
      rw [hr] at h
      simp only at h
      obtain ⟨sr, ar, hroots, hdrain⟩ := ForwardResult.andThen_ok _ _ _ hr
      cases hrec : collectLocalReclaim s2 args.minLevel with
      | none => rw [hrec] at h; cases h
      | some s3 =>
        rw [hrec] at h
        simp only at h
        have e1 : lockState (collectLocalBookkeeping x s3) = lockState s1 :=
          (lockState_collectLocalBookkeeping x s3).trans
            ((lockState_collectLocalReclaim _ _ _ hrec).trans
              ((lockState_forwardHHObjptrsInLevelList _ _ _ _ _ _ _ _ hdrain).trans
                (lockState_collectLocalRoots _ _ _ _ _ _ hroots)))
        generalize collectLocalBookkeeping x s3 = sB at e1 h
        have bHeld : sB.wsQueueLockHeld = s1.wsQueueLockHeld := congrArg (fun t => t.1.1) e1
        have bMe : sB.wsQueueLockedByMe = s1.wsQueueLockedByMe :=
          congrArg (fun t => t.1.2.1) e1
        have bTakes : sB.wsQueueLockTakes = s1.wsQueueLockTakes :=
          congrArg (fun t => t.1.2.2.1) e1
        have bRel : sB.wsQueueLockReleases = s1.wsQueueLockReleases :=
          congrArg (fun t => t.1.2.2.2.1) e1
        have bCur : sB.currentHierarchicalHeap = s.currentHierarchicalHeap :=
          (congrArg (fun t => t.1.2.2.2.2.1) e1).trans hcur
        have bLog : sB.hhLockLog = s1.hhLockLog := congrArg (fun t => t.1.2.2.2.2.2) e1
        have bLock : (sB.hhs s.currentHierarchicalHeap).lock = .HM_HH_LOCK_LOCKED :=
          (congrFun (congrArg Prod.snd e1) s.currentHierarchicalHeap).trans hlock
        have hs' : s' = collectLocalLeave sB s.wsQueueLockedByMe args.bytesCopied := by
          cases h; rfl
        have uData := unlockHH_data sB s.currentHierarchicalHeap
        have uLog := unlockHH_log sB s.currentHierarchicalHeap bLock
        have uHhs := unlockHH_hhs sB s.currentHierarchicalHeap s.currentHierarchicalHeap
        rw [if_pos rfl] at uHhs
        rw [hs']
        unfold collectLocalLeave
        simp only
        rw [bCur]
        generalize unlockHH sB s.currentHierarchicalHeap = sU at uData uLog uHhs
        have uHeld : sU.wsQueueLockHeld = sB.wsQueueLockHeld := by rw [uData]
        have uMe : sU.wsQueueLockedByMe = sB.wsQueueLockedByMe := by rw [uData]
        have uTakes : sU.wsQueueLockTakes = sB.wsQueueLockTakes := by rw [uData]
        have uRel : sU.wsQueueLockReleases = sB.wsQueueLockReleases := by rw [uData]
        cases hb : s.wsQueueLockedByMe with
        | false =>
          obtain ⟨f1, f2, f3⟩ := hfree hb
          simp only [Bool.not_false, if_true, Parallel_lockRelease]
          refine ⟨by rw [uHhs], by rw [uLog, bLog, hlog, List.append_assoc]; rfl, f1.symm,
            fun _ => ⟨?_, ?_⟩, fun q => by cases q⟩
          · rw [uTakes, bTakes, f2]
          · rw [uRel, bRel, f3]
        | true =>
          obtain ⟨f1, f2, f3, f4⟩ := hheld hb
          rw [show (if (!true) = true then Parallel_lockRelease sU else sU) = sU from rfl]
          refine ⟨by rw [uHhs], by rw [uLog, bLog, hlog, List.append_assoc]; rfl, ?_,
            fun q => (by cases q), fun _ => ⟨?_, ?_, ?_⟩⟩
          · rw [uHeld, bHeld, f1]
          · rw [uTakes, bTakes, f3]
          · rw [uRel, bRel, f4]
          · rw [uMe, bMe, f2]

set_option maxRecDepth 16000 in
theorem HM_HHC_collectLocal_lock_discipline_witness :
    (sampleStateDead.hhCollectionLevel ≠ .NONE ∧ sampleStateDead.wsQueueLockedByMe = false ∧
      ∃ s' a, HM_HHC_collectLocal sampleExt 10 sampleStateDead = .ok (s', a) ∧
        (s'.hhs 4096).lock = .HM_HH_LOCK_UNLOCKED ∧
        s'.hhLockLog = [.acquired 4096, .released 4096] ∧
        s'.wsQueueLockHeld = false ∧
        s'.wsQueueLockTakes = 1 ∧ s'.wsQueueLockReleases = 1) ∧
    (sampleStateInCriticalSection.hhCollectionLevel ≠ .NONE ∧
      sampleStateInCriticalSection.wsQueueLockedByMe = true ∧
      ∃ s' a, HM_HHC_collectLocal sampleExt 10 sampleStateInCriticalSection = .ok (s', a) ∧
        (s'.hhs 4096).lock = .HM_HH_LOCK_UNLOCKED ∧
        s'.hhLockLog = [.acquired 4096, .released 4096] ∧
        s'.wsQueueLockHeld = true ∧ s'.wsQueueLockedByMe = true ∧
        s'.wsQueueLockTakes = 0 ∧ s'.wsQueueLockReleases = 0) :=
  ⟨⟨by decide, rfl, _, _, Except.eq_ok_of_isOk _ (sampleStateDead, none) (by decide),
      (HM_HHC_collectLocal_lock_discipline sampleExt 10 sampleStateDead _ _ (by decide)
        (Except.eq_ok_of_isOk _ (sampleStateDead, none) (by decide))).1,
      (HM_HHC_collectLocal_lock_discipline sampleExt 10 sampleStateDead _ _ (by decide)
        (Except.eq_ok_of_isOk _ (sampleStateDead, none) (by decide))).2.1,
      (HM_HHC_collectLocal_lock_discipline sampleExt 10 sampleStateDead _ _ (by decide)
        (Except.eq_ok_of_isOk _ (sampleStateDead, none) (by decide))).2.2.1,
      (HM_HHC_collectLocal_lock_discipline sampleExt 10 sampleStateDead _ _ (by decide)
        (Except.eq_ok_of_isOk _ (sampleStateDead, none) (by decide))).2.2.2.1 rfl⟩,
   ⟨by decide, rfl, _, _,
      Except.eq_ok_of_isOk _ (sampleStateDead, none) (by decide),
      (HM_HHC_collectLocal_lock_discipline sampleExt 10 sampleStateInCriticalSection _ _
        (by decide) (Except.eq_ok_of_isOk _ (sampleStateDead, none) (by decide))).1,
      (HM_HHC_collectLocal_lock_discipline sampleExt 10 sampleStateInCriticalSection _ _
        (by decide) (Except.eq_ok_of_isOk _ (sampleStateDead, none) (by decide))).2.1,
      (HM_HHC_collectLocal_lock_discipline sampleExt 10 sampleStateInCriticalSection _ _
        (by decide) (Except.eq_ok_of_isOk _ (sampleStateDead, none) (by decide))).2.2.1,
      ((HM_HHC_collectLocal_lock_discipline sampleExt 10 sampleStateInCriticalSection _ _
        (by decide) (Except.eq_ok_of_isOk _ (sampleStateDead, none) (by decide))).2.2.2.2
          rfl).2.2,
      ((HM_HHC_collectLocal_lock_discipline sampleExt 10 sampleStateInCriticalSection _ _
        (by decide) (Except.eq_ok_of_isOk _ (sampleStateDead, none) (by decide))).2.2.2.2
          rfl).1,
      ((HM_HHC_collectLocal_lock_discipline sampleExt 10 sampleStateInCriticalSection _ _
        (by decide) (Except.eq_ok_of_isOk _ (sampleStateDead, none) (by decide))).2.2.2.2
          rfl).2.1⟩⟩

/-! ## The order of the heap locks -/

/-- C19 (the code at the failing input).  `HM_HH_appendChild` acquires the lock
of the parent and then the lock of the child.  `HM_HH_mergeIntoParent`, called on
the child 12288 of the parent 4096, acquires the lock of the child first and the
lock of the parent second: the two operations take the two locks in opposite
orders.  Each releases both locks before it returns. -/
theorem mergeIntoParent_locks_child_before_parent :
    (HM_HH_appendChild sampleState 4096 8192).map (fun s => s.hhLockLog)
      = some [.acquired 4096, .acquired 8192, .released 8192, .released 4096] ∧
    (HM_HH_appendChild sampleState 4096 8192).map
        (fun s => ((s.hhs 4096).lock, (s.hhs 8192).lock))
      = some (.HM_HH_LOCK_UNLOCKED, .HM_HH_LOCK_UNLOCKED) ∧
    (sampleStateFamily.hhs 12288).parentHH = 4096 ∧
    sampleStateFamily.hhLockLog = [] ∧
    (HM_HH_mergeIntoParent 2 sampleStateFamily 12288).map (fun s => s.hhLockLog)
      = some [.acquired 12288, .acquired 4096, .released 4096, .released 12288] ∧
    (HM_HH_mergeIntoParent 2 sampleStateFamily 12288).map
        (fun s => ((s.hhs 4096).lock, (s.hhs 12288).lock))
      = some (.HM_HH_LOCK_UNLOCKED, .HM_HH_LOCK_UNLOCKED) := by
  decide

/-! ## Copies and the chunk alignment -/

theorem alignDown_within_unit (c a : Nat) (hc : c % (512 * 1024) = 0) (h1 : c ≤ a)
    (h2 : a < c + 512 * 1024) : alignDown a (512 * 1024) = c := by
  unfold alignDown
  omega

theorem sizeDiff_of_le (a b : Nat) (h : b ≤ a) (ha : a - b < 2 ^ 64) : sizeDiff a b = a - b := by
  unfold sizeDiff
  have e : a + 2 ^ 64 - b = (a - b) + 2 ^ 64 := by omega
  rw [e, Nat.add_mod_right, Nat.mod_eq_of_lt ha]

theorem copyObjectTarget_unit (x : Ext) (s s1 : GC_state) (n t c r : Nat)
    (haligned : HM_getChunkListLastChunk s t % (512 * 1024) = 0)
    (hstart : HM_getChunkStart x (HM_getChunkListLastChunk s t)
      ≤ HM_getChunkFrontier s (HM_getChunkListLastChunk s t))
    (hfront : HM_getChunkFrontier s (HM_getChunkListLastChunk s t)
      ≤ HM_getChunkLimit s (HM_getChunkListLastChunk s t))
    (hlimit : HM_getChunkLimit s (HM_getChunkListLastChunk s t)
      ≤ HM_getChunkListLastChunk s t + 512 * 1024)
    (hpool : ∀ q ∈ s.pool, q.1 % (512 * 1024) = 0 ∧ q.2 ≤ q.1 + 512 * 1024)
    (h : copyObjectTarget x s n t = .ok (s1, c, r)) :
    c % (512 * 1024) = 0 ∧ c ≤ r ∧ r + n ≤ c + 512 * 1024 := by
  unfold copyObjectTarget at h
  unfold HM_getChunkStart at hstart
  split at h
  · generalize hal : HM_allocateChunk x s t n = al at h
    obtain ⟨sa, ca⟩ := al
    simp only at h
    split at h
    · cases h
    · rename_i hfull hne
      simp only [Except.ok.injEq, Prod.mk.injEq] at h
      obtain ⟨h1, h2, h3⟩ := h
      obtain ⟨e, he, hfit, -, -, -, -, -, hinfo, -⟩ :=
        HM_allocateChunk_spec x s sa t n ca hal hne
      rw [h2] at he hfit hinfo
      rw [h1] at hinfo
      have hr : r = c + x.chunkStartOffset := by
        rw [← h3, h1, h2]
        unfold HM_getChunkFrontier
        rw [hinfo]
        rfl
      obtain ⟨p1, p2⟩ := hpool _ he
      simp only at p1 p2
      refine ⟨p1, ?_, ?_⟩ <;> omega
  · rename_i hfits
    simp only [Except.ok.injEq, Prod.mk.injEq] at h
    obtain ⟨-, h2, h3⟩ := h
    rw [sizeDiff_of_le _ _ hfront (by omega)] at hfits
    rw [h2] at haligned hstart hfront hlimit hfits h3
    rw [h3] at hstart hfront hfits
    refine ⟨haligned, ?_, ?_⟩ <;> omega

theorem copyObject_address (x : Ext) (s s' : GC_state) (p n k t r : Nat)
    (h : copyObject x s p n k t = .ok (r, s')) :
    ∃ s1 c, copyObjectTarget x s n t = .ok (s1, c, r) := by
  rw [copyObject_eq] at h
  cases ht : copyObjectTarget x s n t with
  | error e => rw [ht] at h; cases h
  | ok v =>
    obtain ⟨s1, c, f⟩ := v
    rw [ht] at h
    simp only at h
    refine ⟨s1, c, ?_⟩
    split at h
    · split at h
      · cases h
      · simp only [Except.ok.injEq, Prod.mk.injEq] at h
        rw [h.1]
    · simp only [Except.ok.injEq, Prod.mk.injEq] at h
      rw [h.1]

/-- C20 (counterexample).  Both chunk lists satisfy start <= frontier <= limit.
An object of 600000 bytes does not fit the last chunk of the list headed by
`1572864`; `copyObject` places it at the start of the free chunk of 1 MiB, and
its first and its last byte lie in different 512 KiB-aligned units.  An object of
100000 bytes fits the last chunk of the list headed by `2097152`, a chunk of two
units with its frontier 500000 bytes in, and it too crosses the boundary
`2621440`. -/
theorem copyObject_straddles_alignment_boundary :
    HM_getChunkStart sampleExt 1572864 ≤ HM_getChunkFrontier sampleStateBigChunk 1572864 ∧
    HM_getChunkFrontier sampleStateBigChunk 1572864
      ≤ HM_getChunkLimit sampleStateBigChunk 1572864 ∧
    copyObjectAddress (copyObject sampleExt sampleStateBigChunk 1573000 600000 16 1572864)
      = some 2097216 ∧
    alignDown 2097216 (512 * 1024) = 2097152 ∧
    alignDown (2097216 + 600000 - 1) (512 * 1024) = 2621440 ∧
    HM_getChunkStart sampleExt 2097152 ≤ HM_getChunkFrontier sampleStateWideChunk 2097152 ∧
    HM_getChunkFrontier sampleStateWideChunk 2097152
      ≤ HM_getChunkLimit sampleStateWideChunk 2097152 ∧
    copyObjectAddress (copyObject sampleExt sampleStateWideChunk 1573000 100000 16 2097152)
      = some 2597152 ∧
    alignDown 2597152 (512 * 1024) = 2097152 ∧
    alignDown (2597152 + 100000 - 1) (512 * 1024) = 2621440 := by
  decide

/-- C20 (amended).  When the last chunk of the target chunk list lies within one
512 KiB-aligned unit (its address is a multiple of 512 KiB and start <= frontier
<= limit <= address + 512 KiB) and so does every free chunk of the pool, a
`copyObject` call that returns the address `r` has placed the `objectSize` bytes
beginning at `r` within one unit: every byte of the object, the first and the
last included, lies in the 512 KiB-aligned chunk of `r`, for every
`objectSize`. -/
theorem copyObject_within_one_alignment_unit (x : Ext) (s s' : GC_state)
    (p objectSize copySize toChunkList r : Nat)
    (haligned : HM_getChunkListLastChunk s toChunkList % (512 * 1024) = 0)
    (hstart : HM_getChunkStart x (HM_getChunkListLastChunk s toChunkList)
      ≤ HM_getChunkFrontier s (HM_getChunkListLastChunk s toChunkList))
    (hfront : HM_getChunkFrontier s (HM_getChunkListLastChunk s toChunkList)
      ≤ HM_getChunkLimit s (HM_getChunkListLastChunk s toChunkList))
    (hlimit : HM_getChunkLimit s (HM_getChunkListLastChunk s toChunkList)
      ≤ HM_getChunkListLastChunk s toChunkList + 512 * 1024)
    (hpool : ∀ q ∈ s.pool, q.1 % (512 * 1024) = 0 ∧ q.2 ≤ q.1 + 512 * 1024)
    (h : copyObject x s p objectSize copySize toChunkList = .ok (r, s')) :
    ∀ a, r ≤ a → a < r + objectSize →
      alignDown a (512 * 1024) = alignDown r (512 * 1024) := by
  obtain ⟨s1, c, ht⟩ := copyObject_address x s s' p objectSize copySize toChunkList r h
  obtain ⟨k1, k2, k3⟩ :=
    copyObjectTarget_unit x s s1 objectSize toChunkList c r haligned hstart hfront hlimit hpool ht
  intro a ha1 ha2
  rw [alignDown_within_unit c a k1 (by omega) (by omega),
    alignDown_within_unit c r k1 k2 (by omega)]

set_option maxRecDepth 16000 in
theorem copyObject_within_one_alignment_unit_witness :
    (∃ r s', copyObject sampleExt sampleState 1573000 64 16 1572864 = .ok (r, s') ∧
      r = 1573184 ∧
      ∀ a, r ≤ a → a < r + 64 → alignDown a (512 * 1024) = alignDown r (512 * 1024)) ∧
    (∃ r s', copyObject sampleExt sampleState 1573000 524000 16 1572864 = .ok (r, s') ∧
      r = 2097216 ∧
      ∀ a, r ≤ a → a < r + 524000 → alignDown a (512 * 1024) = alignDown r (512 * 1024)) :=
  ⟨⟨_, _, Except.eq_ok_of_isOk _ (0, sampleState) (by decide), by decide,
      copyObject_within_one_alignment_unit sampleExt sampleState _ 1573000 64 16 1572864 _
        (by decide) (by decide) (by decide) (by decide) (by decide)
        (Except.eq_ok_of_isOk _ (0, sampleState) (by decide))⟩,
   ⟨_, _, Except.eq_ok_of_isOk _ (0, sampleState) (by decide), by decide,
      copyObject_within_one_alignment_unit sampleExt sampleState _ 1573000 524000 16 1572864 _
        (by decide) (by decide) (by decide) (by decide) (by decide)
        (Except.eq_ok_of_isOk _ (0, sampleState) (by decide))⟩⟩

/-! ## The copy parameters of an object -/

theorem computeObjectCopyParameters_stack_eq (x : Ext) (s : GC_state) (p : Nat)
    (hhh : x.GC_HIERARCHICAL_HEAP_HEADER ≠ getHeader x s p)
    (htag : (x.splitHeader (getHeader x s p)).1 = .STACK_TAG) :
    computeObjectCopyParameters x s p =
      .ok ({ tag := .STACK_TAG,
             objectSize := x.sizeofGCStack +
               (shrinkStackReserved x s p).mem (p + x.stackReservedOffset) +
               x.GC_STACK_METADATA_SIZE,
             copySize := x.sizeofGCStack +
               (shrinkStackReserved x s p).mem (p + x.stackUsedOffset) +
               x.GC_STACK_METADATA_SIZE,
             metaDataSize := x.GC_STACK_METADATA_SIZE },
           shrinkStackReserved x s p) := by
  unfold computeObjectCopyParameters shrinkStackReserved
  simp only
  rw [if_neg hhh, htag]
  simp

theorem computeObjectCopyParameters_normal_eq (x : Ext) (s : GC_state) (p : Nat)
    (hhh : x.GC_HIERARCHICAL_HEAP_HEADER ≠ getHeader x s p)
    (htag : (x.splitHeader (getHeader x s p)).1 = .NORMAL_TAG) :
    computeObjectCopyParameters x s p =
      .ok ({ tag := .NORMAL_TAG,
             objectSize := (x.splitHeader (getHeader x s p)).2.1 +
               (x.splitHeader (getHeader x s p)).2.2 * x.OBJPTR_SIZE +
               x.GC_NORMAL_METADATA_SIZE,
             copySize := (x.splitHeader (getHeader x s p)).2.1 +
               (x.splitHeader (getHeader x s p)).2.2 * x.OBJPTR_SIZE +
               x.GC_NORMAL_METADATA_SIZE,
             metaDataSize := x.GC_NORMAL_METADATA_SIZE }, s) := by
  unfold computeObjectCopyParameters
  simp only
  rw [if_neg hhh, htag]
  simp

theorem computeObjectCopyParameters_array_eq (x : Ext) (s : GC_state) (p : Nat)
    (hhh : x.GC_HIERARCHICAL_HEAP_HEADER ≠ getHeader x s p)
    (htag : (x.splitHeader (getHeader x s p)).1 = .ARRAY_TAG) :
    computeObjectCopyParameters x s p =
      .ok ({ tag := .ARRAY_TAG,
             objectSize := x.sizeofArrayNoMetaData (s.mem (p - x.arrayLengthOffset))
                 (x.splitHeader (getHeader x s p)).2.1 (x.splitHeader (getHeader x s p)).2.2 +
               x.GC_ARRAY_METADATA_SIZE,
             copySize := x.sizeofArrayNoMetaData (s.mem (p - x.arrayLengthOffset))
                 (x.splitHeader (getHeader x s p)).2.1 (x.splitHeader (getHeader x s p)).2.2 +
               x.GC_ARRAY_METADATA_SIZE,
             metaDataSize := x.GC_ARRAY_METADATA_SIZE }, s) := by
  unfold computeObjectCopyParameters
  simp only
  rw [if_neg hhh, htag]
  simp

theorem computeObjectCopyParameters_ok_cases (x : Ext) (s s' : GC_state) (p : Nat)
    (cp : CopyParameters) (h : computeObjectCopyParameters x s p = .ok (cp, s')) :
    x.GC_HIERARCHICAL_HEAP_HEADER ≠ getHeader x s p ∧
    ((x.splitHeader (getHeader x s p)).1 = .NORMAL_TAG ∨
     (x.splitHeader (getHeader x s p)).1 = .ARRAY_TAG ∨
     (x.splitHeader (getHeader x s p)).1 = .STACK_TAG) := by
  have hhh : x.GC_HIERARCHICAL_HEAP_HEADER ≠ getHeader x s p := by
    intro e
    unfold computeObjectCopyParameters at h
    simp only at h
    rw [if_pos e] at h
    cases h
  refine ⟨hhh, ?_⟩
  cases ht : (x.splitHeader (getHeader x s p)).1 with
  | NORMAL_TAG => exact Or.inl rfl
  | ARRAY_TAG => exact Or.inr (Or.inl rfl)
  | STACK_TAG => exact Or.inr (Or.inr rfl)
  | WEAK_TAG =>
    unfold computeObjectCopyParameters at h
    simp only at h
    rw [if_neg hhh, ht] at h
    simp at h

theorem writeMem_mem (s : GC_state) (a v b : Nat) :
    (s.writeMem a v).mem b = if b = a then v else s.mem b := by
  unfold GC_state.writeMem
  rfl

theorem shrinkStackReserved_reserved (x : Ext) (s : GC_state) (p : Nat) :
    (shrinkStackReserved x s p).mem (p + x.stackReservedOffset) =
      min (s.mem (p + x.stackReservedOffset))
        (x.sizeofStackShrinkReserved (s.mem (p + x.stackReservedOffset))
          (s.mem (p + x.stackUsedOffset)) (decide (getStackCurrentObjptr x s = p))) := by
  unfold shrinkStackReserved
  simp only
  split
  · rename_i hlt
    rw [writeMem_mem, if_pos rfl]
    omega
  · omega

theorem shrinkStackReserved_other (x : Ext) (s : GC_state) (p a : Nat)
    (ha : a ≠ p + x.stackReservedOffset) :
    (shrinkStackReserved x s p).mem a = s.mem a := by
  unfold shrinkStackReserved
  simp only
  split
  · rw [writeMem_mem, if_neg ha]
  · rfl

theorem shrinkStackReserved_frame (x : Ext) (s : GC_state) (p : Nat) :
    shrinkStackReserved x s p = { s with mem := (shrinkStackReserved x s p).mem } := by
  unfold shrinkStackReserved
  simp only
  split
  · rfl
  · rfl

theorem sizeAdd_of_lt (a b : Nat) (h : a + b < 2 ^ 64) : sizeAdd a b = a + b := by
  unfold sizeAdd
  exact Nat.mod_eq_of_lt h

theorem sizeMul_of_lt (a b : Nat) (h : a * b < 2 ^ 64) : sizeMul a b = a * b := by
  unfold sizeMul
  exact Nat.mod_eq_of_lt h

theorem computeObjectCopyParameters64_stack_eq (x : Ext) (s : GC_state) (p : Nat)
    (hhh : x.GC_HIERARCHICAL_HEAP_HEADER ≠ getHeader x s p)
    (htag : (x.splitHeader (getHeader x s p)).1 = .STACK_TAG) :
    computeObjectCopyParameters64 x s p =
      .ok ({ tag := .STACK_TAG,
             objectSize := sizeAdd (sizeAdd x.sizeofGCStack
               ((shrinkStackReserved x s p).mem (p + x.stackReservedOffset)))
               x.GC_STACK_METADATA_SIZE,
             copySize := sizeAdd (sizeAdd x.sizeofGCStack
               ((shrinkStackReserved x s p).mem (p + x.stackUsedOffset)))
               x.GC_STACK_METADATA_SIZE,
             metaDataSize := x.GC_STACK_METADATA_SIZE },
           shrinkStackReserved x s p) := by
  unfold computeObjectCopyParameters64 shrinkStackReserved
  simp only
  rw [if_neg hhh, htag]
  simp

theorem computeObjectCopyParameters64_normal_eq (x : Ext) (s : GC_state) (p : Nat)
    (hhh : x.GC_HIERARCHICAL_HEAP_HEADER ≠ getHeader x s p)
    (htag : (x.splitHeader (getHeader x s p)).1 = .NORMAL_TAG) :
    computeObjectCopyParameters64 x s p =
      .ok ({ tag := .NORMAL_TAG,
             objectSize := sizeAdd (sizeAdd (x.splitHeader (getHeader x s p)).2.1
               (sizeMul (x.splitHeader (getHeader x s p)).2.2 x.OBJPTR_SIZE))
               x.GC_NORMAL_METADATA_SIZE,
             copySize := sizeAdd (sizeAdd (x.splitHeader (getHeader x s p)).2.1
               (sizeMul (x.splitHeader (getHeader x s p)).2.2 x.OBJPTR_SIZE))
               x.GC_NORMAL_METADATA_SIZE,
             metaDataSize := x.GC_NORMAL_METADATA_SIZE }, s) := by
  unfold computeObjectCopyParameters64
  simp only
  rw [if_neg hhh, htag]
  simp

theorem computeObjectCopyParameters64_array_eq (x : Ext) (s : GC_state) (p : Nat)
    (hhh : x.GC_HIERARCHICAL_HEAP_HEADER ≠ getHeader x s p)
    (htag : (x.splitHeader (getHeader x s p)).1 = .ARRAY_TAG) :
    computeObjectCopyParameters64 x s p =
      .ok ({ tag := .ARRAY_TAG,
             objectSize := sizeAdd (x.sizeofArrayNoMetaData (s.mem (p - x.arrayLengthOffset))
                 (x.splitHeader (getHeader x s p)).2.1 (x.splitHeader (getHeader x s p)).2.2)
               x.GC_ARRAY_METADATA_SIZE,
             copySize := sizeAdd (x.sizeofArrayNoMetaData (s.mem (p - x.arrayLengthOffset))
                 (x.splitHeader (getHeader x s p)).2.1 (x.splitHeader (getHeader x s p)).2.2)
               x.GC_ARRAY_METADATA_SIZE,
             metaDataSize := x.GC_ARRAY_METADATA_SIZE }, s) := by
  unfold computeObjectCopyParameters64
  simp only
  rw [if_neg hhh, htag]
  simp

theorem computeObjectCopyParameters64_ok_cases (x : Ext) (s s' : GC_state) (p : Nat)
    (cp : CopyParameters) (h : computeObjectCopyParameters64 x s p = .ok (cp, s')) :
    x.GC_HIERARCHICAL_HEAP_HEADER ≠ getHeader x s p ∧
    ((x.splitHeader (getHeader x s p)).1 = .NORMAL_TAG ∨
     (x.splitHeader (getHeader x s p)).1 = .ARRAY_TAG ∨
     (x.splitHeader (getHeader x s p)).1 = .STACK_TAG) := by
  have hhh : x.GC_HIERARCHICAL_HEAP_HEADER ≠ getHeader x s p := by
    intro e
    unfold computeObjectCopyParameters64 at h
    simp only at h
    rw [if_pos e] at h
    cases h
  refine ⟨hhh, ?_⟩
  cases ht : (x.splitHeader (getHeader x s p)).1 with
  | NORMAL_TAG => exact Or.inl rfl
  | ARRAY_TAG => exact Or.inr (Or.inl rfl)
  | STACK_TAG => exact Or.inr (Or.inr rfl)
  | WEAK_TAG =>
    unfold computeObjectCopyParameters64 at h
    simp only at h
    rw [if_neg hhh, ht] at h
    simp at h

/-- The sizes in `size_t` are the sizes in natural numbers whenever no sum
reaches `2^64`: `computeObjectCopyParameters64` and
`computeObjectCopyParameters` agree. -/
theorem computeObjectCopyParameters64_eq (x : Ext) (s : GC_state) (p : Nat)
    (hnormal : (x.splitHeader (getHeader x s p)).1 = .NORMAL_TAG →
      (x.splitHeader (getHeader x s p)).2.1 +
        (x.splitHeader (getHeader x s p)).2.2 * x.OBJPTR_SIZE +
        x.GC_NORMAL_METADATA_SIZE < 2 ^ 64)
    (harray : (x.splitHeader (getHeader x s p)).1 = .ARRAY_TAG →
      x.sizeofArrayNoMetaData (s.mem (p - x.arrayLengthOffset))
        (x.splitHeader (getHeader x s p)).2.1 (x.splitHeader (getHeader x s p)).2.2 +
        x.GC_ARRAY_METADATA_SIZE < 2 ^ 64)
    (hstack : (x.splitHeader (getHeader x s p)).1 = .STACK_TAG →
      x.sizeofGCStack + s.mem (p + x.stackReservedOffset) + x.GC_STACK_METADATA_SIZE < 2 ^ 64 ∧
      x.sizeofGCStack + s.mem (p + x.stackUsedOffset) + x.GC_STACK_METADATA_SIZE < 2 ^ 64) :
    computeObjectCopyParameters64 x s p = computeObjectCopyParameters x s p := by
  by_cases hhh : x.GC_HIERARCHICAL_HEAP_HEADER = getHeader x s p
  · unfold computeObjectCopyParameters64 computeObjectCopyParameters
    simp only
    rw [if_pos hhh, if_pos hhh]
  cases ht : (x.splitHeader (getHeader x s p)).1 with
  | NORMAL_TAG =>
    have hb := hnormal ht
    rw [computeObjectCopyParameters64_normal_eq x s p hhh ht,
      computeObjectCopyParameters_normal_eq x s p hhh ht,
      sizeMul_of_lt (x.splitHeader (getHeader x s p)).2.2 x.OBJPTR_SIZE (by omega),
      sizeAdd_of_lt (x.splitHeader (getHeader x s p)).2.1
        ((x.splitHeader (getHeader x s p)).2.2 * x.OBJPTR_SIZE) (by omega),
      sizeAdd_of_lt _ x.GC_NORMAL_METADATA_SIZE hb]
  | ARRAY_TAG =>
    rw [computeObjectCopyParameters64_array_eq x s p hhh ht,
      computeObjectCopyParameters_array_eq x s p hhh ht, sizeAdd_of_lt _ _ (harray ht)]
  | STACK_TAG =>
    obtain ⟨h1, h2⟩ := hstack ht
    have hr : (shrinkStackReserved x s p).mem (p + x.stackReservedOffset)
        ≤ s.mem (p + x.stackReservedOffset) := by
      rw [shrinkStackReserved_reserved]
      exact Nat.min_le_left _ _
    have hu : (shrinkStackReserved x s p).mem (p + x.stackUsedOffset)
        ≤ max (s.mem (p + x.stackReservedOffset)) (s.mem (p + x.stackUsedOffset)) := by
      by_cases ho : p + x.stackUsedOffset = p + x.stackReservedOffset
      · rw [ho]
        exact Nat.le_trans hr (Nat.le_max_left _ _)
      · rw [shrinkStackReserved_other x s p _ ho]
        exact Nat.le_max_right _ _
    have hu' : x.sizeofGCStack + (shrinkStackReserved x s p).mem (p + x.stackUsedOffset) +
        x.GC_STACK_METADATA_SIZE < 2 ^ 64 := by
      rcases Nat.le_total (s.mem (p + x.stackReservedOffset)) (s.mem (p + x.stackUsedOffset))
        with q | q
      · rw [Nat.max_eq_right q] at hu; omega
      · rw [Nat.max_eq_left q] at hu; omega
    rw [computeObjectCopyParameters64_stack_eq x s p hhh ht,
      computeObjectCopyParameters_stack_eq x s p hhh ht,
      sizeAdd_of_lt x.sizeofGCStack ((shrinkStackReserved x s p).mem (p + x.stackReservedOffset))
        (by omega),
      sizeAdd_of_lt x.sizeofGCStack ((shrinkStackReserved x s p).mem (p + x.stackUsedOffset))
        (by omega),
      sizeAdd_of_lt _ x.GC_STACK_METADATA_SIZE (by omega),
      sizeAdd_of_lt _ x.GC_STACK_METADATA_SIZE hu']
  | WEAK_TAG =>
    unfold computeObjectCopyParameters64 computeObjectCopyParameters
    simp only
    rw [if_neg hhh, if_neg hhh, ht]
    simp

/-- C24 (counterexample).  The stack `1572968` is not the running stack of
`sampleStateDead` (that is the stack `3200`).  With a `sizeofStackShrinkReserved`
that shrinks paused stacks as well, `computeObjectCopyParameters` writes the
smaller reserved size back: the reserved size of the stack goes from 64 to 32. -/
theorem computeObjectCopyParameters_shrinks_paused_stack :
    getStackCurrentObjptr sampleExtShrinkPaused sampleStateDead = 3200 ∧
    (sampleExtShrinkPaused.splitHeader (getHeader sampleExtShrinkPaused sampleStateDead
      1572968)).1 = .STACK_TAG ∧
    sampleStateDead.mem (1572968 + sampleExtShrinkPaused.stackReservedOffset) = 64 ∧
    (reportedState (computeObjectCopyParameters sampleExtShrinkPaused sampleStateDead
      1572968)).map (fun s => s.mem (1572968 + sampleExtShrinkPaused.stackReservedOffset))
      = some 32 ∧
    reportedParameters (computeObjectCopyParameters sampleExtShrinkPaused sampleStateDead
      1572968) = some { tag := .STACK_TAG, objectSize := 72, copySize := 56, metaDataSize := 8 } := by
  decide

/-- C24 (amended).  For a stack object, `computeObjectCopyParameters` asks
`sizeofStackShrinkReserved` for a reserved size, telling it whether the stack is
the running one, and writes the answer back exactly when it is smaller than the
reserved size of the stack, whichever stack it is: the reserved size afterwards is
the smaller of the two, so it never grows, and nothing else in the state changes.
It then reports the stack metadata size, object = stackStruct + reserved (read
after the write-back) and copy = stackStruct + used, each plus the metadata
size. -/
theorem computeObjectCopyParameters_stack (x : Ext) (s : GC_state) (p : Nat)
    (hhh : x.GC_HIERARCHICAL_HEAP_HEADER ≠ getHeader x s p)
    (htag : (x.splitHeader (getHeader x s p)).1 = .STACK_TAG)
    (hoff : x.stackUsedOffset ≠ x.stackReservedOffset) :
    ∃ cp s', computeObjectCopyParameters x s p = .ok (cp, s') ∧
      s' = { s with mem := s'.mem } ∧
      s'.mem (p + x.stackReservedOffset) =
        min (s.mem (p + x.stackReservedOffset))
          (x.sizeofStackShrinkReserved (s.mem (p + x.stackReservedOffset))
            (s.mem (p + x.stackUsedOffset)) (decide (getStackCurrentObjptr x s = p))) ∧
      s'.mem (p + x.stackReservedOffset) ≤ s.mem (p + x.stackReservedOffset) ∧
      (∀ a, a ≠ p + x.stackReservedOffset → s'.mem a = s.mem a) ∧
      cp.tag = .STACK_TAG ∧
      cp.metaDataSize = x.GC_STACK_METADATA_SIZE ∧
      cp.objectSize =
        x.sizeofGCStack + s'.mem (p + x.stackReservedOffset) + x.GC_STACK_METADATA_SIZE ∧
      cp.copySize =
        x.sizeofGCStack + s.mem (p + x.stackUsedOffset) + x.GC_STACK_METADATA_SIZE := by
  refine ⟨_, _, computeObjectCopyParameters_stack_eq x s p hhh htag,
    shrinkStackReserved_frame x s p, shrinkStackReserved_reserved x s p, ?_,
    fun a ha => shrinkStackReserved_other x s p a ha, rfl, rfl, rfl, ?_⟩
  · rw [shrinkStackReserved_reserved]
    exact Nat.min_le_left _ _
  · show x.sizeofGCStack + _ + _ = _
    rw [shrinkStackReserved_other x s p _ (by omega)]

theorem computeObjectCopyParameters_stack_witness :
    ∃ cp s', computeObjectCopyParameters sampleExt sampleState 1572968 = .ok (cp, s') ∧
      s' = { sampleState with mem := s'.mem } ∧
      s'.mem (1572968 + sampleExt.stackReservedOffset) =
        min (sampleState.mem (1572968 + sampleExt.stackReservedOffset))
          (sampleExt.sizeofStackShrinkReserved
            (sampleState.mem (1572968 + sampleExt.stackReservedOffset))
            (sampleState.mem (1572968 + sampleExt.stackUsedOffset))
            (decide (getStackCurrentObjptr sampleExt sampleState = 1572968))) ∧
      s'.mem (1572968 + sampleExt.stackReservedOffset)
        ≤ sampleState.mem (1572968 + sampleExt.stackReservedOffset) ∧
      (∀ a, a ≠ 1572968 + sampleExt.stackReservedOffset → s'.mem a = sampleState.mem a) ∧
      cp.tag = .STACK_TAG ∧
      cp.metaDataSize = sampleExt.GC_STACK_METADATA_SIZE ∧
      cp.objectSize = sampleExt.sizeofGCStack +
        s'.mem (1572968 + sampleExt.stackReservedOffset) + sampleExt.GC_STACK_METADATA_SIZE ∧
      cp.copySize = sampleExt.sizeofGCStack +
        sampleState.mem (1572968 + sampleExt.stackUsedOffset) +
        sampleExt.GC_STACK_METADATA_SIZE :=
  computeObjectCopyParameters_stack sampleExt sampleState 1572968 (by decide) (by decide)
    (by decide)

/-- C25.  For a normal object (an object with the normal tag whose header is
not the hierarchical-heap header) `computeObjectCopyParameters` returns and
reports the normal metadata size, a body of nonPointerBytes + pointerCount x
OBJPTR_SIZE and a copy size equal to the object size; for an array object it
returns and reports the array metadata size, a body of
`sizeofArrayNoMetaData (length, nonPointerBytes, pointerCount)` and a copy size
equal to the object size; the state is unchanged in both cases, and whenever the
function returns, the tag it returns is the tag decoded from the header. -/
theorem computeObjectCopyParameters_normal_and_array (x : Ext) (s : GC_state) (p : Nat)
    (hhh : x.GC_HIERARCHICAL_HEAP_HEADER ≠ getHeader x s p) :
    ((x.splitHeader (getHeader x s p)).1 = .NORMAL_TAG →
      ∃ cp, computeObjectCopyParameters x s p = .ok (cp, s) ∧
        cp.tag = .NORMAL_TAG ∧
        cp.metaDataSize = x.GC_NORMAL_METADATA_SIZE ∧
        cp.objectSize - cp.metaDataSize =
          (x.splitHeader (getHeader x s p)).2.1 +
            (x.splitHeader (getHeader x s p)).2.2 * x.OBJPTR_SIZE ∧
        cp.metaDataSize ≤ cp.objectSize ∧
        cp.copySize = cp.objectSize) ∧
    ((x.splitHeader (getHeader x s p)).1 = .ARRAY_TAG →
      ∃ cp, computeObjectCopyParameters x s p = .ok (cp, s) ∧
        cp.tag = .ARRAY_TAG ∧
        cp.metaDataSize = x.GC_ARRAY_METADATA_SIZE ∧
        cp.objectSize - cp.metaDataSize =
          x.sizeofArrayNoMetaData (s.mem (p - x.arrayLengthOffset))
            (x.splitHeader (getHeader x s p)).2.1 (x.splitHeader (getHeader x s p)).2.2 ∧
        cp.metaDataSize ≤ cp.objectSize ∧
        cp.copySize = cp.objectSize) ∧
    (∀ cp s', computeObjectCopyParameters x s p = .ok (cp, s') →
      cp.tag = (x.splitHeader (getHeader x s p)).1) := by
  refine ⟨fun ht => ⟨_, computeObjectCopyParameters_normal_eq x s p hhh ht, rfl, rfl,
      Nat.add_sub_cancel _ _, Nat.le_add_left _ _, rfl⟩,
    fun ht => ⟨_, computeObjectCopyParameters_array_eq x s p hhh ht, rfl, rfl,
      Nat.add_sub_cancel _ _, Nat.le_add_left _ _, rfl⟩, ?_⟩
  intro cp s' h
  obtain ⟨-, ht | ht | ht⟩ := computeObjectCopyParameters_ok_cases x s s' p cp h
  · rw [computeObjectCopyParameters_normal_eq x s p hhh ht] at h
    cases h
    exact ht.symm
  · rw [computeObjectCopyParameters_array_eq x s p hhh ht] at h
    cases h
    exact ht.symm
  · rw [computeObjectCopyParameters_stack_eq x s p hhh ht] at h
    cases h
    exact ht.symm

theorem computeObjectCopyParameters_normal_and_array_witness :
    sampleExt.GC_HIERARCHICAL_HEAP_HEADER ≠ getHeader sampleExt sampleState 1572936 ∧
    (sampleExt.splitHeader (getHeader sampleExt sampleState 1572936)).1 = .NORMAL_TAG ∧
    (∃ cp, computeObjectCopyParameters sampleExt sampleState 1572936 = .ok (cp, sampleState) ∧
      cp.tag = .NORMAL_TAG ∧ cp.metaDataSize = sampleExt.GC_NORMAL_METADATA_SIZE ∧
      cp.objectSize - cp.metaDataSize =
        (sampleExt.splitHeader (getHeader sampleExt sampleState 1572936)).2.1 +
          (sampleExt.splitHeader (getHeader sampleExt sampleState 1572936)).2.2 *
            sampleExt.OBJPTR_SIZE ∧
      cp.metaDataSize ≤ cp.objectSize ∧ cp.copySize = cp.objectSize) ∧
    sampleExt.GC_HIERARCHICAL_HEAP_HEADER ≠ getHeader sampleExt sampleStateArray 1573120 ∧
    (sampleExt.splitHeader (getHeader sampleExt sampleStateArray 1573120)).1 = .ARRAY_TAG ∧
    (∃ cp, computeObjectCopyParameters sampleExt sampleStateArray 1573120
        = .ok (cp, sampleStateArray) ∧
      cp.tag = .ARRAY_TAG ∧ cp.metaDataSize = sampleExt.GC_ARRAY_METADATA_SIZE ∧
      cp.objectSize - cp.metaDataSize =
        sampleExt.sizeofArrayNoMetaData
          (sampleStateArray.mem (1573120 - sampleExt.arrayLengthOffset))
          (sampleExt.splitHeader (getHeader sampleExt sampleStateArray 1573120)).2.1
          (sampleExt.splitHeader (getHeader sampleExt sampleStateArray 1573120)).2.2 ∧
      cp.metaDataSize ≤ cp.objectSize ∧ cp.copySize = cp.objectSize) :=
  ⟨by decide, by decide,
    (computeObjectCopyParameters_normal_and_array sampleExt sampleState 1572936
      (by decide)).1 (by decide),
    by decide, by decide,
    (computeObjectCopyParameters_normal_and_array sampleExt sampleStateArray 1573120
      (by decide)).2.1 (by decide)⟩

/-! ## The chunk bounds and the frontier after a copy -/

theorem chunkListChunks_eq_followLinks (s : GC_state) (fuel a : Nat) :
    chunkListChunks s fuel a = followLinks (nextChunkOf s) 0 fuel a := by
  induction fuel generalizing a with
  | zero => rfl
  | succ n ih =>
    unfold chunkListChunks followLinks
    rw [ih]
    rfl

theorem chunkListChunks_iff (s : GC_state) (fuel a : Nat) (l : List Nat) :
    chunkListChunks s fuel a = some l ↔ LinkSeg (nextChunkOf s) 0 a l 0 ∧ l.length < fuel := by
  rw [chunkListChunks_eq_followLinks]
  exact followLinks_iff _ _ _ _ _

theorem sizeDiff_le_sub (a b : Nat) (h : b ≤ a) : sizeDiff a b ≤ a - b := by
  unfold sizeDiff
  have e : a + 2 ^ 64 - b = (a - b) + 2 ^ 64 := by omega
  rw [e, Nat.add_mod_right]
  exact Nat.mod_le _ _

theorem HM_allocateChunk_links (x : Ext) (s s' : GC_state) (t n c : Nat)
    (h : HM_allocateChunk x s t n = (s', c)) (hc : c ≠ 0) (hct : c ≠ t) :
    (∀ d, nextChunkOf s' d =
      if d = c then 0 else if d = (s.chunkInfo t).lastChunk then c else nextChunkOf s d) ∧
    (s'.chunkInfo t).lastChunk = c := by
  unfold HM_allocateChunk at h
  cases ha : ChunkPool_allocate x s n with
  | none =>
    rw [ha] at h
    simp only [Prod.mk.injEq] at h
    exact absurd h.2.symm hc
  | some r =>
    obtain ⟨c1, e, s1⟩ := r
    rw [ha] at h
    simp only [Prod.mk.injEq] at h
    obtain ⟨hs', rfl⟩ := h
    obtain ⟨-, -, hs1⟩ := ChunkPool_allocate_some x s s1 n c1 e ha
    have e1 : s1.chunkInfo = s.chunkInfo := by rw [hs1]
    subst hs'
    constructor
    · intro d
      unfold nextChunkOf
      by_cases hd : d = c1
      · rw [if_pos hd, hd, setChunkInfo_same]
      · rw [if_neg hd, setChunkInfo_ne _ _ _ _ hd,
          setChunkInfo_field (·.nextChunk) _ _ _ _ (by rfl)]
        by_cases hl : d = (s.chunkInfo t).lastChunk
        · rw [if_pos hl, hl, ← e1, setChunkInfo_same]
        · rw [if_neg hl, setChunkInfo_ne _ _ _ _ (by rw [e1]; exact hl), e1]
    · rw [setChunkInfo_ne _ _ _ _ (Ne.symm hct), setChunkInfo_same]

theorem ChunkListOK_congr (s s' : GC_state) (t : Nat) (l : List Nat)
    (hn : ∀ d, nextChunkOf s' d = nextChunkOf s d)
    (hlast : (s'.chunkInfo t).lastChunk = (s.chunkInfo t).lastChunk)
    (hpool : s'.pool = s.pool) (h : ChunkListOK s t l) : ChunkListOK s' t l := by
  obtain ⟨h1, h2, h3, h4⟩ := h
  refine ⟨LinkSeg_congr _ _ _ _ _ _ (fun k _ => hn k) h1, ?_, ?_, ?_⟩
  · rw [hlast]; exact h2
  · rw [hpool]; exact h3
  · rw [hpool]; exact h4

theorem ChunkListOK_head (s : GC_state) (t : Nat) (l : List Nat) (h : ChunkListOK s t l) :
    t ≠ 0 ∧ t ∈ l ∧ (s.chunkInfo t).lastChunk ∈ l ∧
      ∃ l0, l = l0 ++ [(s.chunkInfo t).lastChunk] := by
  obtain ⟨h1, h2, -, -⟩ := h
  have hmem : (s.chunkInfo t).lastChunk ∈ l := List.mem_of_getLast?_eq_some h2
  have hsplit : ∃ l0, l = l0 ++ [(s.chunkInfo t).lastChunk] := by
    rcases List.eq_nil_or_concat l with hnil | ⟨l0, b, hb⟩
    · rw [hnil] at hmem; cases hmem
    · rw [hb] at h2
      simp at h2
      exact ⟨l0, by rw [hb, List.concat_eq_append, h2]⟩
  cases l with
  | nil => cases hmem
  | cons k rest =>
    obtain ⟨hk, hk0, -⟩ := h1
    exact ⟨by rw [hk]; exact hk0, by rw [hk]; exact List.mem_cons_self _ _, hmem, hsplit⟩

theorem ChunkListOK_alloc (x : Ext) (s s' : GC_state) (t n c : Nat) (l : List Nat)
    (hok : ChunkListOK s t l) (h : HM_allocateChunk x s t n = (s', c)) (hc : c ≠ 0) :
    ChunkListOK s' t (l ++ [c]) ∧ c ∉ l := by
  obtain ⟨ht0, htl, hlastl, l0, hl0⟩ := ChunkListOK_head s t l hok
  obtain ⟨h1, h2, h3, h4⟩ := hok
  obtain ⟨e, he, -, -, hpool, -⟩ := HM_allocateChunk_spec x s s' t n c h hc
  have hcl : c ∉ l := (h3 _ he).2
  have hct : c ≠ t := fun q => hcl (q ▸ htl)
  have hclast : c ≠ (s.chunkInfo t).lastChunk := fun q => hcl (q ▸ hlastl)
  obtain ⟨k1, k2⟩ := HM_allocateChunk_links x s s' t n c h hc hct
  have hnodup : l.Nodup := LinkSeg_nodup _ _ _ _ h1
  refine ⟨⟨?_, ?_, ?_, ?_⟩, hcl⟩
  · rw [hl0] at h1 hnodup hcl ⊢
    rw [LinkSeg_snoc] at h1 ⊢
    obtain ⟨a1, a2, a3⟩ := h1
    refine ⟨?_, hc, ?_⟩
    · rw [LinkSeg_snoc]
      refine ⟨LinkSeg_congr _ _ _ _ _ _ (fun k hk => ?_) a1, a2, ?_⟩
      · rw [k1, if_neg, if_neg]
        · intro q
          rw [q] at hk
          exact (List.nodup_append.mp hnodup).2.2 hk (List.mem_singleton_self _)
        · intro q
          exact hcl (List.mem_append_left _ (q ▸ hk))
      · rw [k1, if_neg (Ne.symm hclast), if_pos rfl]
    · rw [k1, if_pos rfl]
  · rw [List.getLast?_append, List.getLast?_singleton, k2]
    rfl
  · intro q hq
    rw [hpool] at hq
    have hq1 : q ∈ s.pool := List.mem_of_mem_erase hq
    have hq2 : q ≠ (c, e) := ((List.Nodup.mem_erase_iff (List.Nodup.of_map _ h4)).mp hq).1
    obtain ⟨b1, b2⟩ := h3 q hq1
    refine ⟨b1, ?_⟩
    intro hm
    rcases List.mem_append.mp hm with hm | hm
    · exact b2 hm
    · rw [List.mem_singleton] at hm
      exact hq2 (List.inj_on_of_nodup_map h4 hq1 he hm)
  · rw [hpool]
    exact List.Nodup.sublist (List.Sublist.map _ (List.erase_sublist _ _)) h4

theorem ChunkBoundsOK_alloc (x : Ext) (s s' : GC_state) (t m c : Nat) (l : List Nat)
    (h : HM_allocateChunk x s t m = (s', c)) (hc : c ≠ 0) (hcl : c ∉ l)
    (hb : ∀ d ∈ l, ChunkBoundsOK x s d) :
    (∀ d ∈ l ++ [c], ChunkBoundsOK x s' d) ∧
    HM_getChunkFrontier s' c = HM_getChunkStart x c ∧
    HM_getChunkStart x c + m ≤ HM_getChunkLimit s' c := by
  obtain ⟨e, -, hfit, -, -, -, -, -, hinfo, hframe⟩ := HM_allocateChunk_spec x s s' t m c h hc
  have hf : HM_getChunkFrontier s' c = HM_getChunkStart x c := by
    unfold HM_getChunkFrontier
    rw [hinfo]
  have hl : HM_getChunkLimit s' c = e := by
    unfold HM_getChunkLimit
    rw [hinfo]
  refine ⟨?_, hf, ?_⟩
  · intro d hd
    rcases List.mem_append.mp hd with hd | hd
    · have hdc : d ≠ c := fun q => hcl (q ▸ hd)
      obtain ⟨f1, -, -, -, f5⟩ := hframe d hdc
      obtain ⟨b1, b2⟩ := hb d hd
      unfold ChunkBoundsOK HM_getChunkFrontier HM_getChunkLimit at *
      rw [f1, f5]
      exact ⟨b1, b2⟩
    · rw [List.mem_singleton] at hd
      rw [hd]
      unfold ChunkBoundsOK
      rw [hf, hl]
      unfold HM_getChunkStart
      omega
  · rw [hl]
    unfold HM_getChunkStart
    exact hfit

theorem HM_updateChunkValues_info (s : GC_state) (c f d : Nat) :
    nextChunkOf (HM_updateChunkValues s c f) d = nextChunkOf s d ∧
    ((HM_updateChunkValues s c f).chunkInfo d).lastChunk = (s.chunkInfo d).lastChunk ∧
    HM_getChunkLimit (HM_updateChunkValues s c f) d = HM_getChunkLimit s d ∧
    HM_getChunkFrontier (HM_updateChunkValues s c f) d
      = (if d = c then f else HM_getChunkFrontier s d) ∧
    (HM_updateChunkValues s c f).pool = s.pool := by
  unfold HM_updateChunkValues nextChunkOf HM_getChunkLimit HM_getChunkFrontier
  refine ⟨setChunkInfo_field (·.nextChunk) _ _ _ _ (by rfl),
    setChunkInfo_field (·.lastChunk) _ _ _ _ (by rfl),
    setChunkInfo_field (·.limit) _ _ _ _ (by rfl), ?_, rfl⟩
  by_cases hd : d = c
  · rw [if_pos hd, hd, setChunkInfo_same]
  · rw [if_neg hd, setChunkInfo_ne _ _ _ _ hd]

theorem ChunkList_update (x : Ext) (s : GC_state) (t c f : Nat) (l : List Nat)
    (hok : ChunkListOK s t l) (hb : ∀ d ∈ l, ChunkBoundsOK x s d)
    (hf1 : HM_getChunkStart x c ≤ f) (hf2 : f ≤ HM_getChunkLimit s c) :
    ChunkListOK (HM_updateChunkValues s c f) t l ∧
    ∀ d ∈ l, ChunkBoundsOK x (HM_updateChunkValues s c f) d := by
  refine ⟨ChunkListOK_congr s _ t l (fun d => (HM_updateChunkValues_info s c f d).1)
    (HM_updateChunkValues_info s c f t).2.1 (HM_updateChunkValues_info s c f t).2.2.2.2 hok, ?_⟩
  intro d hd
  obtain ⟨-, -, k3, k4, -⟩ := HM_updateChunkValues_info s c f d
  obtain ⟨b1, b2⟩ := hb d hd
  unfold ChunkBoundsOK
  rw [k3, k4]
  by_cases hdc : d = c
  · rw [if_pos hdc, hdc]
    exact ⟨hf1, hf2⟩
  · rw [if_neg hdc]
    exact ⟨b1, b2⟩

theorem ChunkList_memcpy (x : Ext) (s : GC_state) (t p dst k : Nat) (l : List Nat)
    (hok : ChunkListOK s t l) (hb : ∀ d ∈ l, ChunkBoundsOK x s d) :
    ChunkListOK (GC_memcpy s p dst k) t l ∧
    ∀ d ∈ l, ChunkBoundsOK x (GC_memcpy s p dst k) d :=
  ⟨ChunkListOK_congr s _ t l (fun _ => rfl) rfl rfl hok, fun d hd => hb d hd⟩

theorem copyObjectTarget_list (x : Ext) (s s1 : GC_state) (t n c1 f1 : Nat) (l : List Nat)
    (hok : ChunkListOK s t l) (hb : ∀ d ∈ l, ChunkBoundsOK x s d)
    (ht : copyObjectTarget x s n t = .ok (s1, c1, f1)) :
    ∃ new, ChunkListOK s1 t (l ++ new) ∧ (∀ d ∈ l ++ new, ChunkBoundsOK x s1 d) ∧
      c1 ∈ l ++ new ∧ HM_getChunkStart x c1 ≤ f1 ∧ f1 + n ≤ HM_getChunkLimit s1 c1 ∧
      f1 = HM_getChunkFrontier s1 c1 ∧ new.length ≤ 1 := by
  obtain ⟨ht0, -, hlastl, -⟩ := ChunkListOK_head s t l hok
  unfold copyObjectTarget at ht
  split at ht
  · generalize hal : HM_allocateChunk x s t n = al at ht
    obtain ⟨sa, ca⟩ := al
    simp only at ht
    split at ht
    · cases ht
    · rename_i hne
      simp only [Except.ok.injEq, Prod.mk.injEq] at ht
      obtain ⟨h1, h2, h3⟩ := ht
      subst h1 h2
      obtain ⟨k1, k2⟩ := ChunkListOK_alloc x s sa t n ca l hok hal hne
      obtain ⟨b1, b2, b3⟩ := ChunkBoundsOK_alloc x s sa t n ca l hal hne k2 hb
      refine ⟨[ca], k1, b1, List.mem_append_right _ (List.mem_singleton_self _), ?_, ?_,
        h3.symm, Nat.le_refl _⟩
      · rw [← h3, b2]
      · rw [← h3, b2]
        exact b3
  · rename_i hfits
    simp only [Except.ok.injEq, Prod.mk.injEq] at ht
    obtain ⟨h1, h2, h3⟩ := ht
    subst h1
    have hc1 : c1 = (s.chunkInfo t).lastChunk := by
      rw [← h2]
      unfold HM_getChunkListLastChunk
      rw [if_neg ht0]
    rw [h2] at h3 hfits
    rw [h3] at hfits
    have hmem : c1 ∈ l := hc1 ▸ hlastl
    obtain ⟨b1, b2⟩ := hb c1 hmem
    rw [h3] at b1 b2
    have hle := sizeDiff_le_sub _ _ b2
    refine ⟨[], by rw [List.append_nil]; exact hok, by rw [List.append_nil]; exact hb,
      by rw [List.append_nil]; exact hmem, b1, by omega, h3.symm, Nat.zero_le _⟩

/-- C21.  `copyObject` preserves the chunk bound invariant.  Let `l` be the
chunks of the target chunk list, linked by `nextChunk` from the head `t` to
`lastChunk`, the free chunks of the pool being distinct chunks outside the list.
If every chunk of `l` satisfies `start <= frontier <= limit` before the call and
the call returns, then the chunk list afterwards is `l` followed by the chunks
allocated during the call (at most two), and every chunk of it satisfies
`start <= frontier <= limit`. -/
theorem copyObject_preserves_chunk_bounds (x : Ext) (s s' : GC_state)
    (p objectSize copySize toChunkList r fuel : Nat) (l : List Nat)
    (hl : chunkListChunks s fuel toChunkList = some l)
    (hlast : l.getLast? = some (s.chunkInfo toChunkList).lastChunk)
    (hfree : ∀ q ∈ s.pool, q.1 ≠ 0 ∧ q.1 ∉ l)
    (hpool : (s.pool.map Prod.fst).Nodup)
    (hb : ∀ c ∈ l, ChunkBoundsOK x s c)
    (h : copyObject x s p objectSize copySize toChunkList = .ok (r, s')) :
    ∃ new, chunkListChunks s' (fuel + 2) toChunkList = some (l ++ new) ∧
      (∀ c ∈ l ++ new, ChunkBoundsOK x s' c) ∧ new.length ≤ 2 := by
  obtain ⟨hseg, hlen⟩ := (chunkListChunks_iff s fuel toChunkList l).mp hl
  have hok : ChunkListOK s toChunkList l := ⟨hseg, hlast, hfree, hpool⟩
  suffices hmain : ∃ new, ChunkListOK s' toChunkList (l ++ new) ∧
      (∀ c ∈ l ++ new, ChunkBoundsOK x s' c) ∧ new.length ≤ 2 by
    obtain ⟨new, a1, a2, a3⟩ := hmain
    refine ⟨new, (chunkListChunks_iff s' (fuel + 2) toChunkList (l ++ new)).mpr ⟨a1.1, ?_⟩,
      a2, a3⟩
    rw [List.length_append]
    omega
  rw [copyObject_eq] at h
  cases ht : copyObjectTarget x s objectSize toChunkList with
  | error e => rw [ht] at h; cases h
  | ok v =>
    obtain ⟨s1, c1, f1⟩ := v
    rw [ht] at h
    simp only at h
    obtain ⟨new1, k1, k2, k3, k4, k5, k6, k7⟩ :=
      copyObjectTarget_list x s s1 toChunkList objectSize c1 f1 l hok hb ht
    obtain ⟨m1, m2⟩ :=
      ChunkList_memcpy x s1 toChunkList p f1 copySize (l ++ new1) k1 k2
    split at h
    · generalize hal : HM_allocateChunk x (GC_memcpy s1 p f1 copySize) toChunkList 42 = al at h
      obtain ⟨sa, ca⟩ := al
      simp only at h
      split at h
      · cases h
      · rename_i hne
        simp only [Except.ok.injEq, Prod.mk.injEq] at h
        obtain ⟨-, hs'⟩ := h
        obtain ⟨a1, a2⟩ := ChunkListOK_alloc x _ sa toChunkList 42 ca (l ++ new1) m1 hal hne
        obtain ⟨b1, b2, b3⟩ := ChunkBoundsOK_alloc x _ sa toChunkList 42 ca (l ++ new1) hal hne
          a2 m2
        obtain ⟨u1, u2⟩ := ChunkList_update x sa toChunkList ca (HM_getChunkFrontier sa ca)
          (l ++ new1 ++ [ca]) a1 b1 (by rw [b2]) (by rw [b2]; omega)
        rw [hs'] at u1 u2
        refine ⟨new1 ++ [ca], by rw [← List.append_assoc]; exact u1,
          by rw [← List.append_assoc]; exact u2, ?_⟩
        rw [List.length_append, List.length_singleton]
        omega
    · simp only [Except.ok.injEq, Prod.mk.injEq] at h
      obtain ⟨-, hs'⟩ := h
      obtain ⟨u1, u2⟩ := ChunkList_update x (GC_memcpy s1 p f1 copySize) toChunkList c1
        (f1 + objectSize) (l ++ new1) m1 m2 (by omega) k5
      rw [hs'] at u1 u2
      exact ⟨new1, u1, u2, by omega⟩

set_option maxRecDepth 16000 in
theorem copyObject_preserves_chunk_bounds_witness :
    (∃ r s' new, copyObject sampleExt sampleState 1573000 64 16 1572864 = .ok (r, s') ∧
      new = [] ∧
      chunkListChunks s' 4 1572864 = some ([1572864] ++ new) ∧
      (∀ c ∈ [1572864] ++ new, ChunkBoundsOK sampleExt s' c) ∧ new.length ≤ 2) ∧
    (∃ r s' new, copyObject sampleExt sampleState 1573000 523968 16 1572864 = .ok (r, s') ∧
      new = [2097152] ∧
      chunkListChunks s' 4 1572864 = some ([1572864] ++ new) ∧
      (∀ c ∈ [1572864] ++ new, ChunkBoundsOK sampleExt s' c) ∧ new.length ≤ 2) :=
  ⟨(copyObject_preserves_chunk_bounds sampleExt sampleState _ 1573000 64 16 1572864 _ 2
      [1572864] (by decide) (by decide) (by decide) (by decide) (by decide)
      (Except.eq_ok_of_isOk _ (0, sampleState) (by decide))).elim
      (fun new hn => ⟨_, _, new, Except.eq_ok_of_isOk _ (0, sampleState) (by decide),
        List.append_cancel_left (Option.some.inj (hn.1.symm.trans (by decide))), hn⟩),
   (copyObject_preserves_chunk_bounds sampleExt sampleState _ 1573000 523968 16 1572864 _ 2
      [1572864] (by decide) (by decide) (by decide) (by decide) (by decide)
      (Except.eq_ok_of_isOk _ (0, sampleState) (by decide))).elim
      (fun new hn => ⟨_, _, new, Except.eq_ok_of_isOk _ (0, sampleState) (by decide),
        List.append_cancel_left (Option.some.inj (hn.1.symm.trans (by decide))), hn⟩)⟩

set_option maxRecDepth 8000 in
/-- C22 (the code at the failing input).  The last chunk `1572864` of the list
has its frontier at `1573184` and its limit at `2097152`: exactly 523968 free
bytes.  `copyObject` copies an object of 523968 bytes to `1573184`; the new
frontier `2097152` is in the next alignment unit, so a second chunk `2097152` is
allocated and the frontier recorded is that of the new chunk.  The frontier of
the chunk `1572864`, which holds the object, is still `1573184`: the object lies
past it.  The same happens to an object of 600000 bytes copied into the fresh
chunk `2097152` of two units: the frontier of that chunk stays at its start. -/
theorem copyObject_leaves_object_past_frontier :
    HM_getChunkFrontier sampleState 1572864 = 1573184 ∧
    HM_getChunkLimit sampleState 1572864 = 2097152 ∧
    copyObjectAddress (copyObject sampleExt sampleState 1573000 523968 16 1572864)
      = some 1573184 ∧
    (copyObjectState (copyObject sampleExt sampleState 1573000 523968 16 1572864)).map
        (fun s => (s.chunks, ChunkPool_find s 1573184, HM_getChunkFrontier s 1572864,
          HM_getChunkFrontier s 2097152))
      = some ([1048576, 1572864, 2097152], 1572864, 1573184, 2097216) ∧
    ¬ (1573184 + 523968 ≤ 1573184) ∧
    copyObjectAddress (copyObject sampleExt sampleStateBigChunk 1573000 600000 16 1572864)
      = some 2097216 ∧
    (copyObjectState (copyObject sampleExt sampleStateBigChunk 1573000 600000 16 1572864)).map
        (fun s => (s.chunks, ChunkPool_find s 2097216, HM_getChunkFrontier s 2097152,
          HM_getChunkFrontier s 3145728))
      = some ([1048576, 1572864, 2097152, 3145728], 2097152, 2097216, 3145792) ∧
    ¬ (2097216 + 600000 ≤ 2097216) := by
  decide

/-! ## The predicate of the drain -/

set_option maxRecDepth 16000 in
/-- C26 (the code at the failing input).  In `sampleStateDead` the running
thread is `3072` and its stack is `3200`.  The predicate returns false for the
stack `1572968` and for the thread `1572936`, which are neither: it tests the
header only, and the two `assert`s that say the object is the expected one fail
there.  It returns true for the normal object `1048648`.  In a collection of
`sampleStateParked`, where the deque holds the suspended thread `1572936`, the
thread is copied to `2097224` and skipped by the drain: no stack is copied, the
`stack` field of the copy still holds `1572968`, and the chunk `1572864` of that
stack has gone back to the pool. -/
theorem skipStackAndThreadObjptrPredicate_skips_other_stacks_and_threads :
    getStackCurrentObjptr sampleExt sampleStateDead = 3200 ∧
    sampleStateDead.currentThread = 3072 ∧
    skipStackAndThreadObjptrPredicate sampleExt sampleStateDead 3200 = false ∧
    skipStackAndThreadObjptrPredicate sampleExt sampleStateDead 3072 = false ∧
    skipStackAndThreadObjptrPredicate sampleExt sampleStateDead 1572968 = false ∧
    skipStackAndThreadObjptrPredicate sampleExt sampleStateDead 1572936 = false ∧
    skipStackAndThreadObjptrPredicate sampleExt sampleStateDead 1048648 = true ∧
    ¬ skipStackAndThreadObjptrPredicateAssertion sampleExt sampleStateDead 1572968 3200 3072 ∧
    ¬ skipStackAndThreadObjptrPredicateAssertion sampleExt sampleStateDead 1572936 3200 3072 ∧
    (HM_HHC_collectLocal sampleExt 10 sampleStateParked).returned = true ∧
    (HM_HHC_collectLocal sampleExt 10 sampleStateParked).args.map
        (fun a => (a.objectsCopied, a.stacksCopied)) = some (1, 0) ∧
    (HM_HHC_collectLocal sampleExt 10 sampleStateParked).state.mem 2048 = 2097224 ∧
    getHeader sampleExt (HM_HHC_collectLocal sampleExt 10 sampleStateParked).state 2097224
      = sampleExt.GC_THREAD_HEADER ∧
    (HM_HHC_collectLocal sampleExt 10 sampleStateParked).state.mem
      (2097224 + sampleExt.threadStackOffset) = 1572968 ∧
    (HM_HHC_collectLocal sampleExt 10 sampleStateParked).state.chunks = [2097152] ∧
    (1572864, 2097152) ∈ (HM_HHC_collectLocal sampleExt 10 sampleStateParked).state.pool := by
  decide

/-! ## The level invariant across a collection and the lifecycle -/

theorem LevelStep.step_refl (B : Nat) (s : GC_state) : LevelStep B s s :=
  ⟨fun _ => rfl, fun _ => Or.inl rfl⟩

theorem LevelStep.step_trans {B : Nat} {s s1 s2 : GC_state} (h1 : LevelStep B s s1)
    (h2 : LevelStep B s1 s2) : LevelStep B s s2 := by
  refine ⟨fun h => (h2.1 h).trans (h1.1 h), fun c => ?_⟩
  rcases h2.2 c with e | e | e
  · rw [e]; exact h1.2 c
  · exact Or.inr (Or.inl e)
  · exact Or.inr (Or.inr e)

theorem LevelStep.keeps {B : Nat} {s s' : GC_state} (h : LevelStep B s s')
    (hP : NoLevelAbove s B) : NoLevelAbove s' B := by
  intro c
  rcases h.2 c with e | e | e
  · rw [e]; exact hP c
  · exact Or.inl e
  · exact Or.inr e

theorem LevelStep_of_eq (B : Nat) (s s' : GC_state) (h1 : s'.hhs = s.hhs)
    (h2 : s'.chunkInfo = s.chunkInfo) : LevelStep B s s' :=
  ⟨fun h => by rw [h1], fun c => Or.inl (by rw [h2])⟩

theorem LevelStep_setHH (B : Nat) (s : GC_state) (h : Nat) (v : HM_HierarchicalHeap)
    (hv : v.level = (s.hhs h).level) : LevelStep B s (s.setHH h v) := by
  refine ⟨fun k => ?_, fun c => Or.inl rfl⟩
  rw [setHH_hhs]
  by_cases e : k = h
  · rw [if_pos e, hv, e]
  · rw [if_neg e]

theorem LevelStep_writeSlot (B : Nat) (s : GC_state) (opp : Slot) (v : Nat) :
    LevelStep B s (s.writeSlot opp v) := by
  cases opp with
  | cell a => exact LevelStep_of_eq B _ _ rfl rfl
  | currentThread => exact LevelStep_of_eq B _ _ rfl rfl
  | hhThread h => exact LevelStep_setHH B s h _ rfl
  | hhRetVal h => exact LevelStep_setHH B s h _ rfl

theorem LevelStep_allocateChunk (B : Nat) (x : Ext) (s : GC_state) (t n : Nat) :
    LevelStep B s (HM_allocateChunk x s t n).1 := by
  refine ⟨fun h => by rw [HM_allocateChunk_hhs], fun c => ?_⟩
  rcases HM_allocateChunk_level x s t n c with e | e
  · exact Or.inl e
  · exact Or.inr (Or.inl e)

theorem LevelStep_allocateLevelHeadChunk (B : Nat) (x : Ext) (s s' : GC_state)
    (l n L hh l' c : Nat) (hL : L ≤ B)
    (h : HM_allocateLevelHeadChunk x s l n L hh = some (s', l', c)) :
    LevelStep B s s' := by
  obtain ⟨h1, h2, -⟩ := HM_allocateLevelHeadChunk_level x s s' l n L hh l' c h
  refine ⟨fun k => by rw [h1], fun k => ?_⟩
  rcases h2 k with e | e
  · exact Or.inl e
  · exact Or.inr (Or.inr (by rw [e]; exact hL))

theorem LevelStep_setChunkInfo (B : Nat) (s : GC_state) (c : Nat) (i : HM_ChunkInfo)
    (hi : i.level = (s.chunkInfo c).level) : LevelStep B s (s.setChunkInfo c i) :=
  ⟨fun _ => rfl, fun k => Or.inl (setChunkInfo_field (·.level) s c k i hi)⟩

theorem LevelStep_computeObjectCopyParameters (B : Nat) (x : Ext) (s s1 : GC_state) (p : Nat)
    (cp : CopyParameters) (h : computeObjectCopyParameters x s p = .ok (cp, s1)) :
    LevelStep B s s1 := by
  obtain ⟨hhh, ht | ht | ht⟩ := computeObjectCopyParameters_ok_cases x s s1 p cp h
  · rw [computeObjectCopyParameters_normal_eq x s p hhh ht] at h
    cases h
    exact LevelStep.step_refl B s
  · rw [computeObjectCopyParameters_array_eq x s p hhh ht] at h
    cases h
    exact LevelStep.step_refl B s
  · rw [computeObjectCopyParameters_stack_eq x s p hhh ht] at h
    cases h
    rw [shrinkStackReserved_frame]
    exact LevelStep_of_eq B _ _ rfl rfl

theorem LevelStep_copyObject (B : Nat) (x : Ext) (s s' : GC_state) (p n k t r : Nat)
    (h : copyObject x s p n k t = .ok (r, s')) : LevelStep B s s' := by
  rw [copyObject_eq] at h
  cases htg : copyObjectTarget x s n t with
  | error e => rw [htg] at h; cases h
  | ok res =>
    obtain ⟨s1, c, r1⟩ := res
    rw [htg] at h
    simp only at h
    have h1 : LevelStep B s s1 := by
      unfold copyObjectTarget at htg
      split_ifs at htg <;>
        first
        | (cases htg; done)
        | (simp only [Except.ok.injEq, Prod.mk.injEq] at htg
           rw [← htg.1]
           first
           | exact LevelStep_allocateChunk B x s t n
           | exact LevelStep.step_refl B s)
    have hm : LevelStep B s1 (GC_memcpy s1 p r1 k) := LevelStep_of_eq B _ _ rfl rfl
    split_ifs at h <;>
      first
      | (cases h; done)
      | (simp only [Except.ok.injEq, Prod.mk.injEq] at h
         rw [← h.2]
         first
         | exact (h1.step_trans hm).step_trans
             (LevelStep_setChunkInfo B _ _ _ rfl)
         | exact ((h1.step_trans hm).step_trans
             (LevelStep_allocateChunk B x (GC_memcpy s1 p r1 k) t 42)).step_trans
             (LevelStep_setChunkInfo B _ _ _ rfl))

theorem getObjptrInfo_level (s : GC_state) (p : Nat) (info : HM_ObjptrInfo)
    (h : HM_getObjptrInfo s p = some info) :
    ∃ head, info.level = (s.chunkInfo head).level ∧
      (s.chunkInfo head).level ≠ CHUNK_INVALID_LEVEL := by
  unfold HM_getObjptrInfo at h
  simp only at h
  split_ifs at h
  split at h
  · cases h
  · rename_i head hg
    simp only [Option.some.injEq] at h
    exact ⟨head, by rw [← h], (getLevelHead_some s _ _ _ hg).2⟩

theorem getObjptrInfo_level_le (s : GC_state) (p B : Nat) (info : HM_ObjptrInfo)
    (hP : NoLevelAbove s B) (h : HM_getObjptrInfo s p = some info) : info.level ≤ B := by
  obtain ⟨head, e1, e2⟩ := getObjptrInfo_level s p info h
  rw [e1]
  rcases hP head with q | q
  · exact absurd q e2
  · exact q

theorem LevelStep_forwardTargetList (B : Nat) (x : Ext) (s s2 : GC_state)
    (args : ForwardHHObjptrArgs) (info : HM_ObjptrInfo) (n t : Nat) (hL : info.level ≤ B)
    (h : forwardTargetList x s args info n = .ok (s2, t)) : LevelStep B s s2 := by
  unfold forwardTargetList at h
  by_cases h0 : args.tgtChunkList ≠ 0
  · rw [if_pos h0] at h
    simp only [Except.ok.injEq, Prod.mk.injEq] at h
    rw [← h.1]
    exact LevelStep.step_refl B s
  · rw [if_neg h0] at h
    simp only at h
    by_cases h1 : HM_getChunkListToChunkList s info.chunkList = 0
    · rw [if_pos h1] at h
      cases hal : HM_allocateLevelHeadChunk x s (s.hhs args.hh).newLevelList n info.level
          COPY_OBJECT_HH_VALUE with
      | none => rw [hal] at h; cases h
      | some res =>
        obtain ⟨s1, nl, c⟩ := res
        rw [hal] at h
        simp only at h
        have e1 := LevelStep_allocateLevelHeadChunk B x s s1 _ _ _ _ _ _ hL hal
        by_cases hc : c = 0
        · rw [if_pos hc] at h; cases h
        · rw [if_neg hc] at h
          simp only [Except.ok.injEq, Prod.mk.injEq] at h
          rw [← h.1]
          unfold HM_setChunkListToChunkList
          have a1 := LevelStep_setHH B s1 args.hh { s1.hhs args.hh with newLevelList := nl } rfl
          have a2 := LevelStep_setChunkInfo B
            (s1.setHH args.hh { s1.hhs args.hh with newLevelList := nl }) c
            { (s1.setHH args.hh { s1.hhs args.hh with newLevelList := nl }).chunkInfo c with
              isInToSpace := true } rfl
          refine ((e1.step_trans a1).step_trans a2).step_trans ?_
          exact LevelStep_setChunkInfo B _ info.chunkList _ rfl
    · rw [if_neg h1] at h
      simp only [Except.ok.injEq, Prod.mk.injEq] at h
      rw [← h.1]
      exact LevelStep.step_refl B s

theorem LevelStep_forwardHHObjptr (B : Nat) (x : Ext) (fuel : Nat) (s s' : GC_state)
    (opp : Slot) (args args' : ForwardHHObjptrArgs) (hP : NoLevelAbove s B)
    (h : forwardHHObjptr x fuel s opp args = .ok (s', args')) : LevelStep B s s' := by
  rcases forwardHHObjptr_cases x fuel s opp args with
    h1 | h1 | h1 | ⟨v, h1⟩ | ⟨q, info, _, hinfo, _, _, h1⟩
  · rw [h1] at h; simp only [Except.ok.injEq, Prod.mk.injEq] at h; rw [← h.1]
    exact LevelStep.step_refl B s
  · rw [h1] at h; cases h
  · rw [h1] at h; cases h
  · rw [h1] at h; simp only [Except.ok.injEq, Prod.mk.injEq] at h
    rw [← h.1]; exact LevelStep_writeSlot B _ _ _
  · rw [h1] at h
    obtain ⟨cp, s1, s2, t, r, s3, e1, e2, e3, e4, _⟩ :=
      forwardObject_ok_inv x s opp args q info s' args' h
    have k1 := LevelStep_computeObjectCopyParameters B x s s1 _ _ e1
    have k2 := LevelStep_forwardTargetList B x s1 s2 _ _ _ _
      (getObjptrInfo_level_le s q B info hP hinfo) e2
    have k3 := LevelStep_copyObject B x s2 s3 _ _ _ _ _ e3
    rw [e4]
    exact ((k1.step_trans k2).step_trans k3).step_trans
      ((LevelStep_of_eq B s3 (s3.writeMem _ _) rfl rfl).step_trans (LevelStep_writeSlot B _ _ _))

theorem LevelStep_forwardSlots (B : Nat) (x : Ext) (fuel : Nat) (l : List Nat) (s s' : GC_state)
    (args args' : ForwardHHObjptrArgs) (hP : NoLevelAbove s B)
    (h : forwardSlots x fuel l s args = .ok (s', args')) : LevelStep B s s' := by
  induction l generalizing s args with
  | nil =>
    simp only [forwardSlots, Except.ok.injEq, Prod.mk.injEq] at h
    rw [← h.1]
    exact LevelStep.step_refl B s
  | cons a rest ih =>
    unfold forwardSlots at h
    cases h1 : forwardHHObjptr x fuel s (.cell a) args with
    | error e => rw [h1] at h; cases h
    | ok w =>
      obtain ⟨s1, a1⟩ := w
      rw [h1] at h
      have k1 := LevelStep_forwardHHObjptr B x fuel s s1 _ args a1 hP h1
      exact k1.step_trans (ih s1 a1 (k1.keeps hP) h)

theorem LevelStep_collectLocalRoots (B : Nat) (x : Ext) (fuel : Nat) (s s' : GC_state)
    (args args' : ForwardHHObjptrArgs) (hP : NoLevelAbove s B)
    (h : collectLocalRoots x fuel s args = .ok (s', args')) : LevelStep B s s' := by
  unfold collectLocalRoots at h
  obtain ⟨s1, a1, h1, h⟩ := ForwardResult.andThen_ok _ _ _ h
  obtain ⟨s2, a2, h2, h⟩ := ForwardResult.andThen_ok _ _ _ h
  obtain ⟨s3, a3, h3, h⟩ := ForwardResult.andThen_ok _ _ _ h
  obtain ⟨s5, a5, h5, h⟩ := ForwardResult.andThen_ok _ _ _ h
  have e1 := LevelStep_forwardSlots B x fuel _ _ _ _ _ hP h1
  have e2 := LevelStep_forwardSlots B x fuel _ _ _ _ _ (e1.keeps hP) h2
  have e3 := LevelStep_forwardHHObjptr B x fuel _ _ _ _ _ ((e1.step_trans e2).keeps hP) h3
  have e03 := (e1.step_trans e2).step_trans e3
  have e4 : LevelStep B s3 (s3.setHH s3.currentHierarchicalHeap
      { s3.hhs s3.currentHierarchicalHeap with thread := s3.currentThread }) :=
    LevelStep_setHH B _ _ _ rfl
  have e04 := e03.step_trans e4
  have e5 := LevelStep_forwardSlots B x fuel _ _ _ _ _ (e04.keeps hP) h5
  have e05 := e04.step_trans e5
  split_ifs at h
  · exact e05.step_trans (LevelStep_forwardHHObjptr B x fuel _ _ _ _ _ (e05.keeps hP) h)
  · simp only [Except.ok.injEq, Prod.mk.injEq] at h
    rw [← h.1]; exact e05

theorem LevelStep_forwardHHObjptrsInLevelList (B : Nat) (x : Ext) (fuel steps : Nat)
    (scanned : Nat → Nat) (s s' : GC_state) (args args' : ForwardHHObjptrArgs)
    (hP : NoLevelAbove s B)
    (h : HM_forwardHHObjptrsInLevelList x fuel steps scanned s args = .ok (s', args')) :
    LevelStep B s s' := by
  induction steps generalizing scanned s args with
  | zero => simp [HM_forwardHHObjptrsInLevelList] at h
  | succ n ih =>
    unfold HM_forwardHHObjptrsInLevelList at h
    cases hl : levelListChunks s (s.hhs args.hh).newLevelList with
    | none => rw [hl] at h; cases h
    | some chunks =>
      rw [hl] at h
      simp only at h
      cases hf : chunks.find? (fun c =>
          decide (HM_getChunkStart x c + scanned c ≠ HM_getChunkFrontier s c)) with
      | none =>
        rw [hf] at h
        simp only [Except.ok.injEq, Prod.mk.injEq] at h
        rw [← h.1]
        exact LevelStep.step_refl B s
      | some c =>
        rw [hf] at h
        simp only at h
        by_cases hp : skipStackAndThreadObjptrPredicate x s
            (x.advanceToObjectData s.mem (HM_getChunkStart x c + scanned c)) = true
        · rw [if_pos hp] at h
          cases hr : foreachObjptrInObject x fuel s
              (x.advanceToObjectData s.mem (HM_getChunkStart x c + scanned c)) args with
          | error e => rw [hr] at h; cases h
          | ok w =>
            obtain ⟨s1, a1⟩ := w
            rw [hr] at h
            have k1 := LevelStep_forwardSlots B x fuel _ _ _ _ _ hP hr
            exact k1.step_trans (ih _ s1 a1 (k1.keeps hP) h)
        · rw [if_neg hp] at h
          exact ih _ s args hP h

theorem LevelStep_foldl_free (B : Nat) (cs : List Nat) (s : GC_state) :
    LevelStep B s (cs.foldl ChunkPool_free s) := by
  induction cs generalizing s with
  | nil => exact LevelStep.step_refl B s
  | cons c t ih =>
    rw [List.foldl_cons]
    exact (LevelStep_of_eq B s (ChunkPool_free s c) rfl rfl).step_trans (ih _)

theorem LevelStep_freeChunks (B : Nat) (fuel : Nat) (s s' : GC_state) (minLevel ll ll' : Nat)
    (h : HM_freeChunks s minLevel fuel ll = some (s', ll')) : LevelStep B s s' := by
  induction fuel generalizing s ll with
  | zero => simp [HM_freeChunks] at h
  | succ n ih =>
    unfold HM_freeChunks at h
    by_cases h0 : ll = 0
    · rw [if_pos h0] at h
      simp only [Option.some.injEq, Prod.mk.injEq] at h
      rw [← h.1]
      exact LevelStep.step_refl B s
    · rw [if_neg h0] at h
      by_cases h1 : (s.chunkInfo ll).level < minLevel
      · rw [if_pos h1] at h
        simp only [Option.some.injEq, Prod.mk.injEq] at h
        rw [← h.1]
        exact LevelStep.step_refl B s
      · rw [if_neg h1] at h
        cases hc : chunkListChunks s (s.chunks.length + 1) ll with
        | none => rw [hc] at h; cases h
        | some cs =>
          rw [hc] at h
          exact (LevelStep_foldl_free B cs s).step_trans (ih _ _ h)

theorem LevelStep_foldl_setChunkInfo (B : Nat) (heads : List Nat) (hh : Nat) (s : GC_state) :
    LevelStep B s (heads.foldl
      (fun st h => st.setChunkInfo h { st.chunkInfo h with containingHH := hh }) s) := by
  induction heads generalizing s with
  | nil => exact LevelStep.step_refl B s
  | cons c t ih =>
    rw [List.foldl_cons]
    exact (LevelStep_setChunkInfo B s c { s.chunkInfo c with containingHH := hh } rfl).step_trans
      (ih _)

theorem LevelStep_updateLevelListPointers (B : Nat) (s s' : GC_state) (ll hh : Nat)
    (h : HM_updateLevelListPointers s ll hh = some s') : LevelStep B s s' := by
  unfold HM_updateLevelListPointers at h
  cases hl : levelListHeads s (s.chunks.length + 1) ll with
  | none => rw [hl] at h; cases h
  | some heads =>
    rw [hl] at h
    simp only [Option.some.injEq] at h
    rw [← h]
    exact LevelStep_foldl_setChunkInfo B heads hh s

theorem LevelStep_mergeLevelListDemote (B : Nat) (s : GC_state) (cur src : Nat) :
    LevelStep B s (mergeLevelListDemote s cur src) := by
  refine ⟨fun h => by rw [mergeLevelListDemote_frame], fun c => ?_⟩
  rcases mergeLevelListDemote_level s cur src c with e | e
  · exact Or.inl e
  · exact Or.inr (Or.inl e)

theorem LevelStep_mergeLevelListSplice (B : Nat) (s : GC_state) (prev cur src : Nat) :
    LevelStep B s (mergeLevelListSplice s prev cur src) :=
  ⟨fun h => by rw [mergeLevelListSplice_frame],
    fun c => Or.inl (mergeLevelListSplice_level s prev cur src c)⟩

theorem LevelStep_mergeLevelList (B : Nat) (fuel : Nat) (s s' : GC_state) (dest src d : Nat)
    (h : HM_mergeLevelList s fuel dest src = some (s', d)) : LevelStep B s s' := by
  induction fuel generalizing s dest src with
  | zero => simp [HM_mergeLevelList] at h
  | succ n ih =>
    by_cases h0 : src = 0
    · unfold HM_mergeLevelList at h
      rw [if_pos h0] at h
      simp only [Option.some.injEq, Prod.mk.injEq] at h
      rw [← h.1]
      exact LevelStep.step_refl B s
    · cases hf : findLevelPosition s (s.chunkInfo src).level (s.chunks.length + 1) 0 dest with
      | none =>
        unfold HM_mergeLevelList at h
        rw [if_neg h0] at h
        simp only [hf] at h
        cases h
      | some pc =>
        obtain ⟨prev, cur⟩ := pc
        by_cases hc : cur ≠ 0 ∧ (s.chunkInfo cur).level = (s.chunkInfo src).level
        · rw [HM_mergeLevelList_step_demote s n dest src prev cur h0 hf hc] at h
          exact (LevelStep_mergeLevelListDemote B s cur src).step_trans (ih _ _ _ h)
        · rw [HM_mergeLevelList_step_splice s n dest src prev cur h0 hf hc] at h
          exact (LevelStep_mergeLevelListSplice B s prev cur src).step_trans (ih _ _ _ h)

theorem LevelStep_collectLocalReclaim (B : Nat) (s s' : GC_state) (minLevel : Nat)
    (h : collectLocalReclaim s minLevel = some s') : LevelStep B s s' := by
  unfold collectLocalReclaim at h
  simp only at h
  cases h1 : HM_freeChunks s minLevel (s.chunks.length + 1)
      (s.hhs s.currentHierarchicalHeap).levelList with
  | none => rw [h1] at h; cases h
  | some r1 =>
    obtain ⟨s1, ll1⟩ := r1
    rw [h1] at h
    simp only at h
    have e1 := LevelStep_freeChunks B _ _ _ _ _ _ h1
    have e2 : LevelStep B s1 (s1.setHH s.currentHierarchicalHeap
        { s1.hhs s.currentHierarchicalHeap with levelList := ll1 }) :=
      LevelStep_setHH B _ _ _ rfl
    split at h
    · cases h
    · next s3 h3 =>
      have e3 := LevelStep_updateLevelListPointers B _ _ _ _ h3
      split at h
      · cases h
      · next s4 ll4 h4 =>
        have e4 := LevelStep_mergeLevelList B _ _ _ _ _ _ h4
        simp only [Option.some.injEq] at h
        rw [← h]
        have e5 : LevelStep B s4 (s4.setHH s.currentHierarchicalHeap
            { s4.hhs s.currentHierarchicalHeap with levelList := ll4, newLevelList := 0 }) :=
          LevelStep_setHH B _ _ _ rfl
        exact (((e1.step_trans e2).step_trans e3).step_trans e4).step_trans e5

theorem LevelStep_collectLocalBookkeeping (B : Nat) (x : Ext) (s : GC_state) :
    LevelStep B s (collectLocalBookkeeping x s) := by
  unfold collectLocalBookkeeping
  simp only
  split <;>
  · refine ⟨fun k => ?_, fun c => Or.inl rfl⟩
    simp only [setHH_hhs]
    by_cases hk : k = s.currentHierarchicalHeap
    · simp only [hk, if_true]
    · simp only [hk, if_false]

theorem LevelStep_lockHH (B : Nat) (s s' : GC_state) (h : Nat) (hl : lockHH s h = some s') :
    LevelStep B s s' := by
  obtain ⟨-, e⟩ := lockHH_spec _ _ _ hl
  rw [e]
  exact (LevelStep_setHH B s h { s.hhs h with lock := .HM_HH_LOCK_LOCKED } rfl).step_trans
    (LevelStep_of_eq B _ _ rfl rfl)

theorem LevelStep_unlockHH (B : Nat) (s : GC_state) (h : Nat) :
    LevelStep B s (unlockHH s h) := by
  unfold unlockHH
  split
  · exact (LevelStep_setHH B s h { s.hhs h with lock := .HM_HH_LOCK_UNLOCKED } rfl).step_trans
      (LevelStep_of_eq B _ _ rfl rfl)
  · exact LevelStep.step_refl B s

theorem LevelStep_collectLocalEnter (B : Nat) (x : Ext) (s s1 : GC_state)
    (h : collectLocalEnter x s = some s1) : LevelStep B s s1 := by
  unfold collectLocalEnter at h
  simp only at h
  split at h
  · cases h
  · next s4 h4 =>
    have e4 : LevelStep B s s4 := by
      split at h4
      · simp only [Option.some.injEq] at h4
        rw [← h4]
        exact LevelStep_of_eq B _ _ rfl rfl
      · unfold Parallel_lockTake at h4
        split at h4
        · cases h4
        · simp only [Option.some.injEq] at h4
          rw [← h4]
          exact LevelStep_of_eq B _ _ rfl rfl
    exact e4.step_trans (LevelStep_lockHH B _ _ _ h)

theorem LevelStep_collectLocalLeave (B : Nat) (s : GC_state) (q : Bool) (n : Nat) :
    LevelStep B s (collectLocalLeave s q n) := by
  unfold collectLocalLeave
  simp only
  refine (LevelStep_unlockHH B s s.currentHierarchicalHeap).step_trans ?_
  split
  · exact LevelStep_of_eq B _ _ rfl rfl
  · exact LevelStep_of_eq B _ _ rfl rfl

theorem LevelStep_collectLocal (B : Nat) (x : Ext) (fuel : Nat) (s s' : GC_state)
    (a : Option ForwardHHObjptrArgs) (hP : NoLevelAbove s B)
    (h : HM_HHC_collectLocal x fuel s = .ok (s', a)) : LevelStep B s s' := by
  unfold HM_HHC_collectLocal at h
  split at h
  · simp only [Except.ok.injEq, Prod.mk.injEq] at h
    rw [← h.1]
    exact LevelStep.step_refl B s
  · cases he : collectLocalEnter x s with
    | none => rw [he] at h; cases h
    | some s1 =>
      rw [he] at h
      simp only at h
      have k1 := LevelStep_collectLocalEnter B x s s1 he
      cases hr : (collectLocalRoots x fuel s1 (collectLocalArgs x s1)).andThen
          (HM_forwardHHObjptrsInLevelList x fuel fuel (fun _ => 0)) with
      | error e => rw [hr] at h; cases h
      | ok v =>
        obtain ⟨s2, args⟩ := v
        rw [hr] at h
        simp only at h
        obtain ⟨sr, ar, hroots, hdrain⟩ := ForwardResult.andThen_ok _ _ _ hr
        have k2 := LevelStep_collectLocalRoots B x fuel _ _ _ _ (k1.keeps hP) hroots
        have k3 := LevelStep_forwardHHObjptrsInLevelList B x fuel _ _ _ _ _ _
          ((k1.step_trans k2).keeps hP) hdrain
        cases hrec : collectLocalReclaim s2 args.minLevel with
        | none => rw [hrec] at h; cases h
        | some s3 =>
          rw [hrec] at h
          simp only [Except.ok.injEq, Prod.mk.injEq] at h
          rw [← h.1]
          exact ((((k1.step_trans k2).step_trans k3).step_trans
            (LevelStep_collectLocalReclaim B _ _ _ hrec)).step_trans
            (LevelStep_collectLocalBookkeeping B x s3)).step_trans
            (LevelStep_collectLocalLeave B _ _ _)

theorem NoLevelAbove_levelInvariant (s : GC_state) (hh : Nat)
    (hP : NoLevelAbove s (s.hhs hh).level) : HM_HH_levelInvariant s hh := by
  unfold HM_HH_levelInvariant HM_getHighestLevel
  split
  · exact Or.inl rfl
  · rcases hP (s.hhs hh).levelList with e | e
    · exact Or.inl e.symm
    · exact Or.inr e

theorem extendCollect_levelInvariant (x : Ext) (fuel : Nat) (s s1 : GC_state) (hh : Nat)
    (hinv : HM_HH_levelInvariant s hh)
    (hP : ChunkPool_overHalfAllocated s = true → s.hhCollectionLevel ≠ .NONE →
      NoLevelAbove s (s.hhs hh).level)
    (h : extendCollect x fuel s = .ok s1) : HM_HH_levelInvariant s1 hh := by
  unfold extendCollect at h
  split at h
  · rename_i hover
    cases hc : HM_HHC_collectLocal x fuel s with
    | error e => rw [hc] at h; cases h
    | ok v =>
      obtain ⟨s2, a⟩ := v
      rw [hc] at h
      simp only [Except.ok.injEq] at h
      subst h
      by_cases hnone : s.hhCollectionLevel = .NONE
      · unfold HM_HHC_collectLocal at hc
        rw [if_pos hnone] at hc
        simp only [Except.ok.injEq, Prod.mk.injEq] at hc
        rw [← hc.1]
        exact hinv
      · have hP' := hP hover hnone
        have k := LevelStep_collectLocal (s.hhs hh).level x fuel s s2 a hP' hc
        have hP2 := k.keeps hP'
        rw [← k.1 hh] at hP2
        exact NoLevelAbove_levelInvariant s2 hh hP2
  · simp only [Except.ok.injEq] at h
    rw [← h]
    exact hinv

theorem HM_HH_extend_levelInvariant (x : Ext) (fuel : Nat) (s s' : GC_state)
    (hh bytesRequested : Nat) (b : Bool)
    (hinv : HM_HH_levelInvariant s hh)
    (hP : ChunkPool_overHalfAllocated s = true → s.hhCollectionLevel ≠ .NONE →
      NoLevelAbove s (s.hhs hh).level)
    (h : HM_HH_extend x fuel s hh bytesRequested = .ok (s', b)) :
    HM_HH_levelInvariant s' hh := by
  unfold HM_HH_extend at h
  simp only at h
  cases hc : extendCollect x fuel s with
  | error e => rw [hc] at h; cases h
  | ok s1 =>
    rw [hc] at h
    simp only at h
    cases ha : extendAllocate x s1 hh bytesRequested (HM_getHighestLevel s (s.hhs hh).levelList) with
    | none => rw [ha] at h; cases h
    | some r =>
      rw [ha] at h
      simp only [Except.ok.injEq] at h
      subst h
      exact extendAllocate_levelInvariant x s1 s' hh bytesRequested _ b ha
        (extendCollect_levelInvariant x fuel s s1 hh hinv hP hc)

theorem LevelListDescending_bound (s : GC_state) (c : Nat)
    (hdesc : LevelListDescending s (s.hhs c).levelList) (hinv : HM_HH_levelInvariant s c) :
    ∃ R, levelListHeads s (s.chunks.length + 1) (s.hhs c).levelList = some R ∧
      ∀ k ∈ R, (s.chunkInfo k).level ≤ (s.hhs c).level := by
  unfold LevelListDescending at hdesc
  cases hR : levelListHeads s (s.chunks.length + 1) (s.hhs c).levelList with
  | none => rw [hR] at hdesc; exact False.elim hdesc
  | some R =>
    rw [hR] at hdesc
    simp only at hdesc
    obtain ⟨hpair, hvalid⟩ := hdesc
    refine ⟨R, rfl, ?_⟩
    obtain ⟨hseg, -⟩ := (levelListHeads_iff s _ _ R).mp hR
    cases R with
    | nil => intro k hk; cases hk
    | cons k0 rest =>
      obtain ⟨e0, hk0, -⟩ := hseg
      have hfirst : (s.chunkInfo k0).level ≤ (s.hhs c).level := by
        unfold HM_HH_levelInvariant HM_getHighestLevel at hinv
        rw [e0, if_neg hk0] at hinv
        rcases hinv with q | q
        · exact absurd q.symm (hvalid k0 (List.mem_cons_self _ _))
        · exact q
      intro k hk
      rcases List.mem_cons.mp hk with q | q
      · rw [q]; exact hfirst
      · rw [List.map_cons, List.pairwise_cons] at hpair
        have := hpair.1 _ (List.mem_map_of_mem _ q)
        omega

set_option maxRecDepth 16000 in
/-- Why the heap has to be the deepest when `HM_HH_extend` collects.  In
`sampleStateForwardedDeeper` the level invariant holds for the heap `4096` of
level 5, but a chunk of level 7 is in use and the object `1572936` of level 5
carries a forwarding pointer into it.  The collection run by `HM_HH_extend`
finds `1572936` in the deque, at a level that passes the test against
`maxLevel`, follows the forwarding pointer to `2621512` and copies that object
into a to-space list of its own level, 7: no test follows the walk along the
forwarding pointers.  The merged level list of the heap starts with the head
`2097152` of level 7, `HM_HH_extend` appends its chunk to that head and returns
true, and the level invariant no longer holds. -/
theorem extend_copies_forwarded_object_above_level :
    ChunkPool_overHalfAllocated sampleStateForwardedDeeper = true ∧
    HM_HH_levelInvariant sampleStateForwardedDeeper 4096 ∧
    (sampleStateForwardedDeeper.hhs 4096).level = 5 ∧
    (sampleStateForwardedDeeper.chunkInfo 2621440).level = 7 ∧
    (HM_getObjptrInfo sampleStateForwardedDeeper 1572936).map (fun i => i.level) = some 5 ∧
    hasFwdPtr sampleExt sampleStateForwardedDeeper 1572936 = true ∧
    getFwdPtr sampleExt sampleStateForwardedDeeper 1572936 = 2621512 ∧
    (HM_getObjptrInfo sampleStateForwardedDeeper 2621512).map (fun i => i.level) = some 7 ∧
    (match HM_HH_extend sampleExt 10 sampleStateForwardedDeeper 4096 64 with
     | .ok (s', b) =>
       some (b, (s'.hhs 4096).level, (s'.hhs 4096).levelList,
         HM_getHighestLevel s' (s'.hhs 4096).levelList,
         decide (HM_HH_levelInvariant s' 4096))
     | .error _ => none) = some (true, 5, 2097152, 7, false) := by
  decide

theorem sampleStateFull_noLevelAbove : NoLevelAbove sampleStateFull 5 := by
  intro c
  show (sampleState.chunkInfo c).level = CHUNK_INVALID_LEVEL ∨
    (sampleState.chunkInfo c).level ≤ 5
  unfold sampleState
  simp only
  split_ifs <;> decide

end HM
